import Mathlib

/-!
Namer pass of the type checker: shallow embedding and verified properties.

The first part of this file embeds `namer/namer.cc` (class `NameInserter`) in Lean.
The symbol table (`core::GlobalState`, `core::Symbol`), the AST node declarations
(`ast/ast.h`, `ast/Helpers.h`) and the tree walker (`ast/treemap/treemap.h`) are not
part of the sources at hand; they are modelled from the specification and every such
definition says so in its doc comment.

Conventions of the embedding:
* a `std::vector` used as a stack (`scopeStack`, `blockArgStack`) is a `List` whose
  head is `back()`; `emplace_back` is `::` and `pop_back` is `List.tail`;
* every other vector is a `List` in source order (`emplace_back` appends);
* a failed `ENFORCE`, a raised `Exception` and `back()` of an empty stack end the run
  with `Except.error`;
* the mutable `GlobalState` reached through `ctx.state` is passed in and returned.
-/

namespace sorbet

namespace core

/-! ## Names -/

/-- Kinds of unique names (`core::UniqueNameKind`), as far as the namer uses them. -/
inductive UniqueNameKind where
  | Namer
  | PositionalArg
  | Singleton
  deriving DecidableEq, Repr

/-- Modelled from the spec: interned names (`core::NameRef`). `utf8 id` is an interned
identifier of the program text, `unique kind original num` is what
`freshNameUnique(kind, original, num)` interns, and the remaining constructors are the
well-known names of `core::Names` that the namer mentions. -/
inductive NameRef where
  | noName
  | utf8 (id : Nat)
  | unique (kind : UniqueNameKind) (original : NameRef) (num : Nat)
  | singleton
  | attached
  | include_
  | extend
  | declareInterface
  | declareAbstract
  | blkArg
  | arg
  | blockTemp
  | call
  | private_
  | privateClassMethod
  | protected_
  | public_
  | moduleFunction
  | aliasMethod
  | blockGiven_p
  | typeTemplate
  | typeMember
  | typeAlias
  | covariant
  | contravariant
  | invariant
  | fixed
  | staticInit
  | root
  | todo
  | Object
  | BasicObject
  | untyped
  deriving DecidableEq, Repr

/-- A name reference exists unless it is the null name (`NameRef::exists`). -/
def NameRef.exists : NameRef → Bool
  | .noName => false
  | _ => true

/-! ## Locations, local variables -/

/-- Modelled from the spec: a source location, a file id (0 = no file) and an offset. -/
structure Loc where
  file : Nat
  pos : Nat
  deriving DecidableEq, Repr

/-- The location `Loc::none()`. -/
def Loc.none : Loc := ⟨0, 0⟩

/-- A location exists when it has a file. -/
def Loc.exists (l : Loc) : Bool := l.file != 0

/-- A local variable is `(name, unique-id)` (`core::LocalVariable`). -/
structure LocalVariable where
  _name : NameRef
  unique : Nat
  deriving DecidableEq, Repr

/-- The absent local variable, `LocalVariable::noVariable()`. -/
def LocalVariable.noVariable : LocalVariable := ⟨.noName, 0⟩

/-- A local variable exists when its name does. -/
def LocalVariable.exists (l : LocalVariable) : Bool := l._name.exists

/-! ## Symbols -/

/-- Symbol references are stable ids into the symbol table. -/
abbrev SymbolRef := Nat

/-- Modelled from the spec: the well-known symbols (`core::Symbols`). -/
def Symbols.noSymbol : SymbolRef := 0
/-- Root of the symbol hierarchy. -/
def Symbols.root : SymbolRef := 1
/-- Placeholder symbol for the resolver. -/
def Symbols.todo : SymbolRef := 2
/-- The class `Object`. -/
def Symbols.Object : SymbolRef := 3
/-- The class `BasicObject`. -/
def Symbols.BasicObject : SymbolRef := 4
/-- The symbol `T.untyped`. -/
def Symbols.untyped : SymbolRef := 5
/-- The singleton class of the root. -/
def Symbols.rootSingleton : SymbolRef := 6

/-- A symbol reference exists unless it is `noSymbol` (`SymbolRef::exists`). -/
def SymbolRef.exists (s : SymbolRef) : Bool := s != 0

/-- The types the namer stores in `resultType`. -/
inductive TypePtr where
  | untyped (blame : SymbolRef)
  | alias (symbol : SymbolRef)
  deriving DecidableEq, Repr

/-- Variance of a type member. -/
inductive Variance where
  | CoVariant
  | ContraVariant
  | Invariant
  deriving DecidableEq, Repr

/-- The exclusive kind flag of a symbol. -/
inductive SymbolKind where
  | none
  | class_
  | method
  | field
  | staticField
  | methodArgument
  | typeMember
  deriving DecidableEq, Repr

/-- Namer diagnostics (`core::errors::Namer`). -/
inductive ErrorClass where
  | IncludeMutipleParam
  | IncludePassedBlock
  | ModuleKindRedefinition
  | RedefinitionOfMethod
  | InterfaceClass
  | DynamicDSLInvocation
  | MethodNotFound
  | InvalidAlias
  | InvalidTypeDefinition
  | SelfOutsideClass
  deriving DecidableEq, Repr

/-- One entry of the error sink: primary location and kind. -/
structure Error where
  loc : Loc
  what : ErrorClass
  deriving DecidableEq, Repr

/-- Modelled from the spec: the members table of a symbol, an association list keyed
by name. -/
abbrev Members := List (NameRef × SymbolRef)

/-- Lookup of a member by name; `noSymbol` when absent. -/
def Members.find : Members → NameRef → SymbolRef
  | [], _ => Symbols.noSymbol
  | (k, v) :: rest, n => if k = n then v else Members.find rest n

/-- The assignment `members[name] = sym`. -/
def Members.set : Members → NameRef → SymbolRef → Members
  | [], n, s => [(n, s)]
  | (k, v) :: rest, n, s => if k = n then (k, s) :: rest else (k, v) :: Members.set rest n s

/-- Re-keys the entry of `old` to `new`, keeping its symbol. -/
def Members.rename : Members → NameRef → NameRef → Members
  | [], _, _ => []
  | (k, v) :: rest, old, new =>
    if k = old then (new, v) :: rest else (k, v) :: Members.rename rest old new

/-- Modelled from the spec: a symbol record (§3.1). The flag bits of `core::Symbol` are
separate booleans. -/
structure Symbol where
  owner : SymbolRef := Symbols.noSymbol
  name : NameRef := .noName
  kind : SymbolKind := .none
  locs : List Loc := []
  members : Members := []
  arguments : List SymbolRef := []
  typeMembers : List SymbolRef := []
  resultType : Option TypePtr := none
  superClass : SymbolRef := Symbols.noSymbol
  uniqueCounter : Nat := 0
  intrinsic : Bool := false
  classClass : Bool := false
  classModule : Bool := false
  classAbstract : Bool := false
  classInterface : Bool := false
  argOptional : Bool := false
  argKeyword : Bool := false
  argBlock : Bool := false
  argRepeated : Bool := false
  methodPrivate : Bool := false
  methodProtected : Bool := false
  dslSynthesized : Bool := false
  fixed : Bool := false
  staticTypeAlias : Bool := false
  variance : Variance := .Invariant
  deriving DecidableEq, Repr

namespace Symbol

/-- Flag test `isClass`. -/
def isClass (s : Symbol) : Bool := s.kind == .class_
/-- Flag test `isMethod`. -/
def isMethod (s : Symbol) : Bool := s.kind == .method
/-- Flag test `isStaticField`. -/
def isStaticField (s : Symbol) : Bool := s.kind == .staticField
/-- Whether the class/module kind has been decided. -/
def isClassModuleSet (s : Symbol) : Bool := s.classClass || s.classModule
/-- Whether the symbol is a module. -/
def isClassModule (s : Symbol) : Bool := s.classModule
/-- The setter `setIsModule`: it only ever adds a bit. -/
def setIsModule (s : Symbol) (isModule : Bool) : Symbol :=
  if isModule then { s with classModule := true } else { s with classClass := true }
/-- The primary location `loc()`: the most recently added one. -/
def loc (s : Symbol) : Loc := s.locs.getLast?.getD Loc.none

/-- Modelled from the spec: `addLoc` on the list of locations; a location of a file
already present replaces that entry, otherwise it accumulates. -/
def addLocTo : List Loc → Loc → List Loc
  | [], l => [l]
  | e :: rest, l => if e.file = l.file then l :: rest else e :: addLocTo rest l

/-- The method `addLoc`; locations without a file are ignored. -/
def addLoc (s : Symbol) (l : Loc) : Symbol :=
  if l.exists then { s with locs := addLocTo s.locs l } else s

/-- Whether the symbol is the synthetic method of a block: its name is a `Namer`
unique name over `blockTemp`. -/
def isBlockSymbol (s : Symbol) : Bool :=
  match s.name with
  | .unique .Namer .blockTemp _ => true
  | _ => false

end Symbol

/-! ## The symbol table -/

/-- Modelled from the spec: the shared symbol table (`core::GlobalState`): the arena of
symbols, the number of allocated symbols and the error sink. -/
structure GlobalState where
  symbols : SymbolRef → Symbol
  symbolsUsed : Nat
  errors : List Error

namespace GlobalState

/-- The record of a symbol, `sym.data(gs)`. -/
def data (gs : GlobalState) (r : SymbolRef) : Symbol := gs.symbols r

/-- In-place update of one symbol record. -/
def update (gs : GlobalState) (r : SymbolRef) (f : Symbol → Symbol) : GlobalState :=
  { gs with symbols := Function.update gs.symbols r (f (gs.symbols r)) }

/-- Modelled from the spec: `beginError(loc, kind)`; the diagnostic is appended to the
error sink. -/
def beginError (gs : GlobalState) (loc : Loc) (what : ErrorClass) : GlobalState :=
  { gs with errors := gs.errors ++ [⟨loc, what⟩] }

/-- Modelled from the spec: `freshNameUnique(kind, base, discriminator)`; interning
makes the result a function of its arguments. -/
def freshNameUnique (_gs : GlobalState) (kind : UniqueNameKind) (original : NameRef)
    (num : Nat) : NameRef :=
  .unique kind original num

/-- Modelled from the spec: `findMember` in its no-dealias variant. -/
def findMemberNoDealias (gs : GlobalState) (sym : SymbolRef) (name : NameRef) : SymbolRef :=
  (gs.data sym).members.find name

/-- Modelled from the spec: dealiasing follows `Alias` result types, at most
`depthLimit` times, and then gives up with `untyped`. -/
def dealiasWithLimit (gs : GlobalState) : Nat → SymbolRef → SymbolRef
  | 0, sym =>
    match (gs.data sym).resultType with
    | some (.alias _) => Symbols.untyped
    | _ => sym
  | d + 1, sym =>
    match (gs.data sym).resultType with
    | some (.alias target) => dealiasWithLimit gs d target
    | _ => sym

/-- The method `dealias` with its default depth limit. -/
def dealias (gs : GlobalState) (sym : SymbolRef) : SymbolRef := gs.dealiasWithLimit 42 sym

/-- Modelled from the spec: `findMember(name)`, the member of that name after
dealiasing, `noSymbol` when there is none. -/
def findMember (gs : GlobalState) (sym : SymbolRef) (name : NameRef) : SymbolRef :=
  let ret := gs.findMemberNoDealias sym name
  if ret.exists then gs.dealias ret else ret

/-- Modelled from the spec: allocation of a symbol record at the next free reference. -/
def allocate (gs : GlobalState) (sym : Symbol) : SymbolRef × GlobalState :=
  (gs.symbolsUsed,
    { gs with
      symbols := Function.update gs.symbols gs.symbolsUsed sym,
      symbolsUsed := gs.symbolsUsed + 1 })

/-- Modelled from the spec: the common part of the `enter*Symbol` operations: the
member of that name of `owner` if there is one, else a newly allocated symbol of the
given kind, registered as a member of `owner`. -/
def enterSymbol (gs : GlobalState) (loc : Loc) (owner : SymbolRef) (name : NameRef)
    (kind : SymbolKind) : SymbolRef × GlobalState :=
  let store := (gs.data owner).members.find name
  if store.exists then (store, gs)
  else
    let a := gs.allocate (Symbol.addLoc { owner := owner, name := name, kind := kind } loc)
    (a.1, a.2.update owner (fun o => { o with members := o.members.set name a.1 }))

/-- Allocation of a class symbol. -/
def enterClassSymbol (gs : GlobalState) (loc : Loc) (owner : SymbolRef) (name : NameRef) :
    SymbolRef × GlobalState :=
  gs.enterSymbol loc owner name .class_

/-- Allocation of a method symbol. -/
def enterMethodSymbol (gs : GlobalState) (loc : Loc) (owner : SymbolRef) (name : NameRef) :
    SymbolRef × GlobalState :=
  gs.enterSymbol loc owner name .method

/-- Allocation of a method-argument symbol. -/
def enterMethodArgumentSymbol (gs : GlobalState) (loc : Loc) (owner : SymbolRef)
    (name : NameRef) : SymbolRef × GlobalState :=
  gs.enterSymbol loc owner name .methodArgument

/-- Allocation of a static-field symbol. -/
def enterStaticFieldSymbol (gs : GlobalState) (loc : Loc) (owner : SymbolRef)
    (name : NameRef) : SymbolRef × GlobalState :=
  gs.enterSymbol loc owner name .staticField

/-- Allocation of a field symbol. -/
def enterFieldSymbol (gs : GlobalState) (loc : Loc) (owner : SymbolRef) (name : NameRef) :
    SymbolRef × GlobalState :=
  gs.enterSymbol loc owner name .field

/-- Modelled from the spec: the accessor `singletonClass(self)`: the singleton class
registered under the name `singleton`, allocated on first use as a class (never a
module) owned by the owner of `self`, with `self` attached and superclass `todo`. -/
def singletonClass (gs : GlobalState) (self : SymbolRef) : SymbolRef × GlobalState :=
  let found := gs.findMember self .singleton
  if found.exists then (found, gs)
  else
    let d := gs.data self
    let singletonName := gs.freshNameUnique .Singleton d.name 1
    let r := gs.enterClassSymbol d.loc d.owner singletonName
    let gs2 := r.2.update r.1 (fun s =>
      Symbol.setIsModule
        { s with members := s.members.set .attached self, superClass := Symbols.todo } false)
    (r.1, gs2.update self (fun s => { s with members := s.members.set .singleton r.1 }))

/-- Search of the first collision number, from `c` on, whose unique name is not a
member; `fuel` bounds the search. -/
def freshCollision (ms : Members) (kind : UniqueNameKind) (orig : NameRef) :
    Nat → Nat → Nat
  | 0, c => c
  | fuel + 1, c =>
    if (ms.find (.unique kind orig c)).exists then freshCollision ms kind orig fuel (c + 1)
    else c

/-- Modelled from the spec: `mangleRenameSymbol(sym, oldName, kind)`: the member of the
owner of `sym` registered under `oldName` is renamed to the first unique name
`(kind, oldName, 1, 2, ...)` that is not yet a member. -/
def mangleRenameSymbol (gs : GlobalState) (what : SymbolRef) (origName : NameRef)
    (kind : UniqueNameKind) : GlobalState :=
  let owner := (gs.data what).owner
  let ms := (gs.data owner).members
  let oldSym := ms.find origName
  if oldSym.exists then
    let name : NameRef := .unique kind origName (freshCollision ms kind origName (ms.length + 1) 1)
    let gs1 := gs.update owner (fun o => { o with members := o.members.rename origName name })
    gs1.update oldSym (fun s => { s with name := name })
  else gs

/-- The loop of `enclosingClass`: up the owner chain to the first class. -/
def enclosingClassFrom (gs : GlobalState) : Nat → SymbolRef → SymbolRef
  | 0, sym => sym
  | fuel + 1, sym =>
    if (gs.data sym).isClass then sym else enclosingClassFrom gs fuel (gs.data sym).owner

/-- Modelled from the spec: `enclosingClass`, the nearest class at or above a symbol. An
owner chain without a class is cut off after as many steps as there are symbols. -/
def enclosingClass (gs : GlobalState) (sym : SymbolRef) : SymbolRef :=
  gs.enclosingClassFrom (gs.symbolsUsed + 1) sym

/-- The loop of `enclosingMethod`: up the owner chain to the root or the first method. -/
def enclosingMethodFrom (gs : GlobalState) : Nat → SymbolRef → SymbolRef
  | 0, owner => owner
  | fuel + 1, owner =>
    if owner != Symbols.root && !(gs.data owner).isMethod then
      enclosingMethodFrom gs fuel (gs.data owner).owner
    else owner

/-- Modelled from the spec: `enclosingMethod`, the symbol itself when it is a method,
else the nearest method above it, or the root. -/
def enclosingMethod (gs : GlobalState) (sym : SymbolRef) : SymbolRef :=
  if (gs.data sym).isMethod then sym
  else gs.enclosingMethodFrom (gs.symbolsUsed + 1) (gs.data sym).owner

/-- Modelled from the spec: `staticInitForFile(loc)`, the per-file static-init method
symbol, entered on the singleton class of the root. -/
def staticInitForFile (gs : GlobalState) (loc : Loc) : SymbolRef × GlobalState :=
  gs.enterMethodSymbol loc Symbols.rootSingleton
    (gs.freshNameUnique .Namer .staticInit loc.file)

/-- Modelled from the spec: `enterTypeMember`; the symbol is entered with the given
variance and listed among the type members of its owner once. -/
def enterTypeMember (gs : GlobalState) (loc : Loc) (owner : SymbolRef) (name : NameRef)
    (variance : Variance) : SymbolRef × GlobalState :=
  let store := (gs.data owner).members.find name
  let r := gs.enterSymbol loc owner name .typeMember
  let gs1 := if store.exists then r.2 else r.2.update r.1 (fun d => { d with variance := variance })
  if (gs1.data owner).typeMembers.contains r.1 then (r.1, gs1)
  else (r.1, gs1.update owner (fun o => { o with typeMembers := o.typeMembers ++ [r.1] }))

/-- Modelled from the spec: the table before any file is named. It holds the well-known
symbols, all of them classes: the root with `Object` and `BasicObject` as members and
its singleton class, the placeholder `todo`, and `untyped`. -/
def initial : GlobalState where
  symbols := fun r =>
    if r = Symbols.root then
      { owner := Symbols.noSymbol, name := NameRef.root, kind := SymbolKind.class_,
        classClass := true,
        members := [(NameRef.Object, Symbols.Object), (NameRef.BasicObject, Symbols.BasicObject),
          (NameRef.singleton, Symbols.rootSingleton)] }
    else if r = Symbols.todo then
      { owner := Symbols.root, name := NameRef.todo, kind := SymbolKind.class_ }
    else if r = Symbols.Object then
      { owner := Symbols.root, name := NameRef.Object, kind := SymbolKind.class_,
        classClass := true, superClass := Symbols.BasicObject }
    else if r = Symbols.BasicObject then
      { owner := Symbols.root, name := NameRef.BasicObject, kind := SymbolKind.class_,
        classClass := true }
    else if r = Symbols.untyped then
      { owner := Symbols.root, name := NameRef.untyped, kind := SymbolKind.class_,
        classClass := true }
    else if r = Symbols.rootSingleton then
      { owner := Symbols.root, name := NameRef.unique UniqueNameKind.Singleton NameRef.root 1,
        kind := SymbolKind.class_, classClass := true, superClass := Symbols.todo,
        members := [(NameRef.attached, Symbols.root)] }
    else {}
  symbolsUsed := 7
  errors := []

end GlobalState

/-- The mutable context handed to every handler: the table and the current owner. -/
structure MutableContext where
  state : GlobalState
  owner : SymbolRef

/-- The method `contextClass()`, the class enclosing the current owner. -/
def MutableContext.contextClass (ctx : MutableContext) : SymbolRef :=
  ctx.state.enclosingClass ctx.owner

/-- Modelled from the spec: `selfClass()`, the singleton class of the owner when the
owner is a class, else the class enclosing it. -/
def MutableContext.selfClass (ctx : MutableContext) : SymbolRef × GlobalState :=
  if (ctx.state.data ctx.owner).isClass then ctx.state.singletonClass ctx.owner
  else (ctx.state.enclosingClass ctx.owner, ctx.state)

/-- The method `withOwner`. -/
def MutableContext.withOwner (ctx : MutableContext) (sym : SymbolRef) : MutableContext :=
  { ctx with owner := sym }

end core

/-! ## The syntax tree -/

namespace ast

open core

/-- Kinds of unresolved identifiers. -/
inductive IdentKind where
  | Local
  | Instance
  | Class
  | Global
  deriving DecidableEq, Repr

/-- The two kinds of `ClassDef`. -/
inductive ClassDefKind where
  | Module
  | Class
  deriving DecidableEq, Repr

/-- Values of literals, as far as the namer looks at them. -/
inductive LiteralValue where
  | nil
  | true_
  | false_
  | symbol (name : NameRef)
  | string (name : NameRef)
  | integer (value : Int)
  deriving DecidableEq, Repr

/-- Node `Self`. -/
structure SelfNode where
  loc : Loc
  claz : SymbolRef
  deriving DecidableEq, Repr

/-- Node `UnresolvedIdent`. -/
structure UnresolvedIdentNode where
  loc : Loc
  kind : IdentKind
  name : NameRef
  deriving DecidableEq, Repr

/-- Node `Local`. -/
structure LocalNode where
  loc : Loc
  localVariable : LocalVariable
  deriving DecidableEq, Repr

/-- Node `Field`. -/
structure FieldNode where
  loc : Loc
  symbol : SymbolRef
  deriving DecidableEq, Repr

/-- Node `Literal`. -/
structure LiteralNode where
  loc : Loc
  value : LiteralValue
  deriving DecidableEq, Repr

/-- The test `isSymbol` of a literal. -/
def LiteralNode.isSymbol (l : LiteralNode) : Bool :=
  match l.value with
  | .symbol _ => true
  | _ => false

/-- The accessor `asSymbol` of a literal. -/
def LiteralNode.asSymbol (l : LiteralNode) : NameRef :=
  match l.value with
  | .symbol n => n
  | _ => NameRef.noName

/-- Node `UnresolvedConstantLit`: scope expression and name. -/
structure UnresolvedConstantLitNode (E : Type) where
  loc : Loc
  scope : E
  cnst : NameRef

/-- Node `ConstantLit`: the resolved symbol and the unresolved node it came from. -/
structure ConstantLitNode (E : Type) where
  loc : Loc
  symbol : SymbolRef
  original : Option E

/-- Node `Hash`. -/
structure HashNode (E : Type) where
  loc : Loc
  keys : List E
  values : List E

/-- Node `Block`. -/
structure BlockNode (E : Type) where
  loc : Loc
  args : List E
  body : E
  symbol : SymbolRef

/-- Node `Send`: receiver, method name, arguments, optional block. -/
structure SendNode (E : Type) where
  loc : Loc
  recv : E
  fun_ : NameRef
  args : List E
  block : Option (BlockNode E)

/-- Node `MethodDef`. -/
structure MethodDefNode (E : Type) where
  loc : Loc
  declLoc : Loc
  symbol : SymbolRef
  name : NameRef
  args : List E
  rhs : E
  isSelf : Bool
  isDSLSynthesized : Bool

/-- Node `ClassDef`. -/
structure ClassDefNode (E : Type) where
  loc : Loc
  declLoc : Loc
  symbol : SymbolRef
  kind : ClassDefKind
  name : E
  ancestors : List E
  singleton_ancestors : List E
  rhs : List E

/-- Node `Assign`. -/
structure AssignNode (E : Type) where
  loc : Loc
  lhs : E
  rhs : E

/-- Node `If`. -/
structure IfNode (E : Type) where
  loc : Loc
  cond : E
  thenp : E
  elsep : E

/-- Node `InsSeq`: statements and final expression. -/
structure InsSeqNode (E : Type) where
  loc : Loc
  stats : List E
  expr : E

/-- Node `Yield`. -/
structure YieldNode (E : Type) where
  loc : Loc
  args : List E

/-- The reference wrappers `RestArg`, `KeywordArg`, `BlockArg`, `ShadowArg`. -/
structure WrapArgNode (E : Type) where
  loc : Loc
  expr : E

/-- Node `OptionalArg`. -/
structure OptionalArgNode (E : Type) where
  loc : Loc
  expr : E
  default_ : E

/-- Modelled from the spec: the discriminated AST of §3.4. `KeepForIDE` and `Unsafe`
stand for the trees that `MK::KeepForIDE` and `MK::Unsafe` build. -/
inductive Expression where
  | EmptyTree
  | Self (n : SelfNode)
  | UnresolvedIdent (n : UnresolvedIdentNode)
  | Local (n : LocalNode)
  | Field (n : FieldNode)
  | Literal (n : LiteralNode)
  | ZSuperArgs (loc : Loc)
  | UnresolvedConstantLit (n : UnresolvedConstantLitNode Expression)
  | ConstantLit (n : ConstantLitNode Expression)
  | Hash (n : HashNode Expression)
  | Send (n : SendNode Expression)
  | Block (n : BlockNode Expression)
  | MethodDef (n : MethodDefNode Expression)
  | ClassDef (n : ClassDefNode Expression)
  | Assign (n : AssignNode Expression)
  | If (n : IfNode Expression)
  | InsSeq (n : InsSeqNode Expression)
  | Yield (n : YieldNode Expression)
  | RestArg (n : WrapArgNode Expression)
  | KeywordArg (n : WrapArgNode Expression)
  | BlockArg (n : WrapArgNode Expression)
  | ShadowArg (n : WrapArgNode Expression)
  | OptionalArg (n : OptionalArgNode Expression)
  | KeepForIDE (expr : Expression)
  | Unsafe (loc : Loc) (expr : Expression)

/-- Alias `ast::UnresolvedConstantLit`. -/
abbrev UnresolvedConstantLit := UnresolvedConstantLitNode Expression
/-- Alias `ast::ConstantLit`. -/
abbrev ConstantLit := ConstantLitNode Expression
/-- Alias `ast::Hash`. -/
abbrev Hash := HashNode Expression
/-- Alias `ast::Block`. -/
abbrev Block := BlockNode Expression
/-- Alias `ast::Send`. -/
abbrev Send := SendNode Expression
/-- Alias `ast::MethodDef`. -/
abbrev MethodDef := MethodDefNode Expression
/-- Alias `ast::ClassDef`. -/
abbrev ClassDef := ClassDefNode Expression
/-- Alias `ast::Assign`. -/
abbrev Assign := AssignNode Expression
/-- Alias `ast::Yield`. -/
abbrev Yield := YieldNode Expression

namespace Expression

/-- The test `isa_tree<EmptyTree>`. -/
def isEmptyTree : Expression → Bool
  | .EmptyTree => true
  | _ => false

/-- The test `isa_tree<Self>`. -/
def isSelf : Expression → Bool
  | .Self _ => true
  | _ => false

/-- The test `cast_tree<Reference>`: the identifier-like nodes and the argument
wrappers. -/
def isReference : Expression → Bool
  | .UnresolvedIdent _ => true
  | .Local _ => true
  | .Field _ => true
  | .RestArg _ => true
  | .KeywordArg _ => true
  | .BlockArg _ => true
  | .ShadowArg _ => true
  | .OptionalArg _ => true
  | _ => false

/-- The location of a node; the two built trees and `EmptyTree` carry none. -/
def loc : Expression → Loc
  | .EmptyTree => Loc.none
  | .Self n => n.loc
  | .UnresolvedIdent n => n.loc
  | .Local n => n.loc
  | .Field n => n.loc
  | .Literal n => n.loc
  | .ZSuperArgs l => l
  | .UnresolvedConstantLit n => n.loc
  | .ConstantLit n => n.loc
  | .Hash n => n.loc
  | .Send n => n.loc
  | .Block n => n.loc
  | .MethodDef n => n.loc
  | .ClassDef n => n.loc
  | .Assign n => n.loc
  | .If n => n.loc
  | .InsSeq n => n.loc
  | .Yield n => n.loc
  | .RestArg n => n.loc
  | .KeywordArg n => n.loc
  | .BlockArg n => n.loc
  | .ShadowArg n => n.loc
  | .OptionalArg n => n.loc
  | .KeepForIDE _ => Loc.none
  | .Unsafe l _ => l

end Expression

/-- Modelled from the spec: the tree builders of `ast::MK` that the namer calls. -/
def MK.EmptyTree : Expression := .EmptyTree
/-- Builder of a resolved constant without an original node. -/
def MK.Constant (loc : Loc) (symbol : SymbolRef) : Expression :=
  .ConstantLit { loc := loc, symbol := symbol, original := none }
/-- Builder of the literal `false`. -/
def MK.False (loc : Loc) : Expression := .Literal { loc := loc, value := .false_ }
/-- Builder of the literal `nil`. -/
def MK.Nil (loc : Loc) : Expression := .Literal { loc := loc, value := .nil }
/-- Builder of a conditional. -/
def MK.If (loc : Loc) (cond thenp elsep : Expression) : Expression :=
  .If { loc := loc, cond := cond, thenp := thenp, elsep := elsep }
/-- Builder of the `KeepForIDE` marker. -/
def MK.KeepForIDE (expr : Expression) : Expression := .KeepForIDE expr
/-- Builder of `T.unsafe(expr)`. -/
def MK.Unsafe (loc : Loc) (expr : Expression) : Expression := .Unsafe loc expr
/-- Builder of a statement sequence: the prelude `stats` wraps `expr`. -/
def MK.InsSeq (loc : Loc) (stats : List Expression) (expr : Expression) : Expression :=
  .InsSeq { loc := loc, stats := stats, expr := expr }

end ast

/-! ## Command-line options (`main/options/options.cc`) -/

namespace realmain.options

/-- Modelled from the spec: the record `Printers` of `options.h`, one flag for every member
that `print_options` names; every flag is unset by default. -/
structure Printers where
  ParseTree : Bool := false
  ParseTreeJSON : Bool := false
  Desugared : Bool := false
  DesugaredRaw : Bool := false
  DSLTree : Bool := false
  DSLTreeRaw : Bool := false
  SymbolTable : Bool := false
  SymbolTableRaw : Bool := false
  SymbolTableJson : Bool := false
  SymbolTableFull : Bool := false
  SymbolTableFullRaw : Bool := false
  NameTree : Bool := false
  NameTreeRaw : Bool := false
  FileTableJson : Bool := false
  ResolveTree : Bool := false
  ResolveTreeRaw : Bool := false
  CFG : Bool := false
  Autogen : Bool := false
  AutogenMsgPack : Bool := false
  deriving DecidableEq, Repr

/-- A pointer to a member of `Printers` (`bool Printers::*`). -/
inductive PrinterFlag where
  | ParseTree
  | ParseTreeJSON
  | Desugared
  | DesugaredRaw
  | DSLTree
  | DSLTreeRaw
  | SymbolTable
  | SymbolTableRaw
  | SymbolTableJson
  | SymbolTableFull
  | SymbolTableFullRaw
  | NameTree
  | NameTreeRaw
  | FileTableJson
  | ResolveTree
  | ResolveTreeRaw
  | CFG
  | Autogen
  | AutogenMsgPack
  deriving DecidableEq, Repr

/-- Reading through a member pointer, `print.*flag`. -/
def Printers.get (p : Printers) : PrinterFlag → Bool
  | .ParseTree => p.ParseTree
  | .ParseTreeJSON => p.ParseTreeJSON
  | .Desugared => p.Desugared
  | .DesugaredRaw => p.DesugaredRaw
  | .DSLTree => p.DSLTree
  | .DSLTreeRaw => p.DSLTreeRaw
  | .SymbolTable => p.SymbolTable
  | .SymbolTableRaw => p.SymbolTableRaw
  | .SymbolTableJson => p.SymbolTableJson
  | .SymbolTableFull => p.SymbolTableFull
  | .SymbolTableFullRaw => p.SymbolTableFullRaw
  | .NameTree => p.NameTree
  | .NameTreeRaw => p.NameTreeRaw
  | .FileTableJson => p.FileTableJson
  | .ResolveTree => p.ResolveTree
  | .ResolveTreeRaw => p.ResolveTreeRaw
  | .CFG => p.CFG
  | .Autogen => p.Autogen
  | .AutogenMsgPack => p.AutogenMsgPack

/-- The assignment `print.*flag = true`. -/
def Printers.setTrue (p : Printers) : PrinterFlag → Printers
  | .ParseTree => { p with ParseTree := true }
  | .ParseTreeJSON => { p with ParseTreeJSON := true }
  | .Desugared => { p with Desugared := true }
  | .DesugaredRaw => { p with DesugaredRaw := true }
  | .DSLTree => { p with DSLTree := true }
  | .DSLTreeRaw => { p with DSLTreeRaw := true }
  | .SymbolTable => { p with SymbolTable := true }
  | .SymbolTableRaw => { p with SymbolTableRaw := true }
  | .SymbolTableJson => { p with SymbolTableJson := true }
  | .SymbolTableFull => { p with SymbolTableFull := true }
  | .SymbolTableFullRaw => { p with SymbolTableFullRaw := true }
  | .NameTree => { p with NameTree := true }
  | .NameTreeRaw => { p with NameTreeRaw := true }
  | .FileTableJson => { p with FileTableJson := true }
  | .ResolveTree => { p with ResolveTree := true }
  | .ResolveTreeRaw => { p with ResolveTreeRaw := true }
  | .CFG => { p with CFG := true }
  | .Autogen => { p with Autogen := true }
  | .AutogenMsgPack => { p with AutogenMsgPack := true }

/-- The record `PrintOptions`. -/
structure PrintOptions where
  option : String
  flag : PrinterFlag
  supportsCaching : Bool := false
  deriving DecidableEq, Repr

/-- The table `print_options`. -/
def print_options : List PrintOptions :=
  [ { option := "parse-tree", flag := .ParseTree },
    { option := "parse-tree-json", flag := .ParseTreeJSON },
    { option := "ast", flag := .Desugared },
    { option := "ast-raw", flag := .DesugaredRaw },
    { option := "dsl-tree", flag := .DSLTree, supportsCaching := true },
    { option := "dsl-tree-raw", flag := .DSLTreeRaw, supportsCaching := true },
    { option := "symbol-table", flag := .SymbolTable, supportsCaching := true },
    { option := "symbol-table-raw", flag := .SymbolTableRaw, supportsCaching := true },
    { option := "symbol-table-json", flag := .SymbolTableJson, supportsCaching := true },
    { option := "symbol-table-full", flag := .SymbolTableFullRaw, supportsCaching := true },
    { option := "symbol-table-full-raw", flag := .SymbolTableFull, supportsCaching := true },
    { option := "name-tree", flag := .NameTree, supportsCaching := true },
    { option := "name-tree-raw", flag := .NameTreeRaw, supportsCaching := true },
    { option := "file-table-json", flag := .FileTableJson, supportsCaching := true },
    { option := "resolve-tree", flag := .ResolveTree, supportsCaching := true },
    { option := "resolve-tree-raw", flag := .ResolveTreeRaw, supportsCaching := true },
    { option := "cfg", flag := .CFG, supportsCaching := true },
    { option := "autogen", flag := .Autogen, supportsCaching := true },
    { option := "autogen-msgpack", flag := .AutogenMsgPack, supportsCaching := true } ]

/-- Modelled from the spec: the levels of `core::StrictLevel` that `text2StrictLevel`
returns. -/
inductive StrictLevel where
  | Ignore
  | Stripe
  | Typed
  | Strict
  | Strong
  | Autogenerated
  deriving DecidableEq, Repr

/-- The exception `EarlyReturnWithCode`. -/
structure EarlyReturnWithCode where
  returnCode : Int
  deriving DecidableEq, Repr

/-- A line written to the logger: whether it is an error (else an info line), and the
text. -/
structure LogLine where
  isError : Bool
  text : String
  deriving DecidableEq, Repr

/-- The function `text2StrictLevel`; the lines logged are returned next to the result. -/
def text2StrictLevel (key : String) : Except EarlyReturnWithCode StrictLevel × List LogLine :=
  if key == "ignore" then (.ok StrictLevel.Ignore, [])
  else if key == "false" then (.ok StrictLevel.Stripe, [])
  else if key == "true" then (.ok StrictLevel.Typed, [])
  else if key == "strict" then (.ok StrictLevel.Strict, [])
  else if key == "strong" then (.ok StrictLevel.Strong, [])
  else if key == "autogenerated" then (.ok StrictLevel.Autogenerated, [])
  else (.error ⟨1⟩, [⟨true, "Unknown strictness level: `" ++ key ++ "`"⟩])

/-- The value description of `--typed` in the help text of `buildOptions`. -/
def typedHelp : String := "{ruby,true,strict,strong,[auto]}"

/-- Modelled from the spec: the fields of `Options` (of `options.h`) that `extractPrinters`
and the `--typed` step of `readOptions` write; the strictness levels are `Ignore` unless
forced. -/
structure Options where
  print : Printers := {}
  cacheDir : String := ""
  forceMinStrict : StrictLevel := StrictLevel.Ignore
  forceMaxStrict : StrictLevel := StrictLevel.Ignore
  deriving DecidableEq, Repr

/-- The step of `readOptions` for `--typed`: `if (typed != "auto") forceMinStrict =
forceMaxStrict = text2StrictLevel(typed, logger)`. -/
def readTyped (opts : Options) (typed : String) :
    Except EarlyReturnWithCode Options × List LogLine :=
  if typed != "auto" then
    match text2StrictLevel typed with
    | (.ok level, log) => (.ok { opts with forceMinStrict := level, forceMaxStrict := level }, log)
    | (.error e, log) => (.error e, log)
  else (.ok opts, [])

/-- The inner loop of `extractPrinters` over the table, for one requested option: the
first known option of that name sets its flag and, when it does not support caching and
`cacheDir` is not empty, logs an error and clears `cacheDir`. The result tells whether the
option was found. -/
def applyPrinter (opt : String) :
    List PrintOptions → Options → List LogLine → Bool × Options × List LogLine
  | [], opts, log => (false, opts, log)
  | known :: rest, opts, log =>
    if known.option == opt then
      let opts1 := { opts with print := opts.print.setTrue known.flag }
      if !known.supportsCaching then
        if opts1.cacheDir != "" then
          (true, { opts1 with cacheDir := "" },
            log ++ [⟨true, "--print=" ++ opt ++
              " is incompatible with --cacheDir. Ignoring cache"⟩])
        else (true, opts1, log)
      else (true, opts1, log)
    else applyPrinter opt rest opts log

/-- The outer loop of `extractPrinters` over the requested options: the first option that
is not in the table logs an error and ends the loop with `false`. -/
def extractPrintersLoop : List String → Options → List LogLine → Bool × Options × List LogLine
  | [], opts, log => (true, opts, log)
  | opt :: rest, opts, log =>
    let r := applyPrinter opt print_options opts log
    if !r.1 then
      (false, r.2.1,
        r.2.2 ++ [⟨true, "Unknown --print option: " ++ opt ++ "\nValid values: " ++
          ", ".intercalate (print_options.map (fun known => known.option))⟩])
    else extractPrintersLoop rest r.2.1 r.2.2

/-- The function `extractPrinters`; `printOpts` are the values given to `--print` (none
when the option does not occur). -/
def extractPrinters (printOpts : List String) (opts : Options) :
    Bool × Options × List LogLine :=
  if printOpts.length == 0 then (true, opts, [])
  else extractPrintersLoop printOpts opts []

namespace Spec

/-- The values that a value description of the help text lists: the text between the braces,
split at the commas, without the brackets that mark the default. -/
def valuesOf : List Char → List Char → List (List Char)
  | [], cur => if cur.isEmpty then [] else [cur]
  | c :: rest, cur =>
    if c = ',' then cur :: valuesOf rest []
    else if c = '{' ∨ c = '}' ∨ c = '[' ∨ c = ']' then valuesOf rest cur
    else valuesOf rest (cur ++ [c])

/-- The values listed by a value description such as `{always,never,[auto]}`. -/
def listedValues (help : String) : List String :=
  (valuesOf help.toList []).map String.mk

/-- The keys that `text2StrictLevel` accepts. -/
def strictKeys : List String := ["ignore", "false", "true", "strict", "strong", "autogenerated"]

/-- The entry of `print_options` for an option: the first of that name. -/
def lookup (opt : String) : Option PrintOptions :=
  print_options.find? (fun known => known.option == opt)

/-- The name of the member of `Printers` that a flag points to. -/
def flagName : PrinterFlag → String
  | .ParseTree => "ParseTree"
  | .ParseTreeJSON => "ParseTreeJSON"
  | .Desugared => "Desugared"
  | .DesugaredRaw => "DesugaredRaw"
  | .DSLTree => "DSLTree"
  | .DSLTreeRaw => "DSLTreeRaw"
  | .SymbolTable => "SymbolTable"
  | .SymbolTableRaw => "SymbolTableRaw"
  | .SymbolTableJson => "SymbolTableJson"
  | .SymbolTableFull => "SymbolTableFull"
  | .SymbolTableFullRaw => "SymbolTableFullRaw"
  | .NameTree => "NameTree"
  | .NameTreeRaw => "NameTreeRaw"
  | .FileTableJson => "FileTableJson"
  | .ResolveTree => "ResolveTree"
  | .ResolveTreeRaw => "ResolveTreeRaw"
  | .CFG => "CFG"
  | .Autogen => "Autogen"
  | .AutogenMsgPack => "AutogenMsgPack"

/-- The options `X` of the table for which `X-raw` is an option too, each with the flag of
`X` and the flag of `X-raw`. -/
def rawPairs : List (String × PrinterFlag × PrinterFlag) :=
  print_options.filterMap fun x =>
    (lookup (x.option ++ "-raw")).map fun r => (x.option, x.flag, r.flag)

/-- Whether the flag `r` is the `Raw` variant of the flag `x`: its member is named as that
of `x` with `Raw` appended. -/
def isRawVariant (x r : PrinterFlag) : Bool := flagName r == flagName x ++ "Raw"

/-- The requested options that `extractPrinters` processes: those before the first one that
is not in the table. -/
def processed (printOpts : List String) : List String :=
  printOpts.takeWhile (fun o => (lookup o).isSome)

/-- Whether one of the options does not support caching. -/
def anyUncached (opts : List String) : Bool :=
  opts.any (fun o => match lookup o with
    | some known => !known.supportsCaching
    | none => false)

/-- The effect of one known option on the options record: its flag is set, and `cacheDir`
is cleared when the option does not support caching. -/
def applyKnown (known : PrintOptions) (opts : Options) : Options :=
  { opts with
    print := opts.print.setTrue known.flag,
    cacheDir := if !known.supportsCaching then "" else opts.cacheDir }

/-- The effect of a requested option: that of its entry, none when it has no entry. -/
def applyRequested (opts : Options) (opt : String) : Options :=
  match lookup opt with
  | some known => applyKnown known opts
  | none => opts

end Spec

end realmain.options

/-! ## The namer: `NameInserter` -/

namespace namer

open core ast

/-- Ways in which a run ends abnormally. -/
inductive Abort where
  | enforce
  | raise
  | emptyStack
  | outOfFuel
  deriving DecidableEq, Repr

/-- A debug assertion `ENFORCE(cond)`. -/
def ENFORCE (cond : Bool) : Except Abort Unit :=
  if cond then pure () else throw Abort.enforce

/-- The access `back()` to the top of a stack. -/
def back {α : Type} : List α → Except Abort α
  | [] => throw Abort.emptyStack
  | x :: _ => pure x

/-- An assignment through `back()`: the top of the stack is replaced. -/
def modifyBack {α : Type} (f : α → α) : List α → Except Abort (List α)
  | [] => throw Abort.emptyStack
  | x :: rest => pure (f x :: rest)

/-- The map `locals` of a frame, from names to local variables. -/
abbrev Locals := List (NameRef × LocalVariable)

/-- Lookup in `locals`; the absent variable when there is no entry. -/
def Locals.find : Locals → NameRef → LocalVariable
  | [], _ => LocalVariable.noVariable
  | (k, v) :: rest, n => if k = n then v else Locals.find rest n

/-- The assignment `locals[name] = variable`. -/
def Locals.set : Locals → NameRef → LocalVariable → Locals
  | [], n, v => [(n, v)]
  | (k, w) :: rest, n, v => if k = n then (k, v) :: rest else (k, w) :: Locals.set rest n v

/-- The record `ParsedArg`. -/
structure ParsedArg where
  name : NameRef := NameRef.noName
  loc : Loc := Loc.none
  default_ : Option Expression := none
  keyword : Bool := false
  block : Bool := false
  repeated : Bool := false
  shadow : Bool := false

/-- The record `LocalFrame`. -/
structure LocalFrame where
  locals : Locals := []
  args : List LocalVariable := []
  moduleFunctionActive : Bool := false
  scopeId : Nat := 0
  deriving DecidableEq, Repr

/-- The record `BlockArgs`. -/
structure BlockArgs where
  declared : LocalVariable
  discovered : LocalVariable
  discoveredLoc : Loc := Loc.none
  deriving DecidableEq, Repr

/-- The mutable fields of `NameInserter`. -/
structure NameInserter where
  scopeStack : List LocalFrame
  scopeCounter : Nat
  blockArgStack : List BlockArgs
  deriving DecidableEq, Repr

/-- The function `squashNames`; it returns the symbol, the rewritten node and the
table. -/
def squashNames (gs : GlobalState) (owner : SymbolRef) :
    Expression → Except Abort (SymbolRef × Expression × GlobalState)
  | .UnresolvedConstantLit constLit => do
    let r ← squashNames gs owner constLit.scope
    let newOwner := r.1
    let existing := r.2.2.findMember newOwner constLit.cnst
    let e : SymbolRef × GlobalState :=
      if !existing.exists then
        let c := r.2.2.enterClassSymbol constLit.loc newOwner constLit.cnst
        (c.1, (c.2.singletonClass c.1).2)
      else (existing, r.2.2)
    pure (e.1,
      .ConstantLit
        { loc := constLit.loc, symbol := e.1,
          original := some (.UnresolvedConstantLit { constLit with scope := r.2.1 }) },
      e.2)
  | .ConstantLit id => pure (gs.dealias id.symbol, .ConstantLit id, gs)
  | .UnresolvedIdent uid => do
    ENFORCE (uid.kind == IdentKind.Class)
    ENFORCE (uid.name == NameRef.singleton)
    pure (owner, MK.EmptyTree, gs)
  | .EmptyTree => pure (owner, MK.EmptyTree, gs)
  | _ => throw Abort.enforce

/-- The function `parseArg`; a node that no case of the `typecase` handles raises. -/
def parseArg : Expression → Except Abort ParsedArg
  | .UnresolvedIdent nm => pure { name := nm.name, loc := nm.loc }
  | .RestArg rest => do
    let parsedArg ← parseArg rest.expr
    pure { parsedArg with repeated := true }
  | .KeywordArg kw => do
    let parsedArg ← parseArg kw.expr
    pure { parsedArg with keyword := true }
  | .OptionalArg opt => do
    let parsedArg ← parseArg opt.expr
    pure { parsedArg with default_ := some opt.default_ }
  | .BlockArg blk => do
    let parsedArg ← parseArg blk.expr
    pure { parsedArg with block := true }
  | .ShadowArg shadow => do
    let parsedArg ← parseArg shadow.expr
    pure { parsedArg with shadow := true }
  | _ => throw Abort.raise

namespace NameInserter

/-- The constructor: `scopeCounter = 0; enterScope();`. -/
def init : NameInserter :=
  { scopeStack := [{ scopeId := 0 }], scopeCounter := 1, blockArgStack := [] }

/-- The method `enterScope`: a fresh frame with the current counter as id; the counter
is a `u4`. -/
def enterScope (self : NameInserter) : NameInserter :=
  { self with
    scopeStack := { scopeId := self.scopeCounter } :: self.scopeStack,
    scopeCounter := (self.scopeCounter + 1) % 2 ^ 32 }

/-- The method `exitScope`. -/
def exitScope (self : NameInserter) : Except Abort NameInserter :=
  match self.scopeStack with
  | [] => throw Abort.emptyStack
  | _ :: rest => pure { self with scopeStack := rest }

/-- The method `enterLocal`. -/
def enterLocal (self : NameInserter) (ctx : MutableContext) (name : NameRef) :
    Except Abort LocalVariable :=
  if !(ctx.state.data ctx.owner).isBlockSymbol then pure ⟨name, 0⟩
  else do
    let frame ← back self.scopeStack
    pure ⟨name, frame.scopeId⟩

/-- The method `arg2Symbol`. -/
def arg2Symbol (self : NameInserter) (ctx : MutableContext) (pos : Nat)
    (parsedArg : ParsedArg) : Except Abort (SymbolRef × Expression × GlobalState) :=
  if pos < (ctx.state.data ctx.owner).arguments.length then do
    let sym := (ctx.state.data ctx.owner).arguments.getD pos Symbols.noSymbol
    let localVariable ← enterLocal self ctx parsedArg.name
    pure (sym, .Local ⟨parsedArg.loc, localVariable⟩, ctx.state)
  else do
    let name :=
      if parsedArg.keyword then parsedArg.name
      else if parsedArg.block then NameRef.blkArg
      else ctx.state.freshNameUnique UniqueNameKind.PositionalArg NameRef.arg (pos + 1)
    let r := ctx.state.enterMethodArgumentSymbol parsedArg.loc ctx.owner name
    let sym := r.1
    let localVariable ← enterLocal self { ctx with state := r.2 } parsedArg.name
    let localExpr : Expression := .Local ⟨parsedArg.loc, localVariable⟩
    let gs1 := if parsedArg.default_.isSome then r.2.update sym (fun d => { d with argOptional := true }) else r.2
    let localExpr :=
      match parsedArg.default_ with
      | some d => Expression.OptionalArg ⟨parsedArg.loc, localExpr, d⟩
      | none => localExpr
    let gs2 := if parsedArg.keyword then gs1.update sym (fun d => { d with argKeyword := true }) else gs1
    let gs3 := if parsedArg.block then gs2.update sym (fun d => { d with argBlock := true }) else gs2
    let gs4 := if parsedArg.repeated then gs3.update sym (fun d => { d with argRepeated := true }) else gs3
    pure (sym, localExpr, gs4)

/-- The method `findOrCreateBlockParameter`; it returns the block parameter and the
updated block-argument stack. -/
def findOrCreateBlockParameter (self : NameInserter) (loc : Loc) :
    Except Abort (LocalVariable × NameInserter) :=
  match self.blockArgStack with
  | [] => throw Abort.enforce
  | frame :: rest =>
    if frame.declared.exists then pure (frame.declared, self)
    else if frame.discovered.exists then pure (frame.discovered, self)
    else
      let discovered : LocalVariable := ⟨NameRef.blkArg, 0⟩
      pure (discovered,
        { self with
          blockArgStack :=
            { frame with discovered := discovered, discoveredLoc := loc } :: rest })

/-- The loop of `addAncestor` over the arguments in reverse order. -/
def addAncestorLoop : List Expression → List Expression → Except Abort (List Expression)
  | [], dest => pure dest
  | arg :: rest, dest =>
    if arg.isEmptyTree then addAncestorLoop rest dest
    else
      match arg with
      | .UnresolvedConstantLit _ => addAncestorLoop rest (dest ++ [arg])
      | _ => throw Abort.enforce

/-- The method `addAncestor`. -/
def addAncestor (ctx : MutableContext) (klass : ClassDef) (node : Expression) :
    Except Abort (Bool × ClassDef × GlobalState) :=
  match node with
  | .Send send =>
    if send.fun_ != NameRef.include_ && send.fun_ != NameRef.extend then
      pure (false, klass, ctx.state)
    else if !send.recv.isSelf then
      pure (false, klass, ctx.state)
    else if send.args.isEmpty then
      pure (false, klass, ctx.state.beginError send.loc ErrorClass.IncludeMutipleParam)
    else if send.block.isSome then
      pure (false, klass, ctx.state.beginError send.loc ErrorClass.IncludePassedBlock)
    else if send.fun_ == NameRef.include_ then do
      let dest ← addAncestorLoop send.args.reverse klass.ancestors
      pure (true, { klass with ancestors := dest }, ctx.state)
    else do
      let dest ← addAncestorLoop send.args.reverse klass.singleton_ancestors
      pure (true, { klass with singleton_ancestors := dest }, ctx.state)
  | _ => pure (false, klass, ctx.state)

/-- The method `aliasMethod`. -/
def aliasMethod (ctx : MutableContext) (owner : SymbolRef) (newName : NameRef)
    (method : SymbolRef) : GlobalState :=
  let r := ctx.state.enterMethodSymbol (ctx.state.data method).loc owner newName
  r.2.update r.1 (fun a => { a with resultType := some (TypePtr.alias method) })

/-- The method `aliasModuleFunction`. -/
def aliasModuleFunction (ctx : MutableContext) (method : SymbolRef) : GlobalState :=
  let owner := (ctx.state.data method).owner
  let r := ctx.state.singletonClass owner
  aliasMethod { ctx with state := r.2 } r.1 (r.2.data method).name method

/-- The method `methodOwner`. -/
def methodOwner (ctx : MutableContext) : SymbolRef :=
  let owner := ctx.state.enclosingClass ctx.owner
  if owner == Symbols.root then Symbols.Object else owner

/-- The test at the head of `preTransformClassDef`: the class name is an
`UnresolvedIdent` named `singleton`, as `class << self` is desugared. -/
def singletonIdent : Expression → Option UnresolvedIdentNode
  | .UnresolvedIdent ident => if ident.name == NameRef.singleton then some ident else none
  | _ => none

/-- The method `preTransformClassDef`. -/
def preTransformClassDef (self : NameInserter) (ctx : MutableContext) (klass : ClassDef) :
    Except Abort (ClassDef × NameInserter × GlobalState) := do
  let r : ClassDef × GlobalState ←
    match singletonIdent klass.name with
    | some ident => do
      ENFORCE (ident.kind == IdentKind.Class)
      let s := ctx.state.singletonClass ctx.contextClass
      pure ({ klass with symbol := s.1 }, s.2)
    | none => do
      let q : ClassDef × GlobalState ←
        if klass.symbol == Symbols.todo then do
          let sq ← squashNames ctx.state (ctx.state.enclosingClass ctx.owner) klass.name
          pure ({ klass with symbol := sq.1, name := sq.2.1 }, sq.2.2)
        else do
          ENFORCE (klass.symbol == Symbols.root)
          pure (klass, ctx.state)
      let klass := q.1
      let gs := q.2
      let isModule := klass.kind == ClassDefKind.Module
      if !(gs.data klass.symbol).isClass then
        let gs1 := gs.beginError klass.loc ErrorClass.ModuleKindRedefinition
        let origName := (gs1.data klass.symbol).name
        let gs2 := gs1.mangleRenameSymbol klass.symbol (gs1.data klass.symbol).name
          UniqueNameKind.Namer
        let c := gs2.enterClassSymbol klass.declLoc (gs2.data klass.symbol).owner origName
        pure ({ klass with symbol := c.1 }, c.2)
      else if (gs.data klass.symbol).isClassModuleSet &&
          isModule != (gs.data klass.symbol).isClassModule then
        pure (klass, gs.beginError klass.loc ErrorClass.ModuleKindRedefinition)
      else
        pure (klass, gs.update klass.symbol (fun d => d.setIsModule isModule))
  pure (r.1, enterScope { self with scopeCounter := 0 }, r.2)

/-- The method `handleNamerDSL`. -/
def handleNamerDSL (ctx : MutableContext) (klass : ClassDef) (line : Expression) :
    Except Abort (Bool × ClassDef × GlobalState) := do
  let a ← addAncestor ctx klass line
  if a.1 then pure (true, a.2.1, a.2.2)
  else
    let klass := a.2.1
    let gs := a.2.2
    match line with
    | .Send send =>
      if send.fun_ != NameRef.declareInterface && send.fun_ != NameRef.declareAbstract then
        pure (false, klass, gs)
      else
        let gs1 := gs.update klass.symbol (fun d => { d with classAbstract := true })
        let s := gs1.singletonClass klass.symbol
        let gs2 := s.2.update s.1 (fun d => { d with classAbstract := true })
        if send.fun_ == NameRef.declareInterface then
          let gs3 := gs2.update klass.symbol (fun d => { d with classInterface := true })
          if klass.kind == ClassDefKind.Class then
            pure (true, klass, gs3.beginError send.loc ErrorClass.InterfaceClass)
          else pure (true, klass, gs3)
        else pure (true, klass, gs2)
    | _ => pure (false, klass, gs)

/-- The method `shouldLeaveAncestorForIDE`. -/
def shouldLeaveAncestorForIDE (anc : Expression) : Bool :=
  if anc.isEmptyTree || anc.isSelf then false
  else
    match anc with
    | .ConstantLit rcl => if rcl.symbol == Symbols.todo then false else true
    | _ => true

/-- The `remove_if` of `postTransformClassDef`: `handleNamerDSL` runs on every statement
in source order; the statements it does not claim are kept, in order. -/
def removeNamerDSL (owner : SymbolRef) :
    List Expression → ClassDef → GlobalState →
      Except Abort (List Expression × ClassDef × GlobalState)
  | [], klass, gs => pure ([], klass, gs)
  | line :: rest, klass, gs => do
    let h ← handleNamerDSL ⟨gs, owner⟩ klass line
    let r ← removeNamerDSL owner rest h.2.1 h.2.2
    pure (if h.1 then r.1 else line :: r.1, r.2.1, r.2.2)

/-- The loop of `postTransformClassDef` over the ancestors: the copies kept for the
IDE, where `first` tells whether the ancestor is `ancestors.front()`. -/
def keepAncestorsForIDE (kind : ClassDefKind) : List Expression → Bool → List Expression
  | [], _ => []
  | anc :: rest, first =>
    if shouldLeaveAncestorForIDE anc && (kind == ClassDefKind.Module || !first) then
      MK.KeepForIDE anc :: keepAncestorsForIDE kind rest false
    else keepAncestorsForIDE kind rest false

/-- The method `postTransformClassDef`. -/
def postTransformClassDef (self : NameInserter) (ctx : MutableContext) (klass : ClassDef) :
    Except Abort (Expression × NameInserter × GlobalState) := do
  let self ← exitScope self
  let gs := ctx.state
  let gs1 :=
    if klass.kind == ClassDefKind.Class && !(gs.data klass.symbol).superClass.exists &&
        klass.symbol != Symbols.BasicObject then
      gs.update klass.symbol (fun d => { d with superClass := Symbols.todo })
    else gs
  let gs2 := gs1.update klass.symbol (fun d => d.addLoc klass.declLoc)
  let gs3 := (gs2.singletonClass klass.symbol).2
  let r ← removeNamerDSL ctx.owner klass.rhs klass gs3
  let klass : ClassDef := { r.2.1 with rhs := r.1 }
  let klass : ClassDef :=
    { klass with rhs := klass.rhs ++ keepAncestorsForIDE klass.kind klass.ancestors true }
  let ideSeqs : List Expression :=
    match klass.name with
    | .ConstantLit _ => [MK.KeepForIDE klass.name]
    | _ => []
  let ideSeqs : List Expression :=
    match klass.ancestors with
    | front :: _ =>
      if klass.kind == ClassDefKind.Class && shouldLeaveAncestorForIDE front then
        ideSeqs ++ [MK.KeepForIDE front]
      else ideSeqs
    | [] => ideSeqs
  pure (MK.InsSeq klass.declLoc ideSeqs (.ClassDef klass), self, r.2.2)

/-- The loop of `fillInArgs`, position `i` onwards; `args` are the nodes built so
far. -/
def fillInArgsLoop (owner : SymbolRef) :
    List ParsedArg → Nat → Bool → List Expression → NameInserter → GlobalState →
      Except Abort (List Expression × NameInserter × GlobalState)
  | [], _, _, args, self, gs => pure (args, self, gs)
  | arg :: rest, i, inShadows, args, self, gs => do
    let name := arg.name
    let localVariable ← enterLocal self ⟨gs, owner⟩ name
    let r : Bool × List Expression × GlobalState ←
      if arg.shadow then
        pure (true, args ++ [Expression.Local ⟨arg.loc, localVariable⟩], gs)
      else do
        ENFORCE (!inShadows)
        let p ← arg2Symbol self ⟨gs, owner⟩ i arg
        let sym := p.1
        let gs1 := p.2.2
        if i < (gs1.data owner).arguments.length then do
          ENFORCE ((gs1.data owner).arguments.getD i Symbols.noSymbol == sym)
          pure (inShadows, args ++ [p.2.1], gs1)
        else
          pure (inShadows, args ++ [p.2.1],
            gs1.update owner (fun o => { o with arguments := o.arguments ++ [sym] }))
    let stack ← modifyBack
      (fun (frame : LocalFrame) =>
        { frame with
          locals := frame.locals.set name localVariable,
          args := frame.args ++ [localVariable] })
      self.scopeStack
    fillInArgsLoop owner rest (i + 1) r.1 r.2.1 { self with scopeStack := stack } r.2.2

/-- The method `fillInArgs`; `ctx.owner` is the method or block symbol. -/
def fillInArgs (self : NameInserter) (ctx : MutableContext) (parsedArgs : List ParsedArg) :
    Except Abort (List Expression × NameInserter × GlobalState) :=
  fillInArgsLoop ctx.owner parsedArgs 0 false [] self ctx.state

/-- The loop of `module_function(:sym, ...)` in `postTransformSend`. -/
def moduleFunctionLoop (owner : SymbolRef) : List Expression → GlobalState → GlobalState
  | [], gs => gs
  | arg :: rest, gs =>
    match arg with
    | .Literal lit =>
      if !lit.isSymbol then
        moduleFunctionLoop owner rest (gs.beginError arg.loc ErrorClass.DynamicDSLInvocation)
      else
        let name := lit.asSymbol
        let meth := gs.findMember (methodOwner ⟨gs, owner⟩) name
        if !meth.exists then
          moduleFunctionLoop owner rest (gs.beginError arg.loc ErrorClass.MethodNotFound)
        else moduleFunctionLoop owner rest (aliasModuleFunction ⟨gs, owner⟩ meth)
    | _ => moduleFunctionLoop owner rest (gs.beginError arg.loc ErrorClass.DynamicDSLInvocation)

/-- The first loop of `alias_method` in `postTransformSend`: the names of the symbol
literals, an error for every other argument. -/
def aliasMethodArgs : List Expression → List NameRef → GlobalState →
    List NameRef × GlobalState
  | [], args, gs => (args, gs)
  | arg :: rest, args, gs =>
    match arg with
    | .Literal lit =>
      if !lit.isSymbol then
        aliasMethodArgs rest args (gs.beginError arg.loc ErrorClass.DynamicDSLInvocation)
      else aliasMethodArgs rest (args ++ [lit.asSymbol]) gs
    | _ => aliasMethodArgs rest args (gs.beginError arg.loc ErrorClass.DynamicDSLInvocation)

/-- The method `postTransformSend`. -/
def postTransformSend (self : NameInserter) (ctx : MutableContext) (original : Send) :
    Except Abort (Expression × NameInserter × GlobalState) := do
  let z : Send × GlobalState ←
    match original.args with
    | [.ZSuperArgs _] =>
      let method := ctx.state.enclosingMethod ctx.owner
      if (ctx.state.data method).isMethod then do
        let frame ← back self.scopeStack
        pure ({ original with
                args := frame.args.map (fun arg => Expression.Local ⟨original.loc, arg⟩) },
              ctx.state)
      else
        pure ({ original with args := [] },
              ctx.state.beginError original.loc ErrorClass.SelfOutsideClass)
    | _ => pure (original, ctx.state)
  let original := z.1
  let gs := z.2
  match original.args with
  | [.MethodDef mdef] =>
    if original.fun_ == NameRef.private_ || original.fun_ == NameRef.privateClassMethod then
      pure (.MethodDef mdef, self,
        gs.update mdef.symbol (fun d => { d with methodPrivate := true }))
    else if original.fun_ == NameRef.protected_ then
      pure (.MethodDef mdef, self,
        gs.update mdef.symbol (fun d => { d with methodProtected := true }))
    else if original.fun_ == NameRef.public_ then
      pure (.MethodDef mdef, self,
        gs.update mdef.symbol
          (fun d => { d with methodPrivate := false, methodProtected := false }))
    else if original.fun_ == NameRef.moduleFunction then
      pure (.MethodDef mdef, self, aliasModuleFunction ⟨gs, ctx.owner⟩ mdef.symbol)
    else pure (.Send original, self, gs)
  | _ =>
    if original.recv.isSelf then
      if original.fun_ == NameRef.moduleFunction then
        if original.args.isEmpty then do
          let stack ← modifyBack
            (fun (frame : LocalFrame) => { frame with moduleFunctionActive := true })
            self.scopeStack
          pure (.Send original, { self with scopeStack := stack }, gs)
        else pure (.Send original, self, moduleFunctionLoop ctx.owner original.args gs)
      else if original.fun_ == NameRef.aliasMethod then
        let a := aliasMethodArgs original.args [] gs
        let args := a.1
        let gs1 := a.2
        if original.args.length != 2 then
          pure (.Send original, self, gs1.beginError original.loc ErrorClass.InvalidAlias)
        else if args.length != 2 then pure (.Send original, self, gs1)
        else
          let meth := gs1.findMember (methodOwner ⟨gs1, ctx.owner⟩)
            (args.getD 1 NameRef.noName)
          if !meth.exists then
            pure (.Send original, self,
              gs1.beginError (original.args.getD 1 Expression.EmptyTree).loc
                ErrorClass.MethodNotFound)
          else
            pure (.Send original, self,
              aliasMethod ⟨gs1, ctx.owner⟩ (methodOwner ⟨gs1, ctx.owner⟩)
                (args.getD 0 NameRef.noName) meth)
      else if original.fun_ == NameRef.blockGiven_p then
        if !self.blockArgStack.isEmpty then do
          let loc := original.loc
          let b ← findOrCreateBlockParameter self loc
          pure (MK.If loc (.Local ⟨loc, b.1⟩) (.Send original) (MK.False loc), b.2, gs)
        else pure (.Send original, self, gs)
      else pure (.Send original, self, gs)
    else pure (.Send original, self, gs)

/-- The method `isIntrinsic`. -/
def isIntrinsic (gs : GlobalState) (sym : SymbolRef) : Bool :=
  (gs.data sym).intrinsic && (gs.data sym).arguments.isEmpty &&
    (gs.data sym).resultType.isNone

/-- The loop of `paramsMatch`, index `i` onwards. -/
def paramsMatchLoop (sym : SymbolRef) (loc : Loc) :
    List ParsedArg → Nat → GlobalState → Bool × GlobalState
  | [], _, gs => (true, gs)
  | methodArg :: rest, i, gs =>
    let symArg := gs.data ((gs.data sym).arguments.getD i Symbols.noSymbol)
    if symArg.argKeyword != methodArg.keyword then
      (false, gs.beginError loc ErrorClass.RedefinitionOfMethod)
    else if symArg.argBlock != methodArg.block then
      (false, gs.beginError loc ErrorClass.RedefinitionOfMethod)
    else if symArg.argRepeated != methodArg.repeated then
      (false, gs.beginError loc ErrorClass.RedefinitionOfMethod)
    else if symArg.argKeyword && symArg.name != methodArg.name then
      (false, gs.beginError loc ErrorClass.RedefinitionOfMethod)
    else paramsMatchLoop sym loc rest (i + 1) gs

/-- The method `paramsMatch`; `ctx.owner` is the existing method symbol. -/
def paramsMatch (ctx : MutableContext) (loc : Loc) (parsedArgs : List ParsedArg) :
    Bool × GlobalState :=
  let sym := ctx.owner
  if (ctx.state.data sym).arguments.length != parsedArgs.length then
    (false, ctx.state.beginError loc ErrorClass.RedefinitionOfMethod)
  else paramsMatchLoop sym loc parsedArgs 0 ctx.state

/-- The method `pushBlockArg`. -/
def pushBlockArg (self : NameInserter) (args : List ParsedArg) : NameInserter :=
  let blockArgVar : LocalVariable :=
    match args.getLast? with
    | some last => if last.block then ⟨last.name, 0⟩ else LocalVariable.noVariable
    | none => LocalVariable.noVariable
  { self with
    blockArgStack :=
      { declared := blockArgVar, discovered := LocalVariable.noVariable } ::
        self.blockArgStack }

/-- The argument loops of `preTransformMethodDef` and `preTransformBlock`: every
argument must be a `Reference` and is parsed. -/
def parseArgs : List Expression → Except Abort (List ParsedArg)
  | [] => pure []
  | arg :: rest => do
    if !arg.isReference then throw Abort.raise
    let parsed ← parseArg arg
    let others ← parseArgs rest
    pure (parsed :: others)

/-- The method `preTransformMethodDef`. -/
def preTransformMethodDef (self : NameInserter) (ctx : MutableContext) (method : MethodDef) :
    Except Abort (MethodDef × NameInserter × GlobalState) := do
  let self := enterScope self
  let owner := methodOwner ctx
  let o : SymbolRef × GlobalState :=
    if method.isSelf then
      if (ctx.state.data owner).isClass then ctx.state.singletonClass owner
      else (owner, ctx.state)
    else (owner, ctx.state)
  let owner := o.1
  let gs := o.2
  ENFORCE (gs.data owner).isClass
  let parsedArgs ← parseArgs method.args
  let sym := gs.findMember owner method.name
  if sym.exists && method.declLoc == (gs.data sym).loc then do
    let method := { method with symbol := sym }
    let self := pushBlockArg self parsedArgs
    let f ← fillInArgs self ⟨gs, method.symbol⟩ parsedArgs
    pure ({ method with args := f.1 }, f.2.1, f.2.2)
  else do
    let gs1 : GlobalState :=
      if sym.exists then
        if isIntrinsic gs sym then gs.update sym (fun d => d.addLoc method.declLoc)
        else
          let m := paramsMatch ⟨gs, sym⟩ method.declLoc parsedArgs
          if m.1 then m.2.update sym (fun d => d.addLoc method.declLoc)
          else m.2.mangleRenameSymbol sym method.name UniqueNameKind.Namer
      else gs
    let e := gs1.enterMethodSymbol method.declLoc owner method.name
    let method := { method with symbol := e.1 }
    let self := pushBlockArg self parsedArgs
    let f ← fillInArgs self ⟨e.2, method.symbol⟩ parsedArgs
    let gs2 := f.2.2.update method.symbol (fun d => d.addLoc method.declLoc)
    let gs3 :=
      if method.isDSLSynthesized then
        gs2.update method.symbol (fun d => { d with dslSynthesized := true })
      else gs2
    pure ({ method with args := f.1 }, f.2.1, gs3)

/-- The method `postTransformMethodDef`. -/
def postTransformMethodDef (self : NameInserter) (ctx : MutableContext) (method : MethodDef) :
    Except Abort (MethodDef × NameInserter × GlobalState) := do
  let frame ← back self.blockArgStack
  let self := { self with blockArgStack := self.blockArgStack.tail }
  let r : MethodDef × GlobalState :=
    if frame.discovered.exists then
      let b := ctx.state.enterMethodArgumentSymbol Loc.none method.symbol frame.discovered._name
      let blockArg := b.1
      let gs1 := b.2.update blockArg (fun d => { d with argBlock := true })
      let gs2 := gs1.update blockArg
        (fun d => { d with resultType := some (TypePtr.untyped blockArg) })
      let gs3 := gs2.update method.symbol
        (fun d => { d with arguments := d.arguments ++ [blockArg] })
      ({ method with
          args := method.args ++ [Expression.Local ⟨frame.discoveredLoc, frame.discovered⟩] },
        gs3)
    else (method, ctx.state)
  let method := r.1
  let gs := r.2
  ENFORCE (method.args.length == (gs.data method.symbol).arguments.length)
  let self ← exitScope self
  let top ← back self.scopeStack
  let gs4 :=
    if top.moduleFunctionActive then aliasModuleFunction ⟨gs, ctx.owner⟩ method.symbol
    else gs
  ENFORCE (method.args.length == (gs4.data method.symbol).arguments.length)
  pure (method, self, gs4)

/-- The method `preTransformBlock`. -/
def preTransformBlock (self : NameInserter) (ctx : MutableContext) (blk : Block) :
    Except Abort (Block × NameInserter × GlobalState) := do
  let o : SymbolRef × GlobalState ←
    if ctx.owner == Symbols.noSymbol || ctx.owner == Symbols.root then do
      ENFORCE blk.loc.exists
      pure (ctx.state.staticInitForFile blk.loc)
    else if (ctx.state.data ctx.owner).isClass then pure (ctx.state.singletonClass ctx.owner)
    else pure (ctx.owner, ctx.state)
  let owner := o.1
  let counter := ((o.2.data owner).uniqueCounter + 1) % 2 ^ 32
  let gs1 := o.2.update owner (fun d => { d with uniqueCounter := counter })
  let e := gs1.enterMethodSymbol blk.loc owner
    (gs1.freshNameUnique UniqueNameKind.Namer NameRef.blockTemp counter)
  let blk := { blk with symbol := e.1 }
  let outer ← back self.scopeStack
  let outerArgs := outer.args
  let self := enterScope self
  let stack ← modifyBack
    (fun (frame : LocalFrame) => { frame with args := outerArgs, locals := outer.locals })
    self.scopeStack
  let self := { self with scopeStack := stack }
  let parsedArgs ← parseArgs blk.args
  let f ← fillInArgs self ⟨e.2, blk.symbol⟩ parsedArgs
  pure ({ blk with args := f.1 }, f.2.1, f.2.2)

/-- The method `postTransformBlock`. -/
def postTransformBlock (self : NameInserter) (_ctx : MutableContext) (blk : Block) :
    Except Abort (Block × NameInserter) := do
  let self ← exitScope self
  pure (blk, self)

/-- The method `postTransformUnresolvedIdent`. -/
def postTransformUnresolvedIdent (self : NameInserter) (ctx : MutableContext)
    (nm : UnresolvedIdentNode) : Except Abort (Expression × NameInserter × GlobalState) :=
  match nm.kind with
  | IdentKind.Local => do
    let frame ← back self.scopeStack
    let cur := frame.locals.find nm.name
    if !cur.exists then do
      let cur ← enterLocal self ctx nm.name
      let stack ← modifyBack
        (fun (frame : LocalFrame) => { frame with locals := frame.locals.set nm.name cur })
        self.scopeStack
      pure (.Local ⟨nm.loc, cur⟩, { self with scopeStack := stack }, ctx.state)
    else pure (.Local ⟨nm.loc, cur⟩, self, ctx.state)
  | IdentKind.Global =>
    let sym := ctx.state.findMember Symbols.root nm.name
    if !sym.exists then
      let e := ctx.state.enterFieldSymbol nm.loc Symbols.root nm.name
      pure (.Field ⟨nm.loc, e.1⟩, self, e.2)
    else pure (.Field ⟨nm.loc, sym⟩, self, ctx.state)
  | _ => pure (.UnresolvedIdent nm, self, ctx.state)

/-- The method `postTransformSelf`. -/
def postTransformSelf (ctx : MutableContext) (self_ : SelfNode) : SelfNode × GlobalState :=
  let s := ctx.selfClass
  ({ self_ with claz := s.1 }, s.2)

/-- The method `fillAssign`. -/
def fillAssign (ctx : MutableContext) (asgn : Assign) : Except Abort (Assign × GlobalState) :=
  match asgn.lhs with
  | .UnresolvedConstantLit lhs => do
    let sq ← squashNames ctx.state ctx.contextClass lhs.scope
    let scope := sq.1
    let gs := sq.2.2
    let sym := gs.findMemberNoDealias scope lhs.cnst
    let gs1 :=
      if sym.exists && !(gs.data sym).isStaticField then
        let g := gs.beginError asgn.loc ErrorClass.ModuleKindRedefinition
        g.mangleRenameSymbol sym (g.data sym).name UniqueNameKind.Namer
      else gs
    let cnst := gs1.enterStaticFieldSymbol lhs.loc scope lhs.cnst
    pure ({ asgn with
            lhs := .ConstantLit
              { loc := lhs.loc, symbol := cnst.1,
                original := some (.UnresolvedConstantLit { lhs with scope := sq.2.1 }) } },
          cnst.2)
  | _ => throw Abort.enforce

/-- Whether a key of a hash is the symbol literal `fixed`. -/
def isFixedKey : Expression → Bool
  | .Literal key => key.isSymbol && key.asSymbol == NameRef.fixed
  | _ => false

/-- The method `handleTypeMemberDefinition`; `send` and `typeName` are the right-hand
and left-hand side of `asgn`. -/
def handleTypeMemberDefinition (ctx : MutableContext) (send : Send) (asgn : Assign)
    (typeName : UnresolvedConstantLit) : Expression × GlobalState :=
  let isTypeTemplate := send.fun_ == NameRef.typeTemplate
  if !(ctx.state.data ctx.owner).isClass then
    (.EmptyTree, ctx.state.beginError send.loc ErrorClass.InvalidTypeDefinition)
  else
    let o : SymbolRef × GlobalState :=
      if isTypeTemplate then ctx.state.singletonClass ctx.owner else (ctx.owner, ctx.state)
    let onSymbol := o.1
    let gs := o.2
    if send.args.length > 2 then
      (.EmptyTree, gs.beginError send.loc ErrorClass.InvalidTypeDefinition)
    else
      let notSymbol : Variance × GlobalState :=
        match send.args with
        | [.Hash _] => (Variance.Invariant, gs)
        | _ => (Variance.Invariant, gs.beginError send.loc ErrorClass.InvalidTypeDefinition)
      let v : Variance × GlobalState :=
        match send.args with
        | [] => (Variance.Invariant, gs)
        | .Literal lit :: _ =>
          if lit.isSymbol then
            let name := lit.asSymbol
            if name == NameRef.covariant then (Variance.CoVariant, gs)
            else if name == NameRef.contravariant then (Variance.ContraVariant, gs)
            else if name == NameRef.invariant then (Variance.Invariant, gs)
            else (Variance.Invariant, gs.beginError lit.loc ErrorClass.InvalidTypeDefinition)
          else notSymbol
        | _ => notSymbol
      let variance := v.1
      let gs1 := v.2
      let members := (gs1.data onSymbol).typeMembers
      if members.any (fun mem => (gs1.data mem).name == typeName.cnst) then
        (.EmptyTree, gs1.beginError typeName.loc ErrorClass.InvalidTypeDefinition)
      else
        let oldSym := gs1.findMemberNoDealias onSymbol typeName.cnst
        let gs2 :=
          if oldSym.exists then
            let g := gs1.beginError typeName.loc ErrorClass.InvalidTypeDefinition
            g.mangleRenameSymbol oldSym (g.data oldSym).name UniqueNameKind.Namer
          else gs1
        let t := gs2.enterTypeMember asgn.loc onSymbol typeName.cnst variance
        let sym := t.1
        let gs3 :=
          if isTypeTemplate then
            let a := t.2.enterStaticFieldSymbol asgn.loc (t.2.enclosingClass ctx.owner)
              typeName.cnst
            a.2.update a.1 (fun d => { d with resultType := some (TypePtr.alias sym) })
          else t.2
        match send.args.getLast? with
        | some (.Hash hash) =>
          if hash.keys.any isFixedKey then
            let gs4 := gs3.update sym (fun d => { d with fixed := true })
            let gs5 := gs4.update sym (fun d => { d with resultType := some (TypePtr.untyped sym) })
            (.Assign { asgn with lhs := MK.Constant asgn.lhs.loc sym }, gs5)
          else (.EmptyTree, gs3.beginError send.loc ErrorClass.InvalidTypeDefinition)
        | _ => (.EmptyTree, gs3)

/-- The method `postTransformAssign`. -/
def postTransformAssign (ctx : MutableContext) (asgn : Assign) :
    Except Abort (Expression × GlobalState) :=
  match asgn.lhs with
  | .UnresolvedConstantLit typeName =>
    match asgn.rhs with
    | .Send send =>
      if !send.recv.isSelf then do
        let ret ← fillAssign ctx asgn
        if send.fun_ == NameRef.typeAlias then
          let sym : SymbolRef :=
            match ret.1.lhs with
            | .ConstantLit id => id.symbol
            | _ => Symbols.noSymbol
          if sym.exists && (ret.2.data sym).isStaticField then
            pure (.Assign ret.1, ret.2.update sym (fun d => { d with staticTypeAlias := true }))
          else pure (.Assign ret.1, ret.2)
        else pure (.Assign ret.1, ret.2)
      else if send.fun_ == NameRef.typeTemplate || send.fun_ == NameRef.typeMember then
        pure (handleTypeMemberDefinition ctx send asgn typeName)
      else do
        let ret ← fillAssign ctx asgn
        pure (.Assign ret.1, ret.2)
    | _ => do
      let ret ← fillAssign ctx asgn
      pure (.Assign ret.1, ret.2)
  | _ => pure (.Assign asgn, ctx.state)

/-- The method `postTransformYield`. -/
def postTransformYield (self : NameInserter) (_ctx : MutableContext) (yield : Yield) :
    Except Abort (Expression × NameInserter) :=
  if !self.blockArgStack.isEmpty then do
    let b ← findOrCreateBlockParameter self yield.loc
    pure (.Send
            { loc := yield.loc, recv := .Local ⟨yield.loc, b.1⟩, fun_ := NameRef.call,
              args := yield.args, block := none },
          b.2)
  else
    pure (.Send
            { loc := yield.loc, recv := MK.Unsafe yield.loc (MK.Nil yield.loc),
              fun_ := NameRef.call, args := yield.args, block := none },
          self)

end NameInserter

/-! ## The tree walk -/

namespace TreeMap

open NameInserter

/-- A visit of the children of a node, in source order. -/
def mapSeq (visit : NameInserter → MutableContext → Expression → Except Abort (Expression × NameInserter × GlobalState))
    (owner : SymbolRef) : List Expression → NameInserter → GlobalState →
      Except Abort (List Expression × NameInserter × GlobalState)
  | [], self, gs => pure ([], self, gs)
  | e :: rest, self, gs => do
    let r ← visit self ⟨gs, owner⟩ e
    let rs ← mapSeq visit owner rest r.2.1 r.2.2
    pure (r.1 :: rs.1, rs.2.1, rs.2.2)

/-- The visit of the argument list of a method or block after its pre-transform: only
the default of an `OptionalArg` has a subexpression to visit. -/
def mapArgs (visit : NameInserter → MutableContext → Expression → Except Abort (Expression × NameInserter × GlobalState))
    (owner : SymbolRef) : List Expression → NameInserter → GlobalState →
      Except Abort (List Expression × NameInserter × GlobalState)
  | [], self, gs => pure ([], self, gs)
  | arg :: rest, self, gs => do
    let r : Expression × NameInserter × GlobalState ←
      match arg with
      | .OptionalArg optArg => do
        let d ← visit self ⟨gs, owner⟩ optArg.default_
        pure (Expression.OptionalArg { optArg with default_ := d.1 }, d.2.1, d.2.2)
      | _ => pure (arg, self, gs)
    let rs ← mapArgs visit owner rest r.2.1 r.2.2
    pure (r.1 :: rs.1, rs.2.1, rs.2.2)

/-- The visit of a block: pre-transform, arguments and body under the block symbol,
post-transform. -/
def mapBlock (visit : NameInserter → MutableContext → Expression → Except Abort (Expression × NameInserter × GlobalState))
    (self : NameInserter) (ctx : MutableContext) (v : Block) : Except Abort (Block × NameInserter × GlobalState) := do
  let p ← preTransformBlock self ctx v
  let a ← mapArgs visit p.1.symbol p.1.args p.2.1 p.2.2
  let b ← visit a.2.1 ⟨a.2.2, p.1.symbol⟩ p.1.body
  let q ← postTransformBlock b.2.1 ⟨b.2.2, ctx.owner⟩ { p.1 with args := a.1, body := b.1 }
  pure (q.1, q.2, b.2.2)

/-- Modelled from the spec: one step of the tree walker of `ast::TreeMap`, a pre-order
then post-order visit with siblings in source order; the children of a class, method or
block are visited under a context whose owner is its symbol. `visit` is the walker for
the children. -/
def mapNode (visit : NameInserter → MutableContext → Expression → Except Abort (Expression × NameInserter × GlobalState))
    (self : NameInserter) (ctx : MutableContext) : Expression → Except Abort (Expression × NameInserter × GlobalState)
  | .ClassDef v => do
    let p ← preTransformClassDef self ctx v
    let b ← mapSeq visit p.1.symbol p.1.rhs p.2.1 p.2.2
    postTransformClassDef b.2.1 ⟨b.2.2, ctx.owner⟩ { p.1 with rhs := b.1 }
  | .MethodDef v => do
    let p ← preTransformMethodDef self ctx v
    let a ← mapArgs visit p.1.symbol p.1.args p.2.1 p.2.2
    let b ← visit a.2.1 ⟨a.2.2, p.1.symbol⟩ p.1.rhs
    let q ← postTransformMethodDef b.2.1 ⟨b.2.2, ctx.owner⟩ { p.1 with args := a.1, rhs := b.1 }
    pure (.MethodDef q.1, q.2.1, q.2.2)
  | .Block v => do
    let b ← mapBlock visit self ctx v
    pure (.Block b.1, b.2.1, b.2.2)
  | .Send v => do
    let r ← visit self ctx v.recv
    let a ← mapSeq visit ctx.owner v.args r.2.1 r.2.2
    let b : Option Block × NameInserter × GlobalState ←
      match v.block with
      | some blk => do
        let m ← mapBlock visit a.2.1 ⟨a.2.2, ctx.owner⟩ blk
        pure (some m.1, m.2.1, m.2.2)
      | none => pure (none, a.2.1, a.2.2)
    postTransformSend b.2.1 ⟨b.2.2, ctx.owner⟩ { v with recv := r.1, args := a.1, block := b.1 }
  | .Assign v => do
    let l ← visit self ctx v.lhs
    let r ← visit l.2.1 ⟨l.2.2, ctx.owner⟩ v.rhs
    let q ← postTransformAssign ⟨r.2.2, ctx.owner⟩ { v with lhs := l.1, rhs := r.1 }
    pure (q.1, r.2.1, q.2)
  | .If v => do
    let c ← visit self ctx v.cond
    let t ← visit c.2.1 ⟨c.2.2, ctx.owner⟩ v.thenp
    let e ← visit t.2.1 ⟨t.2.2, ctx.owner⟩ v.elsep
    pure (.If { v with cond := c.1, thenp := t.1, elsep := e.1 }, e.2.1, e.2.2)
  | .InsSeq v => do
    let s ← mapSeq visit ctx.owner v.stats self ctx.state
    let e ← visit s.2.1 ⟨s.2.2, ctx.owner⟩ v.expr
    pure (.InsSeq { v with stats := s.1, expr := e.1 }, e.2.1, e.2.2)
  | .Hash v => do
    let k ← mapSeq visit ctx.owner v.keys self ctx.state
    let w ← mapSeq visit ctx.owner v.values k.2.1 k.2.2
    pure (.Hash { v with keys := k.1, values := w.1 }, w.2.1, w.2.2)
  | .Yield v => do
    let a ← mapSeq visit ctx.owner v.args self ctx.state
    let q ← postTransformYield a.2.1 ⟨a.2.2, ctx.owner⟩ { v with args := a.1 }
    pure (q.1, q.2, a.2.2)
  | .UnresolvedConstantLit v => do
    let s ← visit self ctx v.scope
    pure (.UnresolvedConstantLit { v with scope := s.1 }, s.2.1, s.2.2)
  | .UnresolvedIdent v => postTransformUnresolvedIdent self ctx v
  | .Self v =>
    let q := postTransformSelf ctx v
    pure (.Self q.1, self, q.2)
  | e => pure (e, self, ctx.state)

/-- The walker `mapIt`; `fuel` bounds the nesting depth it descends. -/
def mapIt : Nat → NameInserter → MutableContext → Expression → Except Abort (Expression × NameInserter × GlobalState)
  | 0 => fun _ _ _ => throw Abort.outOfFuel
  | fuel + 1 => mapNode (mapIt fuel)

end TreeMap

mutual
/-- Number of nodes of a tree, a bound on its nesting depth. -/
def treeSize : Expression → Nat
  | .UnresolvedConstantLit n => treeSize n.scope + 1
  | .ConstantLit _ => 1
  | .Hash n => treeSizeList n.keys + treeSizeList n.values + 1
  | .Send n => treeSize n.recv + treeSizeList n.args + treeSizeOptBlock n.block + 1
  | .Block n => treeSizeBlock n
  | .MethodDef n => treeSizeList n.args + treeSize n.rhs + 1
  | .ClassDef n => treeSizeList n.rhs + 1
  | .Assign n => treeSize n.lhs + treeSize n.rhs + 1
  | .If n => treeSize n.cond + treeSize n.thenp + treeSize n.elsep + 1
  | .InsSeq n => treeSizeList n.stats + treeSize n.expr + 1
  | .Yield n => treeSizeList n.args + 1
  | .RestArg n => treeSize n.expr + 1
  | .KeywordArg n => treeSize n.expr + 1
  | .BlockArg n => treeSize n.expr + 1
  | .ShadowArg n => treeSize n.expr + 1
  | .OptionalArg n => treeSize n.expr + treeSize n.default_ + 1
  | _ => 1
/-- Number of nodes of a block. -/
def treeSizeBlock : Block → Nat
  | ⟨_, args, body, _⟩ => treeSizeList args + treeSize body + 1
/-- Number of nodes of an optional block. -/
def treeSizeOptBlock : Option Block → Nat
  | none => 0
  | some b => treeSizeBlock b
/-- Number of nodes of a list of trees. -/
def treeSizeList : List Expression → Nat
  | [] => 0
  | e :: rest => treeSize e + treeSizeList rest
end

/-- The entry point `Namer::run`: a fresh `NameInserter` walks the tree of one file. It
returns the rewritten tree and the table. -/
def Namer.run (ctx : MutableContext) (tree : Expression) :
    Except Abort (Expression × GlobalState) := do
  let r ← TreeMap.mapIt (treeSize tree + 1) NameInserter.init ctx tree
  pure (r.1, r.2.2)

/-! ## Reference definitions for the properties -/

namespace Spec

/-- Whether a statement is a mixin call that `addAncestor` ingests: a `Send` of `f` on
`self` with at least one argument and no block. -/
def isMixinCall (f : NameRef) : Expression → Bool
  | .Send s => s.fun_ == f && s.recv.isSelf && !s.args.isEmpty && s.block.isNone
  | _ => false

/-- The mixins that one statement contributes for the function `f`: the arguments that
are not `EmptyTree`, in reverse argument order. -/
def mixinsOf (f : NameRef) (line : Expression) : List Expression :=
  match line with
  | .Send s => if isMixinCall f line then s.args.reverse.filter (fun a => !a.isEmptyTree) else []
  | _ => []

/-- The mixins that a class body contributes for the function `f`: statement by
statement in source order, the arguments of each statement reversed. -/
def includedMixins (f : NameRef) : List Expression → List Expression
  | [] => []
  | line :: rest => mixinsOf f line ++ includedMixins f rest

/-- Whether a node is an `UnresolvedConstantLit` or `EmptyTree`. -/
def isConstantOrEmpty : Expression → Bool
  | .UnresolvedConstantLit _ => true
  | .EmptyTree => true
  | _ => false

/-- What the desugarer guarantees about a statement: the arguments of an ingested mixin
call are constants (or empty). -/
def mixinArgsWellFormed (line : Expression) : Bool :=
  match line with
  | .Send s =>
    if isMixinCall NameRef.include_ line || isMixinCall NameRef.extend line then
      s.args.all isConstantOrEmpty
    else true
  | _ => true

/-- Whether a statement is a `Send` of `abstract!` or `interface!`. -/
def isAbstractOrInterface : Expression → Bool
  | .Send s => s.fun_ == NameRef.declareInterface || s.fun_ == NameRef.declareAbstract
  | _ => false

/-- The statements that `handleNamerDSL` applies and removes. -/
def isAppliedNamerDSL (line : Expression) : Bool :=
  isMixinCall NameRef.include_ line || isMixinCall NameRef.extend line ||
    isAbstractOrInterface line

/-- The statements named by the DSL-removal property as stated: a `Send` on `self` of
`include`, `extend`, `abstract!` or `interface!`. -/
def isNamerDSLSend : Expression → Bool
  | .Send s =>
    s.recv.isSelf &&
      (s.fun_ == NameRef.include_ || s.fun_ == NameRef.extend ||
        s.fun_ == NameRef.declareAbstract || s.fun_ == NameRef.declareInterface)
  | _ => false

/-- The names of the constants in a list of mixins. -/
def mixinNames : List Expression → List NameRef
  | [] => []
  | .UnresolvedConstantLit c :: rest => c.cnst :: mixinNames rest
  | _ :: rest => mixinNames rest

/-- Whether an argument list is accepted by the assertion of `fillInArgs`: no non-shadow
argument after a shadow argument; `inShadows` tells whether a shadow argument came
before. -/
def shadowsLast : Bool → List ParsedArg → Bool
  | _, [] => true
  | inShadows, a :: rest =>
    if a.shadow then shadowsLast true rest else !inShadows && shadowsLast inShadows rest

/-- The owner that `preTransformMethodDef` looks the method up in when the singleton
class of a `self` method is already allocated: the class of the context, or its
singleton class for a `self` method. -/
def reparseOwner (ctx : MutableContext) (method : MethodDef) : SymbolRef :=
  if method.isSelf && (ctx.state.data (NameInserter.methodOwner ctx)).isClass then
    ctx.state.findMember (NameInserter.methodOwner ctx) NameRef.singleton
  else NameInserter.methodOwner ctx

/-- Well-formed tables: the well-known symbols are allocated, and members and alias
targets refer to allocated symbols (an alias never to `noSymbol`). -/
structure WF (gs : GlobalState) : Prop where
  used : Symbols.untyped < gs.symbolsUsed
  members_lt : ∀ r n, (gs.data r).members.find n < gs.symbolsUsed
  alias_lt : ∀ r t, (gs.data r).resultType = some (TypePtr.alias t) → 0 < t ∧ t < gs.symbolsUsed

/-- The table `gs'` extends `gs`: the symbols allocated in `gs` keep their kind, owner,
name and result type, and keep every member they have, except that the entry `attached`
may be reassigned. -/
structure Ext (gs gs' : GlobalState) : Prop where
  used_le : gs.symbolsUsed ≤ gs'.symbolsUsed
  find_eq : ∀ r, r < gs.symbolsUsed → ∀ k, k ≠ NameRef.attached →
    (gs.data r).members.find k ≠ 0 → (gs'.data r).members.find k = (gs.data r).members.find k
  resultType_eq : ∀ r, r < gs.symbolsUsed → (gs'.data r).resultType = (gs.data r).resultType
  kind_eq : ∀ r, r < gs.symbolsUsed → (gs'.data r).kind = (gs.data r).kind
  owner_eq : ∀ r, r < gs.symbolsUsed → (gs'.data r).owner = (gs.data r).owner
  name_eq : ∀ r, r < gs.symbolsUsed → (gs'.data r).name = (gs.data r).name


/-- Whether the singleton class of a symbol is allocated (`lookupSingletonClass`). -/
def hasSingleton (gs : GlobalState) (r : SymbolRef) : Bool :=
  (gs.findMember r NameRef.singleton).exists


/-- One step of `squashNames`, after the scope has been squashed to `newOwner`: the
member of that name, or a newly entered class symbol with its singleton class. -/
def squashStep (gs : GlobalState) (newOwner : SymbolRef) (loc : Loc) (cnst : NameRef) :
    SymbolRef × GlobalState :=
  let existing := gs.findMember newOwner cnst
  if !existing.exists then
    let c := gs.enterClassSymbol loc newOwner cnst
    (c.1, (c.2.singletonClass c.1).2)
  else (existing, gs)

/-- Constant paths: nested `UnresolvedConstantLit` nodes over an `EmptyTree` or
`singleton` class-identifier base, every component name satisfying `P`. -/
inductive ConstPath (P : NameRef → Prop) : Expression → Prop where
  | empty : ConstPath P Expression.EmptyTree
  | singleton (loc : Loc) :
    ConstPath P (Expression.UnresolvedIdent ⟨loc, IdentKind.Class, NameRef.singleton⟩)
  | cons (c : UnresolvedConstantLit) :
    P c.cnst → ConstPath P c.scope → ConstPath P (Expression.UnresolvedConstantLit c)


/-- The class symbols that `squashNames` enters for the missing components of a path,
outer components first. -/
def squashCreated (gs : GlobalState) (owner : SymbolRef) : Expression → List SymbolRef
  | .UnresolvedConstantLit c =>
    match squashNames gs owner c.scope with
    | .ok r =>
      squashCreated gs owner c.scope ++
        (if (r.2.2.findMember r.1 c.cnst).exists then []
         else [(r.2.2.enterClassSymbol c.loc r.1 c.cnst).1])
    | .error _ => []
  | _ => []


/-- Updates of a symbol record that keep its members, result type, kind, owner and
name. -/
def KeepsCore (f : Symbol → Symbol) : Prop :=
  ∀ s, (f s).members = s.members ∧ (f s).resultType = s.resultType ∧ (f s).kind = s.kind ∧
    (f s).owner = s.owner ∧ (f s).name = s.name


/-- Two constant paths with the same component names (locations may differ), every
component name satisfying `P`. -/
inductive SamePath (P : NameRef → Prop) : Expression → Expression → Prop where
  | empty_empty : SamePath P Expression.EmptyTree Expression.EmptyTree
  | empty_singleton (loc : Loc) :
    SamePath P Expression.EmptyTree
      (Expression.UnresolvedIdent ⟨loc, IdentKind.Class, NameRef.singleton⟩)
  | singleton_empty (loc : Loc) :
    SamePath P (Expression.UnresolvedIdent ⟨loc, IdentKind.Class, NameRef.singleton⟩)
      Expression.EmptyTree
  | singleton_singleton (loc1 loc2 : Loc) :
    SamePath P (Expression.UnresolvedIdent ⟨loc1, IdentKind.Class, NameRef.singleton⟩)
      (Expression.UnresolvedIdent ⟨loc2, IdentKind.Class, NameRef.singleton⟩)
  | cons (c1 c2 : UnresolvedConstantLit) :
    c1.cnst = c2.cnst → P c1.cnst → SamePath P c1.scope c2.scope →
    SamePath P (Expression.UnresolvedConstantLit c1) (Expression.UnresolvedConstantLit c2)



/-- A use of the block parameter in a method body: a `yield`, or a send of
`block_given?`. -/
inductive BlockUse where
  | yield (y : Yield)
  | blockGiven (s : Send)

/-- The location of a use. -/
def BlockUse.loc : BlockUse → Loc
  | .yield y => y.loc
  | .blockGiven s => s.loc

/-- A `blockGiven` use is the call `self.block_given?` without arguments. -/
def BlockUse.isBlockUse : BlockUse → Bool
  | .yield _ => true
  | .blockGiven s => s.recv.isSelf && s.fun_ == NameRef.blockGiven_p && s.args.isEmpty

/-- The uses of a method body visited in order, each by its handler
(`postTransformYield`, `postTransformSend`) under its own context; the rewritten node
and the table left by the handler are collected. -/
def visitBlockUses : List (MutableContext × BlockUse) → NameInserter →
    Except Abort (List (Expression × GlobalState) × NameInserter)
  | [], self => pure ([], self)
  | (ctx, .yield y) :: rest, self => do
    let r ← NameInserter.postTransformYield self ctx y
    let rs ← visitBlockUses rest r.2
    pure ((r.1, ctx.state) :: rs.1, rs.2)
  | (ctx, .blockGiven s) :: rest, self => do
    let r ← NameInserter.postTransformSend self ctx s
    let rs ← visitBlockUses rest r.2.1
    pure ((r.1, r.2.2) :: rs.1, rs.2)

/-- The rewriting of a use that refers to the block parameter `v`. -/
def rewriteUse (v : LocalVariable) : BlockUse → Expression
  | .yield y =>
    .Send { loc := y.loc, recv := .Local ⟨y.loc, v⟩, fun_ := NameRef.call, args := y.args,
            block := none }
  | .blockGiven s => MK.If s.loc (.Local ⟨s.loc, v⟩) (.Send s) (MK.False s.loc)

/-- The declared block argument of a parameter list: the last parameter when it is a
block argument. -/
def declaredBlockArg (args : List ParsedArg) : LocalVariable :=
  match args.getLast? with
  | some last => if last.block then ⟨last.name, 0⟩ else LocalVariable.noVariable
  | none => LocalVariable.noVariable

/-- The block parameter the uses of a method refer to: the declared one, else the
synthetic local `blkArg`. -/
def blockParam (declared : LocalVariable) : LocalVariable :=
  if declared.exists then declared else ⟨NameRef.blkArg, 0⟩

/-- The top frame of the block-argument stack after the uses `us` have been visited,
starting from the frame pushed for the declared block argument `declared`. -/
def frameAfter (declared : LocalVariable) (us : List (MutableContext × BlockUse)) :
    BlockArgs :=
  match us with
  | [] => { declared := declared, discovered := LocalVariable.noVariable }
  | u :: _ =>
    if declared.exists then { declared := declared, discovered := LocalVariable.noVariable }
    else { declared := declared, discovered := ⟨NameRef.blkArg, 0⟩, discoveredLoc := u.2.loc }

/-- The table after `postTransformMethodDef` has entered the discovered block argument of
the method symbol `m`: the argument symbol named `blkArg` is entered, flagged as a block
argument with result type `untyped`, and appended to the arguments of `m`. -/
def blockArgAppended (gs : GlobalState) (m : SymbolRef) : GlobalState :=
  let b := gs.enterMethodArgumentSymbol Loc.none m NameRef.blkArg
  ((b.2.update b.1 (fun d => { d with argBlock := true })).update b.1
      (fun d => { d with resultType := some (TypePtr.untyped b.1) })).update m
    (fun d => { d with arguments := d.arguments ++ [b.1] })

/-- The block parameter that a use refers to in the frame `frame`: the declared block
argument, else the one discovered earlier, else the synthetic local `blkArg`. -/
def frameBlockParam (frame : BlockArgs) : LocalVariable :=
  if frame.declared.exists then frame.declared
  else if frame.discovered.exists then frame.discovered
  else ⟨NameRef.blkArg, 0⟩

/-- The frame after a use of the block parameter at `loc`: a block argument is discovered
if the frame has neither a declared nor a discovered one. -/
def frameAfterUse (frame : BlockArgs) (loc : Loc) : BlockArgs :=
  if frame.declared.exists || frame.discovered.exists then frame
  else { frame with discovered := ⟨NameRef.blkArg, 0⟩, discoveredLoc := loc }

/-- Chains of argument wrappers around an `UnresolvedIdent` leaf. -/
inductive ArgChain : Expression → Prop where
  | leaf (nm : UnresolvedIdentNode) : ArgChain (.UnresolvedIdent nm)
  | rest (n : WrapArgNode Expression) : ArgChain n.expr → ArgChain (.RestArg n)
  | keyword (n : WrapArgNode Expression) : ArgChain n.expr → ArgChain (.KeywordArg n)
  | block (n : WrapArgNode Expression) : ArgChain n.expr → ArgChain (.BlockArg n)
  | shadow (n : WrapArgNode Expression) : ArgChain n.expr → ArgChain (.ShadowArg n)
  | optional (n : OptionalArgNode Expression) : ArgChain n.expr → ArgChain (.OptionalArg n)

/-- The leaf of a chain of argument wrappers. -/
def chainLeaf : Expression → Option UnresolvedIdentNode
  | .UnresolvedIdent nm => some nm
  | .RestArg n => chainLeaf n.expr
  | .KeywordArg n => chainLeaf n.expr
  | .BlockArg n => chainLeaf n.expr
  | .ShadowArg n => chainLeaf n.expr
  | .OptionalArg n => chainLeaf n.expr
  | _ => none

/-- Whether a `RestArg` wrapper occurs in the chain. -/
def occursRestArg : Expression → Bool
  | .RestArg _ => true
  | .KeywordArg n => occursRestArg n.expr
  | .BlockArg n => occursRestArg n.expr
  | .ShadowArg n => occursRestArg n.expr
  | .OptionalArg n => occursRestArg n.expr
  | _ => false

/-- Whether a `KeywordArg` wrapper occurs in the chain. -/
def occursKeywordArg : Expression → Bool
  | .KeywordArg _ => true
  | .RestArg n => occursKeywordArg n.expr
  | .BlockArg n => occursKeywordArg n.expr
  | .ShadowArg n => occursKeywordArg n.expr
  | .OptionalArg n => occursKeywordArg n.expr
  | _ => false

/-- Whether a `BlockArg` wrapper occurs in the chain. -/
def occursBlockArg : Expression → Bool
  | .BlockArg _ => true
  | .RestArg n => occursBlockArg n.expr
  | .KeywordArg n => occursBlockArg n.expr
  | .ShadowArg n => occursBlockArg n.expr
  | .OptionalArg n => occursBlockArg n.expr
  | _ => false

/-- Whether a `ShadowArg` wrapper occurs in the chain. -/
def occursShadowArg : Expression → Bool
  | .ShadowArg _ => true
  | .RestArg n => occursShadowArg n.expr
  | .KeywordArg n => occursShadowArg n.expr
  | .BlockArg n => occursShadowArg n.expr
  | .OptionalArg n => occursShadowArg n.expr
  | _ => false

/-- The default expression of the outermost `OptionalArg` of the chain, if there is one. -/
def outermostDefault : Expression → Option Expression
  | .OptionalArg n => some n.default_
  | .RestArg n => outermostDefault n.expr
  | .KeywordArg n => outermostDefault n.expr
  | .BlockArg n => outermostDefault n.expr
  | .ShadowArg n => outermostDefault n.expr
  | _ => none

/-- The name under which `arg2Symbol` enters the symbol of the argument at position
`pos`: the argument's own name for a keyword argument, else `blkArg` for a block
argument, else the unique name `(PositionalArg, arg, pos + 1)`. -/
def argSymbolName (pos : Nat) (parsedArg : ParsedArg) : NameRef :=
  if parsedArg.keyword then parsedArg.name
  else if parsedArg.block then NameRef.blkArg
  else NameRef.unique UniqueNameKind.PositionalArg NameRef.arg (pos + 1)

/-- The AST node that `arg2Symbol` builds for a parsed argument and its local variable. -/
def argNode (parsedArg : ParsedArg) (localVariable : LocalVariable) : Expression :=
  match parsedArg.default_ with
  | some d => .OptionalArg ⟨parsedArg.loc, .Local ⟨parsedArg.loc, localVariable⟩, d⟩
  | none => .Local ⟨parsedArg.loc, localVariable⟩

/-- Agreement of an existing argument symbol with a parsed argument: the keyword, block
and repeated flags are equal, and a keyword argument has the parsed name. -/
def argAgrees (s : Symbol) (a : ParsedArg) : Bool :=
  s.argKeyword == a.keyword && s.argBlock == a.block && s.argRepeated == a.repeated &&
    (!s.argKeyword || s.name == a.name)

/-- Agreement of the arguments of the method symbol `sym` with a parsed argument list:
equally many, and agreement at every index. -/
def paramsAgree (gs : GlobalState) (sym : SymbolRef) (parsedArgs : List ParsedArg) : Bool :=
  (gs.data sym).arguments.length == parsedArgs.length &&
    (List.zip (gs.data sym).arguments parsedArgs).all (fun p => argAgrees (gs.data p.1) p.2)

/-- Two parsed arguments that `paramsMatch` cannot tell apart: the same keyword, block and
repeated fields and, for keyword arguments, the same name; defaults and the names of the
other arguments are free. -/
def sameShape (a b : ParsedArg) : Prop :=
  b.keyword = a.keyword ∧ b.block = a.block ∧ b.repeated = a.repeated ∧
    (a.keyword = true → b.name = a.name)

/-- A members table read as a map: the keys are distinct and every entry holds an existing
symbol. -/
def MembersOK (ms : Members) : Prop :=
  (ms.map Prod.fst).Nodup ∧ ∀ e ∈ ms, e.2 ≠ Symbols.noSymbol

/-- The unique name that `mangleRenameSymbol gs what origName kind` gives to the member. -/
def mangledName (gs : GlobalState) (what : SymbolRef) (origName : NameRef)
    (kind : UniqueNameKind) : NameRef :=
  NameRef.unique kind origName
    (GlobalState.freshCollision (gs.data (gs.data what).owner).members kind origName
      ((gs.data (gs.data what).owner).members.length + 1) 1)

/-- The holder of a type member and the table in which it is looked up: the owner for
`type_member`, its singleton class (allocated on demand) for `type_template`. -/
def typeMemberHolder (ctx : MutableContext) (send : Send) : SymbolRef × GlobalState :=
  if send.fun_ == NameRef.typeTemplate then ctx.state.singletonClass ctx.owner
  else (ctx.owner, ctx.state)

/-- The variance that a symbol literal names, if it is one of `:out`, `:in`,
`:invariant`. -/
def varianceOf (name : NameRef) : Option Variance :=
  if name == NameRef.covariant then some Variance.CoVariant
  else if name == NameRef.contravariant then some Variance.ContraVariant
  else if name == NameRef.invariant then some Variance.Invariant
  else none

/-- The diagnostics about the argument list of a type-member definition (at most two
arguments), reported before any symbol is looked up: a first argument that is a symbol
literal must name a variance; a first argument that is no symbol literal is accepted only
if it is the only argument and a `Hash`. -/
def typeArgErrors (send : Send) : List Error :=
  match send.args with
  | [] => []
  | .Literal lit :: _ =>
    if lit.isSymbol then
      match varianceOf lit.asSymbol with
      | some _ => []
      | none => [⟨lit.loc, ErrorClass.InvalidTypeDefinition⟩]
    else [⟨send.loc, ErrorClass.InvalidTypeDefinition⟩]
  | [.Hash _] => []
  | _ => [⟨send.loc, ErrorClass.InvalidTypeDefinition⟩]

/-- The variance of a type-member definition: the one named by a leading symbol literal,
`Invariant` otherwise. -/
def typeVariance (send : Send) : Variance :=
  match send.args with
  | .Literal lit :: _ =>
    if lit.isSymbol then (varianceOf lit.asSymbol).getD Variance.Invariant
    else Variance.Invariant
  | _ => Variance.Invariant

/-- Whether the last argument is a `Hash` with a symbol-literal key `fixed`. -/
def fixedGiven (send : Send) : Bool :=
  match send.args.getLast? with
  | some (.Hash hash) => hash.keys.any NameInserter.isFixedKey
  | _ => false

/-- Whether the last argument is a `Hash` that has no symbol-literal key `fixed`. -/
def fixedMissing (send : Send) : Bool :=
  match send.args.getLast? with
  | some (.Hash hash) => !hash.keys.any NameInserter.isFixedKey
  | _ => false

/-- The table after the diagnostics `errs` have been reported in order. -/
def reportAll (gs : GlobalState) (errs : List Error) : GlobalState :=
  errs.foldl (fun g e => g.beginError e.loc e.what) gs

/-- The first-argument analysis of `handleTypeMemberDefinition`, as in the source: the
variance, and the table after the diagnostics about the arguments. -/
def typeArgsStep (send : Send) (gs : GlobalState) : Variance × GlobalState :=
  let notSymbol : Variance × GlobalState :=
    match send.args with
    | [.Hash _] => (Variance.Invariant, gs)
    | _ => (Variance.Invariant, gs.beginError send.loc ErrorClass.InvalidTypeDefinition)
  match send.args with
  | [] => (Variance.Invariant, gs)
  | .Literal lit :: _ =>
    if lit.isSymbol then
      let name := lit.asSymbol
      if name == NameRef.covariant then (Variance.CoVariant, gs)
      else if name == NameRef.contravariant then (Variance.ContraVariant, gs)
      else if name == NameRef.invariant then (Variance.Invariant, gs)
      else (Variance.Invariant, gs.beginError lit.loc ErrorClass.InvalidTypeDefinition)
    else notSymbol
  | _ => notSymbol

/-- The symbol-entering step of `handleTypeMemberDefinition`, as in the source, from the
table `gs1` left by the argument analysis: a member of the holder with the name is
reported and renamed, the type member is entered on the holder, and for `type_template`
the static-field alias is entered on the enclosing class. -/
def typeMemberSymbols (ctx : MutableContext) (send : Send) (asgn : Assign)
    (typeName : UnresolvedConstantLit) (onSymbol : SymbolRef) (variance : Variance)
    (gs1 : GlobalState) : SymbolRef × GlobalState :=
  let oldSym := gs1.findMemberNoDealias onSymbol typeName.cnst
  let gs2 :=
    if oldSym.exists then
      let g := gs1.beginError typeName.loc ErrorClass.InvalidTypeDefinition
      g.mangleRenameSymbol oldSym (g.data oldSym).name UniqueNameKind.Namer
    else gs1
  let t := gs2.enterTypeMember asgn.loc onSymbol typeName.cnst variance
  let sym := t.1
  (sym,
    if send.fun_ == NameRef.typeTemplate then
      let a := t.2.enterStaticFieldSymbol asgn.loc (t.2.enclosingClass ctx.owner) typeName.cnst
      a.2.update a.1 (fun d => { d with resultType := some (TypePtr.alias sym) })
    else t.2)

/-- The symbol-entering step for a definition, from the holder and the argument list. -/
def typeMemberEntered (ctx : MutableContext) (send : Send) (asgn : Assign)
    (typeName : UnresolvedConstantLit) : SymbolRef × GlobalState :=
  typeMemberSymbols ctx send asgn typeName (typeMemberHolder ctx send).1 (typeVariance send)
    (reportAll (typeMemberHolder ctx send).2 (typeArgErrors send))

/-- The marking of a type member as fixed, with result type `untyped`. -/
def markFixed (gs : GlobalState) (sym : SymbolRef) : GlobalState :=
  (gs.update sym (fun d => { d with fixed := true })).update sym
    (fun d => { d with resultType := some (TypePtr.untyped sym) })

/-- Whether the holder already has a type member of the name. -/
def duplicateTypeMember (ctx : MutableContext) (send : Send)
    (typeName : UnresolvedConstantLit) : Bool :=
  ((typeMemberHolder ctx send).2.data (typeMemberHolder ctx send).1).typeMembers.any
    (fun mem => ((typeMemberHolder ctx send).2.data mem).name == typeName.cnst)

/-- The names of the type members of a symbol, in order. -/
def typeMemberNames (gs : GlobalState) (h : SymbolRef) : List NameRef :=
  (gs.data h).typeMembers.map (fun m => (gs.data m).name)

/-- Whether the right-hand side of an assignment is a `type_member` or `type_template`
call on `self`. -/
def isTypeMemberCall : Expression → Bool
  | .Send send =>
    send.recv.isSelf && (send.fun_ == NameRef.typeTemplate || send.fun_ == NameRef.typeMember)
  | _ => false

/-- Whether the right-hand side of an assignment is a `type_alias` call on a receiver other
than `self`. -/
def isTypeAliasCall : Expression → Bool
  | .Send send => !send.recv.isSelf && send.fun_ == NameRef.typeAlias
  | _ => false

/-- The result of squashing the scope of a constant under the context class: the scope
symbol, the rewritten scope and the table (the context itself if the squashing aborts). -/
def squashedScope (ctx : MutableContext) (lhs : UnresolvedConstantLit) :
    SymbolRef × Expression × GlobalState :=
  match squashNames ctx.state ctx.contextClass lhs.scope with
  | .ok r => r
  | .error _ => (Symbols.noSymbol, Expression.EmptyTree, ctx.state)

/-- Whether an assignment to the constant `cnst` in `scope` redefines a member: there is a
member of that name (looked up without dealiasing) that is not a static field. -/
def redefinesConstant (gs : GlobalState) (scope : SymbolRef) (cnst : NameRef) : Bool :=
  (gs.findMemberNoDealias scope cnst).exists &&
    !(gs.data (gs.findMemberNoDealias scope cnst)).isStaticField

/-- The symbol-entering step of `fillAssign`, as in the source, from the squashed scope: a
member of the name that is not a static field is reported and renamed, then the static
field is entered. -/
def constantEntered (gs : GlobalState) (scope : SymbolRef) (asgnLoc lhsLoc : Loc)
    (cnst : NameRef) : SymbolRef × GlobalState :=
  let sym := gs.findMemberNoDealias scope cnst
  let gs1 :=
    if sym.exists && !(gs.data sym).isStaticField then
      let g := gs.beginError asgnLoc ErrorClass.ModuleKindRedefinition
      g.mangleRenameSymbol sym (g.data sym).name UniqueNameKind.Namer
    else gs
  gs1.enterStaticFieldSymbol lhsLoc scope cnst

/-- The local variable that `enterLocal` makes for a name under the top frame `top`: the
unique id is the scope id of the frame when the owner is the symbol of a block, else 0. -/
def localFor (gs : GlobalState) (owner : SymbolRef) (top : LocalFrame) (name : NameRef) :
    LocalVariable :=
  if (gs.data owner).isBlockSymbol then ⟨name, top.scopeId⟩ else ⟨name, 0⟩

/-- The local variables of a list of parsed arguments, in order. -/
def argLocals (gs : GlobalState) (owner : SymbolRef) (top : LocalFrame)
    (parsedArgs : List ParsedArg) : List LocalVariable :=
  parsedArgs.map (fun a => localFor gs owner top a.name)

/-- The frame after `fillInArgs` has recorded the local variables `lvs` of the arguments,
in order: each is bound in `locals` under its name and appended to `args`. -/
def frameWithArgs (top : LocalFrame) (lvs : List LocalVariable) : LocalFrame :=
  { top with
    locals := lvs.foldl (fun l v => l.set v._name v) top.locals,
    args := top.args ++ lvs }

/-- The shape of the nodes and symbols that `fillInArgs` produces for parsed arguments at
positions `i` onwards: a shadow argument yields a bare `Local` and no symbol, every other
argument a node and a symbol that a call of `arg2Symbol` at its position returns. The
predicate does not fix the state of the pass and the table of that call, so it bounds the
lengths of the two lists and the shape of the nodes only; the calls themselves are those
of `Spec.argsEntered`. -/
inductive ArgsFilled (owner : SymbolRef) (lv : NameRef → LocalVariable) :
    Nat → List ParsedArg → List Expression → List SymbolRef → Prop where
  | nil (i : Nat) : ArgsFilled owner lv i [] [] []
  | shadow (i : Nat) (a : ParsedArg) (rest : List ParsedArg) (nodes : List Expression)
      (syms : List SymbolRef) :
      a.shadow = true → ArgsFilled owner lv (i + 1) rest nodes syms →
      ArgsFilled owner lv i (a :: rest) (Expression.Local ⟨a.loc, lv a.name⟩ :: nodes) syms
  | plain (i : Nat) (a : ParsedArg) (rest : List ParsedArg) (nodes : List Expression)
      (syms : List SymbolRef) (self : NameInserter) (gs gs' : GlobalState) (s : SymbolRef)
      (node : Expression) :
      a.shadow = false →
      NameInserter.arg2Symbol self ⟨gs, owner⟩ i a = .ok (s, node, gs') →
      ArgsFilled owner lv (i + 1) rest nodes syms →
      ArgsFilled owner lv i (a :: rest) (node :: nodes) (s :: syms)

/-- An argument list in which a non-shadow argument comes after a shadow argument. -/
def plainAfterShadow (l : List ParsedArg) : Prop :=
  ∃ pre a mid b post, l = pre ++ a :: (mid ++ b :: post) ∧ a.shadow = true ∧ b.shadow = false

/-- The error that `addAncestor` reports for a statement: `IncludeMutipleParam` for a call
of `include` or `extend` on `self` without arguments, `IncludePassedBlock` for one with
arguments and a block, none otherwise. -/
def mixinErrors : Expression → List Error
  | .Send s =>
    if (s.fun_ == NameRef.include_ || s.fun_ == NameRef.extend) && s.recv.isSelf then
      if s.args.isEmpty then [⟨s.loc, ErrorClass.IncludeMutipleParam⟩]
      else if s.block.isSome then [⟨s.loc, ErrorClass.IncludePassedBlock⟩]
      else []
    else []
  | _ => []

/-- Whether the argument list of a `Send` is neither a single `ZSuperArgs` nor a single
`MethodDef`, the two shapes that `postTransformSend` treats before it looks at the
function. -/
def plainArgs : List Expression → Bool
  | [.ZSuperArgs _] => false
  | [.MethodDef _] => false
  | _ => true

/-- Whether an argument is a symbol literal. -/
def isSymbolLiteral : Expression → Bool
  | .Literal lit => lit.isSymbol
  | _ => false

/-- The name that a symbol literal holds. -/
def symbolName : Expression → NameRef
  | .Literal lit => lit.asSymbol
  | _ => NameRef.noName

/-- The names of the symbol literals among the arguments, in order. -/
def symbolNames (args : List Expression) : List NameRef :=
  (args.filter isSymbolLiteral).map symbolName

/-- One `DynamicDSLInvocation` error for every argument that is not a symbol literal, in
order, each at its argument. -/
def dynamicArgErrors (args : List Expression) : List Error :=
  (args.filter (fun a => !isSymbolLiteral a)).map
    (fun a => ⟨a.loc, ErrorClass.DynamicDSLInvocation⟩)

/-- The alias that an argument list asks for: the two names when the arguments are exactly
two symbol literals. -/
def aliasRequest : List Expression → Option (NameRef × NameRef)
  | [a, b] =>
    if isSymbolLiteral a && isSymbolLiteral b then some (symbolName a, symbolName b) else none
  | _ => none

/-- The errors of `alias_method` about the argument list as a whole: `InvalidAlias` at the
call when there are not two arguments; `MethodNotFound` at the second argument when there
are two symbol literals and the second is not a member of the method owner. -/
def aliasErrors (ctx : MutableContext) (original : Send) : List Error :=
  if original.args.length ≠ 2 then [⟨original.loc, ErrorClass.InvalidAlias⟩]
  else
    match aliasRequest original.args with
    | some (_, b) =>
      if (ctx.state.findMember (NameInserter.methodOwner ctx) b).exists then []
      else [⟨(original.args.getD 1 Expression.EmptyTree).loc, ErrorClass.MethodNotFound⟩]
    | none => []

/-- The owner that `preTransformBlock` resolves for a block, and the table afterwards: the
static-init method of the file at the top level, the singleton class at class level, else
the current owner. -/
def blockOwner (ctx : MutableContext) (blk : Block) : SymbolRef × GlobalState :=
  if ctx.owner == Symbols.noSymbol || ctx.owner == Symbols.root then
    ctx.state.staticInitForFile blk.loc
  else if (ctx.state.data ctx.owner).isClass then ctx.state.singletonClass ctx.owner
  else (ctx.owner, ctx.state)

/-- The incremented `uniqueCounter` of the owner of a block. -/
def blockCounter (ctx : MutableContext) (blk : Block) : Nat :=
  (((blockOwner ctx blk).2.data (blockOwner ctx blk).1).uniqueCounter + 1) % 2 ^ 32

/-- The name of the symbol of a block. -/
def blockName (ctx : MutableContext) (blk : Block) : NameRef :=
  NameRef.unique UniqueNameKind.Namer NameRef.blockTemp (blockCounter ctx blk)

/-- The symbol that `preTransformBlock` enters for a block, and the table afterwards. -/
def blockEntered (ctx : MutableContext) (blk : Block) : SymbolRef × GlobalState :=
  ((blockOwner ctx blk).2.update (blockOwner ctx blk).1
      (fun d => { d with uniqueCounter := blockCounter ctx blk })).enterMethodSymbol blk.loc
    (blockOwner ctx blk).1 (blockName ctx blk)

/-- The frame that `preTransformBlock` pushes, before the parameters of the block are
filled in: a fresh scope id, the `args` and the `locals` of the enclosing frame. -/
def blockFrame (self : NameInserter) (outer : LocalFrame) : LocalFrame :=
  { scopeId := self.scopeCounter, args := outer.args, locals := outer.locals }

/-- The singleton class that `handleNamerDSL` marks for `abstract!` and `interface!`, and
the table in which it is allocated: the class symbol has been marked abstract before. -/
def declaredSingleton (ctx : MutableContext) (klass : ClassDef) : SymbolRef × GlobalState :=
  (ctx.state.update klass.symbol (fun d => { d with classAbstract := true })).singletonClass
    klass.symbol

/-- What is known of a run of a handler or of a walk: a normal result satisfies `P`, and an
abort is not the abort of an empty stack. -/
@[irreducible]
def Outcome {α : Type} (x : Except Abort α) (P : α → Prop) : Prop :=
  match x with
  | .ok v => P v
  | .error a => a ≠ Abort.emptyStack

/-- What a walk may do to a scope frame that stays on the stack: the scope id and the
`args` are kept, `moduleFunctionActive` is never cleared, and a name that `locals` binds
stays bound to the same variable. -/
structure FrameKept (t t' : LocalFrame) : Prop where
  scopeId : t'.scopeId = t.scopeId
  args : t'.args = t.args
  flag : t.moduleFunctionActive = true → t'.moduleFunctionActive = true
  locals : ∀ n, (t.locals.find n).exists = true → t'.locals.find n = t.locals.find n

/-- What a walk may do to the block-argument stack: nothing, or a use of the block
parameter of the top frame. -/
def BlockKept (B B' : List BlockArgs) : Prop :=
  B' = B ∨ ∃ b rest loc, B = b :: rest ∧ B' = frameAfterUse b loc :: rest

/-- What the walk of a subtree does to the stacks of the `NameInserter`: the scope stack is
not empty before and after, the frames below its top are the same, the top frame is kept
(`FrameKept`), and the block-argument stack is kept (`BlockKept`). -/
structure Kept (self r : NameInserter) : Prop where
  stack : ∃ t t' S, self.scopeStack = t :: S ∧ r.scopeStack = t' :: S ∧ FrameKept t t'
  blocks : BlockKept self.blockArgStack r.blockArgStack

/-- The stack discipline of a walker: on a non-empty scope stack a visit never reads an
empty stack and keeps the stacks (`Kept`). -/
def Visits (visit : NameInserter → MutableContext → Expression →
    Except Abort (Expression × NameInserter × GlobalState)) : Prop :=
  ∀ self ctx e, self.scopeStack ≠ [] →
    Outcome (visit self ctx e) (fun r => Kept self r.2.1)

/-- The pass after the loop of `fillInArgs` has recorded the local variable `lv` of an
argument named `name`: the top frame binds the name to it and lists it last in `args`. -/
def argRecorded (self : NameInserter) (name : NameRef) (lv : LocalVariable) : NameInserter :=
  match self.scopeStack with
  | [] => self
  | top :: rest =>
    { self with
      scopeStack :=
        { top with locals := top.locals.set name lv, args := top.args ++ [lv] } :: rest }

/-- The table after the loop of `fillInArgs` has dealt with the symbol `s` that `arg2Symbol`
returned for position `i`: the symbol is appended to the arguments of the owner unless the
owner has an argument at that position already. -/
def argListed (gs : GlobalState) (owner : SymbolRef) (i : Nat) (s : SymbolRef) : GlobalState :=
  if i < (gs.data owner).arguments.length then gs
  else gs.update owner (fun o => { o with arguments := o.arguments ++ [s] })

/-- The calls that the loop of `fillInArgs` makes for the arguments at positions `i`
onwards, in order, each in the state of the pass and in the table that the calls before it
have left: for a shadow argument the local variable of `enterLocal`, giving a bare `Local`
and no symbol; for every other argument the call `arg2Symbol(i, arg)`, giving its node and
its symbol. The result is the list of nodes, the list of symbols that `arg2Symbol`
returned, and the last table. -/
def argsEntered (owner : SymbolRef) :
    List ParsedArg → Nat → NameInserter → GlobalState →
      Except Abort (List Expression × List SymbolRef × GlobalState)
  | [], _, _, gs => pure ([], [], gs)
  | a :: rest, i, self, gs => do
    let lv ← NameInserter.enterLocal self ⟨gs, owner⟩ a.name
    if a.shadow then do
      let r ← argsEntered owner rest (i + 1) (argRecorded self a.name lv) gs
      pure (Expression.Local ⟨a.loc, lv⟩ :: r.1, r.2.1, r.2.2)
    else do
      let p ← NameInserter.arg2Symbol self ⟨gs, owner⟩ i a
      let r ← argsEntered owner rest (i + 1) (argRecorded self a.name lv)
        (argListed p.2.2 owner i p.1)
      pure (p.2.1 :: r.1, p.1 :: r.2.1, r.2.2)

/-- The node of a parsed argument whose symbol is entered, with the local variables `lv`: a
bare `Local` for a shadow argument, else the node of `Spec.argNode`. -/
def enteredNode (lv : NameRef → LocalVariable) (a : ParsedArg) : Expression :=
  if a.shadow then Expression.Local ⟨a.loc, lv a.name⟩ else argNode a (lv a.name)

end Spec

/-! ## Concrete programs -/

namespace Examples

/-- The table of a run, or `gs` when the run aborted. -/
def tableAfter (r : Except Abort (Expression × GlobalState)) (gs : GlobalState) : GlobalState :=
  match r with
  | .ok x => x.2
  | .error _ => gs

/-- The tree of a run, or `EmptyTree` when the run aborted. -/
def treeAfter (r : Except Abort (Expression × GlobalState)) : Expression :=
  match r with
  | .ok x => x.1
  | .error _ => Expression.EmptyTree

/-- Whether a run ended normally. -/
def succeeded {α : Type} (r : Except Abort α) : Bool :=
  match r with
  | .ok _ => true
  | .error _ => false

/-- The abort of a run, if any. -/
def abortOf {α : Type} (r : Except Abort α) : Option Abort :=
  match r with
  | .ok _ => none
  | .error e => some e

/-- The constant `id` written without a scope. -/
def cnst (file pos id : Nat) : Expression :=
  .UnresolvedConstantLit { loc := ⟨file, pos⟩, scope := .EmptyTree, cnst := NameRef.utf8 id }

/-- The root `ClassDef` that the desugarer puts around the statements of a file. -/
def fileTree (file : Nat) (rhs : List Expression) : Expression :=
  .ClassDef
    { loc := ⟨file, 0⟩, declLoc := ⟨file, 0⟩, symbol := Symbols.root, kind := ClassDefKind.Class,
      name := .EmptyTree, ancestors := [], singleton_ancestors := [], rhs := rhs }

/-- A class or module definition `class id; rhs; end` as the desugarer emits it. -/
def classDef (file pos : Nat) (kind : ClassDefKind) (id : Nat) (rhs : List Expression) :
    ClassDef :=
  { loc := ⟨file, pos⟩, declLoc := ⟨file, pos⟩, symbol := Symbols.todo, kind := kind,
    name := cnst file pos id, ancestors := [], singleton_ancestors := [], rhs := rhs }

/-- A method definition `def id(args); rhs; end`. -/
def methodDef (file pos id : Nat) (args : List Expression) (rhs : Expression) : MethodDef :=
  { loc := ⟨file, pos⟩, declLoc := ⟨file, pos⟩, symbol := Symbols.todo, name := NameRef.utf8 id,
    args := args, rhs := rhs, isSelf := false, isDSLSynthesized := false }

/-- A call `self.fun_(args)` without a block. -/
def selfSend (file pos : Nat) (fun_ : NameRef) (args : List Expression) : Expression :=
  .Send
    { loc := ⟨file, pos⟩, recv := .Self ⟨⟨file, pos⟩, Symbols.noSymbol⟩, fun_ := fun_,
      args := args, block := none }

/-- The symbols attached to the class definitions at the top level of a named file. -/
def topLevelClassSymbols : Expression → List SymbolRef
  | .InsSeq n =>
    match n.expr with
    | .ClassDef k =>
      k.rhs.filterMap fun e =>
        match e with
        | .InsSeq m =>
          match m.expr with
          | .ClassDef c => some c.symbol
          | _ => none
        | _ => none
    | _ => []
  | _ => []

/-- The symbols attached to the method definitions at the top level of a named file. -/
def topLevelMethodSymbols : Expression → List SymbolRef
  | .InsSeq n =>
    match n.expr with
    | .ClassDef k =>
      k.rhs.filterMap fun e =>
        match e with
        | .MethodDef m => some m.symbol
        | _ => none
    | _ => []
  | _ => []

/-- The first class definition at the top level of a named file. -/
def firstClassDef : Expression → Option ClassDef
  | .InsSeq n =>
    match n.expr with
    | .ClassDef k =>
      k.rhs.findSome? fun e =>
        match e with
        | .InsSeq m =>
          match m.expr with
          | .ClassDef c => some c
          | _ => none
        | _ => none
    | _ => none
  | _ => none

/-- The file `class C; include A; include B, D; end`, with the identifiers
`C = 20`, `A = 21`, `B = 22`, `D = 23`. -/
def mixinFile : Expression :=
  fileTree 1
    [.ClassDef (classDef 1 1 ClassDefKind.Class 20
      [selfSend 1 2 NameRef.include_ [cnst 1 3 21],
       selfSend 1 4 NameRef.include_ [cnst 1 5 22, cnst 1 6 23]])]

/-- The class definition of `mixinFile`, attached to the symbol of `Object`. -/
def mixinClassDef : ClassDef :=
  { classDef 1 1 ClassDefKind.Class 20
      [selfSend 1 2 NameRef.include_ [cnst 1 3 21],
       selfSend 1 4 NameRef.include_ [cnst 1 5 22, cnst 1 6 23]] with
    symbol := Symbols.Object }

/-- The file `class C; include; end`: an `include` without arguments. -/
def emptyIncludeFile : Expression :=
  fileTree 1 [.ClassDef (classDef 1 1 ClassDefKind.Class 20 [selfSend 1 2 NameRef.include_ []])]

/-- A parameter or local identifier `id`. -/
def ident (file pos id : Nat) : Expression :=
  .UnresolvedIdent { loc := ⟨file, pos⟩, kind := IdentKind.Local, name := NameRef.utf8 id }

/-- The method `def f; yield; end` (`f` is the identifier 1). -/
def yieldMethod : MethodDef := methodDef 1 1 1 [] (.Yield { loc := ⟨1, 2⟩, args := [] })

/-- The file `def f; yield; end`. -/
def yieldFile : Expression := fileTree 1 [.MethodDef yieldMethod]

/-- The table after `yieldFile` has been named once. -/
def yieldTable : GlobalState :=
  tableAfter (Namer.run ⟨GlobalState.initial, Symbols.root⟩ yieldFile) GlobalState.initial

/-- The state of the `NameInserter` when the walk reaches the statements of a file: the
constructor has run and `preTransformClassDef` has entered the root definition. -/
def atFileBody : NameInserter :=
  NameInserter.enterScope { NameInserter.init with scopeCounter := 0 }

/-- What the second visit of `yieldMethod` does, handler by handler: the number of AST
arguments and of argument symbols after `preTransformMethodDef`, and the outcome of
`postTransformMethodDef` after the `yield` has been visited. -/
def yieldSecondVisit : Option (Nat × Nat × Option Abort) :=
  match NameInserter.preTransformMethodDef atFileBody ⟨yieldTable, Symbols.root⟩ yieldMethod with
  | .ok p =>
    match NameInserter.postTransformYield p.2.1 ⟨p.2.2, p.1.symbol⟩ { loc := ⟨1, 2⟩, args := [] } with
    | .ok y =>
      some (p.1.args.length, (p.2.2.data p.1.symbol).arguments.length,
        abortOf (NameInserter.postTransformMethodDef y.2 ⟨p.2.2, Symbols.root⟩ p.1))
    | .error _ => none
  | .error _ => none

/-- The file `def f; end; def f(a); end` (`f` is the identifier 1, `a` is 2). -/
def redefinitionFile : Expression :=
  fileTree 1
    [.MethodDef (methodDef 1 1 1 [] .EmptyTree),
     .MethodDef (methodDef 1 5 1 [ident 1 6 2] .EmptyTree)]

/-- The table after `redefinitionFile` has been named once. -/
def redefinitionTable : GlobalState :=
  tableAfter (Namer.run ⟨GlobalState.initial, Symbols.root⟩ redefinitionFile)
    GlobalState.initial

/-- The method `def g(a, k:); end` (`g` is the identifier 3, `a` is 2, `k` is 4). -/
def plainMethod : MethodDef :=
  methodDef 1 1 3 [ident 1 2 2, .KeywordArg { loc := ⟨1, 3⟩, expr := ident 1 3 4 }] .EmptyTree

/-- The file `def g(a, k:); end`. -/
def plainFile : Expression := fileTree 1 [.MethodDef plainMethod]

/-- The table after `plainFile` has been named once. -/
@[irreducible]
def plainTable : GlobalState :=
  tableAfter (Namer.run ⟨GlobalState.initial, Symbols.root⟩ plainFile) GlobalState.initial

/-- The constant path `A::B` (identifiers 30 and 31). -/
def nestedPath : UnresolvedConstantLit :=
  { loc := ⟨1, 2⟩, cnst := NameRef.utf8 31,
    scope := .UnresolvedConstantLit { loc := ⟨1, 1⟩, scope := .EmptyTree, cnst := NameRef.utf8 30 } }


/-- The result of squashing `A::B` under the root of the initial table. -/
def nestedSquash : SymbolRef × Expression × GlobalState :=
  match squashNames GlobalState.initial Symbols.root
      (Expression.UnresolvedConstantLit nestedPath) with
  | .ok r => r
  | .error _ => (Symbols.noSymbol, Expression.EmptyTree, GlobalState.initial)


/-- The method `def f; yield; yield; end` (`f` is the identifier 1). -/
def yieldTwice : MethodDef :=
  methodDef 1 1 1 []
    (.InsSeq { loc := ⟨1, 1⟩, stats := [.Yield { loc := ⟨1, 2⟩, args := [] }],
               expr := .Yield { loc := ⟨1, 3⟩, args := [] } })

/-- The method `def f(&blk); yield; end` (`blk` is the identifier 2). -/
def declaredBlock : MethodDef :=
  methodDef 1 1 1 [.BlockArg { loc := ⟨1, 1⟩, expr := ident 1 1 2 }]
    (.Yield { loc := ⟨1, 2⟩, args := [] })

/-- The `Local` arguments of the method definitions at the top level of a named file. -/
def topLevelMethodArgs : Expression → List (List (Option LocalNode))
  | .InsSeq n =>
    match n.expr with
    | .ClassDef k =>
      k.rhs.filterMap fun e =>
        match e with
        | .MethodDef m =>
          some (m.args.map fun a =>
            match a with
            | .Local l => some l
            | _ => none)
        | _ => none
    | _ => []
  | _ => []

/-- The receiver of the call that the body of each top-level method consists of. -/
def topLevelMethodBodyRecv : Expression → List (Option LocalNode)
  | .InsSeq n =>
    match n.expr with
    | .ClassDef k =>
      k.rhs.filterMap fun e =>
        match e with
        | .MethodDef m =>
          match m.rhs with
          | .Send s =>
            match s.recv with
            | .Local l => some (some l)
            | _ => some none
          | _ => some none
        | _ => none
    | _ => []
  | _ => []

/-- The run of the namer on the file `def f; yield; yield; end`. -/
def yieldTwiceRun : Except Abort (Expression × GlobalState) :=
  Namer.run ⟨GlobalState.initial, Symbols.root⟩ (fileTree 1 [.MethodDef yieldTwice])

/-- The run of the namer on the file `def f(&blk); yield; end`. -/
def declaredBlockRun : Except Abort (Expression × GlobalState) :=
  Namer.run ⟨GlobalState.initial, Symbols.root⟩ (fileTree 1 [.MethodDef declaredBlock])

/-- What `preTransformMethodDef` returns for `yieldTwice` in the body of `class Object`
over the initial table. -/
def yieldTwicePre : MethodDef × NameInserter × GlobalState :=
  match NameInserter.preTransformMethodDef atFileBody ⟨GlobalState.initial, Symbols.Object⟩
      yieldTwice with
  | .ok p => p
  | .error _ => (yieldTwice, atFileBody, GlobalState.initial)

/-- The two `yield`s of `yieldTwice`, each with the context it is visited in. -/
def yieldTwiceUses : List (MutableContext × Spec.BlockUse) :=
  [(⟨yieldTwicePre.2.2, yieldTwicePre.1.symbol⟩, .yield { loc := ⟨1, 2⟩, args := [] }),
   (⟨yieldTwicePre.2.2, yieldTwicePre.1.symbol⟩, .yield { loc := ⟨1, 3⟩, args := [] })]

/-- File A of the open class: `class Foo; def a; end; end` (`a` is the identifier 41). -/
def openClassA : ClassDef :=
  classDef 1 1 ClassDefKind.Class 10 [.MethodDef (methodDef 1 2 41 [] .EmptyTree)]

/-- File B of the open class: `class Foo; def b; end; end` (`b` is the identifier 42). -/
def openClassB : ClassDef :=
  classDef 2 1 ClassDefKind.Class 10 [.MethodDef (methodDef 2 2 42 [] .EmptyTree)]

/-- The result of squashing the name `Foo` of `openClassA` under the root of the initial
table. -/
def fooSquash : SymbolRef × Expression × GlobalState :=
  match squashNames GlobalState.initial Symbols.root openClassA.name with
  | .ok r => r
  | .error _ => (Symbols.noSymbol, Expression.EmptyTree, GlobalState.initial)

/-- The table after file A of the open class has been named. -/
def openClassTableA : GlobalState :=
  tableAfter (Namer.run ⟨GlobalState.initial, Symbols.root⟩ (fileTree 1 [.ClassDef openClassA]))
    GlobalState.initial

/-- The run of the namer on file B of the open class after file A. -/
def openClassRunB : Except Abort (Expression × GlobalState) :=
  Namer.run ⟨openClassTableA, Symbols.root⟩ (fileTree 2 [.ClassDef openClassB])

/-- File A of the class/module clash: `class Foo; end` (`Foo` is the identifier 10). -/
def clashFileA : Expression := fileTree 1 [.ClassDef (classDef 1 1 ClassDefKind.Class 10 [])]

/-- The second definition of the clash, in file B: `module Foo; end`. -/
def clashModuleFoo : ClassDef := classDef 2 1 ClassDefKind.Module 10 []

/-- File B of the class/module clash. -/
def clashFileB : Expression := fileTree 2 [.ClassDef clashModuleFoo]

/-- The table after file A of the clash has been named. -/
def clashTableA : GlobalState :=
  tableAfter (Namer.run ⟨GlobalState.initial, Symbols.root⟩ clashFileA) GlobalState.initial

/-- The statement `private def f; end`: a send of `private` whose only argument is a
method definition already named with the symbol 7. -/
def privateDef : Send :=
  { loc := ⟨1, 1⟩, recv := .Self ⟨⟨1, 1⟩, Symbols.noSymbol⟩, fun_ := NameRef.private_,
    args := [.MethodDef { methodDef 1 1 1 [] .EmptyTree with symbol := 7 }], block := none }

/-- The parameter `a: nil` as the parser emits it: `KeywordArg(OptionalArg(a, nil))`
(`a` is the identifier 2). -/
def keywordOptionalArg : Expression :=
  .KeywordArg
    { loc := ⟨1, 1⟩,
      expr := .OptionalArg { loc := ⟨1, 1⟩, expr := ident 1 1 2, default_ := MK.Nil ⟨1, 2⟩ } }

/-- The descriptor of the keyword parameter `a:` (`a` is the identifier 2). -/
def keywordParsedArg : ParsedArg := { name := NameRef.utf8 2, loc := ⟨1, 1⟩, keyword := true }

/-- The left-hand side `X` of a type-member definition, `X = 30`. -/
def typeNameX : UnresolvedConstantLit :=
  { loc := ⟨1, 2⟩, scope := .EmptyTree, cnst := NameRef.utf8 30 }

/-- A call `self.fun_(args)` of a type-member definition. -/
def typeSend (fun_ : NameRef) (args : List Expression) : Send :=
  { loc := ⟨1, 3⟩, recv := .Self ⟨⟨1, 3⟩, Symbols.noSymbol⟩, fun_ := fun_, args := args,
    block := none }

/-- The assignment `X = rhs`. -/
def typeAssign (rhs : Send) : Assign :=
  { loc := ⟨1, 1⟩, lhs := .UnresolvedConstantLit typeNameX, rhs := .Send rhs }

/-- The symbol literal `:out`. -/
def outLiteral : Expression := .Literal ⟨⟨1, 4⟩, .symbol NameRef.covariant⟩

/-- The hash `{fixed: Integer}`, with `Integer = 20`. -/
def fixedHash : Expression :=
  .Hash { loc := ⟨1, 5⟩, keys := [.Literal ⟨⟨1, 5⟩, .symbol NameRef.fixed⟩], values := [cnst 1 6 20] }

/-- The hash `{lower: Integer}` without a key `fixed`, with `lower = 31`. -/
def lowerHash : Expression :=
  .Hash { loc := ⟨1, 5⟩, keys := [.Literal ⟨⟨1, 5⟩, .symbol (NameRef.utf8 31)⟩],
          values := [cnst 1 6 20] }

/-- The call `self.type_member(:out, fixed: Integer)`. -/
def typeMemberOut : Send := typeSend NameRef.typeMember [outLiteral, fixedHash]

/-- The errors and the type members of the holder `holder` after a type-member definition
was handled, with whether the returned node is `EmptyTree`. -/
def typeMemberOutcome (r : Expression × GlobalState) (holder : SymbolRef) :
    Bool × List Error × List SymbolRef :=
  (r.1.isEmptyTree, r.2.errors, (r.2.data holder).typeMembers)

/-- The table in which `Object` has the type member `X`: the table after
`X = self.type_member(:out, fixed: Integer)` was handled in `Object`. -/
def typeMemberTable : GlobalState :=
  (NameInserter.handleTypeMemberDefinition ⟨GlobalState.initial, Symbols.Object⟩ typeMemberOut
    (typeAssign typeMemberOut) typeNameX).2

/-- The constant `Object` written without a scope. -/
def objectConstant : UnresolvedConstantLit :=
  { loc := ⟨1, 1⟩, scope := .EmptyTree, cnst := NameRef.Object }

/-- The assignment `Object = nil`. -/
def objectAssign : Assign :=
  { loc := ⟨1, 0⟩, lhs := .UnresolvedConstantLit objectConstant, rhs := MK.Nil ⟨1, 2⟩ }

/-- The assignment `a = nil` to a local variable. -/
def localAssign : Assign :=
  { loc := ⟨1, 0⟩, lhs := .Local ⟨⟨1, 1⟩, ⟨NameRef.utf8 2, 0⟩⟩, rhs := MK.Nil ⟨1, 2⟩ }

/-- The method `def f(a = nil); end` (`f = 1`, `a = 2`). -/
def optionalMethod : MethodDef :=
  methodDef 1 1 1 [.OptionalArg ⟨⟨1, 2⟩, ident 1 2 2, MK.Nil ⟨1, 3⟩⟩] .EmptyTree

/-- The file with the single method `def f(a = nil); end`. -/
def optionalFile : Expression := fileTree 1 [.MethodDef optionalMethod]

/-- The table after `optionalFile` has been named once. -/
def optionalTable : GlobalState :=
  tableAfter (Namer.run ⟨GlobalState.initial, Symbols.root⟩ optionalFile) GlobalState.initial

/-- The parsed argument `a = nil`. -/
def optionalParsedArg : ParsedArg :=
  { name := NameRef.utf8 2, loc := ⟨1, 2⟩, default_ := some (MK.Nil ⟨1, 3⟩) }

/-- A plain parsed argument `b` (`b = 3`). -/
def plainParsedArg : ParsedArg := { name := NameRef.utf8 3, loc := ⟨1, 4⟩ }

/-- A shadow parsed argument `c` (`c = 4`), as in the block parameters `|b; c|`. -/
def shadowParsedArg : ParsedArg := { name := NameRef.utf8 4, loc := ⟨1, 5⟩, shadow := true }

/-- The call `self.include(B, D)` (`B = 22`, `D = 23`). -/
def includeTwo : Send :=
  { loc := ⟨1, 4⟩, recv := .Self ⟨⟨1, 4⟩, Symbols.noSymbol⟩, fun_ := NameRef.include_,
    args := [cnst 1 5 22, cnst 1 6 23], block := none }

/-- The call `self.block_given?`. -/
def blockGivenSend : Send :=
  { loc := ⟨1, 2⟩, recv := .Self ⟨⟨1, 2⟩, Symbols.noSymbol⟩, fun_ := NameRef.blockGiven_p,
    args := [], block := none }

/-- The call `self.alias_method(:h, :g)` (`h` is the identifier 5, `g` is 3). -/
def aliasSend : Send :=
  { loc := ⟨1, 2⟩, recv := .Self ⟨⟨1, 2⟩, Symbols.noSymbol⟩, fun_ := NameRef.aliasMethod,
    args := [.Literal ⟨⟨1, 3⟩, .symbol (NameRef.utf8 5)⟩,
             .Literal ⟨⟨1, 4⟩, .symbol (NameRef.utf8 3)⟩],
    block := none }

/-- The call `self.alias_method(def f; end)`, whose only argument is a method definition. -/
def aliasOfDef : Send :=
  { loc := ⟨1, 2⟩, recv := .Self ⟨⟨1, 2⟩, Symbols.noSymbol⟩, fun_ := NameRef.aliasMethod,
    args := [.MethodDef { methodDef 1 3 1 [] .EmptyTree with symbol := 7 }], block := none }

/-- The call `super` with implicit arguments (`super` is the identifier 9). -/
def zsuperSend : Send :=
  { loc := ⟨1, 5⟩, recv := .Self ⟨⟨1, 5⟩, Symbols.noSymbol⟩, fun_ := NameRef.utf8 9,
    args := [.ZSuperArgs ⟨1, 5⟩], block := none }

/-- The block `{ |x| super }` (`x` is the identifier 4). -/
def superBlock : Block :=
  { loc := ⟨1, 4⟩, symbol := Symbols.noSymbol, args := [ident 1 4 4], body := .Send zsuperSend }

/-- The file `def f(a); g { |x| super }; end` (`f` is the identifier 1, `a` is 2, `g` is
3). -/
def superInBlockFile : Expression :=
  fileTree 1
    [.MethodDef (methodDef 1 1 1 [ident 1 2 2]
      (.Send { loc := ⟨1, 3⟩, recv := .Self ⟨⟨1, 3⟩, Symbols.noSymbol⟩, fun_ := NameRef.utf8 3,
               args := [], block := some superBlock }))]

/-- The `Local` arguments of the calls in the bodies of the blocks of the calls that the
top-level methods of a named file consist of. -/
def callsInBlocks : Expression → List (List (Option LocalNode))
  | .InsSeq n =>
    match n.expr with
    | .ClassDef k =>
      k.rhs.filterMap fun e =>
        match e with
        | .MethodDef m =>
          match m.rhs with
          | .Send s =>
            match s.block with
            | some b =>
              match b.body with
              | .Send inner =>
                some (inner.args.map fun a =>
                  match a with
                  | .Local l => some l
                  | _ => none)
              | _ => none
            | none => none
          | _ => none
        | _ => none
    | _ => []
  | _ => []

/-- The assignment `X = self.type_alias()` (`X` is the identifier 30). -/
def selfAliasAssign : Assign :=
  { loc := ⟨1, 0⟩, lhs := .UnresolvedConstantLit typeNameX,
    rhs := .Send { loc := ⟨1, 3⟩, recv := .Self ⟨⟨1, 3⟩, Symbols.noSymbol⟩,
                   fun_ := NameRef.typeAlias, args := [], block := none } }

/-- The assignment `X = T.type_alias()` (`T` is the identifier 32). -/
def constAliasAssign : Assign :=
  { loc := ⟨1, 0⟩, lhs := .UnresolvedConstantLit typeNameX,
    rhs := .Send { loc := ⟨1, 3⟩, recv := cnst 1 3 32,
                   fun_ := NameRef.typeAlias, args := [], block := none } }

/-- The statement `interface!` written as a call on the constant `T` with an argument and a
block (`T` is the identifier 32). -/
def interfaceSend : Send :=
  { loc := ⟨1, 3⟩, recv := cnst 1 3 32, fun_ := NameRef.declareInterface,
    args := [MK.Nil ⟨1, 4⟩],
    block := some { loc := ⟨1, 5⟩, symbol := Symbols.noSymbol, args := [],
                    body := .EmptyTree } }

/-- The definition `class Object` with its symbol resolved. -/
def objectClassDef : ClassDef :=
  { classDef 1 1 ClassDefKind.Class 10 [] with symbol := Symbols.Object }

/-- The symbol literal `:v`, which names no variance (`v` is the identifier 33). -/
def badVariance : Expression := .Literal ⟨⟨1, 4⟩, .symbol (NameRef.utf8 33)⟩

/-- The depths of the scope stack and of the block-argument stack after a walk. -/
def depthsAfter (r : Except Abort (Expression × NameInserter × GlobalState)) :
    Option (Nat × Nat) :=
  match r with
  | .ok x => some (x.2.1.scopeStack.length, x.2.1.blockArgStack.length)
  | .error _ => none

/-- The file `class A; def f; g { |x| yield }; end; end` (`A` is the identifier 10, `f` is
1, `g` is 3, `x` is 4). -/
def nestedScopesFile : Expression :=
  fileTree 1
    [.ClassDef (classDef 1 1 ClassDefKind.Class 10
      [.MethodDef (methodDef 1 2 1 []
        (.Send { loc := ⟨1, 3⟩, recv := .Self ⟨⟨1, 3⟩, Symbols.noSymbol⟩,
                 fun_ := NameRef.utf8 3, args := [],
                 block := some { loc := ⟨1, 4⟩, symbol := Symbols.noSymbol,
                                 args := [ident 1 4 4],
                                 body := .Yield { loc := ⟨1, 5⟩, args := [] } } }))])]

/-- The call `self.f { x }` at position `pos`: a block without parameters whose body is
the identifier `x`. -/
def blockWithLocal (pos f x : Nat) : Expression :=
  .Send { loc := ⟨1, pos⟩, recv := .Self ⟨⟨1, pos⟩, Symbols.noSymbol⟩, fun_ := NameRef.utf8 f,
          args := [],
          block := some { loc := ⟨1, pos + 1⟩, symbol := Symbols.noSymbol, args := [],
                          body := ident 1 (pos + 2) x } }

/-- The definition `class << self; def m; end; end` (`m` is the identifier 5). -/
def singletonWithMethod : Expression :=
  .ClassDef
    { loc := ⟨1, 20⟩, declLoc := ⟨1, 20⟩, symbol := Symbols.todo, kind := ClassDefKind.Class,
      name := .UnresolvedIdent ⟨⟨1, 20⟩, IdentKind.Class, NameRef.singleton⟩,
      ancestors := [], singleton_ancestors := [],
      rhs := [.MethodDef (methodDef 1 21 5 [] .EmptyTree)] }

/-- The file `def f; g { x }; h { x }; end` (`f` is the identifier 1, `g` is 3, `h` is 6,
`x` is 4). -/
def twoBlocksFile : Expression :=
  fileTree 1
    [.MethodDef (methodDef 1 1 1 []
      (.InsSeq { loc := ⟨1, 1⟩, stats := [blockWithLocal 10 3 4],
                 expr := blockWithLocal 30 6 4 }))]

/-- The file `def f; g { x }; class << self; def m; end; end; h { x }; end`. -/
def twoBlocksAroundClassFile : Expression :=
  fileTree 1
    [.MethodDef (methodDef 1 1 1 []
      (.InsSeq { loc := ⟨1, 1⟩, stats := [blockWithLocal 10 3 4, singletonWithMethod],
                 expr := blockWithLocal 30 6 4 }))]

/-- The `Local` that the body of the block of a call consists of. -/
def sendBlockLocal : Expression → Option LocalNode
  | .Send s =>
    match s.block with
    | some b =>
      match b.body with
      | .Local l => some l
      | _ => none
    | none => none
  | _ => none

/-- The `Local`s that the bodies of the blocks of the calls in the bodies of the top-level
methods of a named file consist of. -/
def blockLocals : Expression → List LocalNode
  | .InsSeq n =>
    match n.expr with
    | .ClassDef k =>
      (k.rhs.map fun e =>
        match e with
        | .MethodDef m =>
          match m.rhs with
          | .InsSeq body => (body.stats ++ [body.expr]).filterMap sendBlockLocal
          | _ => []
        | _ => []).flatten
    | _ => []
  | _ => []

/-- The block `h { x }` inside a block `g { ...; h { x }; x }` at the top level of a file,
with the statements `pre` before it (`g` is the identifier 3, `h` is 6, `x` is 4). -/
def blockInBlockFile (pre : List Expression) : Expression :=
  fileTree 1
    [.Send { loc := ⟨1, 1⟩, recv := .Self ⟨⟨1, 1⟩, Symbols.noSymbol⟩, fun_ := NameRef.utf8 3,
             args := [],
             block := some { loc := ⟨1, 2⟩, symbol := Symbols.noSymbol, args := [],
                             body := .InsSeq { loc := ⟨1, 3⟩,
                                               stats := pre ++ [blockWithLocal 30 6 4],
                                               expr := ident 1 40 4 } } }]

/-- The `Local`s of a named file of the shape of `blockInBlockFile`: those of the bodies of
the inner blocks, then the one that ends the body of the outer block. -/
def blockInBlockLocals : Expression → List LocalNode
  | .InsSeq n =>
    match n.expr with
    | .ClassDef k =>
      (k.rhs.map fun e =>
        match e with
        | .Send s =>
          match s.block with
          | some b =>
            match b.body with
            | .InsSeq body =>
              body.stats.filterMap sendBlockLocal ++
                (match body.expr with
                 | .Local l => [l]
                 | _ => [])
            | _ => []
          | none => []
        | _ => []).flatten
    | _ => []
  | _ => []

/-- The block `{ |x| }` (`x` is the identifier 4). -/
def paramBlock : Block :=
  { loc := ⟨1, 4⟩, symbol := Symbols.noSymbol, args := [ident 1 4 4], body := .EmptyTree }

/-- The file
`module M; def a; end; module_function; def b; end; class C; def c; end; end; def d; end; end`
(`M` is the identifier 10, `C` is 11, `a`, `b`, `c`, `d` are 41 to 44). -/
def moduleFunctionFile : Expression :=
  fileTree 1
    [.ClassDef (classDef 1 1 ClassDefKind.Module 10
      [.MethodDef (methodDef 1 2 41 [] .EmptyTree),
       selfSend 1 3 NameRef.moduleFunction [],
       .MethodDef (methodDef 1 4 42 [] .EmptyTree),
       .ClassDef (classDef 1 5 ClassDefKind.Class 11
         [.MethodDef (methodDef 1 6 43 [] .EmptyTree)]),
       .MethodDef (methodDef 1 7 44 [] .EmptyTree)])]

/-- The table after `moduleFunctionFile` has been named from the initial table. -/
def moduleFunctionTable : GlobalState :=
  tableAfter (Namer.run ⟨GlobalState.initial, Symbols.root⟩ moduleFunctionFile)
    GlobalState.initial

/-- The symbol of the module `M` of `moduleFunctionFile`. -/
def moduleM : SymbolRef := moduleFunctionTable.findMember Symbols.root (NameRef.utf8 10)

/-- The symbol of the class `C` of `moduleFunctionFile`. -/
def classC : SymbolRef := moduleFunctionTable.findMember moduleM (NameRef.utf8 11)

/-- Which of the methods `names` of the class `k` have an alias on the singleton class of
`k`: a member of the singleton class under the same name whose result type is the alias
of the method. -/
def aliasedOnSingleton (gs : GlobalState) (k : SymbolRef) (names : List Nat) : List Nat :=
  names.filter fun n =>
    (gs.data ((gs.data (gs.findMember k NameRef.singleton)).members.find
        (NameRef.utf8 n))).resultType ==
      some (TypePtr.alias ((gs.data k).members.find (NameRef.utf8 n)))

/-- The parameters `a, b = nil, k:, &blk` (`a` is the identifier 2, `b` is 3, `k` is 4, `blk`
is 5). -/
def fourParams : List Expression :=
  [ident 1 2 2,
   .OptionalArg ⟨⟨1, 3⟩, ident 1 3 3, MK.Nil ⟨1, 3⟩⟩,
   .KeywordArg ⟨⟨1, 4⟩, ident 1 4 4⟩,
   .BlockArg ⟨⟨1, 5⟩, ident 1 5 5⟩]

/-- The parameters of `fourParams` as `parseArg` returns them. -/
def fourParsedArgs : List ParsedArg :=
  match NameInserter.parseArgs fourParams with
  | .ok l => l
  | .error _ => []

/-- The table after the file `def f(a, b = nil, k:, &blk); end` has been named from the
initial table. -/
def fourParamsTable : GlobalState :=
  tableAfter
    (Namer.run ⟨GlobalState.initial, Symbols.root⟩
      (fileTree 1 [.MethodDef (methodDef 1 1 1 fourParams .EmptyTree)]))
    GlobalState.initial

/-- The table in which `preTransformMethodDef` fills in the arguments of the first method
`f` of a file over the initial table: the method symbol has just been entered in
`Object`. -/
def methodEntered : SymbolRef × GlobalState :=
  GlobalState.initial.enterMethodSymbol ⟨1, 1⟩ Symbols.Object (NameRef.utf8 1)

end Examples

/-! ## Verified properties -/

/-! ### Basic facts about the symbol table -/

theorem data_update (gs : GlobalState) (r r' : SymbolRef) (f : Symbol → Symbol) :
    (gs.update r f).data r' = if r' = r then f (gs.data r) else gs.data r' := by
  unfold GlobalState.update GlobalState.data
  by_cases h : r' = r
  · subst h; simp
  · simp [h, Function.update]

theorem update_errors (gs : GlobalState) (r : SymbolRef) (f : Symbol → Symbol) :
    (gs.update r f).errors = gs.errors := rfl

theorem update_symbolsUsed (gs : GlobalState) (r : SymbolRef) (f : Symbol → Symbol) :
    (gs.update r f).symbolsUsed = gs.symbolsUsed := rfl

theorem beginError_data (gs : GlobalState) (l : Loc) (w : ErrorClass) (r : SymbolRef) :
    (gs.beginError l w).data r = gs.data r := rfl

theorem beginError_symbolsUsed (gs : GlobalState) (l : Loc) (w : ErrorClass) :
    (gs.beginError l w).symbolsUsed = gs.symbolsUsed := rfl

theorem beginError_errors (gs : GlobalState) (l : Loc) (w : ErrorClass) :
    (gs.beginError l w).errors = gs.errors ++ [⟨l, w⟩] := rfl

theorem singletonIdent_none (name : Expression)
    (hname : ∀ ident, name = .UnresolvedIdent ident → ident.name ≠ NameRef.singleton) :
    NameInserter.singletonIdent name = none := by
  cases hn : name <;> simp [NameInserter.singletonIdent]
  rename_i ident
  exact hname ident hn

/-! ### Class and module kinds (C5, C6) -/

/-- The kind check of `preTransformClassDef` on a class symbol: either the class name was
squashed to `sym`, or the definition is the root one. -/
theorem preTransformClassDef_class_step (self : NameInserter) (ctx : MutableContext)
    (klass : ClassDef) (sym : SymbolRef) (name' : Expression) (gs1 : GlobalState)
    (hname : ∀ ident, klass.name = .UnresolvedIdent ident → ident.name ≠ NameRef.singleton)
    (hres : (klass.symbol = Symbols.todo ∧
        squashNames ctx.state (ctx.state.enclosingClass ctx.owner) klass.name =
          .ok (sym, name', gs1)) ∨
      (klass.symbol = Symbols.root ∧ sym = Symbols.root ∧ name' = klass.name ∧
        gs1 = ctx.state))
    (hclass : (gs1.data sym).isClass = true) :
    NameInserter.preTransformClassDef self ctx klass =
      .ok ({ klass with symbol := sym, name := name' },
        NameInserter.enterScope { self with scopeCounter := 0 },
        if ((gs1.data sym).isClassModuleSet &&
            ((klass.kind == ClassDefKind.Module) != (gs1.data sym).isClassModule)) = true then
          gs1.beginError klass.loc ErrorClass.ModuleKindRedefinition
        else gs1.update sym (fun d => d.setIsModule (klass.kind == ClassDefKind.Module))) := by
  have hsing := singletonIdent_none klass.name hname
  unfold NameInserter.preTransformClassDef
  simp only [hsing]
  rcases hres with ⟨h1, h2⟩ | ⟨h1, h2, h3, h4⟩
  · simp only [h1, h2, bind, Except.bind, pure, Except.pure, hclass]
    cases hA : (gs1.data sym).isClassModuleSet <;>
      cases hB : ((klass.kind == ClassDefKind.Module) != (gs1.data sym).isClassModule) <;>
      simp_all
  · subst h2 h3 h4
    have hne : (klass.symbol == Symbols.todo) = false := by rw [h1]; decide
    have hroot : (klass.symbol == Symbols.root) = true := by rw [h1]; decide
    have hklass : ({ klass with symbol := Symbols.root, name := klass.name } : ClassDef) =
        klass := by
      cases klass; simp only at h1; subst h1; rfl
    rw [hklass]
    simp only [hne, hroot, ENFORCE, bind, Except.bind, pure, Except.pure]
    rw [h1]
    simp only [hclass]
    cases hA : (ctx.state.data Symbols.root).isClassModuleSet <;>
      cases hB : ((klass.kind == ClassDefKind.Module) !=
        (ctx.state.data Symbols.root).isClassModule) <;>
      simp_all

/-- The table with which `preTransformClassDef` reaches its kind check when the kind of
the class symbol is already set. -/
theorem preTransformClassDef_kind_step (self : NameInserter) (ctx : MutableContext)
    (klass : ClassDef) (sym : SymbolRef) (name' : Expression) (gs1 : GlobalState)
    (hname : ∀ ident, klass.name = .UnresolvedIdent ident → ident.name ≠ NameRef.singleton)
    (hres : (klass.symbol = Symbols.todo ∧
        squashNames ctx.state (ctx.state.enclosingClass ctx.owner) klass.name =
          .ok (sym, name', gs1)) ∨
      (klass.symbol = Symbols.root ∧ sym = Symbols.root ∧ name' = klass.name ∧
        gs1 = ctx.state))
    (hclass : (gs1.data sym).isClass = true)
    (hset : (gs1.data sym).isClassModuleSet = true) :
    NameInserter.preTransformClassDef self ctx klass =
      .ok ({ klass with symbol := sym, name := name' },
        NameInserter.enterScope { self with scopeCounter := 0 },
        if (klass.kind == ClassDefKind.Module) != (gs1.data sym).isClassModule then
          gs1.beginError klass.loc ErrorClass.ModuleKindRedefinition
        else gs1.update sym (fun d => d.setIsModule (klass.kind == ClassDefKind.Module))) := by
  rw [preTransformClassDef_class_step self ctx klass sym name' gs1 hname hres hclass]
  simp [hset]

/-- C5: when the symbol that a ClassDef names is a class whose class/module kind is
already set, `preTransformClassDef` keeps both kind bits of the symbol as they were, and
it appends exactly one `ModuleKindRedefinition` error when the ClassDef has the opposite
kind and no error when it has the same kind. -/
theorem C5_preTransformClassDef_kind_sticky (self : NameInserter) (ctx : MutableContext)
    (klass : ClassDef) (sym : SymbolRef) (name' : Expression) (gs1 : GlobalState)
    (hname : ∀ ident, klass.name = .UnresolvedIdent ident → ident.name ≠ NameRef.singleton)
    (hres : (klass.symbol = Symbols.todo ∧
        squashNames ctx.state (ctx.state.enclosingClass ctx.owner) klass.name =
          .ok (sym, name', gs1)) ∨
      (klass.symbol = Symbols.root ∧ sym = Symbols.root ∧ name' = klass.name ∧
        gs1 = ctx.state))
    (hclass : (gs1.data sym).isClass = true)
    (hset : (gs1.data sym).isClassModuleSet = true) :
    ∃ self' gs', NameInserter.preTransformClassDef self ctx klass =
        .ok ({ klass with symbol := sym, name := name' }, self', gs') ∧
      (gs'.data sym).classClass = (gs1.data sym).classClass ∧
      (gs'.data sym).classModule = (gs1.data sym).classModule ∧
      gs'.errors = gs1.errors ++
        (if (klass.kind == ClassDefKind.Module) != (gs1.data sym).isClassModule
          then [⟨klass.loc, ErrorClass.ModuleKindRedefinition⟩] else []) := by
  refine ⟨_, _, preTransformClassDef_kind_step self ctx klass sym name' gs1 hname hres hclass hset,
    ?_⟩
  by_cases hk : (klass.kind == ClassDefKind.Module) = (gs1.data sym).isClassModule
  · have hset' : (gs1.data sym).classClass = true ∨ (gs1.data sym).classModule = true := by
      simpa [Symbol.isClassModuleSet] using hset
    cases hm : (gs1.data sym).classModule
    · have hc : (gs1.data sym).classClass = true := by
        rcases hset' with h | h
        · exact h
        · rw [hm] at h; cases h
      simp [hk, data_update, Symbol.setIsModule, Symbol.isClassModule, hm, hc,
        update_errors]
    · simp [hk, data_update, Symbol.setIsModule, Symbol.isClassModule, hm, update_errors]
  · simp [hk, beginError_data, beginError_errors]

/-- Witness of C5: file A defines `class Foo`, file B defines `module Foo`. -/
theorem C5_preTransformClassDef_kind_sticky_witness :
    ∃ self' gs', NameInserter.preTransformClassDef NameInserter.init
        ⟨Examples.clashTableA, Symbols.root⟩ Examples.clashModuleFoo =
        .ok ({ Examples.clashModuleFoo with
              symbol := 7,
              name := .ConstantLit
                { loc := ⟨2, 1⟩, symbol := 7, original := some (Examples.cnst 2 1 10) } },
            self', gs') ∧
      (gs'.data 7).classClass = (Examples.clashTableA.data 7).classClass ∧
      (gs'.data 7).classModule = (Examples.clashTableA.data 7).classModule ∧
      gs'.errors = Examples.clashTableA.errors ++
        (if (Examples.clashModuleFoo.kind == ClassDefKind.Module) !=
            (Examples.clashTableA.data 7).isClassModule
          then [⟨Examples.clashModuleFoo.loc, ErrorClass.ModuleKindRedefinition⟩] else []) :=
  C5_preTransformClassDef_kind_sticky NameInserter.init ⟨Examples.clashTableA, Symbols.root⟩
    Examples.clashModuleFoo 7 _ Examples.clashTableA
    (by intro ident h; cases h) (Or.inl ⟨rfl, rfl⟩) (by decide) (by decide)

/-- C6 (as amended): when the symbol that a ClassDef names is a class of the opposite
kind, `preTransformClassDef` attaches that very symbol to the ClassDef and changes the
table only by appending the `ModuleKindRedefinition` error: nothing is renamed and no
symbol is entered. -/
theorem C6_opposite_kind_keeps_symbol (self : NameInserter) (ctx : MutableContext)
    (klass : ClassDef) (sym : SymbolRef) (name' : Expression) (gs1 : GlobalState)
    (hname : ∀ ident, klass.name = .UnresolvedIdent ident → ident.name ≠ NameRef.singleton)
    (hres : (klass.symbol = Symbols.todo ∧
        squashNames ctx.state (ctx.state.enclosingClass ctx.owner) klass.name =
          .ok (sym, name', gs1)) ∨
      (klass.symbol = Symbols.root ∧ sym = Symbols.root ∧ name' = klass.name ∧
        gs1 = ctx.state))
    (hclass : (gs1.data sym).isClass = true)
    (hset : (gs1.data sym).isClassModuleSet = true)
    (hopp : (klass.kind == ClassDefKind.Module) ≠ (gs1.data sym).isClassModule) :
    NameInserter.preTransformClassDef self ctx klass =
      .ok ({ klass with symbol := sym, name := name' },
        NameInserter.enterScope { self with scopeCounter := 0 },
        gs1.beginError klass.loc ErrorClass.ModuleKindRedefinition) := by
  rw [preTransformClassDef_kind_step self ctx klass sym name' gs1 hname hres hclass hset]
  simp [hopp]

/-- Witness of C6: `module Foo` after `class Foo`. -/
theorem C6_opposite_kind_keeps_symbol_witness :
    NameInserter.preTransformClassDef NameInserter.init
        ⟨Examples.clashTableA, Symbols.root⟩ Examples.clashModuleFoo =
      .ok ({ Examples.clashModuleFoo with
              symbol := 7,
              name := .ConstantLit
                { loc := ⟨2, 1⟩, symbol := 7, original := some (Examples.cnst 2 1 10) } },
        NameInserter.enterScope { NameInserter.init with scopeCounter := 0 },
        Examples.clashTableA.beginError Examples.clashModuleFoo.loc
          ErrorClass.ModuleKindRedefinition) :=
  C6_opposite_kind_keeps_symbol NameInserter.init ⟨Examples.clashTableA, Symbols.root⟩
    Examples.clashModuleFoo 7 _ Examples.clashTableA
    (by intro ident h; cases h) (Or.inl ⟨rfl, rfl⟩) (by decide) (by decide) (by decide)

/-- Counterexample to C6 as stated: after `class Foo` in file A and `module Foo` in file
B, both runs end normally, the ClassDef of file B carries the symbol of the definition
in file A, that symbol still has its name, and one error has been reported. -/
theorem C6_counterexample :
    Examples.topLevelClassSymbols
        (Examples.treeAfter (Namer.run ⟨GlobalState.initial, Symbols.root⟩ Examples.clashFileA)) =
      [7] ∧
    Examples.topLevelClassSymbols
        (Examples.treeAfter (Namer.run ⟨Examples.clashTableA, Symbols.root⟩ Examples.clashFileB)) =
      [7] ∧
    ((Examples.tableAfter (Namer.run ⟨Examples.clashTableA, Symbols.root⟩ Examples.clashFileB)
        GlobalState.initial).data 7).name = NameRef.utf8 10 ∧
    (Examples.tableAfter (Namer.run ⟨Examples.clashTableA, Symbols.root⟩ Examples.clashFileB)
        GlobalState.initial).errors = [⟨⟨2, 1⟩, ErrorClass.ModuleKindRedefinition⟩] := by
  decide

/-! ### Mixins and the removal of DSL statements (C3, C4) -/


theorem addAncestorLoop_ok (args dest : List Expression)
    (h : args.all Spec.isConstantOrEmpty = true) :
    NameInserter.addAncestorLoop args dest = .ok (dest ++ args.filter (fun a => !a.isEmptyTree)) := by
  induction args generalizing dest with
  | nil => simp [NameInserter.addAncestorLoop, pure, Except.pure]
  | cons a rest ih =>
    simp only [List.all_cons, Bool.and_eq_true] at h
    cases a <;> simp_all [NameInserter.addAncestorLoop, Spec.isConstantOrEmpty, Expression.isEmptyTree]

theorem handleNamerDSL_spec (ctx : MutableContext) (klass : ClassDef) (line : Expression)
    (h : Spec.mixinArgsWellFormed line = true) :
    ∃ gs', NameInserter.handleNamerDSL ctx klass line =
      .ok (Spec.isAppliedNamerDSL line,
        { klass with
          ancestors := klass.ancestors ++ Spec.mixinsOf NameRef.include_ line,
          singleton_ancestors := klass.singleton_ancestors ++ Spec.mixinsOf NameRef.extend line },
        gs') := by
  cases line with
  | Send s =>
    by_cases hi : s.fun_ = NameRef.include_
    · by_cases hr : s.recv.isSelf = true
      · by_cases ha : s.args = []
        · simp [NameInserter.handleNamerDSL, NameInserter.addAncestor, Spec.isAppliedNamerDSL, Spec.isMixinCall, Spec.mixinsOf, Spec.isAbstractOrInterface, bind, Except.bind, pure, Except.pure, hi, hr, ha]
        · cases hb : s.block
          · have hall : s.args.all Spec.isConstantOrEmpty = true := by
              simpa [Spec.mixinArgsWellFormed, Spec.isMixinCall, hi, hr, ha, hb] using h
            have hall' : s.args.reverse.all Spec.isConstantOrEmpty = true := by
              simpa using hall
            simp [NameInserter.handleNamerDSL, NameInserter.addAncestor, Spec.isAppliedNamerDSL, Spec.isMixinCall, Spec.mixinsOf, Spec.isAbstractOrInterface, bind, Except.bind, pure, Except.pure, hi, hr, ha, hb, addAncestorLoop_ok _ _ hall']
          · simp [NameInserter.handleNamerDSL, NameInserter.addAncestor, Spec.isAppliedNamerDSL, Spec.isMixinCall, Spec.mixinsOf, Spec.isAbstractOrInterface, bind, Except.bind, pure, Except.pure, hi, hr, ha, hb]
      · simp [NameInserter.handleNamerDSL, NameInserter.addAncestor, Spec.isAppliedNamerDSL, Spec.isMixinCall, Spec.mixinsOf, Spec.isAbstractOrInterface, bind, Except.bind, pure, Except.pure, hi, hr]
    · by_cases he : s.fun_ = NameRef.extend
      · by_cases hr : s.recv.isSelf = true
        · by_cases ha : s.args = []
          · simp [NameInserter.handleNamerDSL, NameInserter.addAncestor, Spec.isAppliedNamerDSL, Spec.isMixinCall, Spec.mixinsOf, Spec.isAbstractOrInterface, bind, Except.bind, pure, Except.pure, he, hr, ha]
          · cases hb : s.block
            · have hall : s.args.all Spec.isConstantOrEmpty = true := by
                simpa [Spec.mixinArgsWellFormed, Spec.isMixinCall, he, hr, ha, hb] using h
              have hall' : s.args.reverse.all Spec.isConstantOrEmpty = true := by
                simpa using hall
              simp [NameInserter.handleNamerDSL, NameInserter.addAncestor, Spec.isAppliedNamerDSL, Spec.isMixinCall, Spec.mixinsOf, Spec.isAbstractOrInterface, bind, Except.bind, pure, Except.pure, he, hr, ha, hb, addAncestorLoop_ok _ _ hall']
            · simp [NameInserter.handleNamerDSL, NameInserter.addAncestor, Spec.isAppliedNamerDSL, Spec.isMixinCall, Spec.mixinsOf, Spec.isAbstractOrInterface, bind, Except.bind, pure, Except.pure, he, hr, ha, hb]
        · simp [NameInserter.handleNamerDSL, NameInserter.addAncestor, Spec.isAppliedNamerDSL, Spec.isMixinCall, Spec.mixinsOf, Spec.isAbstractOrInterface, bind, Except.bind, pure, Except.pure, he, hr]
      · by_cases hd : s.fun_ = NameRef.declareInterface
        · cases hkind : (klass.kind == ClassDefKind.Class) <;>
            simp [NameInserter.handleNamerDSL, NameInserter.addAncestor, Spec.isAppliedNamerDSL, Spec.isMixinCall, Spec.mixinsOf, Spec.isAbstractOrInterface, bind, Except.bind, pure, Except.pure, hd, hkind]
        · by_cases hab : s.fun_ = NameRef.declareAbstract
          · simp [NameInserter.handleNamerDSL, NameInserter.addAncestor, Spec.isAppliedNamerDSL, Spec.isMixinCall, Spec.mixinsOf, Spec.isAbstractOrInterface, bind, Except.bind, pure, Except.pure, hab]
          · simp [NameInserter.handleNamerDSL, NameInserter.addAncestor, Spec.isAppliedNamerDSL, Spec.isMixinCall, Spec.mixinsOf, Spec.isAbstractOrInterface, bind, Except.bind, pure, Except.pure, hi, he, hd, hab]
  | _ => exact ⟨ctx.state, by simp [NameInserter.handleNamerDSL, NameInserter.addAncestor, Spec.isAppliedNamerDSL, Spec.isMixinCall, Spec.mixinsOf, Spec.isAbstractOrInterface, bind, Except.bind, pure, Except.pure]⟩

theorem removeNamerDSL_spec (owner : SymbolRef) (rhs : List Expression) (klass : ClassDef)
    (gs : GlobalState) (h : rhs.all Spec.mixinArgsWellFormed = true) :
    ∃ gs', NameInserter.removeNamerDSL owner rhs klass gs =
      .ok (rhs.filter (fun line => !Spec.isAppliedNamerDSL line),
        { klass with
          ancestors := klass.ancestors ++ Spec.includedMixins NameRef.include_ rhs,
          singleton_ancestors := klass.singleton_ancestors ++ Spec.includedMixins NameRef.extend rhs },
        gs') := by
  induction rhs generalizing klass gs with
  | nil => exact ⟨gs, by simp [NameInserter.removeNamerDSL, Spec.includedMixins, pure, Except.pure]⟩
  | cons line rest ih =>
    simp only [List.all_cons, Bool.and_eq_true] at h
    obtain ⟨g1, h1⟩ := handleNamerDSL_spec ⟨gs, owner⟩ klass line h.1
    obtain ⟨g2, h2⟩ := ih { klass with
          ancestors := klass.ancestors ++ Spec.mixinsOf NameRef.include_ line,
          singleton_ancestors := klass.singleton_ancestors ++ Spec.mixinsOf NameRef.extend line } g1 h.2
    refine ⟨g2, ?_⟩
    simp only [NameInserter.removeNamerDSL, h1, h2, bind, Except.bind, pure, Except.pure, Spec.includedMixins]
    cases hap : Spec.isAppliedNamerDSL line <;> simp [hap, List.filter_cons]

theorem keepAncestorsForIDE_not_applied (kind : ClassDefKind) (ancs : List Expression)
    (first : Bool) :
    ∀ line ∈ NameInserter.keepAncestorsForIDE kind ancs first,
      Spec.isAppliedNamerDSL line = false := by
  induction ancs generalizing first with
  | nil => intro line h; simp [NameInserter.keepAncestorsForIDE] at h
  | cons a rest ih =>
    intro line h
    simp only [NameInserter.keepAncestorsForIDE] at h
    split at h
    · rcases List.mem_cons.mp h with h | h
      · subst h
        simp [MK.KeepForIDE, Spec.isAppliedNamerDSL, Spec.isMixinCall, Spec.isAbstractOrInterface]
      · exact ih false line h
    · exact ih false line h

/-- The result of `postTransformClassDef` on a class body whose mixin calls have constant
arguments: the DSL statements are filtered out, the mixins are appended per statement,
and the copies for the IDE are added. -/
theorem postTransformClassDef_spec (self : NameInserter) (ctx : MutableContext)
    (klass : ClassDef) (hstack : self.scopeStack ≠ [])
    (hwf : klass.rhs.all Spec.mixinArgsWellFormed = true) :
    ∃ ideSeqs self' gs', NameInserter.postTransformClassDef self ctx klass =
      .ok (MK.InsSeq klass.declLoc ideSeqs
        (.ClassDef
          { klass with
            ancestors := klass.ancestors ++ Spec.includedMixins NameRef.include_ klass.rhs,
            singleton_ancestors :=
              klass.singleton_ancestors ++ Spec.includedMixins NameRef.extend klass.rhs,
            rhs := klass.rhs.filter (fun line => !Spec.isAppliedNamerDSL line) ++
              NameInserter.keepAncestorsForIDE klass.kind
                (klass.ancestors ++ Spec.includedMixins NameRef.include_ klass.rhs) true }),
        self', gs') := by
  obtain ⟨top, rest, hs⟩ : ∃ top rest, self.scopeStack = top :: rest := by
    cases h : self.scopeStack with
    | nil => exact absurd h hstack
    | cons a b => exact ⟨a, b, rfl⟩
  unfold NameInserter.postTransformClassDef
  simp only [NameInserter.exitScope, hs, bind, Except.bind, pure, Except.pure]
  obtain ⟨g, hg⟩ := removeNamerDSL_spec ctx.owner klass.rhs klass _ hwf
  rw [hg]
  exact ⟨_, _, _, rfl⟩

/-- C3 (as amended): after `postTransformClassDef` the class's `ancestors` are the
entries it had before followed by the mixins of the body taken statement by statement in
source order, the arguments of each single `self.include` statement (with at least one
argument and no block) in reverse order and without `EmptyTree` arguments; likewise
`singleton_ancestors` for `self.extend`. -/
theorem C3_mixins_reversed_per_statement (self : NameInserter) (ctx : MutableContext)
    (klass : ClassDef) (hstack : self.scopeStack ≠ [])
    (hwf : klass.rhs.all Spec.mixinArgsWellFormed = true) :
    ∃ ideSeqs klass' self' gs', NameInserter.postTransformClassDef self ctx klass =
        .ok (MK.InsSeq klass.declLoc ideSeqs (.ClassDef klass'), self', gs') ∧
      klass'.ancestors = klass.ancestors ++ Spec.includedMixins NameRef.include_ klass.rhs ∧
      klass'.singleton_ancestors =
        klass.singleton_ancestors ++ Spec.includedMixins NameRef.extend klass.rhs := by
  obtain ⟨ideSeqs, self', gs', h⟩ := postTransformClassDef_spec self ctx klass hstack hwf
  exact ⟨ideSeqs, _, self', gs', h, rfl, rfl⟩

/-- C4 (as amended): after `postTransformClassDef` no statement of the class body is a
`Send` of `abstract!` or `interface!`, nor a `Send` on `self` of `include` or `extend`
with at least one argument and no block; the body is the input body without these
statements, followed by the copies kept for the IDE. -/
theorem C4_applied_dsl_removed (self : NameInserter) (ctx : MutableContext)
    (klass : ClassDef) (hstack : self.scopeStack ≠ [])
    (hwf : klass.rhs.all Spec.mixinArgsWellFormed = true) :
    ∃ ideSeqs klass' self' gs', NameInserter.postTransformClassDef self ctx klass =
        .ok (MK.InsSeq klass.declLoc ideSeqs (.ClassDef klass'), self', gs') ∧
      klass'.rhs = klass.rhs.filter (fun line => !Spec.isAppliedNamerDSL line) ++
        NameInserter.keepAncestorsForIDE klass.kind klass'.ancestors true ∧
      ∀ line ∈ klass'.rhs, Spec.isAppliedNamerDSL line = false := by
  obtain ⟨ideSeqs, self', gs', h⟩ := postTransformClassDef_spec self ctx klass hstack hwf
  refine ⟨ideSeqs, _, self', gs', h, rfl, ?_⟩
  intro line hl
  rcases List.mem_append.mp hl with hl | hl
  · simpa using (List.mem_filter.mp hl).2
  · exact keepAncestorsForIDE_not_applied _ _ _ line hl

/-- Witness of C3: the body `include A; include B, D`. -/
theorem C3_mixins_reversed_per_statement_witness :
    ∃ ideSeqs klass' self' gs', NameInserter.postTransformClassDef NameInserter.init
          ⟨GlobalState.initial, Symbols.root⟩ Examples.mixinClassDef =
        .ok (MK.InsSeq Examples.mixinClassDef.declLoc ideSeqs (.ClassDef klass'), self', gs') ∧
      klass'.ancestors = Examples.mixinClassDef.ancestors ++
        Spec.includedMixins NameRef.include_ Examples.mixinClassDef.rhs ∧
      klass'.singleton_ancestors = Examples.mixinClassDef.singleton_ancestors ++
        Spec.includedMixins NameRef.extend Examples.mixinClassDef.rhs :=
  C3_mixins_reversed_per_statement NameInserter.init ⟨GlobalState.initial, Symbols.root⟩
    Examples.mixinClassDef (by decide) (by decide)

/-- Counterexample to C3 as stated: for `class C; include A; include B, D; end` the mixin
entries of the ancestors are `[A, D, B]`, not `[D, B, A]`. -/
theorem C3_counterexample :
    (Examples.firstClassDef
        (Examples.treeAfter
          (Namer.run ⟨GlobalState.initial, Symbols.root⟩ Examples.mixinFile))).map
      (fun k => Spec.mixinNames k.ancestors) =
      some [NameRef.utf8 21, NameRef.utf8 23, NameRef.utf8 22] ∧
    (Examples.firstClassDef
        (Examples.treeAfter
          (Namer.run ⟨GlobalState.initial, Symbols.root⟩ Examples.mixinFile))).map
      (fun k => Spec.mixinNames k.ancestors) ≠
      some [NameRef.utf8 23, NameRef.utf8 22, NameRef.utf8 21] := by
  decide!

/-- Witness of C4: the body `include A; include B, D`. -/
theorem C4_applied_dsl_removed_witness :
    ∃ ideSeqs klass' self' gs', NameInserter.postTransformClassDef NameInserter.init
          ⟨GlobalState.initial, Symbols.root⟩ Examples.mixinClassDef =
        .ok (MK.InsSeq Examples.mixinClassDef.declLoc ideSeqs (.ClassDef klass'), self', gs') ∧
      klass'.rhs =
        Examples.mixinClassDef.rhs.filter (fun line => !Spec.isAppliedNamerDSL line) ++
          NameInserter.keepAncestorsForIDE Examples.mixinClassDef.kind klass'.ancestors true ∧
      ∀ line ∈ klass'.rhs, Spec.isAppliedNamerDSL line = false :=
  C4_applied_dsl_removed NameInserter.init ⟨GlobalState.initial, Symbols.root⟩
    Examples.mixinClassDef (by decide) (by decide)

/-- Counterexample to C4 as stated: for `class C; include; end` the run ends normally,
reports `IncludeMutipleParam`, and the `self.include` statement is still in the class
body. -/
theorem C4_counterexample :
    (Examples.firstClassDef
        (Examples.treeAfter
          (Namer.run ⟨GlobalState.initial, Symbols.root⟩ Examples.emptyIncludeFile))).map
      (fun k => k.rhs.any Spec.isNamerDSLSend) = some true ∧
    (Examples.tableAfter
        (Namer.run ⟨GlobalState.initial, Symbols.root⟩ Examples.emptyIncludeFile)
        GlobalState.initial).errors = [⟨⟨1, 2⟩, ErrorClass.IncludeMutipleParam⟩] := by
  decide

/-! ### Argument counts and reparsing (C1, C2) -/


theorem enterLocal_ok (self : NameInserter) (ctx : MutableContext) (name : NameRef)
    (hstack : self.scopeStack ≠ []) :
    ∃ u, NameInserter.enterLocal self ctx name = .ok ⟨name, u⟩ := by
  unfold NameInserter.enterLocal
  cases hs : self.scopeStack with
  | nil => exact absurd hs hstack
  | cons top rest =>
    cases hb : (ctx.state.data ctx.owner).isBlockSymbol
    · exact ⟨0, by simp [pure, Except.pure]⟩
    · exact ⟨top.scopeId, by simp [back, bind, Except.bind, pure, Except.pure]⟩

theorem fillInArgsLoop_reuse (owner : SymbolRef) (gs : GlobalState)
    (parsedArgs : List ParsedArg) :
    ∀ (i : Nat) (inShadows : Bool) (args : List Expression) (self : NameInserter),
      self.scopeStack ≠ [] →
      i + parsedArgs.length ≤ (gs.data owner).arguments.length →
      Spec.shadowsLast inShadows parsedArgs = true →
      ∃ args' self', NameInserter.fillInArgsLoop owner parsedArgs i inShadows args self gs =
          .ok (args', self', gs) ∧
        args'.length = args.length + parsedArgs.length ∧
        self'.blockArgStack = self.blockArgStack ∧
        self'.scopeCounter = self.scopeCounter ∧
        self'.scopeStack.length = self.scopeStack.length := by
  induction parsedArgs with
  | nil =>
    intro i inShadows args self _ _ _
    exact ⟨args, self, by simp [NameInserter.fillInArgsLoop, pure, Except.pure]⟩
  | cons arg rest ih =>
    intro i inShadows args self hstack hlen hsh
    obtain ⟨top, tail, hs⟩ : ∃ top tail, self.scopeStack = top :: tail := by
      cases h : self.scopeStack with
      | nil => exact absurd h hstack
      | cons a b => exact ⟨a, b, rfl⟩
    obtain ⟨u, hu⟩ := enterLocal_ok self ⟨gs, owner⟩ arg.name hstack
    simp only [List.length_cons] at hlen
    have hi : i < (gs.data owner).arguments.length := by omega
    unfold Spec.shadowsLast at hsh
    cases hshadow : arg.shadow
    · simp only [hshadow, Bool.false_eq_true, if_false, Bool.and_eq_true, Bool.not_eq_true'] at hsh
      obtain ⟨hin, hrest⟩ := hsh
      obtain ⟨args', self', h1, h2, h3, h4, h5⟩ := ih (i + 1) inShadows
        (args ++ [Expression.Local ⟨arg.loc, ⟨arg.name, u⟩⟩])
        { self with scopeStack := { top with locals := top.locals.set arg.name ⟨arg.name, u⟩, args := top.args ++ [⟨arg.name, u⟩] } :: tail }
        (by simp) (by omega) hrest
      refine ⟨args', self', ?_, ?_, h3, h4, ?_⟩
      · rw [← h1]
        simp [NameInserter.fillInArgsLoop, hu, hshadow, hin, ENFORCE, NameInserter.arg2Symbol, hi, hs, modifyBack, bind, Except.bind, pure, Except.pure]
      · simp only [List.length_append, List.length_cons, List.length_nil] at h2 ⊢; omega
      · simp [h5, hs]
    · simp only [hshadow, if_true] at hsh
      obtain ⟨args', self', h1, h2, h3, h4, h5⟩ := ih (i + 1) true
        (args ++ [Expression.Local ⟨arg.loc, ⟨arg.name, u⟩⟩])
        { self with scopeStack := { top with locals := top.locals.set arg.name ⟨arg.name, u⟩, args := top.args ++ [⟨arg.name, u⟩] } :: tail }
        (by simp) (by omega) hsh
      refine ⟨args', self', ?_, ?_, h3, h4, ?_⟩
      · rw [← h1]
        simp [NameInserter.fillInArgsLoop, hu, hshadow, hs, modifyBack, bind, Except.bind, pure, Except.pure]
      · simp only [List.length_append, List.length_cons, List.length_nil] at h2 ⊢; omega
      · simp [h5, hs]

theorem fillInArgs_reuse (self : NameInserter) (ctx : MutableContext)
    (parsedArgs : List ParsedArg) (hstack : self.scopeStack ≠ [])
    (hlen : parsedArgs.length ≤ (ctx.state.data ctx.owner).arguments.length)
    (hsh : Spec.shadowsLast false parsedArgs = true) :
    ∃ args' self', NameInserter.fillInArgs self ctx parsedArgs = .ok (args', self', ctx.state) ∧
      args'.length = parsedArgs.length ∧
      self'.blockArgStack = self.blockArgStack ∧
      self'.scopeCounter = self.scopeCounter ∧
      self'.scopeStack.length = self.scopeStack.length := by
  obtain ⟨args', self', h1, h2, h3⟩ :=
    fillInArgsLoop_reuse ctx.owner ctx.state parsedArgs 0 false [] self hstack (by omega) hsh
  exact ⟨args', self', h1, by simpa using h2, h3⟩

theorem singletonClass_of_exists (gs : GlobalState) (sym : SymbolRef)
    (h : (gs.findMember sym NameRef.singleton).exists = true) :
    gs.singletonClass sym = (gs.findMember sym NameRef.singleton, gs) := by
  simp [GlobalState.singletonClass, h]


/-- C1 (defect): naming `def f; yield; end` a second time against the table left by the
first run. The first run ends normally with one argument symbol (the block argument 8) on
the method symbol 7. In the second run `preTransformMethodDef` takes the reparse path and
returns no AST argument while the symbol still has its one argument; the `yield`
discovers a block argument again and `postTransformMethodDef` appends it to both lists,
one AST argument against two argument symbols, so that its own assertion fails and the
run aborts. -/
theorem C1_reparse_with_yield_breaks_arg_count :
    Examples.succeeded (Namer.run ⟨GlobalState.initial, Symbols.root⟩ Examples.yieldFile) = true ∧
    Examples.topLevelMethodSymbols
        (Examples.treeAfter (Namer.run ⟨GlobalState.initial, Symbols.root⟩ Examples.yieldFile)) =
      [7] ∧
    (Examples.yieldTable.data 7).arguments = [8] ∧
    (Examples.yieldTable.enterMethodArgumentSymbol Loc.none 7 NameRef.blkArg).1 = 8 ∧
    Examples.yieldSecondVisit = some (0, 1, some Abort.enforce) ∧
    Examples.abortOf (Namer.run ⟨Examples.yieldTable, Symbols.root⟩ Examples.yieldFile) =
      some Abort.enforce := by
  decide!

/-- Counterexample to C2 as stated: `def f; end; def f(a); end` named twice. Both runs end
normally; the first run gives the two definitions the symbols 7 and 8, the second run
renames and redefines and gives them the symbols 10 and 11. -/
theorem C2_counterexample :
    Examples.succeeded
        (Namer.run ⟨Examples.redefinitionTable, Symbols.root⟩ Examples.redefinitionFile) = true ∧
    Examples.topLevelMethodSymbols
        (Examples.treeAfter
          (Namer.run ⟨GlobalState.initial, Symbols.root⟩ Examples.redefinitionFile)) = [7, 8] ∧
    Examples.topLevelMethodSymbols
        (Examples.treeAfter
          (Namer.run ⟨Examples.redefinitionTable, Symbols.root⟩ Examples.redefinitionFile)) =
      [10, 11] := by
  decide!

/-- C2 (as amended): on the reparse path of `preTransformMethodDef`, that is when the owner
already has a member of the method's name whose location is the `declLoc` of the
MethodDef and that has at least as many arguments as the MethodDef has parameters, the
MethodDef is given that same symbol, no symbol is entered and the symbol table is left
exactly as it was (in particular the argument list of the symbol); the AST gets one
argument node per parameter. -/
theorem C2_reparse_keeps_symbols (self : NameInserter) (ctx : MutableContext) (method : MethodDef)
    (parsedArgs : List ParsedArg) (sym : SymbolRef)
    (hself : method.isSelf = true → (ctx.state.data (NameInserter.methodOwner ctx)).isClass = true →
      (ctx.state.findMember (NameInserter.methodOwner ctx) NameRef.singleton).exists = true)
    (hclass : (ctx.state.data (Spec.reparseOwner ctx method)).isClass = true)
    (hparse : NameInserter.parseArgs method.args = .ok parsedArgs)
    (hshadow : Spec.shadowsLast false parsedArgs = true)
    (hsym : ctx.state.findMember (Spec.reparseOwner ctx method) method.name = sym)
    (hex : sym.exists = true)
    (hloc : method.declLoc = (ctx.state.data sym).loc)
    (hargs : parsedArgs.length ≤ (ctx.state.data sym).arguments.length) :
    ∃ args self', NameInserter.preTransformMethodDef self ctx method =
        .ok ({ method with symbol := sym, args := args }, self', ctx.state) ∧
      args.length = parsedArgs.length ∧
      self'.blockArgStack.length = self.blockArgStack.length + 1 ∧
      self'.scopeStack.length = self.scopeStack.length + 1 := by
  have howner : (if method.isSelf = true then
        if (ctx.state.data (NameInserter.methodOwner ctx)).isClass = true then
          ctx.state.singletonClass (NameInserter.methodOwner ctx)
        else (NameInserter.methodOwner ctx, ctx.state)
      else (NameInserter.methodOwner ctx, ctx.state)) = (Spec.reparseOwner ctx method, ctx.state) := by
    unfold Spec.reparseOwner
    cases h1 : method.isSelf
    · simp
    · cases h2 : (ctx.state.data (NameInserter.methodOwner ctx)).isClass
      · simp
      · simp [singletonClass_of_exists _ _ (hself h1 h2)]
  obtain ⟨args, self', h1, h2, h3, h4, h5⟩ :=
    fillInArgs_reuse (NameInserter.pushBlockArg (NameInserter.enterScope self) parsedArgs) ⟨ctx.state, sym⟩ parsedArgs
      (by simp [NameInserter.pushBlockArg, NameInserter.enterScope]) hargs hshadow
  refine ⟨args, self', ?_, h2, ?_, ?_⟩
  · unfold NameInserter.preTransformMethodDef
    simp only [howner, hclass, ENFORCE, hparse, hsym, hex, hloc, bind, Except.bind, pure, Except.pure]
    simp [h1]
  · simp [h3, NameInserter.pushBlockArg, NameInserter.enterScope]
  · simp [h5, NameInserter.pushBlockArg, NameInserter.enterScope]

/-- Witness of C2: `def g(a, k:); end` visited again after a first run. -/
theorem C2_reparse_keeps_symbols_witness :
    ∃ args self', NameInserter.preTransformMethodDef Examples.atFileBody
          ⟨Examples.plainTable, Symbols.root⟩ Examples.plainMethod =
        .ok ({ Examples.plainMethod with symbol := 7, args := args }, self',
          Examples.plainTable) ∧
      args.length = 2 ∧
      self'.blockArgStack.length = Examples.atFileBody.blockArgStack.length + 1 ∧
      self'.scopeStack.length = Examples.atFileBody.scopeStack.length + 1 :=
  C2_reparse_keeps_symbols Examples.atFileBody ⟨Examples.plainTable, Symbols.root⟩
    Examples.plainMethod
    [{ name := NameRef.utf8 2, loc := ⟨1, 2⟩ },
     { name := NameRef.utf8 4, loc := ⟨1, 3⟩, keyword := true }] 7
    (by intro h; cases h) (by decide!) rfl (by decide) (by decide!) (by decide) (by decide!)
    (by decide!)

/-! ### Well-formed tables and their extensions -/

theorem find_set (ms : Members) (k k' : NameRef) (v : SymbolRef) :
    (ms.set k v).find k' = if k = k' then v else ms.find k' := by
  induction ms with
  | nil => simp [Members.set, Members.find]
  | cons e rest ih =>
    obtain ⟨a, b⟩ := e
    by_cases h1 : a = k
    · subst h1
      by_cases h2 : a = k' <;> simp [Members.set, Members.find, h2]
    · by_cases h2 : a = k'
      · subst h2
        have h3 : ¬ k = a := fun h => h1 h.symm
        simp [Members.set, Members.find, h1, h3]
      · simp [Members.set, Members.find, h1, h2, ih]

theorem dealiasWithLimit_pos (gs : GlobalState) (hwf : Spec.WF gs) (d : Nat) :
    ∀ r, r ≠ 0 → gs.dealiasWithLimit d r ≠ 0 := by
  induction d with
  | zero =>
    intro r hr
    unfold GlobalState.dealiasWithLimit
    split
    · simp [Symbols.untyped]
    · exact hr
  | succ d ih =>
    intro r hr
    unfold GlobalState.dealiasWithLimit
    split
    · rename_i t ht
      exact ih t (Nat.pos_iff_ne_zero.mp (hwf.alias_lt r t ht).1)
    · exact hr

theorem dealiasWithLimit_lt (gs : GlobalState) (hwf : Spec.WF gs) (d : Nat) :
    ∀ r, r < gs.symbolsUsed → gs.dealiasWithLimit d r < gs.symbolsUsed := by
  induction d with
  | zero =>
    intro r hr
    unfold GlobalState.dealiasWithLimit
    split
    · exact hwf.used
    · exact hr
  | succ d ih =>
    intro r hr
    unfold GlobalState.dealiasWithLimit
    split
    · rename_i t ht
      exact ih t (hwf.alias_lt r t ht).2
    · exact hr

theorem dealiasWithLimit_ext (gs gs' : GlobalState) (hwf : Spec.WF gs)
    (hres : ∀ r, r < gs.symbolsUsed → (gs'.data r).resultType = (gs.data r).resultType)
    (d : Nat) :
    ∀ r, r < gs.symbolsUsed → gs'.dealiasWithLimit d r = gs.dealiasWithLimit d r := by
  induction d with
  | zero =>
    intro r hr
    unfold GlobalState.dealiasWithLimit
    rw [hres r hr]
  | succ d ih =>
    intro r hr
    unfold GlobalState.dealiasWithLimit
    rw [hres r hr]
    split
    · rename_i t ht
      exact ih t (hwf.alias_lt r t ht).2
    · rfl

theorem exists_iff (r : SymbolRef) : r.exists = true ↔ r ≠ 0 := by
  simp [SymbolRef.exists]

theorem findMember_exists_iff (gs : GlobalState) (hwf : Spec.WF gs) (r : SymbolRef) (k : NameRef) :
    (gs.findMember r k).exists = true ↔ (gs.data r).members.find k ≠ 0 := by
  unfold GlobalState.findMember GlobalState.findMemberNoDealias
  by_cases h : (gs.data r).members.find k = 0
  · simp [h, SymbolRef.exists]
  · have := dealiasWithLimit_pos gs hwf 42 _ h
    simp [h, SymbolRef.exists, GlobalState.dealias, this]

theorem findMember_lt (gs : GlobalState) (hwf : Spec.WF gs) (r : SymbolRef) (k : NameRef) :
    gs.findMember r k < gs.symbolsUsed := by
  unfold GlobalState.findMember GlobalState.findMemberNoDealias
  have h := hwf.members_lt r k
  simp only
  split
  · exact dealiasWithLimit_lt gs hwf 42 _ h
  · exact h

theorem findMember_ext (gs gs' : GlobalState) (hwf : Spec.WF gs) (hext : Spec.Ext gs gs')
    (r : SymbolRef) (hr : r < gs.symbolsUsed) (k : NameRef) (hk : k ≠ NameRef.attached)
    (hex : (gs.findMember r k).exists = true) :
    gs'.findMember r k = gs.findMember r k := by
  have hraw := (findMember_exists_iff gs hwf r k).mp hex
  have hfind := hext.find_eq r hr k hk hraw
  unfold GlobalState.findMember GlobalState.findMemberNoDealias GlobalState.dealias
  simp only [hfind]
  have hrawex : ((gs.data r).members.find k).exists = true := (exists_iff _).mpr hraw
  simp only [hrawex, if_true]
  exact dealiasWithLimit_ext gs gs' hwf hext.resultType_eq 42 _ (hwf.members_lt r k)

theorem Ext_refl (gs : GlobalState) : Spec.Ext gs gs :=
  ⟨Nat.le_refl _, fun _ _ _ _ _ => rfl, fun _ _ => rfl, fun _ _ => rfl, fun _ _ => rfl,
    fun _ _ => rfl⟩

theorem Ext_trans {a b c : GlobalState} (h1 : Spec.Ext a b) (h2 : Spec.Ext b c) : Spec.Ext a c := by
  refine ⟨Nat.le_trans h1.used_le h2.used_le, ?_, ?_, ?_, ?_, ?_⟩
  · intro r hr k hk hne
    have e1 := h1.find_eq r hr k hk hne
    have e2 := h2.find_eq r (Nat.lt_of_lt_of_le hr h1.used_le) k hk (by rw [e1]; exact hne)
    rw [e2, e1]
  · intro r hr
    rw [h2.resultType_eq r (Nat.lt_of_lt_of_le hr h1.used_le), h1.resultType_eq r hr]
  · intro r hr
    rw [h2.kind_eq r (Nat.lt_of_lt_of_le hr h1.used_le), h1.kind_eq r hr]
  · intro r hr
    rw [h2.owner_eq r (Nat.lt_of_lt_of_le hr h1.used_le), h1.owner_eq r hr]
  · intro r hr
    rw [h2.name_eq r (Nat.lt_of_lt_of_le hr h1.used_le), h1.name_eq r hr]

theorem data_allocate (gs : GlobalState) (sym : Symbol) (r : SymbolRef) :
    (gs.allocate sym).2.data r = if r = gs.symbolsUsed then sym else gs.data r := by
  unfold GlobalState.allocate GlobalState.data
  by_cases h : r = gs.symbolsUsed
  · subst h; simp
  · simp [h, Function.update]

theorem allocate_symbolsUsed (gs : GlobalState) (sym : Symbol) :
    (gs.allocate sym).2.symbolsUsed = gs.symbolsUsed + 1 := rfl

theorem allocate_fst (gs : GlobalState) (sym : Symbol) :
    (gs.allocate sym).1 = gs.symbolsUsed := rfl

theorem WF_update {gs : GlobalState} (hwf : Spec.WF gs) (r : SymbolRef) (f : Symbol → Symbol)
    (hres : (f (gs.data r)).resultType = (gs.data r).resultType)
    (hmem : ∀ k, (f (gs.data r)).members.find k < gs.symbolsUsed) :
    Spec.WF (gs.update r f) := by
  refine ⟨hwf.used, ?_, ?_⟩
  · intro r' n
    rw [data_update]
    split
    · exact hmem n
    · exact hwf.members_lt r' n
  · intro r' t
    rw [data_update]
    split
    · rw [hres]; rename_i h; subst h; exact hwf.alias_lt r' t
    · exact hwf.alias_lt r' t

theorem Ext_update (gs : GlobalState) (r : SymbolRef) (f : Symbol → Symbol)
    (hres : (f (gs.data r)).resultType = (gs.data r).resultType)
    (hkind : (f (gs.data r)).kind = (gs.data r).kind)
    (howner : (f (gs.data r)).owner = (gs.data r).owner)
    (hname : (f (gs.data r)).name = (gs.data r).name)
    (hmem : ∀ k, k ≠ NameRef.attached → (gs.data r).members.find k ≠ 0 →
      (f (gs.data r)).members.find k = (gs.data r).members.find k) :
    Spec.Ext gs (gs.update r f) := by
  refine ⟨Nat.le_refl _, ?_, ?_, ?_, ?_, ?_⟩
  · intro r' _ k hk hne
    rw [data_update]
    split
    · rename_i h; subst h; exact hmem k hk hne
    · rfl
  all_goals
    intro r' _
    rw [data_update]
    split
    · rename_i h; subst h; assumption
    · rfl

theorem addLoc_members (s : Symbol) (l : Loc) : (s.addLoc l).members = s.members := by
  unfold Symbol.addLoc; split <;> rfl

theorem addLoc_resultType (s : Symbol) (l : Loc) : (s.addLoc l).resultType = s.resultType := by
  unfold Symbol.addLoc; split <;> rfl

theorem addLoc_kind (s : Symbol) (l : Loc) : (s.addLoc l).kind = s.kind := by
  unfold Symbol.addLoc; split <;> rfl

theorem addLoc_owner (s : Symbol) (l : Loc) : (s.addLoc l).owner = s.owner := by
  unfold Symbol.addLoc; split <;> rfl

theorem addLoc_name (s : Symbol) (l : Loc) : (s.addLoc l).name = s.name := by
  unfold Symbol.addLoc; split <;> rfl

theorem WF_allocate {gs : GlobalState} (hwf : Spec.WF gs) (sym : Symbol)
    (hres : sym.resultType = none) (hmem : sym.members = []) :
    Spec.WF (gs.allocate sym).2 := by
  refine ⟨Nat.lt_succ_of_lt hwf.used, ?_, ?_⟩
  · intro r n
    rw [data_allocate, allocate_symbolsUsed]
    split
    · simp [hmem, Members.find, Symbols.noSymbol]
    · exact Nat.lt_succ_of_lt (hwf.members_lt r n)
  · intro r t
    rw [data_allocate, allocate_symbolsUsed]
    split
    · simp [hres]
    · intro h
      exact ⟨(hwf.alias_lt r t h).1, Nat.lt_succ_of_lt (hwf.alias_lt r t h).2⟩

theorem Ext_allocate (gs : GlobalState) (sym : Symbol) : Spec.Ext gs (gs.allocate sym).2 := by
  refine ⟨Nat.le_succ _, ?_, ?_, ?_, ?_, ?_⟩
  · intro r hr k _ _
    rw [data_allocate]
    simp [Nat.ne_of_lt hr]
  all_goals
    intro r hr
    rw [data_allocate]
    simp [Nat.ne_of_lt hr]

/-- What `enterSymbol` guarantees on a well-formed table. -/
theorem enterSymbol_spec (gs : GlobalState) (hwf : Spec.WF gs) (loc : Loc) (owner : SymbolRef)
    (name : NameRef) (kind : SymbolKind) :
    Spec.WF (gs.enterSymbol loc owner name kind).2 ∧
    Spec.Ext gs (gs.enterSymbol loc owner name kind).2 ∧
    (gs.enterSymbol loc owner name kind).1 < (gs.enterSymbol loc owner name kind).2.symbolsUsed ∧
    (gs.enterSymbol loc owner name kind).1 ≠ 0 ∧
    ((gs.enterSymbol loc owner name kind).2.data owner).members.find name =
      (gs.enterSymbol loc owner name kind).1 := by
  unfold GlobalState.enterSymbol
  by_cases h : (gs.data owner).members.find name = 0
  · have hex : ((gs.data owner).members.find name).exists = false := by simp [SymbolRef.exists, h]
    simp only [hex, Bool.false_eq_true, if_false]
    have hwf1 : Spec.WF (gs.allocate (Symbol.addLoc { owner := owner, name := name, kind := kind } loc)).2 :=
      WF_allocate hwf _ (by rw [addLoc_resultType]) (by rw [addLoc_members])
    refine ⟨?_, ?_, ?_, ?_, ?_⟩
    · apply WF_update hwf1
      · rfl
      · intro k
        simp only [find_set, allocate_fst, allocate_symbolsUsed]
        split
        · exact Nat.lt_succ_self _
        · exact hwf1.members_lt owner k
    · apply Ext_trans (Ext_allocate gs _)
      apply Ext_update
      · rfl
      · rfl
      · rfl
      · rfl
      · intro k hk hne
        simp only [find_set]
        split
        · rename_i hk2
          subst hk2
          exfalso
          apply hne
          rw [data_allocate]
          split
          · simp [addLoc_members, Members.find, Symbols.noSymbol]
          · exact h
        · rfl
    · simp [update_symbolsUsed, allocate_symbolsUsed, allocate_fst]
    · simp only [allocate_fst]
      exact Nat.pos_iff_ne_zero.mp (Nat.lt_trans (by decide : 0 < Symbols.untyped) hwf.used)
    · simp [data_update, find_set]
  · have hex : ((gs.data owner).members.find name).exists = true := by simp [SymbolRef.exists, h]
    simp only [hex, if_true]
    exact ⟨hwf, Ext_refl gs, hwf.members_lt owner name, h, trivial⟩

theorem enterSymbol_find_ne (gs : GlobalState) (loc : Loc) (owner : SymbolRef)
    (name : NameRef) (kind : SymbolKind) (r : SymbolRef) (hr : r < gs.symbolsUsed)
    (k : NameRef) (hk : k ≠ name) :
    ((gs.enterSymbol loc owner name kind).2.data r).members.find k =
      (gs.data r).members.find k := by
  unfold GlobalState.enterSymbol
  by_cases hex : ((gs.data owner).members.find name).exists = true
  · simp only [hex, if_true]
  · simp only [hex, Bool.false_eq_true, if_false, data_update, data_allocate, Nat.ne_of_lt hr]
    split
    · rename_i h; subst h
      have hk' : ¬ name = k := fun h => hk h.symm
      simp [find_set, hk', Nat.ne_of_lt hr]
    · rfl

theorem setIsModule_members (s : Symbol) (b : Bool) : (s.setIsModule b).members = s.members := by
  unfold Symbol.setIsModule; split <;> rfl

theorem setIsModule_resultType (s : Symbol) (b : Bool) :
    (s.setIsModule b).resultType = s.resultType := by
  unfold Symbol.setIsModule; split <;> rfl

theorem setIsModule_kind (s : Symbol) (b : Bool) : (s.setIsModule b).kind = s.kind := by
  unfold Symbol.setIsModule; split <;> rfl

theorem setIsModule_owner (s : Symbol) (b : Bool) : (s.setIsModule b).owner = s.owner := by
  unfold Symbol.setIsModule; split <;> rfl

theorem setIsModule_name (s : Symbol) (b : Bool) : (s.setIsModule b).name = s.name := by
  unfold Symbol.setIsModule; split <;> rfl

theorem enterSymbol_find_keep (gs : GlobalState) (loc : Loc) (owner : SymbolRef)
    (name : NameRef) (kind : SymbolKind) (r : SymbolRef) (hr : r < gs.symbolsUsed)
    (k : NameRef) (hne : (gs.data r).members.find k ≠ 0) :
    ((gs.enterSymbol loc owner name kind).2.data r).members.find k =
      (gs.data r).members.find k := by
  unfold GlobalState.enterSymbol
  by_cases hex : ((gs.data owner).members.find name).exists = true
  · simp only [hex, if_true]
  · simp only [hex, Bool.false_eq_true, if_false, data_update, data_allocate, Nat.ne_of_lt hr]
    split
    · rename_i h; subst h
      have h0 : (gs.data r).members.find name = 0 := by
        simpa [SymbolRef.exists] using hex
      have hk' : ¬ name = k := by
        intro h; subst h; exact hne h0
      simp [find_set, hk', Nat.ne_of_lt hr]
    · rfl

theorem singletonClass_spec (gs : GlobalState) (hwf : Spec.WF gs) (self : SymbolRef)
    (hself : self < gs.symbolsUsed) :
    Spec.WF (gs.singletonClass self).2 ∧
    Spec.Ext gs (gs.singletonClass self).2 ∧
    (gs.singletonClass self).1 < (gs.singletonClass self).2.symbolsUsed ∧
    (gs.singletonClass self).1 ≠ 0 ∧
    Spec.hasSingleton (gs.singletonClass self).2 self = true ∧
    (self ≠ 0 → ∀ r, r < gs.symbolsUsed → ∀ k, (gs.data r).members.find k = self →
      ((gs.singletonClass self).2.data r).members.find k = self) := by
  unfold GlobalState.singletonClass
  by_cases hfound : (gs.findMember self NameRef.singleton).exists = true
  · simp only [hfound, if_true]
    exact ⟨hwf, Ext_refl gs, findMember_lt gs hwf _ _, (exists_iff _).mp hfound, hfound,
      fun _ _ _ _ h => h⟩
  · simp only [hfound, Bool.false_eq_true, if_false]
    have hraw : (gs.data self).members.find NameRef.singleton = 0 := by
      by_contra h
      exact hfound ((findMember_exists_iff gs hwf self _).mpr h)
    obtain ⟨hwf1, hext1, hlt1, hne1, _⟩ := enterSymbol_spec gs hwf (gs.data self).loc
      (gs.data self).owner (gs.freshNameUnique UniqueNameKind.Singleton (gs.data self).name 1)
      SymbolKind.class_
    have hfind1 := enterSymbol_find_ne gs (gs.data self).loc (gs.data self).owner
      (gs.freshNameUnique UniqueNameKind.Singleton (gs.data self).name 1) SymbolKind.class_
      self hself NameRef.singleton (by simp [GlobalState.freshNameUnique])
    have hkeep1 := enterSymbol_find_keep gs (gs.data self).loc (gs.data self).owner
      (gs.freshNameUnique UniqueNameKind.Singleton (gs.data self).name 1) SymbolKind.class_
    unfold GlobalState.enterClassSymbol
    generalize gs.enterSymbol (gs.data self).loc (gs.data self).owner
      (gs.freshNameUnique UniqueNameKind.Singleton (gs.data self).name 1) SymbolKind.class_ = r
      at hwf1 hext1 hlt1 hne1 hfind1 hkeep1
    have hself1 : self < r.2.symbolsUsed := Nat.lt_of_lt_of_le hself hext1.used_le
    have hwf2 : Spec.WF (r.2.update r.1 (fun s =>
        Symbol.setIsModule
          { s with members := s.members.set NameRef.attached self, superClass := Symbols.todo }
          false)) := by
      apply WF_update hwf1
      · simp [setIsModule_resultType]
      · intro k
        simp only [setIsModule_members, find_set]
        split
        · exact hself1
        · exact hwf1.members_lt _ _
    have hself2 : self ≠ 0 → ∀ r', r' < gs.symbolsUsed → ∀ k,
        (gs.data r').members.find k = self →
        (((r.2.update r.1 (fun s =>
          Symbol.setIsModule
            { s with members := s.members.set NameRef.attached self, superClass := Symbols.todo }
            false)).update self (fun s =>
          { s with members := s.members.set NameRef.singleton r.1 })).data r').members.find k
          = self := by
      intro hs0 r' hr' k hk
      have hk1 : (r.2.data r').members.find k = self := by
        rw [hkeep1 r' hr' k (by rw [hk]; exact hs0), hk]
      have hk2 : ((r.2.update r.1 (fun s =>
          Symbol.setIsModule
            { s with members := s.members.set NameRef.attached self, superClass := Symbols.todo }
            false)).data r').members.find k = self := by
        rw [data_update]
        split
        · rename_i h
          simp only [setIsModule_members, find_set]
          split
          · rfl
          · rw [← h]; exact hk1
        · exact hk1
      rw [data_update]
      split
      · rename_i h
        subst h
        simp only [find_set]
        split
        · rename_i hk3
          subst hk3
          exfalso
          rw [data_update] at hk2
          split at hk2
          · rename_i h4
            simp only [setIsModule_members, find_set] at hk2
            rw [if_neg (by decide)] at hk2
            rw [← h4, hfind1, hraw] at hk2
            exact hs0 hk2.symm
          · rw [hfind1, hraw] at hk2
            exact hs0 hk2.symm
        · exact hk2
      · exact hk2
    have hext2 : Spec.Ext r.2 (r.2.update r.1 (fun s =>
        Symbol.setIsModule
          { s with members := s.members.set NameRef.attached self, superClass := Symbols.todo }
          false)) := by
      apply Ext_update
      · simp [setIsModule_resultType]
      · simp [setIsModule_kind]
      · simp [setIsModule_owner]
      · simp [setIsModule_name]
      · intro k hk _
        have hk' : ¬ NameRef.attached = k := fun h => hk h.symm
        simp [setIsModule_members, find_set, hk']
    have hraw2 : ((r.2.update r.1 (fun s =>
        Symbol.setIsModule
          { s with members := s.members.set NameRef.attached self, superClass := Symbols.todo }
          false)).data self).members.find NameRef.singleton = 0 := by
      rw [data_update]
      split
      · rename_i h
        simp only [setIsModule_members, find_set]
        rw [← h, hfind1, hraw]
        simp
      · rw [hfind1, hraw]
    generalize r.2.update r.1 (fun s =>
        Symbol.setIsModule
          { s with members := s.members.set NameRef.attached self, superClass := Symbols.todo }
          false) = gs2 at hwf2 hext2 hraw2 hself2
    have hlt2 : r.1 < gs2.symbolsUsed := Nat.lt_of_lt_of_le hlt1 hext2.used_le
    have hwf3 : Spec.WF (gs2.update self (fun s =>
        { s with members := s.members.set NameRef.singleton r.1 })) := by
      apply WF_update hwf2
      · rfl
      · intro k
        simp only [find_set]
        split
        · exact hlt2
        · exact hwf2.members_lt _ _
    have hext3 : Spec.Ext gs2 (gs2.update self (fun s =>
        { s with members := s.members.set NameRef.singleton r.1 })) := by
      apply Ext_update
      · rfl
      · rfl
      · rfl
      · rfl
      · intro k _ hne
        simp only [find_set]
        split
        · rename_i h; subst h; exact absurd hraw2 hne
        · rfl
    refine ⟨hwf3, Ext_trans hext1 (Ext_trans hext2 hext3), ?_, hne1, ?_, hself2⟩
    · simpa [update_symbolsUsed] using hlt2
    · unfold Spec.hasSingleton
      rw [findMember_exists_iff _ hwf3]
      simp [data_update, find_set, hne1]

theorem squashNames_cons (gs : GlobalState) (owner : SymbolRef) (c : UnresolvedConstantLit)
    (O' : SymbolRef) (scope' : Expression) (gs1 : GlobalState)
    (h : squashNames gs owner c.scope = .ok (O', scope', gs1)) :
    squashNames gs owner (.UnresolvedConstantLit c) =
      .ok ((Spec.squashStep gs1 O' c.loc c.cnst).1,
        .ConstantLit
          { loc := c.loc, symbol := (Spec.squashStep gs1 O' c.loc c.cnst).1,
            original := some (.UnresolvedConstantLit { c with scope := scope' }) },
        (Spec.squashStep gs1 O' c.loc c.cnst).2) := by
  rw [squashNames]
  simp only [h, bind, Except.bind, pure, Except.pure, Spec.squashStep]

theorem dealias_of_no_alias (gs : GlobalState) (r : SymbolRef)
    (h : (gs.data r).resultType = none) : gs.dealias r = r := by
  unfold GlobalState.dealias GlobalState.dealiasWithLimit
  simp [h]

theorem squashStep_spec (gs : GlobalState) (hwf : Spec.WF gs) (O' : SymbolRef)
    (hO : O' < gs.symbolsUsed) (loc : Loc) (cnst : NameRef) :
    Spec.WF (Spec.squashStep gs O' loc cnst).2 ∧
    Spec.Ext gs (Spec.squashStep gs O' loc cnst).2 ∧
    (Spec.squashStep gs O' loc cnst).1 < (Spec.squashStep gs O' loc cnst).2.symbolsUsed ∧
    (Spec.squashStep gs O' loc cnst).1 ≠ 0 ∧
    (Spec.squashStep gs O' loc cnst).2.findMember O' cnst = (Spec.squashStep gs O' loc cnst).1 ∧
    ((gs.findMember O' cnst).exists = true →
      Spec.squashStep gs O' loc cnst = (gs.findMember O' cnst, gs)) ∧
    ((gs.findMember O' cnst).exists = false →
      (Spec.squashStep gs O' loc cnst).1 = gs.symbolsUsed ∧
      gs.symbolsUsed < (Spec.squashStep gs O' loc cnst).2.symbolsUsed ∧
      ((Spec.squashStep gs O' loc cnst).2.data (Spec.squashStep gs O' loc cnst).1).isClass = true ∧
      ((Spec.squashStep gs O' loc cnst).2.data (Spec.squashStep gs O' loc cnst).1).owner = O' ∧
      ((Spec.squashStep gs O' loc cnst).2.data (Spec.squashStep gs O' loc cnst).1).name = cnst ∧
      Spec.hasSingleton (Spec.squashStep gs O' loc cnst).2 (Spec.squashStep gs O' loc cnst).1
        = true) := by
  by_cases hfound : (gs.findMember O' cnst).exists = true
  · have hstep : Spec.squashStep gs O' loc cnst = (gs.findMember O' cnst, gs) := by
      simp [Spec.squashStep, hfound]
    rw [hstep]
    refine ⟨hwf, Ext_refl gs, findMember_lt gs hwf _ _, (exists_iff _).mp hfound, rfl,
      fun _ => rfl, ?_⟩
    intro h; rw [hfound] at h; cases h
  · have hraw : (gs.data O').members.find cnst = 0 := by
      by_contra h
      exact hfound ((findMember_exists_iff gs hwf O' _).mpr h)
    have hrawex : ((gs.data O').members.find cnst).exists = false := by
      simp [SymbolRef.exists, hraw]
    have hfound' : (gs.findMember O' cnst).exists = false := by
      simpa using hfound
    -- the class symbol entered for the component
    have hc1 : (gs.enterClassSymbol loc O' cnst).1 = gs.symbolsUsed := by
      simp [GlobalState.enterClassSymbol, GlobalState.enterSymbol, hrawex, allocate_fst]
    have hcdata : (gs.enterClassSymbol loc O' cnst).2.data gs.symbolsUsed =
        Symbol.addLoc { owner := O', name := cnst, kind := SymbolKind.class_ } loc := by
      simp [GlobalState.enterClassSymbol, GlobalState.enterSymbol, hrawex, data_update,
        data_allocate, allocate_fst, Nat.ne_of_gt hO]
    have hcused : (gs.enterClassSymbol loc O' cnst).2.symbolsUsed = gs.symbolsUsed + 1 := by
      simp [GlobalState.enterClassSymbol, GlobalState.enterSymbol, hrawex, update_symbolsUsed,
        allocate_symbolsUsed]
    obtain ⟨hwf1, hext1, hlt1, hne1, hmem1⟩ :=
      enterSymbol_spec gs hwf loc O' cnst SymbolKind.class_
    have hstep : Spec.squashStep gs O' loc cnst =
        ((gs.enterClassSymbol loc O' cnst).1,
          ((gs.enterClassSymbol loc O' cnst).2.singletonClass
            (gs.enterClassSymbol loc O' cnst).1).2) := by
      simp [Spec.squashStep, hfound']
    rw [hstep]
    change Spec.WF (gs.enterClassSymbol loc O' cnst).2 at hwf1
    change Spec.Ext gs (gs.enterClassSymbol loc O' cnst).2 at hext1
    change (gs.enterClassSymbol loc O' cnst).1 < (gs.enterClassSymbol loc O' cnst).2.symbolsUsed
      at hlt1
    change (gs.enterClassSymbol loc O' cnst).1 ≠ 0 at hne1
    change ((gs.enterClassSymbol loc O' cnst).2.data O').members.find cnst =
      (gs.enterClassSymbol loc O' cnst).1 at hmem1
    obtain ⟨hwf2, hext2, _, _, hsing, hkeep⟩ :=
      singletonClass_spec (gs.enterClassSymbol loc O' cnst).2 hwf1
        (gs.enterClassSymbol loc O' cnst).1 hlt1
    have hO1 : O' < (gs.enterClassSymbol loc O' cnst).2.symbolsUsed :=
      Nat.lt_of_lt_of_le hO hext1.used_le
    generalize (gs.enterClassSymbol loc O' cnst).2 = gsA at *
    generalize (gs.enterClassSymbol loc O' cnst).1 = n at *
    subst hc1
    have hn2 : gs.symbolsUsed < (gsA.singletonClass gs.symbolsUsed).2.symbolsUsed :=
      Nat.lt_of_lt_of_le hlt1 hext2.used_le
    have hres : ((gsA.singletonClass gs.symbolsUsed).2.data gs.symbolsUsed).resultType = none := by
      rw [hext2.resultType_eq _ hlt1, hcdata, addLoc_resultType]
    refine ⟨hwf2, Ext_trans hext1 hext2, hn2, hne1, ?_, ?_, ?_⟩
    · have hraw2 := hkeep hne1 O' hO1 cnst hmem1
      unfold GlobalState.findMember GlobalState.findMemberNoDealias
      simp only [hraw2]
      have : (SymbolRef.exists gs.symbolsUsed) = true := (exists_iff _).mpr hne1
      simp only [this, if_true]
      exact dealias_of_no_alias _ _ hres
    · intro h; rw [hfound'] at h; cases h
    · intro _
      refine ⟨rfl, hn2, ?_, ?_, ?_, hsing⟩
      · unfold Symbol.isClass
        rw [hext2.kind_eq _ hlt1, hcdata, addLoc_kind]
        rfl
      · rw [hext2.owner_eq _ hlt1, hcdata, addLoc_owner]
      · rw [hext2.name_eq _ hlt1, hcdata, addLoc_name]

theorem squashNames_empty (gs : GlobalState) (owner : SymbolRef) :
    squashNames gs owner Expression.EmptyTree = .ok (owner, Expression.EmptyTree, gs) := by
  simp [squashNames, MK.EmptyTree, pure, Except.pure]

theorem squashNames_singleton (gs : GlobalState) (owner : SymbolRef) (loc : Loc) :
    squashNames gs owner (Expression.UnresolvedIdent ⟨loc, IdentKind.Class, NameRef.singleton⟩) =
      .ok (owner, Expression.EmptyTree, gs) := by
  simp [squashNames, ENFORCE, MK.EmptyTree, bind, Except.bind, pure, Except.pure]

theorem squashNames_path {P : NameRef → Prop} (e : Expression) (hp : Spec.ConstPath P e) :
    ∀ (gs : GlobalState) (owner : SymbolRef), Spec.WF gs → owner < gs.symbolsUsed →
      ∃ S e' gs', squashNames gs owner e = .ok (S, e', gs') ∧
        Spec.WF gs' ∧ Spec.Ext gs gs' ∧ S < gs'.symbolsUsed := by
  induction hp with
  | empty =>
    intro gs owner hwf ho
    exact ⟨owner, _, gs, squashNames_empty gs owner, hwf, Ext_refl gs, ho⟩
  | singleton loc =>
    intro gs owner hwf ho
    exact ⟨owner, _, gs, squashNames_singleton gs owner loc, hwf, Ext_refl gs, ho⟩
  | cons c _ _ ih =>
    intro gs owner hwf ho
    obtain ⟨O', scope', gs1, h1, hwf1, hext1, hO⟩ := ih gs owner hwf ho
    obtain ⟨hwf2, hext2, hlt2, _⟩ := squashStep_spec gs1 hwf1 O' hO c.loc c.cnst
    exact ⟨_, _, _, squashNames_cons gs owner c O' scope' gs1 h1, hwf2, Ext_trans hext1 hext2,
      hlt2⟩

/-- C9: on a well-formed table and for an allocated owner `O`, `squashNames` returns `O`
(with the node rewritten to `EmptyTree`) and leaves the table unchanged on the two base
cases; for a path
`scope::cnst` over such a base it returns a symbol `S` and the node rewritten into a
`ConstantLit` that refers to `S` and keeps the rewritten scope, where `S` is the member
named `cnst` of the symbol `O'` returned for the scope; if `findMember` finds that member
the table is the one left by the scope, and otherwise `S` is a newly allocated class
symbol owned by `O'`, named `cnst`, with its singleton class. -/
theorem C9_squashNames_spec (gs : GlobalState) (owner : SymbolRef) (hwf : Spec.WF gs)
    (howner : owner < gs.symbolsUsed) :
    squashNames gs owner Expression.EmptyTree = .ok (owner, Expression.EmptyTree, gs) ∧
    (∀ loc, squashNames gs owner
        (Expression.UnresolvedIdent ⟨loc, IdentKind.Class, NameRef.singleton⟩) =
      .ok (owner, Expression.EmptyTree, gs)) ∧
    (∀ c : UnresolvedConstantLit, Spec.ConstPath (fun _ => True) c.scope →
      ∃ O' scope' gs1 S gs',
        squashNames gs owner c.scope = .ok (O', scope', gs1) ∧
        squashNames gs owner (Expression.UnresolvedConstantLit c) =
          .ok (S,
            Expression.ConstantLit
              { loc := c.loc, symbol := S,
                original := some (Expression.UnresolvedConstantLit { c with scope := scope' }) },
            gs') ∧
        gs'.findMember O' c.cnst = S ∧ S.exists = true ∧
        ((gs1.findMember O' c.cnst).exists = true →
          S = gs1.findMember O' c.cnst ∧ gs' = gs1) ∧
        ((gs1.findMember O' c.cnst).exists = false →
          S = gs1.symbolsUsed ∧ gs1.symbolsUsed < gs'.symbolsUsed ∧
          (gs'.data S).isClass = true ∧ (gs'.data S).owner = O' ∧ (gs'.data S).name = c.cnst ∧
          Spec.hasSingleton gs' S = true)) := by
  refine ⟨squashNames_empty gs owner, squashNames_singleton gs owner, ?_⟩
  intro c hp
  obtain ⟨O', scope', gs1, h1, hwf1, _, hO⟩ := squashNames_path c.scope hp gs owner hwf howner
  obtain ⟨_, _, _, hne, hfind, hfound, hnew⟩ := squashStep_spec gs1 hwf1 O' hO c.loc c.cnst
  refine ⟨O', scope', gs1, _, _, h1, squashNames_cons gs owner c O' scope' gs1 h1, hfind,
    (exists_iff _).mpr hne, ?_, hnew⟩
  intro h
  have := hfound h
  exact ⟨congrArg Prod.fst this, congrArg Prod.snd this⟩

theorem squashStep_found (gs : GlobalState) (O' : SymbolRef) (loc : Loc) (cnst : NameRef)
    (S : SymbolRef) (h : gs.findMember O' cnst = S) (hne : S ≠ 0) :
    Spec.squashStep gs O' loc cnst = (S, gs) := by
  unfold Spec.squashStep
  simp [h, (exists_iff _).mpr hne]

theorem squashNames_idem (e : Expression)
    (hp : Spec.ConstPath (fun n => n ≠ NameRef.attached) e) :
    ∀ (gs : GlobalState) (owner : SymbolRef), Spec.WF gs → owner < gs.symbolsUsed →
      ∀ S e' gs', squashNames gs owner e = .ok (S, e', gs') →
        ∀ gs'', Spec.Ext gs' gs'' → squashNames gs'' owner e = .ok (S, e', gs'') := by
  induction hp with
  | empty =>
    intro gs owner _ _ S e' gs' h gs'' _
    rw [squashNames_empty] at h
    cases h
    exact squashNames_empty gs'' owner
  | singleton loc =>
    intro gs owner _ _ S e' gs' h gs'' _
    rw [squashNames_singleton] at h
    cases h
    exact squashNames_singleton gs'' owner loc
  | cons c hc hscope ih =>
    intro gs owner hwf ho S e' gs' h gs'' hext
    obtain ⟨O', scope', gs1, h1, hwf1, _, hO⟩ := squashNames_path c.scope hscope gs owner hwf ho
    rw [squashNames_cons gs owner c O' scope' gs1 h1] at h
    obtain ⟨hwf2, hext2, hlt2, hne2, hfind2, _, _⟩ := squashStep_spec gs1 hwf1 O' hO c.loc c.cnst
    cases h
    have h1' := ih gs owner hwf ho O' scope' gs1 h1 gs'' (Ext_trans hext2 hext)
    rw [squashNames_cons gs'' owner c O' scope' gs'' h1']
    have hex : ((Spec.squashStep gs1 O' c.loc c.cnst).2.findMember O' c.cnst).exists = true := by
      rw [hfind2]; exact (exists_iff _).mpr hne2
    have hsame : gs''.findMember O' c.cnst = (Spec.squashStep gs1 O' c.loc c.cnst).1 := by
      rw [findMember_ext _ gs'' hwf2 hext O' (Nat.lt_of_lt_of_le hO hext2.used_le) c.cnst hc hex,
        hfind2]
    rw [squashStep_found gs'' O' c.loc c.cnst _ hsame hne2]

/-! ### Singleton classes (C7) and the squashing of constant paths (C9) -/


theorem WF_initial : Spec.WF GlobalState.initial := by
  refine ⟨by decide, ?_, ?_⟩
  · intro r n
    unfold GlobalState.data GlobalState.initial
    simp only
    split_ifs <;>
      simp only [Members.find, Symbols.Object, Symbols.BasicObject, Symbols.rootSingleton,
        Symbols.root, Symbols.noSymbol] <;>
      (repeat' split) <;> decide
  · intro r t
    unfold GlobalState.data GlobalState.initial
    simp only
    split_ifs <;> simp

/-- Witness of C9: the path `A::B` under the root of the initial table. -/
theorem C9_squashNames_spec_witness :
    ∃ O' scope' gs1 S gs',
        squashNames GlobalState.initial Symbols.root Examples.nestedPath.scope = .ok (O', scope', gs1) ∧
        squashNames GlobalState.initial Symbols.root (Expression.UnresolvedConstantLit Examples.nestedPath) =
          .ok (S,
            Expression.ConstantLit
              { loc := Examples.nestedPath.loc, symbol := S,
                original := some (Expression.UnresolvedConstantLit { Examples.nestedPath with scope := scope' }) },
            gs') ∧
        gs'.findMember O' Examples.nestedPath.cnst = S ∧ S.exists = true ∧
        ((gs1.findMember O' Examples.nestedPath.cnst).exists = true →
          S = gs1.findMember O' Examples.nestedPath.cnst ∧ gs' = gs1) ∧
        ((gs1.findMember O' Examples.nestedPath.cnst).exists = false →
          S = gs1.symbolsUsed ∧ gs1.symbolsUsed < gs'.symbolsUsed ∧
          (gs'.data S).isClass = true ∧ (gs'.data S).owner = O' ∧ (gs'.data S).name = Examples.nestedPath.cnst ∧
          Spec.hasSingleton gs' S = true) :=
  (C9_squashNames_spec GlobalState.initial Symbols.root WF_initial (by decide)).2.2
    Examples.nestedPath (Spec.ConstPath.cons _ trivial Spec.ConstPath.empty)

theorem hasSingleton_ext (gs gs' : GlobalState) (hwf : Spec.WF gs) (hext : Spec.Ext gs gs')
    (x : SymbolRef) (hx : x < gs.symbolsUsed) (h : Spec.hasSingleton gs x = true) :
    Spec.hasSingleton gs' x = true := by
  unfold Spec.hasSingleton at *
  rw [findMember_ext gs gs' hwf hext x hx NameRef.singleton (by decide) h]
  exact h

theorem squashCreated_hasSingleton {P : NameRef → Prop} (e : Expression)
    (hp : Spec.ConstPath P e) :
    ∀ (gs : GlobalState) (owner : SymbolRef), Spec.WF gs → owner < gs.symbolsUsed →
      ∀ S e' gs', squashNames gs owner e = .ok (S, e', gs') →
        ∀ x ∈ Spec.squashCreated gs owner e,
          x < gs'.symbolsUsed ∧ Spec.hasSingleton gs' x = true := by
  induction hp with
  | empty => intro gs owner _ _ S e' gs' _ x hx; simp [Spec.squashCreated] at hx
  | singleton loc => intro gs owner _ _ S e' gs' _ x hx; simp [Spec.squashCreated] at hx
  | cons c _ hscope ih =>
    intro gs owner hwf ho S e' gs' h x hx
    obtain ⟨O', scope', gs1, h1, hwf1, _, hO⟩ := squashNames_path c.scope hscope gs owner hwf ho
    rw [squashNames_cons gs owner c O' scope' gs1 h1] at h
    obtain ⟨hwf2, hext2, hlt2, hne2, _, hfound, hnew⟩ :=
      squashStep_spec gs1 hwf1 O' hO c.loc c.cnst
    cases h
    rw [Spec.squashCreated] at hx
    simp only [h1] at hx
    rcases List.mem_append.mp hx with hx | hx
    · obtain ⟨hxlt, hxs⟩ := ih gs owner hwf ho O' scope' gs1 h1 x hx
      exact ⟨Nat.lt_of_lt_of_le hxlt hext2.used_le, hasSingleton_ext gs1 _ hwf1 hext2 x hxlt hxs⟩
    · by_cases hex : (gs1.findMember O' c.cnst).exists = true
      · simp [hex] at hx
      · have hex' : (gs1.findMember O' c.cnst).exists = false := by simpa using hex
        simp only [hex', Bool.false_eq_true, if_false, List.mem_singleton] at hx
        have hstep : (Spec.squashStep gs1 O' c.loc c.cnst).1 =
            (gs1.enterClassSymbol c.loc O' c.cnst).1 := by
          simp [Spec.squashStep, hex']
        rw [hx, ← hstep]
        exact ⟨hlt2, (hnew hex').2.2.2.2.2⟩

theorem WF_beginError (gs : GlobalState) (hwf : Spec.WF gs) (l : Loc) (w : ErrorClass) :
    Spec.WF (gs.beginError l w) :=
  ⟨hwf.used, hwf.members_lt, hwf.alias_lt⟩

theorem Ext_beginError (gs : GlobalState) (l : Loc) (w : ErrorClass) :
    Spec.Ext gs (gs.beginError l w) :=
  ⟨Nat.le_refl _, fun _ _ _ _ _ => rfl, fun _ _ => rfl, fun _ _ => rfl, fun _ _ => rfl,
    fun _ _ => rfl⟩

theorem update_keepsCore (gs : GlobalState) (hwf : Spec.WF gs) (r : SymbolRef)
    (f : Symbol → Symbol) (hf : Spec.KeepsCore f) :
    Spec.WF (gs.update r f) ∧ Spec.Ext gs (gs.update r f) := by
  obtain ⟨h1, h2, h3, h4, h5⟩ := hf (gs.data r)
  refine ⟨WF_update hwf r f h2 ?_, Ext_update gs r f h2 h3 h4 h5 ?_⟩
  · intro k; rw [h1]; exact hwf.members_lt r k
  · intro k _ _; rw [h1]

theorem addAncestor_table (ctx : MutableContext) (klass : ClassDef) (node : Expression)
    (r : Bool × ClassDef × GlobalState) (h : NameInserter.addAncestor ctx klass node = .ok r) :
    r.2.1.symbol = klass.symbol ∧
      (r.2.2 = ctx.state ∨ ∃ l w, r.2.2 = ctx.state.beginError l w) := by
  cases node with
  | Send s =>
    unfold NameInserter.addAncestor at h
    simp only at h
    split at h
    · cases h; exact ⟨rfl, Or.inl rfl⟩
    · split at h
      · cases h; exact ⟨rfl, Or.inl rfl⟩
      · split at h
        · cases h; exact ⟨rfl, Or.inr ⟨_, _, rfl⟩⟩
        · split at h
          · cases h; exact ⟨rfl, Or.inr ⟨_, _, rfl⟩⟩
          · split at h
            · cases hl : NameInserter.addAncestorLoop s.args.reverse klass.ancestors with
              | error e => simp [hl, bind, Except.bind] at h
              | ok d =>
                simp [hl, bind, Except.bind, pure, Except.pure] at h
                cases h; exact ⟨rfl, Or.inl rfl⟩
            · cases hl : NameInserter.addAncestorLoop s.args.reverse klass.singleton_ancestors with
              | error e => simp [hl, bind, Except.bind] at h
              | ok d =>
                simp [hl, bind, Except.bind, pure, Except.pure] at h
                cases h; exact ⟨rfl, Or.inl rfl⟩
  | _ =>
    simp [NameInserter.addAncestor, pure, Except.pure] at h
    cases h; exact ⟨rfl, Or.inl rfl⟩

theorem declare_table (gs : GlobalState) (hwf : Spec.WF gs) (sym : SymbolRef)
    (hsym : sym < gs.symbolsUsed) :
    Spec.WF (((gs.update sym (fun d => { d with classAbstract := true })).singletonClass sym).2.update
        ((gs.update sym (fun d => { d with classAbstract := true })).singletonClass sym).1
        (fun d => { d with classAbstract := true })) ∧
    Spec.Ext gs (((gs.update sym (fun d => { d with classAbstract := true })).singletonClass sym).2.update
        ((gs.update sym (fun d => { d with classAbstract := true })).singletonClass sym).1
        (fun d => { d with classAbstract := true })) := by
  obtain ⟨hwf1, hext1⟩ := update_keepsCore gs hwf sym (fun d => { d with classAbstract := true })
    (fun _ => ⟨rfl, rfl, rfl, rfl, rfl⟩)
  obtain ⟨hwf2, hext2, _⟩ := singletonClass_spec _ hwf1 sym (by simpa [update_symbolsUsed] using hsym)
  obtain ⟨hwf3, hext3⟩ := update_keepsCore _ hwf2
    ((gs.update sym (fun d => { d with classAbstract := true })).singletonClass sym).1
    (fun d => { d with classAbstract := true }) (fun _ => ⟨rfl, rfl, rfl, rfl, rfl⟩)
  exact ⟨hwf3, Ext_trans hext1 (Ext_trans hext2 hext3)⟩

theorem handleNamerDSL_table (ctx : MutableContext) (klass : ClassDef) (line : Expression)
    (hwf : Spec.WF ctx.state) (hsym : klass.symbol < ctx.state.symbolsUsed)
    (r : Bool × ClassDef × GlobalState) (h : NameInserter.handleNamerDSL ctx klass line = .ok r) :
    r.2.1.symbol = klass.symbol ∧ Spec.WF r.2.2 ∧ Spec.Ext ctx.state r.2.2 := by
  unfold NameInserter.handleNamerDSL at h
  cases ha : NameInserter.addAncestor ctx klass line with
  | error e => simp [ha, bind, Except.bind] at h
  | ok a =>
    obtain ⟨hs, ht⟩ := addAncestor_table ctx klass line a ha
    have hwfa : Spec.WF a.2.2 ∧ Spec.Ext ctx.state a.2.2 := by
      rcases ht with ht | ⟨l, w, ht⟩
      · rw [ht]; exact ⟨hwf, Ext_refl _⟩
      · rw [ht]; exact ⟨WF_beginError _ hwf l w, Ext_beginError _ l w⟩
    have hsyma : a.2.1.symbol < a.2.2.symbolsUsed := by
      rw [hs]; exact Nat.lt_of_lt_of_le hsym hwfa.2.used_le
    simp only [ha, bind, Except.bind] at h
    split at h
    · simp only [pure, Except.pure] at h
      cases h; exact ⟨hs, hwfa.1, hwfa.2⟩
    · cases line with
      | Send s =>
        simp only at h
        split at h
        · simp only [pure, Except.pure] at h
          cases h; exact ⟨hs, hwfa.1, hwfa.2⟩
        · obtain ⟨hwf3, hext3⟩ := declare_table a.2.2 hwfa.1 a.2.1.symbol hsyma
          split at h
          · obtain ⟨hwf4, hext4⟩ := update_keepsCore _ hwf3 a.2.1.symbol
              (fun d => { d with classInterface := true }) (fun _ => ⟨rfl, rfl, rfl, rfl, rfl⟩)
            split at h
            · simp only [pure, Except.pure] at h
              cases h
              exact ⟨hs, WF_beginError _ hwf4 _ _,
                Ext_trans hwfa.2 (Ext_trans hext3 (Ext_trans hext4 (Ext_beginError _ _ _)))⟩
            · simp only [pure, Except.pure] at h
              cases h
              exact ⟨hs, hwf4, Ext_trans hwfa.2 (Ext_trans hext3 hext4)⟩
          · simp only [pure, Except.pure] at h
            cases h
            exact ⟨hs, hwf3, Ext_trans hwfa.2 hext3⟩
      | _ =>
        simp only [pure, Except.pure] at h
        cases h; exact ⟨hs, hwfa.1, hwfa.2⟩

theorem removeNamerDSL_table (owner : SymbolRef) (rhs : List Expression) :
    ∀ (klass : ClassDef) (gs : GlobalState), Spec.WF gs → klass.symbol < gs.symbolsUsed →
      ∀ r, NameInserter.removeNamerDSL owner rhs klass gs = .ok r →
        r.2.1.symbol = klass.symbol ∧ Spec.WF r.2.2 ∧ Spec.Ext gs r.2.2 := by
  induction rhs with
  | nil =>
    intro klass gs hwf _ r h
    simp [NameInserter.removeNamerDSL, pure, Except.pure] at h
    cases h; exact ⟨rfl, hwf, Ext_refl _⟩
  | cons line rest ih =>
    intro klass gs hwf hsym r h
    unfold NameInserter.removeNamerDSL at h
    cases hh : NameInserter.handleNamerDSL ⟨gs, owner⟩ klass line with
    | error e => simp [hh, bind, Except.bind] at h
    | ok a =>
      obtain ⟨hs, hwfa, hexta⟩ := handleNamerDSL_table ⟨gs, owner⟩ klass line hwf hsym a hh
      simp only [hh, bind, Except.bind] at h
      cases hr : NameInserter.removeNamerDSL owner rest a.2.1 a.2.2 with
      | error e => simp [hr] at h
      | ok b =>
        obtain ⟨hs2, hwfb, hextb⟩ := ih a.2.1 a.2.2 hwfa
          (by rw [hs]; exact Nat.lt_of_lt_of_le hsym hexta.used_le) b hr
        simp only [hr, pure, Except.pure] at h
        cases h
        exact ⟨by rw [hs2, hs], hwfb, Ext_trans hexta hextb⟩

theorem postTransformClassDef_table (self : NameInserter) (ctx : MutableContext)
    (klass : ClassDef) (hwf : Spec.WF ctx.state) (hsym : klass.symbol < ctx.state.symbolsUsed)
    (r : Expression × NameInserter × GlobalState)
    (h : NameInserter.postTransformClassDef self ctx klass = .ok r) :
    Spec.WF r.2.2 ∧ Spec.Ext ctx.state r.2.2 ∧ Spec.hasSingleton r.2.2 klass.symbol = true := by
  unfold NameInserter.postTransformClassDef at h
  cases he : NameInserter.exitScope self with
  | error e => simp [he, bind, Except.bind] at h
  | ok self1 =>
    simp only [he, bind, Except.bind] at h
    have h1 : Spec.WF (if (klass.kind == ClassDefKind.Class &&
            !(ctx.state.data klass.symbol).superClass.exists &&
            klass.symbol != Symbols.BasicObject) = true then
          ctx.state.update klass.symbol (fun d => { d with superClass := Symbols.todo })
        else ctx.state) ∧
        Spec.Ext ctx.state (if (klass.kind == ClassDefKind.Class &&
            !(ctx.state.data klass.symbol).superClass.exists &&
            klass.symbol != Symbols.BasicObject) = true then
          ctx.state.update klass.symbol (fun d => { d with superClass := Symbols.todo })
        else ctx.state) := by
      split
      · exact update_keepsCore _ hwf _ _ (fun _ => ⟨rfl, rfl, rfl, rfl, rfl⟩)
      · exact ⟨hwf, Ext_refl _⟩
    generalize (if (klass.kind == ClassDefKind.Class &&
            !(ctx.state.data klass.symbol).superClass.exists &&
            klass.symbol != Symbols.BasicObject) = true then
          ctx.state.update klass.symbol (fun d => { d with superClass := Symbols.todo })
        else ctx.state) = gs1 at h h1
    obtain ⟨hwf2, hext2⟩ := update_keepsCore gs1 h1.1 klass.symbol
      (fun d => d.addLoc klass.declLoc)
      (fun s => ⟨addLoc_members s _, addLoc_resultType s _, addLoc_kind s _, addLoc_owner s _,
        addLoc_name s _⟩)
    have hsym2 : klass.symbol < (gs1.update klass.symbol
        (fun d => d.addLoc klass.declLoc)).symbolsUsed :=
      Nat.lt_of_lt_of_le hsym (Ext_trans h1.2 hext2).used_le
    obtain ⟨hwf3, hext3, _, _, hsing3, _⟩ := singletonClass_spec _ hwf2 klass.symbol hsym2
    have hsym3 := Nat.lt_of_lt_of_le hsym2 hext3.used_le
    generalize ((gs1.update klass.symbol (fun d => d.addLoc klass.declLoc)).singletonClass
      klass.symbol).2 = gs3 at h hwf3 hext3 hsing3 hsym3
    cases hr : NameInserter.removeNamerDSL ctx.owner klass.rhs klass gs3 with
    | error e => simp [hr] at h
    | ok b =>
      obtain ⟨_, hwfb, hextb⟩ := removeNamerDSL_table ctx.owner klass.rhs klass gs3 hwf3 hsym3 b hr
      simp only [hr, pure, Except.pure] at h
      cases h
      exact ⟨hwfb, Ext_trans h1.2 (Ext_trans hext2 (Ext_trans hext3 hextb)),
        hasSingleton_ext gs3 _ hwf3 hextb _ hsym3 hsing3⟩

/-- C7: (1) every class symbol that `squashNames` enters for a missing component of a
constant path has its singleton class allocated in the table that `squashNames` returns,
and keeps it in every later extension of that table;
(2) `postTransformClassDef` ends normally with the singleton class of the symbol attached
to the ClassDef allocated, whatever the origin of that symbol (entered by `squashNames`,
or by `preTransformClassDef` in place of a constant that is not a class), and every
allocated symbol that had its singleton class before still has it afterwards. -/
theorem C7_created_classes_have_singleton (gs : GlobalState) (owner : SymbolRef)
    (e : Expression) (S : SymbolRef) (e' : Expression) (gs' : GlobalState)
    (self : NameInserter) (ctx : MutableContext) (klass : ClassDef)
    (hwf : Spec.WF gs) (howner : owner < gs.symbolsUsed)
    (hpath : Spec.ConstPath (fun _ => True) e)
    (hsq : squashNames gs owner e = .ok (S, e', gs'))
    (hwfc : Spec.WF ctx.state) (hsym : klass.symbol < ctx.state.symbolsUsed)
    (hstack : self.scopeStack ≠ [])
    (hmix : klass.rhs.all Spec.mixinArgsWellFormed = true) :
    (∀ x ∈ Spec.squashCreated gs owner e, Spec.hasSingleton gs' x = true ∧
      ∀ gs2, Spec.Ext gs' gs2 → Spec.hasSingleton gs2 x = true) ∧
    ∃ ideSeqs klass' self' gs'', NameInserter.postTransformClassDef self ctx klass =
        .ok (MK.InsSeq klass.declLoc ideSeqs (.ClassDef klass'), self', gs'') ∧
      klass'.symbol = klass.symbol ∧
      Spec.hasSingleton gs'' klass'.symbol = true ∧
      ∀ x, x < ctx.state.symbolsUsed → Spec.hasSingleton ctx.state x = true →
        Spec.hasSingleton gs'' x = true := by
  have hwf' : Spec.WF gs' := by
    obtain ⟨S0, e0, g0, h0, hwf0, _, _⟩ := squashNames_path e hpath gs owner hwf howner
    rw [hsq] at h0
    cases h0
    exact hwf0
  refine ⟨fun x hx =>
    ⟨(squashCreated_hasSingleton e hpath gs owner hwf howner S e' gs' hsq x hx).2,
      fun gs2 hext => hasSingleton_ext gs' gs2 hwf' hext x
        (squashCreated_hasSingleton e hpath gs owner hwf howner S e' gs' hsq x hx).1
        (squashCreated_hasSingleton e hpath gs owner hwf howner S e' gs' hsq x hx).2⟩,
    ?_⟩
  obtain ⟨ideSeqs, self', gs'', h⟩ := postTransformClassDef_spec self ctx klass hstack hmix
  obtain ⟨_, hext, hsing⟩ := postTransformClassDef_table self ctx klass hwfc hsym _ h
  exact ⟨ideSeqs, _, self', gs'', h, rfl, hsing,
    fun x hx hs => hasSingleton_ext ctx.state gs'' hwfc hext x hx hs⟩

/-- Witness of C7: the path `A::B` and the class body of `mixinClassDef`. -/
theorem C7_created_classes_have_singleton_witness :
    (∀ x ∈ Spec.squashCreated GlobalState.initial Symbols.root
        (Expression.UnresolvedConstantLit Examples.nestedPath),
      Spec.hasSingleton Examples.nestedSquash.2.2 x = true ∧
      ∀ gs2, Spec.Ext Examples.nestedSquash.2.2 gs2 → Spec.hasSingleton gs2 x = true) ∧
    ∃ ideSeqs klass' self' gs'', NameInserter.postTransformClassDef NameInserter.init
          ⟨GlobalState.initial, Symbols.root⟩ Examples.mixinClassDef =
        .ok (MK.InsSeq Examples.mixinClassDef.declLoc ideSeqs (.ClassDef klass'), self', gs'') ∧
      klass'.symbol = Examples.mixinClassDef.symbol ∧
      Spec.hasSingleton gs'' klass'.symbol = true ∧
      ∀ x, x < GlobalState.initial.symbolsUsed → Spec.hasSingleton GlobalState.initial x = true →
        Spec.hasSingleton gs'' x = true :=
  C7_created_classes_have_singleton GlobalState.initial Symbols.root
    (Expression.UnresolvedConstantLit Examples.nestedPath)
    Examples.nestedSquash.1 Examples.nestedSquash.2.1 Examples.nestedSquash.2.2
    NameInserter.init ⟨GlobalState.initial, Symbols.root⟩ Examples.mixinClassDef
    WF_initial (by decide)
    (Spec.ConstPath.cons _ trivial (Spec.ConstPath.cons _ trivial Spec.ConstPath.empty))
    rfl WF_initial (by decide) (by decide) (by decide)


/-! ### Open classes (C8) -/


theorem enclosingClass_of_class (gs : GlobalState) (sym : SymbolRef)
    (h : (gs.data sym).isClass = true) : gs.enclosingClass sym = sym := by
  simp [GlobalState.enclosingClass, GlobalState.enclosingClassFrom, h]

theorem update_noop (gs : GlobalState) (r : SymbolRef) (f : Symbol → Symbol)
    (h : f (gs.data r) = gs.data r) : gs.update r f = gs := by
  unfold GlobalState.update
  unfold GlobalState.data at h
  rw [h, Function.update_eq_self]

theorem enterSymbol_arguments (gs : GlobalState) (loc : Loc) (owner : SymbolRef)
    (name : NameRef) (kind : SymbolKind) (r : SymbolRef) (hr : r < gs.symbolsUsed) :
    ((gs.enterSymbol loc owner name kind).2.data r).arguments = (gs.data r).arguments := by
  unfold GlobalState.enterSymbol
  by_cases hex : ((gs.data owner).members.find name).exists = true
  · simp only [hex, if_true]
  · simp only [hex, Bool.false_eq_true, if_false, data_update, data_allocate, Nat.ne_of_lt hr]
    split
    · rename_i h; subst h; simp [Nat.ne_of_lt hr]
    · rfl

theorem arg2Symbol_table (self : NameInserter) (ctx : MutableContext) (pos : Nat)
    (parsedArg : ParsedArg) (hwf : Spec.WF ctx.state) (ho : ctx.owner < ctx.state.symbolsUsed)
    (hstack : self.scopeStack ≠ []) :
    ∃ sym e gs', NameInserter.arg2Symbol self ctx pos parsedArg = .ok (sym, e, gs') ∧
      Spec.WF gs' ∧ Spec.Ext ctx.state gs' ∧
      (gs'.data ctx.owner).arguments = (ctx.state.data ctx.owner).arguments ∧
      (pos < (ctx.state.data ctx.owner).arguments.length →
        sym = (ctx.state.data ctx.owner).arguments.getD pos Symbols.noSymbol) := by
  unfold NameInserter.arg2Symbol
  by_cases hpos : pos < (ctx.state.data ctx.owner).arguments.length
  · obtain ⟨u, hu⟩ := enterLocal_ok self ctx parsedArg.name hstack
    simp only [hpos, if_true, hu, bind, Except.bind, pure, Except.pure]
    exact ⟨_, _, _, rfl, hwf, Ext_refl _, rfl, fun _ => rfl⟩
  · simp only [hpos, if_false]
    generalize (if parsedArg.keyword = true then parsedArg.name
      else if parsedArg.block = true then NameRef.blkArg
      else ctx.state.freshNameUnique UniqueNameKind.PositionalArg NameRef.arg (pos + 1)) = name
    obtain ⟨hwf1, hext1, _, _, _⟩ := enterSymbol_spec ctx.state hwf parsedArg.loc ctx.owner name
      SymbolKind.methodArgument
    have harg1 := enterSymbol_arguments ctx.state parsedArg.loc ctx.owner name
      SymbolKind.methodArgument ctx.owner ho
    unfold GlobalState.enterMethodArgumentSymbol
    generalize ctx.state.enterSymbol parsedArg.loc ctx.owner name SymbolKind.methodArgument = r
      at hwf1 hext1 harg1
    obtain ⟨u, hu⟩ := enterLocal_ok self { ctx with state := r.2 } parsedArg.name hstack
    simp only [hu, bind, Except.bind, pure, Except.pure]
    -- the four flag updates
    have step : ∀ (g : GlobalState) (b : Bool) (f : Symbol → Symbol), Spec.KeepsCore f →
        (∀ s, (f s).arguments = s.arguments) →
        Spec.WF g ∧ Spec.Ext ctx.state g ∧ (g.data ctx.owner).arguments =
          (ctx.state.data ctx.owner).arguments →
        Spec.WF (if b = true then g.update r.1 f else g) ∧
        Spec.Ext ctx.state (if b = true then g.update r.1 f else g) ∧
        ((if b = true then g.update r.1 f else g).data ctx.owner).arguments =
          (ctx.state.data ctx.owner).arguments := by
      intro g b f hf hfa ⟨h1, h2, h3⟩
      cases b
      · exact ⟨h1, h2, h3⟩
      · obtain ⟨k1, k2⟩ := update_keepsCore g h1 r.1 f hf
        refine ⟨k1, Ext_trans h2 k2, ?_⟩
        simp only [if_true, data_update]
        split
        · rename_i h; rw [hfa, ← h]; exact h3
        · exact h3
    have s1 := step r.2 parsedArg.default_.isSome (fun d => { d with argOptional := true })
      (fun _ => ⟨rfl, rfl, rfl, rfl, rfl⟩) (fun _ => rfl) ⟨hwf1, hext1, harg1⟩
    have s2 := step _ parsedArg.keyword (fun d => { d with argKeyword := true })
      (fun _ => ⟨rfl, rfl, rfl, rfl, rfl⟩) (fun _ => rfl) s1
    have s3 := step _ parsedArg.block (fun d => { d with argBlock := true })
      (fun _ => ⟨rfl, rfl, rfl, rfl, rfl⟩) (fun _ => rfl) s2
    have s4 := step _ parsedArg.repeated (fun d => { d with argRepeated := true })
      (fun _ => ⟨rfl, rfl, rfl, rfl, rfl⟩) (fun _ => rfl) s3
    exact ⟨_, _, _, rfl, s4.1, s4.2.1, s4.2.2, fun h => h.elim⟩

theorem fillInArgsLoop_table (owner : SymbolRef) (parsedArgs : List ParsedArg) :
    ∀ (i : Nat) (inShadows : Bool) (args : List Expression) (self : NameInserter)
      (gs : GlobalState),
      Spec.WF gs → owner < gs.symbolsUsed → self.scopeStack ≠ [] →
      Spec.shadowsLast inShadows parsedArgs = true →
      ∃ args' self' gs', NameInserter.fillInArgsLoop owner parsedArgs i inShadows args self gs =
          .ok (args', self', gs') ∧
        Spec.WF gs' ∧ Spec.Ext gs gs' ∧
        args'.length = args.length + parsedArgs.length ∧
        self'.blockArgStack = self.blockArgStack ∧
        self'.scopeStack.length = self.scopeStack.length := by
  induction parsedArgs with
  | nil =>
    intro i inShadows args self gs hwf _ _ _
    exact ⟨args, self, gs, by simp [NameInserter.fillInArgsLoop, pure, Except.pure], hwf, Ext_refl _,
      by simp, rfl, rfl⟩
  | cons arg rest ih =>
    intro i inShadows args self gs hwf ho hstack hsh
    obtain ⟨top, tail, hs⟩ : ∃ top tail, self.scopeStack = top :: tail := by
      cases h : self.scopeStack with
      | nil => exact absurd h hstack
      | cons a b => exact ⟨a, b, rfl⟩
    obtain ⟨u, hu⟩ := enterLocal_ok self ⟨gs, owner⟩ arg.name hstack
    unfold Spec.shadowsLast at hsh
    cases hshadow : arg.shadow
    · simp only [hshadow, Bool.false_eq_true, if_false, Bool.and_eq_true, Bool.not_eq_true'] at hsh
      obtain ⟨hin, hrest⟩ := hsh
      obtain ⟨sym, e, gs1, ha, hwf1, hext1, harg1, hsym1⟩ :=
        arg2Symbol_table self ⟨gs, owner⟩ i arg hwf ho hstack
      by_cases hi : i < (gs.data owner).arguments.length
      · have hi1 : i < (gs1.data owner).arguments.length := by
          simp only at harg1; rw [harg1]; exact hi
        have hsame : (gs1.data owner).arguments.getD i Symbols.noSymbol = sym := by
          simp only at harg1 hsym1; rw [harg1, hsym1 hi]
        obtain ⟨args', self', gs', h1, h2, h3, h4, h5, h6⟩ := ih (i + 1) inShadows
          (args ++ [e])
          { self with scopeStack := { top with locals := top.locals.set arg.name ⟨arg.name, u⟩, args := top.args ++ [⟨arg.name, u⟩] } :: tail }
          gs1 hwf1 (Nat.lt_of_lt_of_le ho hext1.used_le) (by simp) hrest
        have hsame' : (gs1.data owner).arguments[i] = sym := by
          rw [← hsame, List.getD_eq_getElem _ _ hi1]
        refine ⟨args', self', gs', ?_, h2, Ext_trans hext1 h3, ?_, h5, ?_⟩
        · rw [← h1]
          simp [NameInserter.fillInArgsLoop, hu, hshadow, hin, ENFORCE, ha, hi1, hsame', hs, modifyBack, bind,
            Except.bind, pure, Except.pure]
        · simp only [List.length_append, List.length_cons, List.length_nil] at h4 ⊢; omega
        · simp [h6, hs]
      · have hi1 : ¬ i < (gs1.data owner).arguments.length := by
          simp only at harg1; rw [harg1]; exact hi
        obtain ⟨hwf2, hext2⟩ := update_keepsCore gs1 hwf1 owner
          (fun o => { o with arguments := o.arguments ++ [sym] })
          (fun _ => ⟨rfl, rfl, rfl, rfl, rfl⟩)
        obtain ⟨args', self', gs', h1, h2, h3, h4, h5, h6⟩ := ih (i + 1) inShadows
          (args ++ [e])
          { self with scopeStack := { top with locals := top.locals.set arg.name ⟨arg.name, u⟩, args := top.args ++ [⟨arg.name, u⟩] } :: tail }
          (gs1.update owner (fun o => { o with arguments := o.arguments ++ [sym] })) hwf2
          (Nat.lt_of_lt_of_le ho (Ext_trans hext1 hext2).used_le) (by simp) hrest
        refine ⟨args', self', gs', ?_, h2, Ext_trans hext1 (Ext_trans hext2 h3), ?_, h5, ?_⟩
        · rw [← h1]
          simp [NameInserter.fillInArgsLoop, hu, hshadow, hin, ENFORCE, ha, hi1, hs, modifyBack, bind,
            Except.bind, pure, Except.pure]
        · simp only [List.length_append, List.length_cons, List.length_nil] at h4 ⊢; omega
        · simp [h6, hs]
    · simp only [hshadow, if_true] at hsh
      obtain ⟨args', self', gs', h1, h2, h3, h4, h5, h6⟩ := ih (i + 1) true
        (args ++ [Expression.Local ⟨arg.loc, ⟨arg.name, u⟩⟩])
        { self with scopeStack := { top with locals := top.locals.set arg.name ⟨arg.name, u⟩, args := top.args ++ [⟨arg.name, u⟩] } :: tail }
        gs hwf ho (by simp) hsh
      refine ⟨args', self', gs', ?_, h2, h3, ?_, h5, ?_⟩
      · rw [← h1]
        simp [NameInserter.fillInArgsLoop, hu, hshadow, hs, modifyBack, bind, Except.bind, pure, Except.pure]
      · simp only [List.length_append, List.length_cons, List.length_nil] at h4 ⊢; omega
      · simp [h6, hs]

theorem findMember_of_raw_zero (gs : GlobalState) (r : SymbolRef) (k : NameRef)
    (h : (gs.data r).members.find k = 0) : gs.findMember r k = 0 := by
  simp [GlobalState.findMember, GlobalState.findMemberNoDealias, h, SymbolRef.exists]

theorem preTransformMethodDef_enters_member (self : NameInserter) (gs : GlobalState)
    (S : SymbolRef) (method : MethodDef) (parsedArgs : List ParsedArg)
    (hwf : Spec.WF gs) (hS : S < gs.symbolsUsed) (hcl : (gs.data S).isClass = true)
    (hroot : S ≠ Symbols.root) (hself : method.isSelf = false)
    (hparse : NameInserter.parseArgs method.args = .ok parsedArgs)
    (hshadow : Spec.shadowsLast false parsedArgs = true)
    (hraw : (gs.data S).members.find method.name = 0)
    (hname : method.name ≠ NameRef.attached) :
    ∃ m self' gs', NameInserter.preTransformMethodDef self ⟨gs, S⟩ method = .ok (m, self', gs') ∧
      m.symbol = gs.symbolsUsed ∧
      (gs'.data S).members.find method.name = m.symbol ∧
      (gs'.data m.symbol).isMethod = true ∧
      Spec.WF gs' ∧ Spec.Ext gs gs' := by
  have hown : NameInserter.methodOwner ⟨gs, S⟩ = S := by
    have : (S == Symbols.root) = false := by simpa using hroot
    simp [NameInserter.methodOwner, enclosingClass_of_class gs S hcl, this]
  have hfind : gs.findMember S method.name = 0 := findMember_of_raw_zero gs S _ hraw
  have hrawex : ((gs.data S).members.find method.name).exists = false := by
    simp [SymbolRef.exists, hraw]
  obtain ⟨hwf1, hext1, hlt1, hne1, hmem1⟩ :=
    enterSymbol_spec gs hwf method.declLoc S method.name SymbolKind.method
  have he1 : (gs.enterSymbol method.declLoc S method.name SymbolKind.method).1 =
      gs.symbolsUsed := by
    simp [GlobalState.enterSymbol, hrawex, allocate_fst]
  have hkind1 : ((gs.enterSymbol method.declLoc S method.name SymbolKind.method).2.data
      gs.symbolsUsed).kind = SymbolKind.method := by
    simp [GlobalState.enterSymbol, hrawex, data_update, data_allocate, allocate_fst,
      Nat.ne_of_gt hS, addLoc_kind]
  generalize hgen : gs.enterSymbol method.declLoc S method.name SymbolKind.method = e at *
  obtain ⟨args', self', gs2, hf, hwf2, hext2, _, _, _⟩ :=
    fillInArgsLoop_table e.1 parsedArgs 0 false []
      (NameInserter.pushBlockArg (NameInserter.enterScope self) parsedArgs) e.2 hwf1 hlt1
      (by simp [NameInserter.pushBlockArg, NameInserter.enterScope]) hshadow
  obtain ⟨hwf3, hext3⟩ := update_keepsCore gs2 hwf2 e.1 (fun d => d.addLoc method.declLoc)
    (fun s => ⟨addLoc_members s _, addLoc_resultType s _, addLoc_kind s _, addLoc_owner s _,
      addLoc_name s _⟩)
  have h4 : Spec.WF (if method.isDSLSynthesized = true then
        (gs2.update e.1 (fun d => d.addLoc method.declLoc)).update e.1
          (fun d => { d with dslSynthesized := true })
      else gs2.update e.1 (fun d => d.addLoc method.declLoc)) ∧
      Spec.Ext (gs2.update e.1 (fun d => d.addLoc method.declLoc))
        (if method.isDSLSynthesized = true then
          (gs2.update e.1 (fun d => d.addLoc method.declLoc)).update e.1
            (fun d => { d with dslSynthesized := true })
        else gs2.update e.1 (fun d => d.addLoc method.declLoc)) := by
    split
    · exact update_keepsCore _ hwf3 _ _ (fun _ => ⟨rfl, rfl, rfl, rfl, rfl⟩)
    · exact ⟨hwf3, Ext_refl _⟩
  have hextAll := Ext_trans hext2 (Ext_trans hext3 h4.2)
  have hS1 : S < e.2.symbolsUsed := Nat.lt_of_lt_of_le hS hext1.used_le
  refine ⟨{ method with symbol := e.1, args := args' }, self', _, ?_, he1, ?_, ?_, h4.1,
    Ext_trans hext1 hextAll⟩
  · unfold NameInserter.preTransformMethodDef
    simp only [hself, hown, hcl, ENFORCE, hparse, hfind, bind, Except.bind, pure, Except.pure,
      Bool.false_eq_true, if_false, if_true, NameInserter.fillInArgs, GlobalState.enterMethodSymbol]
    have h0 : (SymbolRef.exists 0) = false := rfl
    simp only [h0, Bool.false_and, Bool.false_eq_true, if_false, hgen, hf]
  · rw [hextAll.find_eq S hS1 method.name hname (by rw [hmem1]; exact hne1), hmem1]
  · unfold Symbol.isMethod
    rw [hextAll.kind_eq e.1 hlt1, he1, hkind1]
    rfl

theorem setIsModule_false_noop (s : Symbol) (h : s.classClass = true) :
    s.setIsModule false = s := by
  cases s
  simp only at h
  subst h
  rfl


theorem SamePath_left {P : NameRef → Prop} (e1 e2 : Expression) (h : Spec.SamePath P e1 e2) :
    Spec.ConstPath P e1 := by
  induction h with
  | empty_empty => exact Spec.ConstPath.empty
  | empty_singleton loc => exact Spec.ConstPath.empty
  | singleton_empty loc => exact Spec.ConstPath.singleton loc
  | singleton_singleton loc1 loc2 => exact Spec.ConstPath.singleton loc1
  | cons c1 c2 _ hP _ ih => exact Spec.ConstPath.cons c1 hP ih

theorem squashNames_same_path (e1 e2 : Expression)
    (hp : Spec.SamePath (fun n => n ≠ NameRef.attached) e1 e2) :
    ∀ (gs : GlobalState) (owner : SymbolRef), Spec.WF gs → owner < gs.symbolsUsed →
      ∀ S e1' gs', squashNames gs owner e1 = .ok (S, e1', gs') →
        ∀ gs'', Spec.Ext gs' gs'' → ∃ e2', squashNames gs'' owner e2 = .ok (S, e2', gs'') := by
  induction hp with
  | empty_empty =>
    intro gs owner _ _ S e' gs' h gs'' _
    rw [squashNames_empty] at h
    cases h
    exact ⟨_, squashNames_empty gs'' owner⟩
  | empty_singleton loc =>
    intro gs owner _ _ S e' gs' h gs'' _
    rw [squashNames_empty] at h
    cases h
    exact ⟨_, squashNames_singleton gs'' owner loc⟩
  | singleton_empty loc =>
    intro gs owner _ _ S e' gs' h gs'' _
    rw [squashNames_singleton] at h
    cases h
    exact ⟨_, squashNames_empty gs'' owner⟩
  | singleton_singleton loc1 loc2 =>
    intro gs owner _ _ S e' gs' h gs'' _
    rw [squashNames_singleton] at h
    cases h
    exact ⟨_, squashNames_singleton gs'' owner loc2⟩
  | cons c1 c2 hc hP hscope ih =>
    intro gs owner hwf ho S e' gs' h gs'' hext
    obtain ⟨O', scope', gs1, h1, hwf1, _, hO⟩ :=
      squashNames_path c1.scope (SamePath_left _ _ hscope) gs owner hwf ho
    rw [squashNames_cons gs owner c1 O' scope' gs1 h1] at h
    obtain ⟨hwf2, hext2, hlt2, hne2, hfind2, _, _⟩ := squashStep_spec gs1 hwf1 O' hO c1.loc c1.cnst
    cases h
    obtain ⟨scope2', h1'⟩ := ih gs owner hwf ho O' scope' gs1 h1 gs'' (Ext_trans hext2 hext)
    rw [squashNames_cons gs'' owner c2 O' scope2' gs'' h1']
    have hex : ((Spec.squashStep gs1 O' c1.loc c1.cnst).2.findMember O' c1.cnst).exists = true := by
      rw [hfind2]; exact (exists_iff _).mpr hne2
    have hsame : gs''.findMember O' c2.cnst = (Spec.squashStep gs1 O' c1.loc c1.cnst).1 := by
      rw [← hc, findMember_ext _ gs'' hwf2 hext O' (Nat.lt_of_lt_of_le hO hext2.used_le) c1.cnst hP
        hex, hfind2]
    rw [squashStep_found gs'' O' c2.loc c2.cnst _ hsame hne2]
    exact ⟨_, rfl⟩

/-- C8: two class definitions (kind `Class`) with the same constant path under the same
class owner, the path squashing to a class symbol `S` that is not a module.
(1) The first `NameInserter.preTransformClassDef` attaches `S` and sets its kind to class.
(2) Against every later table that extends the one left by (1) and keeps the kind bits
of `S`, the second `NameInserter.preTransformClassDef` attaches the same `S` and leaves the table
exactly as it is: no symbol is entered, no error is reported, `S` stays a class.
(3) A method definition visited in such a class body (not yet a member of `S`) is
entered as a method symbol that is a member of `S` under the method's name, and it
stays that member in every later extension of the table, so the methods of both bodies
are members of the one symbol `S`. -/
theorem C8_open_class_merge (gs : GlobalState) (owner : SymbolRef) (self1 : NameInserter)
    (klass1 klass2 : ClassDef) (S : SymbolRef) (name' : Expression) (gsq : GlobalState)
    (hwf : Spec.WF gs) (howner : owner < gs.symbolsUsed)
    (hocl : (gs.data owner).isClass = true)
    (hs1 : klass1.symbol = Symbols.todo) (hs2 : klass2.symbol = Symbols.todo)
    (hk1 : klass1.kind = ClassDefKind.Class) (hk2 : klass2.kind = ClassDefKind.Class)
    (hpath : Spec.SamePath (fun n => n ≠ NameRef.attached) klass1.name klass2.name)
    (hnid : ∀ ident, klass1.name = .UnresolvedIdent ident → ident.name ≠ NameRef.singleton)
    (hnid2 : ∀ ident, klass2.name = .UnresolvedIdent ident → ident.name ≠ NameRef.singleton)
    (hsq : squashNames gs owner klass1.name = .ok (S, name', gsq))
    (hScl : (gsq.data S).isClass = true) (hSmod : (gsq.data S).classModule = false)
    (hSroot : S ≠ Symbols.root) :
    NameInserter.preTransformClassDef self1 ⟨gs, owner⟩ klass1 =
      .ok ({ klass1 with symbol := S, name := name' },
        NameInserter.enterScope { self1 with scopeCounter := 0 },
        gsq.update S (fun d => d.setIsModule false)) ∧
    (∀ (gs2 : GlobalState) (self2 : NameInserter),
      Spec.Ext (gsq.update S (fun d => d.setIsModule false)) gs2 →
      (gs2.data S).classClass = true → (gs2.data S).classModule = false →
      ∃ name2', NameInserter.preTransformClassDef self2 ⟨gs2, owner⟩ klass2 =
        .ok ({ klass2 with symbol := S, name := name2' },
          NameInserter.enterScope { self2 with scopeCounter := 0 }, gs2)) ∧
    (∀ (gsm : GlobalState) (selfm : NameInserter) (method : MethodDef)
        (parsedArgs : List ParsedArg),
      Spec.WF gsm → Spec.Ext (gsq.update S (fun d => d.setIsModule false)) gsm →
      method.isSelf = false → NameInserter.parseArgs method.args = .ok parsedArgs →
      Spec.shadowsLast false parsedArgs = true →
      (gsm.data S).members.find method.name = 0 → method.name ≠ NameRef.attached →
      ∃ m self' gs', NameInserter.preTransformMethodDef selfm ⟨gsm, S⟩ method = .ok (m, self', gs') ∧
        (gs'.data m.symbol).isMethod = true ∧ m.symbol ≠ 0 ∧ Spec.WF gs' ∧ Spec.Ext gsm gs' ∧
        ∀ gs3, Spec.Ext gs' gs3 → (gs3.data S).members.find method.name = m.symbol) := by
  obtain ⟨S0, e0, g0, h0, hwfq0, hextq0, hSlt0⟩ :=
    squashNames_path klass1.name (SamePath_left _ _ hpath) gs owner hwf howner
  rw [hsq] at h0
  cases h0
  have hextU : Spec.Ext gsq (gsq.update S (fun d => d.setIsModule false)) :=
    (update_keepsCore gsq hwfq0 S _ (fun s => ⟨setIsModule_members s _, setIsModule_resultType s _,
      setIsModule_kind s _, setIsModule_owner s _, setIsModule_name s _⟩)).2
  have hSltU : S < (gsq.update S (fun d => d.setIsModule false)).symbolsUsed := hSlt0
  refine ⟨?_, ?_, ?_⟩
  · have hstep := preTransformClassDef_class_step self1 ⟨gs, owner⟩ klass1 S name' gsq hnid
      (Or.inl ⟨hs1, by rw [enclosingClass_of_class gs owner hocl]; exact hsq⟩) hScl
    rw [hstep]
    have hb : (ClassDefKind.Class == ClassDefKind.Module) = false := by decide
    simp [hk1, Symbol.isClassModule, hSmod, hb]
  · intro gs2 self2 hext2 hcc hcm
    have hextq2 : Spec.Ext gsq gs2 := Ext_trans hextU hext2
    have hocl2 : (gs2.data owner).isClass = true := by
      unfold Symbol.isClass at hocl ⊢
      rw [(Ext_trans hextq0 hextq2).kind_eq owner howner]
      exact hocl
    have hSc2 : (gs2.data S).isClass = true := by
      unfold Symbol.isClass at hScl ⊢
      rw [hextq2.kind_eq S hSlt0]
      exact hScl
    obtain ⟨name2', hsq2⟩ := squashNames_same_path klass1.name klass2.name hpath gs owner hwf
      howner S name' gsq hsq gs2 hextq2
    have hstep := preTransformClassDef_class_step self2 ⟨gs2, owner⟩ klass2 S name2' gs2 hnid2
      (Or.inl ⟨hs2, by rw [enclosingClass_of_class gs2 owner hocl2]; exact hsq2⟩) hSc2
    refine ⟨name2', ?_⟩
    rw [hstep]
    have hnoop : gs2.update S (fun d => d.setIsModule false) = gs2 :=
      update_noop gs2 S _ (setIsModule_false_noop _ hcc)
    have hb : (ClassDefKind.Class == ClassDefKind.Module) = false := by decide
    simp [hk2, Symbol.isClassModule, hcm, hnoop, hb]
  · intro gsm selfm method parsedArgs hwfm hextm hself hparse hshadow hraw hmname
    have hSm : S < gsm.symbolsUsed := Nat.lt_of_lt_of_le hSltU hextm.used_le
    have hScm : (gsm.data S).isClass = true := by
      unfold Symbol.isClass at hScl ⊢
      rw [(Ext_trans hextU hextm).kind_eq S hSlt0]
      exact hScl
    obtain ⟨m, self', gs', hpre, hm1, hm2, hm3, hm4, hm5⟩ :=
      preTransformMethodDef_enters_member selfm gsm S method parsedArgs hwfm hSm hScm hSroot
        hself hparse hshadow hraw hmname
    have hmne : m.symbol ≠ 0 := by
      rw [hm1]
      exact Nat.pos_iff_ne_zero.mp (Nat.lt_trans (by decide : 0 < Symbols.untyped) hwfm.used)
    refine ⟨m, self', gs', hpre, hm3, hmne, hm4, hm5, ?_⟩
    intro gs3 hext3
    rw [hext3.find_eq S (Nat.lt_of_lt_of_le hSm hm5.used_le) method.name hmname
      (by rw [hm2]; exact hmne), hm2]

/-- Witness of C8: `class Foo` in file 1 and `class Foo` in file 2, under the root of the
initial table. -/
theorem C8_open_class_merge_witness :
    NameInserter.preTransformClassDef NameInserter.init ⟨GlobalState.initial, Symbols.root⟩
        Examples.openClassA =
      .ok ({ Examples.openClassA with
              symbol := Examples.fooSquash.1, name := Examples.fooSquash.2.1 },
        NameInserter.enterScope { NameInserter.init with scopeCounter := 0 },
        Examples.fooSquash.2.2.update Examples.fooSquash.1 (fun d => d.setIsModule false)) ∧
    (∀ (gs2 : GlobalState) (self2 : NameInserter),
      Spec.Ext (Examples.fooSquash.2.2.update Examples.fooSquash.1
        (fun d => d.setIsModule false)) gs2 →
      (gs2.data Examples.fooSquash.1).classClass = true →
      (gs2.data Examples.fooSquash.1).classModule = false →
      ∃ name2', NameInserter.preTransformClassDef self2 ⟨gs2, Symbols.root⟩
          Examples.openClassB =
        .ok ({ Examples.openClassB with symbol := Examples.fooSquash.1, name := name2' },
          NameInserter.enterScope { self2 with scopeCounter := 0 }, gs2)) ∧
    (∀ (gsm : GlobalState) (selfm : NameInserter) (method : MethodDef)
        (parsedArgs : List ParsedArg),
      Spec.WF gsm →
      Spec.Ext (Examples.fooSquash.2.2.update Examples.fooSquash.1
        (fun d => d.setIsModule false)) gsm →
      method.isSelf = false → NameInserter.parseArgs method.args = .ok parsedArgs →
      Spec.shadowsLast false parsedArgs = true →
      (gsm.data Examples.fooSquash.1).members.find method.name = 0 →
      method.name ≠ NameRef.attached →
      ∃ m self' gs', NameInserter.preTransformMethodDef selfm ⟨gsm, Examples.fooSquash.1⟩
          method = .ok (m, self', gs') ∧
        (gs'.data m.symbol).isMethod = true ∧ m.symbol ≠ 0 ∧ Spec.WF gs' ∧ Spec.Ext gsm gs' ∧
        ∀ gs3, Spec.Ext gs' gs3 →
          (gs3.data Examples.fooSquash.1).members.find method.name = m.symbol) :=
  C8_open_class_merge GlobalState.initial Symbols.root NameInserter.init Examples.openClassA
    Examples.openClassB Examples.fooSquash.1 Examples.fooSquash.2.1 Examples.fooSquash.2.2
    WF_initial (by decide) (by decide) rfl rfl rfl rfl
    (Spec.SamePath.cons _ _ rfl (by decide) Spec.SamePath.empty_empty)
    (by intro ident h; cases h) (by intro ident h; cases h) rfl (by decide!) (by decide!)
    (by decide!)

/-- The open-class scenario run end to end: file A `class Foo; def a; end; end`, then file
B `class Foo; def b; end; end`. Both class definitions carry the symbol 7, which is a
class and not a module, no error is reported, and `a` and `b` are method members of it. -/
theorem open_class_merge_scenario :
    Examples.succeeded Examples.openClassRunB = true ∧
    Examples.topLevelClassSymbols
        (Examples.treeAfter
          (Namer.run ⟨GlobalState.initial, Symbols.root⟩
            (Examples.fileTree 1 [.ClassDef Examples.openClassA]))) = [7] ∧
    Examples.topLevelClassSymbols (Examples.treeAfter Examples.openClassRunB) = [7] ∧
    ((Examples.tableAfter Examples.openClassRunB GlobalState.initial).data 7).isClass = true ∧
    ((Examples.tableAfter Examples.openClassRunB GlobalState.initial).data 7).isClassModule =
      false ∧
    ((Examples.tableAfter Examples.openClassRunB GlobalState.initial).data 7).arguments = [] ∧
    ((Examples.tableAfter Examples.openClassRunB GlobalState.initial).data 7).locs =
      [⟨1, 1⟩, ⟨2, 1⟩] ∧
    ((Examples.tableAfter Examples.openClassRunB GlobalState.initial).data
      ((Examples.tableAfter Examples.openClassRunB GlobalState.initial).findMember 7
        (NameRef.utf8 41))).isMethod = true ∧
    ((Examples.tableAfter Examples.openClassRunB GlobalState.initial).data
      ((Examples.tableAfter Examples.openClassRunB GlobalState.initial).findMember 7
        (NameRef.utf8 42))).isMethod = true ∧
    (Examples.tableAfter Examples.openClassRunB GlobalState.initial).errors = [] := by
  decide!

/-! ### Block-argument discovery (C10) -/

theorem blockGiven_ne_moduleFunction : (NameRef.blockGiven_p == NameRef.moduleFunction) = false := by decide

theorem blockGiven_ne_aliasMethod : (NameRef.blockGiven_p == NameRef.aliasMethod) = false := by decide

theorem blockGiven_beq_self : (NameRef.blockGiven_p == NameRef.blockGiven_p) = true := by decide

theorem pushBlockArg_stack (self : NameInserter) (args : List ParsedArg) :
    (NameInserter.pushBlockArg self args).blockArgStack =
      { declared := Spec.declaredBlockArg args, discovered := LocalVariable.noVariable } ::
        self.blockArgStack := rfl

theorem findOrCreateBlockParameter_spec (self : NameInserter) (loc : Loc) (f : BlockArgs)
    (bs : List BlockArgs) (h : self.blockArgStack = f :: bs) :
    NameInserter.findOrCreateBlockParameter self loc =
      .ok (if f.declared.exists then (f.declared, self)
        else if f.discovered.exists then (f.discovered, self)
        else (⟨NameRef.blkArg, 0⟩,
          { self with blockArgStack :=
              { f with discovered := ⟨NameRef.blkArg, 0⟩, discoveredLoc := loc } :: bs })) := by
  unfold NameInserter.findOrCreateBlockParameter
  rw [h]
  simp only []
  split
  · rfl
  · split <;> rfl

/-- Visiting uses when the block parameter is already fixed (declared, or discovered
earlier): the stack does not change. -/
theorem visitBlockUses_fixed (us : List (MutableContext × Spec.BlockUse)) :
    ∀ (self : NameInserter) (f : BlockArgs) (bs : List BlockArgs) (v : LocalVariable),
    self.blockArgStack = f :: bs →
    (∀ u ∈ us, u.2.isBlockUse = true) →
    (f.declared.exists = true ∧ v = f.declared ∨
      f.declared.exists = false ∧ f.discovered.exists = true ∧ v = f.discovered) →
    Spec.visitBlockUses us self =
      .ok (us.map (fun u => (Spec.rewriteUse v u.2, u.1.state)), self) := by
  induction us with
  | nil => intro self f bs v _ _ _; rfl
  | cons u rest ih =>
    intro self f bs v hst hus hv
    have hne : self.blockArgStack.isEmpty = false := by rw [hst]; rfl
    have hfo : ∀ loc, NameInserter.findOrCreateBlockParameter self loc = .ok (v, self) := by
      intro loc
      rw [findOrCreateBlockParameter_spec self loc f bs hst]
      rcases hv with ⟨h1, h2⟩ | ⟨h1, h2, h3⟩
      · simp [h1, h2]
      · simp [h1, h2, h3]
    have hrest := ih self f bs v hst (fun u hu => hus u (List.mem_cons_of_mem _ hu)) hv
    obtain ⟨ctx, use⟩ := u
    cases use with
    | yield y =>
      simp only [Spec.visitBlockUses, NameInserter.postTransformYield, hne, hfo, hrest, bind, Except.bind,
        pure, Except.pure, Bool.not_false, if_true, List.map_cons, Spec.rewriteUse]
    | blockGiven s =>
      have hu := hus (ctx, .blockGiven s) (List.mem_cons_self _ _)
      simp only [Spec.BlockUse.isBlockUse, Bool.and_eq_true, beq_iff_eq,
        List.isEmpty_iff] at hu
      obtain ⟨⟨hrecv, hfun⟩, hargs⟩ := hu
      simp only [Spec.visitBlockUses, NameInserter.postTransformSend, hargs, hrecv, hfun, hne, hfo, hrest,
        bind, Except.bind, pure, Except.pure, Bool.not_false, if_true, List.map_cons,
        List.isEmpty_nil, blockGiven_ne_moduleFunction, blockGiven_ne_aliasMethod, blockGiven_beq_self, Bool.false_eq_true, if_false, Spec.rewriteUse]

/-- Visiting the uses of a method body from the frame that `NameInserter.pushBlockArg` pushed. -/
theorem visitBlockUses_spec (us : List (MutableContext × Spec.BlockUse)) (self : NameInserter)
    (d : LocalVariable) (bs : List BlockArgs)
    (hst : self.blockArgStack = { declared := d, discovered := LocalVariable.noVariable } :: bs)
    (hus : ∀ u ∈ us, u.2.isBlockUse = true) :
    Spec.visitBlockUses us self =
      .ok (us.map (fun u => (Spec.rewriteUse (Spec.blockParam d) u.2, u.1.state)),
        { self with blockArgStack := Spec.frameAfter d us :: bs }) := by
  have hself : ({ self with blockArgStack :=
      { declared := d, discovered := LocalVariable.noVariable } :: bs } : NameInserter) = self := by
    cases self; simp only at hst; subst hst; rfl
  cases us with
  | nil => simp only [Spec.visitBlockUses, Spec.frameAfter, hself, List.map_nil]; rfl
  | cons u rest =>
    by_cases hd : d.exists = true
    · rw [visitBlockUses_fixed (u :: rest) self _ bs d hst hus (Or.inl ⟨hd, rfl⟩)]
      simp only [Spec.frameAfter, Spec.blockParam, hd, if_true, hself]
    · have hd' : d.exists = false := by simpa using hd
      have hne : self.blockArgStack.isEmpty = false := by rw [hst]; rfl
      have hfo : ∀ loc, NameInserter.findOrCreateBlockParameter self loc =
          .ok (⟨NameRef.blkArg, 0⟩, { self with blockArgStack :=
            { declared := d, discovered := ⟨NameRef.blkArg, 0⟩, discoveredLoc := loc } :: bs }) := by
        intro loc
        rw [findOrCreateBlockParameter_spec self loc _ bs hst]
        have hno : LocalVariable.noVariable.exists = false := by decide
        simp only [hd', hno, Bool.false_eq_true, if_false]
      have hrest : ∀ loc, Spec.visitBlockUses rest { self with blockArgStack :=
            { declared := d, discovered := ⟨NameRef.blkArg, 0⟩, discoveredLoc := loc } :: bs } =
          .ok (rest.map (fun u => (Spec.rewriteUse ⟨NameRef.blkArg, 0⟩ u.2, u.1.state)),
            { self with blockArgStack :=
            { declared := d, discovered := ⟨NameRef.blkArg, 0⟩, discoveredLoc := loc } :: bs }) := by
        intro loc
        exact visitBlockUses_fixed rest _ _ bs _ rfl
          (fun u hu => hus u (List.mem_cons_of_mem _ hu)) (Or.inr ⟨hd', rfl, rfl⟩)
      obtain ⟨ctx, use⟩ := u
      cases use with
      | yield y =>
        simp only [Spec.visitBlockUses, NameInserter.postTransformYield, hne, hfo, hrest, bind, Except.bind,
          pure, Except.pure, Bool.not_false, if_true, List.map_cons, Spec.frameAfter,
          Spec.blockParam, hd', Bool.false_eq_true, if_false]
        rfl
      | blockGiven s =>
        have hu := hus (ctx, .blockGiven s) (List.mem_cons_self _ _)
        simp only [Spec.BlockUse.isBlockUse, Bool.and_eq_true, beq_iff_eq,
          List.isEmpty_iff] at hu
        obtain ⟨⟨hrecv, hfun⟩, hargs⟩ := hu
        simp only [Spec.visitBlockUses, NameInserter.postTransformSend, hargs, hrecv, hfun, hne, hfo, hrest,
          bind, Except.bind, pure, Except.pure, Bool.not_false, if_true, List.map_cons,
          List.isEmpty_nil, Spec.frameAfter, Spec.blockParam, hd', Bool.false_eq_true, if_false,
          blockGiven_ne_moduleFunction, blockGiven_ne_aliasMethod, blockGiven_beq_self, Spec.rewriteUse,
          Spec.BlockUse.loc]

theorem enterSymbol_argBlock (gs : GlobalState) (loc : Loc) (owner : SymbolRef)
    (name : NameRef) (kind : SymbolKind) (r : SymbolRef) (hr : r < gs.symbolsUsed) :
    ((gs.enterSymbol loc owner name kind).2.data r).argBlock = (gs.data r).argBlock := by
  unfold GlobalState.enterSymbol
  by_cases hex : ((gs.data owner).members.find name).exists = true
  · simp only [hex, if_true]
  · simp only [hex, Bool.false_eq_true, if_false, data_update, data_allocate, Nat.ne_of_lt hr]
    split
    · rename_i h; subst h; simp [Nat.ne_of_lt hr]
    · rfl

theorem enterSymbol_used_le (gs : GlobalState) (loc : Loc) (owner : SymbolRef)
    (name : NameRef) (kind : SymbolKind) :
    gs.symbolsUsed ≤ (gs.enterSymbol loc owner name kind).2.symbolsUsed := by
  unfold GlobalState.enterSymbol
  by_cases hex : ((gs.data owner).members.find name).exists = true
  · simp only [hex, if_true]; exact Nat.le_refl _
  · simp only [hex, Bool.false_eq_true, if_false, update_symbolsUsed, allocate_symbolsUsed]
    exact Nat.le_succ _

theorem singletonClass_used_le (gs : GlobalState) (self : SymbolRef) :
    gs.symbolsUsed ≤ (gs.singletonClass self).2.symbolsUsed := by
  unfold GlobalState.singletonClass
  by_cases hfound : (gs.findMember self NameRef.singleton).exists = true
  · simp only [hfound, if_true]; exact Nat.le_refl _
  · simp only [hfound, Bool.false_eq_true, if_false, update_symbolsUsed,
      GlobalState.enterClassSymbol]
    exact enterSymbol_used_le _ _ _ _ _

theorem update_arguments (gs : GlobalState) (r : SymbolRef) (f : Symbol → Symbol)
    (x : SymbolRef) (hf : (f (gs.data r)).arguments = (gs.data r).arguments) :
    ((gs.update r f).data x).arguments = (gs.data x).arguments := by
  rw [data_update]
  split
  · rename_i h; subst h; exact hf
  · rfl

theorem update_argBlock (gs : GlobalState) (r : SymbolRef) (f : Symbol → Symbol)
    (x : SymbolRef) (hf : (f (gs.data r)).argBlock = (gs.data r).argBlock) :
    ((gs.update r f).data x).argBlock = (gs.data x).argBlock := by
  rw [data_update]
  split
  · rename_i h; subst h; exact hf
  · rfl

theorem singletonClass_arguments (gs : GlobalState) (self r : SymbolRef)
    (hr : r < gs.symbolsUsed) :
    ((gs.singletonClass self).2.data r).arguments = (gs.data r).arguments ∧
    ((gs.singletonClass self).2.data r).argBlock = (gs.data r).argBlock := by
  unfold GlobalState.singletonClass
  by_cases hfound : (gs.findMember self NameRef.singleton).exists = true
  · simp [hfound]
  · simp only [hfound, Bool.false_eq_true, if_false, GlobalState.enterClassSymbol]
    constructor
    · rw [update_arguments _ _ _ _ rfl, update_arguments _ _ _ _ rfl]
      exact enterSymbol_arguments gs _ _ _ _ r hr
    · rw [update_argBlock _ _ _ _ rfl, update_argBlock _ _ _ _ rfl]
      exact enterSymbol_argBlock gs _ _ _ _ r hr

theorem aliasModuleFunction_arguments (gs : GlobalState) (owner m : SymbolRef)
    (hm : m < gs.symbolsUsed) :
    ((NameInserter.aliasModuleFunction ⟨gs, owner⟩ m).data m).arguments = (gs.data m).arguments := by
  unfold NameInserter.aliasModuleFunction NameInserter.aliasMethod
  simp only [GlobalState.enterMethodSymbol]
  rw [update_arguments _ _ _ _ rfl,
    enterSymbol_arguments _ _ _ _ _ m
      (Nat.lt_of_lt_of_le hm (singletonClass_used_le gs (gs.data m).owner))]
  exact (singletonClass_arguments gs (gs.data m).owner m hm).1

theorem postTransformMethodDef_plain (self : NameInserter) (ctx : MutableContext)
    (method : MethodDef) (f : BlockArgs) (bs : List BlockArgs) (top encl : LocalFrame)
    (frames : List LocalFrame) (hst : self.blockArgStack = f :: bs)
    (hdisc : f.discovered.exists = false) (hscope : self.scopeStack = top :: encl :: frames)
    (hm : method.symbol < ctx.state.symbolsUsed)
    (hlen : method.args.length = (ctx.state.data method.symbol).arguments.length) :
    NameInserter.postTransformMethodDef self ctx method =
      .ok (method, { self with blockArgStack := bs, scopeStack := encl :: frames },
        if encl.moduleFunctionActive then NameInserter.aliasModuleFunction ctx method.symbol
        else ctx.state) := by
  unfold NameInserter.postTransformMethodDef
  have hali := aliasModuleFunction_arguments ctx.state ctx.owner method.symbol hm
  cases hmf : encl.moduleFunctionActive <;>
    simp [hst, back, hdisc, ENFORCE, NameInserter.exitScope, hscope, hmf, hlen, hali, bind, Except.bind,
      pure, Except.pure]

theorem postTransformMethodDef_discovered (self : NameInserter) (ctx : MutableContext)
    (method : MethodDef) (f : BlockArgs) (bs : List BlockArgs) (top encl : LocalFrame)
    (frames : List LocalFrame) (hst : self.blockArgStack = f :: bs)
    (hdisc : f.discovered = ⟨NameRef.blkArg, 0⟩)
    (hscope : self.scopeStack = top :: encl :: frames)
    (hm : method.symbol < (Spec.blockArgAppended ctx.state method.symbol).symbolsUsed)
    (hlen : method.args.length + 1 =
      ((Spec.blockArgAppended ctx.state method.symbol).data method.symbol).arguments.length) :
    NameInserter.postTransformMethodDef self ctx method =
      .ok ({ method with
              args := method.args ++ [Expression.Local ⟨f.discoveredLoc, ⟨NameRef.blkArg, 0⟩⟩] },
        { self with blockArgStack := bs, scopeStack := encl :: frames },
        if encl.moduleFunctionActive then
          NameInserter.aliasModuleFunction ⟨Spec.blockArgAppended ctx.state method.symbol, ctx.owner⟩
            method.symbol
        else Spec.blockArgAppended ctx.state method.symbol) := by
  unfold NameInserter.postTransformMethodDef
  have hali := aliasModuleFunction_arguments (Spec.blockArgAppended ctx.state method.symbol)
    ctx.owner method.symbol hm
  have hex : (⟨NameRef.blkArg, 0⟩ : LocalVariable).exists = true := rfl
  unfold Spec.blockArgAppended at hlen hali ⊢
  cases hmf : encl.moduleFunctionActive <;>
    simp [hst, back, hdisc, hex, ENFORCE, NameInserter.exitScope, hscope, hmf, ← hlen, hali, bind,
      Except.bind, pure, Except.pure]

theorem blockArgAppended_data (gs : GlobalState) (m : SymbolRef) (hm : m < gs.symbolsUsed)
    (hnew : (gs.data m).members.find NameRef.blkArg = 0) (x : SymbolRef) :
    (Spec.blockArgAppended gs m).symbolsUsed = gs.symbolsUsed + 1 ∧
    (Spec.blockArgAppended gs m).data x =
      if x = m then
        { gs.data m with
          members := (gs.data m).members.set NameRef.blkArg gs.symbolsUsed,
          arguments := (gs.data m).arguments ++ [gs.symbolsUsed] }
      else if x = gs.symbolsUsed then
        { owner := m, name := NameRef.blkArg, kind := SymbolKind.methodArgument,
          argBlock := true, resultType := some (TypePtr.untyped gs.symbolsUsed) }
      else gs.data x := by
  have hex : ((gs.data m).members.find NameRef.blkArg).exists = false := by
    simp [SymbolRef.exists, hnew]
  have hne : m ≠ gs.symbolsUsed := Nat.ne_of_lt hm
  have hne' : gs.symbolsUsed ≠ m := fun h => hne h.symm
  have hloc : Loc.none.exists = false := by decide
  unfold Spec.blockArgAppended GlobalState.enterMethodArgumentSymbol GlobalState.enterSymbol
  simp only [hex, Bool.false_eq_true, if_false, update_symbolsUsed, allocate_symbolsUsed,
    data_update, data_allocate, allocate_fst, Symbol.addLoc, hloc, hne, hne', if_true, true_and]
  by_cases h1 : x = m
  · subst h1; simp [hne]
  · by_cases h2 : x = gs.symbolsUsed
    · subst h2; simp [hne']
    · simp [h1, h2]

theorem WF_blockArgAppended (gs : GlobalState) (m : SymbolRef) (hwf : Spec.WF gs)
    (hm : m < gs.symbolsUsed) (hnew : (gs.data m).members.find NameRef.blkArg = 0) :
    Spec.WF (Spec.blockArgAppended gs m) := by
  refine ⟨?_, ?_, ?_⟩
  · rw [(blockArgAppended_data gs m hm hnew 0).1]; exact Nat.lt_succ_of_lt hwf.used
  · intro r n
    rw [(blockArgAppended_data gs m hm hnew r).1, (blockArgAppended_data gs m hm hnew r).2]
    split
    · simp only [find_set]
      split
      · exact Nat.lt_succ_self _
      · exact Nat.lt_succ_of_lt (hwf.members_lt _ _)
    · split
      · simp [Members.find, Symbols.noSymbol]
      · exact Nat.lt_succ_of_lt (hwf.members_lt _ _)
  · intro r t h
    rw [(blockArgAppended_data gs m hm hnew r).2] at h
    rw [(blockArgAppended_data gs m hm hnew r).1]
    split at h
    · have := hwf.alias_lt m t h
      exact ⟨this.1, Nat.lt_succ_of_lt this.2⟩
    · split at h
      · simp at h
      · have := hwf.alias_lt r t h
        exact ⟨this.1, Nat.lt_succ_of_lt this.2⟩

theorem blockArgAppended_find (gs : GlobalState) (m : SymbolRef) (hwf : Spec.WF gs)
    (hm : m < gs.symbolsUsed) (hnew : (gs.data m).members.find NameRef.blkArg = 0)
    (x : SymbolRef) (k : NameRef)
    (h : ((Spec.blockArgAppended gs m).data x).members.find k = gs.symbolsUsed) :
    x = m ∧ k = NameRef.blkArg := by
  have hpos : gs.symbolsUsed ≠ 0 :=
    Nat.pos_iff_ne_zero.mp (Nat.lt_trans (by decide : 0 < Symbols.untyped) hwf.used)
  rw [(blockArgAppended_data gs m hm hnew x).2] at h
  split at h
  · rename_i hx
    simp only [find_set] at h
    split at h
    · rename_i hk; exact ⟨hx, hk.symm⟩
    · exact absurd h (Nat.ne_of_lt (hwf.members_lt _ _))
  · split at h
    · simp [Members.find] at h; exact absurd h.symm hpos
    · exact absurd h (Nat.ne_of_lt (hwf.members_lt _ _))

theorem blockArgAppended_alias (gs : GlobalState) (m : SymbolRef) (hwf : Spec.WF gs)
    (hm : m < gs.symbolsUsed) (hnew : (gs.data m).members.find NameRef.blkArg = 0)
    (r t : SymbolRef)
    (h : ((Spec.blockArgAppended gs m).data r).resultType = some (TypePtr.alias t)) :
    t ≠ gs.symbolsUsed := by
  rw [(blockArgAppended_data gs m hm hnew r).2] at h
  split at h
  · exact Nat.ne_of_lt (hwf.alias_lt m t h).2
  · split at h
    · simp at h
    · exact Nat.ne_of_lt (hwf.alias_lt r t h).2

theorem dealiasWithLimit_ne (gs : GlobalState) (b : SymbolRef) (hb : Symbols.untyped ≠ b)
    (halias : ∀ r t, (gs.data r).resultType = some (TypePtr.alias t) → t ≠ b) (d : Nat) :
    ∀ r, r ≠ b → gs.dealiasWithLimit d r ≠ b := by
  induction d with
  | zero =>
    intro r hr
    unfold GlobalState.dealiasWithLimit
    split
    · exact hb
    · exact hr
  | succ d ih =>
    intro r hr
    unfold GlobalState.dealiasWithLimit
    split
    · rename_i t ht
      exact ih t (halias r t ht)
    · exact hr

theorem enterSymbol_find_back (gs : GlobalState) (loc : Loc) (owner : SymbolRef)
    (name : NameRef) (kind : SymbolKind) (x : SymbolRef) (k : NameRef) (v : SymbolRef)
    (h : ((gs.enterSymbol loc owner name kind).2.data x).members.find k = v)
    (hv0 : v ≠ 0) (hv : v ≠ (gs.enterSymbol loc owner name kind).1) :
    (gs.data x).members.find k = v := by
  unfold GlobalState.enterSymbol at h hv
  by_cases hex : ((gs.data owner).members.find name).exists = true
  · simp only [hex, if_true] at h
    exact h
  · simp only [hex, Bool.false_eq_true, if_false, data_update, data_allocate,
      allocate_fst] at h hv
    have hfresh : ∀ k, ((Symbol.addLoc { owner := owner, name := name, kind := kind } loc).members).find k = 0 := by
      intro k; rw [addLoc_members]; rfl
    split at h
    · rename_i hx; subst hx
      simp only [find_set] at h
      split at h
      · exact absurd h.symm hv
      · split at h
        · rw [hfresh] at h; exact absurd h.symm hv0
        · exact h
    · split at h
      · rw [hfresh] at h; exact absurd h.symm hv0
      · exact h

theorem singletonClass_find_back (gs : GlobalState) (self : SymbolRef) (x : SymbolRef)
    (k : NameRef) (v : SymbolRef)
    (h : ((gs.singletonClass self).2.data x).members.find k = v)
    (hv0 : v ≠ 0) (hvs : v ≠ self) (hv : v ≠ (gs.singletonClass self).1) :
    (gs.data x).members.find k = v := by
  unfold GlobalState.singletonClass at h hv
  by_cases hfound : (gs.findMember self NameRef.singleton).exists = true
  · simp only [hfound, if_true] at h
    exact h
  · simp only [hfound, Bool.false_eq_true, if_false, GlobalState.enterClassSymbol] at h hv
    generalize hgen : gs.enterSymbol (gs.data self).loc (gs.data self).owner
      (gs.freshNameUnique UniqueNameKind.Singleton (gs.data self).name 1) SymbolKind.class_ = e
      at h hv
    have key : (e.2.data x).members.find k = v := by
      rw [data_update] at h
      split at h
      · rename_i hx
        simp only [find_set] at h
        split at h
        · exact absurd h.symm hv
        · rw [data_update] at h
          split at h
          · rename_i hx2
            simp only [Symbol.setIsModule, Bool.false_eq_true, if_false, find_set] at h
            split at h
            · exact absurd h.symm hvs
            · rw [hx, hx2]; exact h
          · rw [hx]; exact h
      · rw [data_update] at h
        split at h
        · rename_i hx2
          simp only [Symbol.setIsModule, Bool.false_eq_true, if_false, find_set] at h
          split at h
          · exact absurd h.symm hvs
          · rw [hx2]; exact h
        · exact h
    rw [← hgen] at key hv
    exact enterSymbol_find_back gs _ _ _ _ x k v key hv0 hv

theorem singletonClass_fst_ne (g : GlobalState) (o b : SymbolRef)
    (hb : b < g.symbolsUsed) (hbu : Symbols.untyped ≠ b)
    (hQ : ∀ x k, (g.data x).members.find k = b → k = NameRef.blkArg)
    (halias : ∀ r t, (g.data r).resultType = some (TypePtr.alias t) → t ≠ b) :
    (g.singletonClass o).1 ≠ b := by
  unfold GlobalState.singletonClass
  by_cases hfound : (g.findMember o NameRef.singleton).exists = true
  · simp only [hfound, if_true]
    unfold GlobalState.findMember GlobalState.findMemberNoDealias
    have hraw : (g.data o).members.find NameRef.singleton ≠ b := by
      intro h
      have := hQ _ _ h
      exact absurd this (by decide)
    simp only []
    split
    · exact dealiasWithLimit_ne g b hbu halias 42 _ hraw
    · exact hraw
  · simp only [hfound, Bool.false_eq_true, if_false, GlobalState.enterClassSymbol]
    unfold GlobalState.enterSymbol
    simp only []
    split
    · intro h
      have := hQ _ _ h
      simp [GlobalState.freshNameUnique] at this
    · simp only [allocate_fst]
      exact fun h => absurd h (Nat.ne_of_gt hb)

theorem aliasModuleFunction_blockArg (g : GlobalState) (owner m b : SymbolRef)
    (hwf : Spec.WF g) (hm : m < g.symbolsUsed) (ho : (g.data m).owner < g.symbolsUsed)
    (hob : (g.data m).owner ≠ b) (hb : b < g.symbolsUsed) (hb0 : b ≠ 0)
    (hbu : Symbols.untyped ≠ b)
    (hQ : ∀ x k, (g.data x).members.find k = b → x = m ∧ k = NameRef.blkArg)
    (halias : ∀ r t, (g.data r).resultType = some (TypePtr.alias t) → t ≠ b)
    (hname : (g.data m).name ≠ NameRef.blkArg) :
    ((NameInserter.aliasModuleFunction ⟨g, owner⟩ m).data b).name = (g.data b).name ∧
    ((NameInserter.aliasModuleFunction ⟨g, owner⟩ m).data b).kind = (g.data b).kind ∧
    ((NameInserter.aliasModuleFunction ⟨g, owner⟩ m).data b).owner = (g.data b).owner ∧
    ((NameInserter.aliasModuleFunction ⟨g, owner⟩ m).data b).argBlock = (g.data b).argBlock ∧
    ((NameInserter.aliasModuleFunction ⟨g, owner⟩ m).data b).resultType = (g.data b).resultType := by
  obtain ⟨hwf1, hext1, _, _, _, _⟩ := singletonClass_spec g hwf (g.data m).owner ho
  have hr1b := singletonClass_fst_ne g (g.data m).owner b hb hbu (fun x k h => (hQ x k h).2)
    halias
  have hnm : ((g.singletonClass (g.data m).owner).2.data m).name = (g.data m).name :=
    hext1.name_eq m hm
  have hb1 : b < (g.singletonClass (g.data m).owner).2.symbolsUsed :=
    Nat.lt_of_lt_of_le hb hext1.used_le
  obtain ⟨_, hext2, _, _, _⟩ := enterSymbol_spec (g.singletonClass (g.data m).owner).2 hwf1
    ((g.singletonClass (g.data m).owner).2.data m).loc (g.singletonClass (g.data m).owner).1
    ((g.singletonClass (g.data m).owner).2.data m).name SymbolKind.method
  have he1b : ((g.singletonClass (g.data m).owner).2.enterSymbol
      ((g.singletonClass (g.data m).owner).2.data m).loc (g.singletonClass (g.data m).owner).1
      ((g.singletonClass (g.data m).owner).2.data m).name SymbolKind.method).1 ≠ b := by
    unfold GlobalState.enterSymbol
    simp only []
    split
    · intro h
      have h2 := singletonClass_find_back g (g.data m).owner _ _ b h hb0 (fun e => hob e.symm)
        (fun e => hr1b e.symm)
      have h3 := (hQ _ _ h2).2
      rw [hnm] at h3
      exact hname h3
    · simp only [allocate_fst]
      exact fun h => absurd h (Nat.ne_of_gt hb1)
  have he1b' : b ≠ ((g.singletonClass (g.data m).owner).2.enterSymbol
      ((g.singletonClass (g.data m).owner).2.data m).loc (g.singletonClass (g.data m).owner).1
      ((g.singletonClass (g.data m).owner).2.data m).name SymbolKind.method).1 :=
    fun e => he1b e.symm
  unfold NameInserter.aliasModuleFunction NameInserter.aliasMethod
  simp only [GlobalState.enterMethodSymbol, data_update, he1b', if_false]
  refine ⟨?_, ?_, ?_, ?_, ?_⟩
  · rw [hext2.name_eq b hb1, hext1.name_eq b hb]
  · rw [hext2.kind_eq b hb1, hext1.kind_eq b hb]
  · rw [hext2.owner_eq b hb1, hext1.owner_eq b hb]
  · rw [enterSymbol_argBlock _ _ _ _ _ b hb1]
    exact (singletonClass_arguments g (g.data m).owner b hb).2
  · rw [hext2.resultType_eq b hb1, hext1.resultType_eq b hb]

/-- C10: block-argument discovery. The frame that `pushBlockArg` pushed for the parameter
list `parsedArgs` is on top of the block-argument stack, and the uses `us` of the block
parameter in the body (`yield`, `self.block_given?`) are visited in order.
(1) Every use is rewritten to refer to one local: the declared block argument when the
last parameter is a named block argument, else `Local(blkArg, 0)`; no use changes the
table.
(2) If the block argument is declared, or there is no use, `postTransformMethodDef`
returns the definition as it is and the argument symbols of the method are unchanged.
(3) If no block argument is declared and there is at least one use (the method symbol
having no member `blkArg` yet), `postTransformMethodDef` appends exactly one
`Local(blkArg, 0)`, located at the first use, to the AST arguments, and exactly one
symbol to the arguments of the method symbol: a newly entered method argument named
`blkArg`, owned by the method, flagged as block argument, with result type `untyped`. -/
theorem C10_block_argument_discovery (base self1 : NameInserter)
    (parsedArgs : List ParsedArg) (top encl : LocalFrame) (frames : List LocalFrame)
    (us : List (MutableContext × Spec.BlockUse)) (ctx : MutableContext) (method : MethodDef)
    (hblock : self1.blockArgStack = (NameInserter.pushBlockArg base parsedArgs).blockArgStack)
    (hscope : self1.scopeStack = top :: encl :: frames)
    (hus : ∀ u ∈ us, u.2.isBlockUse = true)
    (hwf : Spec.WF ctx.state)
    (hm : method.symbol < ctx.state.symbolsUsed)
    (hlen : method.args.length = (ctx.state.data method.symbol).arguments.length) :
    ∃ self2,
      Spec.visitBlockUses us self1 =
        .ok (us.map (fun u =>
          (Spec.rewriteUse (Spec.blockParam (Spec.declaredBlockArg parsedArgs)) u.2, u.1.state)),
          self2) ∧
      ((Spec.declaredBlockArg parsedArgs).exists = true ∨ us = [] →
        ∃ self3 gs', NameInserter.postTransformMethodDef self2 ctx method = .ok (method, self3, gs') ∧
          self3.blockArgStack = base.blockArgStack ∧
          (gs'.data method.symbol).arguments = (ctx.state.data method.symbol).arguments ∧
          (encl.moduleFunctionActive = false → gs' = ctx.state)) ∧
      ((Spec.declaredBlockArg parsedArgs).exists = false → ∀ u rest, us = u :: rest →
        (ctx.state.data method.symbol).members.find NameRef.blkArg = 0 →
        (ctx.state.data method.symbol).name ≠ NameRef.blkArg →
        (ctx.state.data method.symbol).owner < ctx.state.symbolsUsed →
        ∃ self3 gs', NameInserter.postTransformMethodDef self2 ctx method =
            .ok ({ method with
                    args := method.args ++
                      [Expression.Local ⟨u.2.loc, ⟨NameRef.blkArg, 0⟩⟩] }, self3, gs') ∧
          self3.blockArgStack = base.blockArgStack ∧
          (gs'.data method.symbol).arguments =
            (ctx.state.data method.symbol).arguments ++ [ctx.state.symbolsUsed] ∧
          (gs'.data ctx.state.symbolsUsed).name = NameRef.blkArg ∧
          (gs'.data ctx.state.symbolsUsed).kind = SymbolKind.methodArgument ∧
          (gs'.data ctx.state.symbolsUsed).owner = method.symbol ∧
          (gs'.data ctx.state.symbolsUsed).argBlock = true ∧
          (gs'.data ctx.state.symbolsUsed).resultType =
            some (TypePtr.untyped ctx.state.symbolsUsed)) := by
  rw [pushBlockArg_stack] at hblock
  refine ⟨_, visitBlockUses_spec us self1 _ _ hblock hus, ?_, ?_⟩
  · intro hcase
    have hdisc : (Spec.frameAfter (Spec.declaredBlockArg parsedArgs) us).discovered.exists =
        false := by
      rcases hcase with hd | hnil
      · cases us with
        | nil => rfl
        | cons u rest => simp only [Spec.frameAfter, hd, if_true]; rfl
      · subst hnil; rfl
    rw [postTransformMethodDef_plain
      { self1 with blockArgStack :=
          Spec.frameAfter (Spec.declaredBlockArg parsedArgs) us :: base.blockArgStack }
      ctx method _ base.blockArgStack top encl frames rfl hdisc hscope hm hlen]
    refine ⟨_, _, rfl, rfl, ?_, ?_⟩
    · split
      · exact aliasModuleFunction_arguments ctx.state ctx.owner method.symbol hm
      · rfl
    · intro hmf; simp [hmf]
  · intro hd u rest hu hnew hname howner
    subst hu
    have hpos : ctx.state.symbolsUsed ≠ 0 :=
      Nat.pos_iff_ne_zero.mp (Nat.lt_trans (by decide : 0 < Symbols.untyped) hwf.used)
    have hne : method.symbol ≠ ctx.state.symbolsUsed := Nat.ne_of_lt hm
    have hne' : ctx.state.symbolsUsed ≠ method.symbol := fun h => hne h.symm
    have hused := (blockArgAppended_data ctx.state method.symbol hm hnew 0).1
    have hdm := (blockArgAppended_data ctx.state method.symbol hm hnew method.symbol).2
    have hdb := (blockArgAppended_data ctx.state method.symbol hm hnew ctx.state.symbolsUsed).2
    simp only [if_true] at hdm
    simp only [hne', if_false, if_true] at hdb
    have hm' : method.symbol < (Spec.blockArgAppended ctx.state method.symbol).symbolsUsed := by
      rw [hused]; exact Nat.lt_succ_of_lt hm
    have hframe : Spec.frameAfter (Spec.declaredBlockArg parsedArgs) (u :: rest) =
        { declared := Spec.declaredBlockArg parsedArgs, discovered := ⟨NameRef.blkArg, 0⟩,
          discoveredLoc := u.2.loc } := by
      simp only [Spec.frameAfter, hd, Bool.false_eq_true, if_false]
    rw [hframe]
    rw [postTransformMethodDef_discovered
      { self1 with blockArgStack :=
          { declared := Spec.declaredBlockArg parsedArgs, discovered := ⟨NameRef.blkArg, 0⟩,
            discoveredLoc := u.2.loc } :: base.blockArgStack }
      ctx method _ base.blockArgStack top encl frames rfl
      rfl hscope hm' (by rw [hdm]; simp [hlen])]
    refine ⟨_, _, rfl, rfl, ?_⟩
    split
    · have hwf3 := WF_blockArgAppended ctx.state method.symbol hwf hm hnew
      have hkeep := aliasModuleFunction_blockArg (Spec.blockArgAppended ctx.state method.symbol)
        ctx.owner method.symbol ctx.state.symbolsUsed hwf3 hm'
        (by rw [hdm, hused]; exact Nat.lt_succ_of_lt howner)
        (by rw [hdm]; exact Nat.ne_of_lt howner)
        (by rw [hused]; exact Nat.lt_succ_self _) hpos (Nat.ne_of_lt hwf.used)
        (blockArgAppended_find ctx.state method.symbol hwf hm hnew)
        (blockArgAppended_alias ctx.state method.symbol hwf hm hnew)
        (by rw [hdm]; exact hname)
      obtain ⟨h1, h2, h3, h4, h5⟩ := hkeep
      rw [h1, h2, h3, h4, h5, hdb,
        aliasModuleFunction_arguments _ ctx.owner method.symbol hm', hdm]
      exact ⟨rfl, rfl, rfl, rfl, rfl, rfl⟩
    · rw [hdb, hdm]
      exact ⟨rfl, rfl, rfl, rfl, rfl, rfl⟩

theorem WF_yieldTwicePre : Spec.WF Examples.yieldTwicePre.2.2 := by
  obtain ⟨m, s, g, h, _, _, _, hwf, _⟩ := preTransformMethodDef_enters_member
    Examples.atFileBody GlobalState.initial Symbols.Object Examples.yieldTwice [] WF_initial
    (by decide) (by decide) (by decide) rfl rfl (by decide) (by decide) (by decide)
  have hpre : Examples.yieldTwicePre = (m, s, g) := by
    unfold Examples.yieldTwicePre
    rw [h]
  rw [hpre]
  exact hwf

/-- Witness of C10: `def f; yield; yield; end` in the body of `class Object`, from the
state that `preTransformMethodDef` leaves. Both `yield`s become calls on `Local(blkArg, 0)`,
and `postTransformMethodDef` appends the one local, located at the first `yield`, and the
one argument symbol 8. -/
theorem C10_block_argument_discovery_witness :
    ∃ self2,
      Spec.visitBlockUses Examples.yieldTwiceUses Examples.yieldTwicePre.2.1 =
        .ok (Examples.yieldTwiceUses.map (fun u =>
          (Spec.rewriteUse (Spec.blockParam (Spec.declaredBlockArg [])) u.2, u.1.state)),
          self2) ∧
      ∃ self3 gs',
        NameInserter.postTransformMethodDef self2
            ⟨Examples.yieldTwicePre.2.2, Symbols.Object⟩ Examples.yieldTwicePre.1 =
          .ok ({ Examples.yieldTwicePre.1 with
                  args := Examples.yieldTwicePre.1.args ++
                    [Expression.Local ⟨⟨1, 2⟩, ⟨NameRef.blkArg, 0⟩⟩] }, self3, gs') ∧
        self3.blockArgStack = Examples.atFileBody.blockArgStack ∧
        (gs'.data Examples.yieldTwicePre.1.symbol).arguments =
          (Examples.yieldTwicePre.2.2.data Examples.yieldTwicePre.1.symbol).arguments ++
            [Examples.yieldTwicePre.2.2.symbolsUsed] ∧
        (gs'.data Examples.yieldTwicePre.2.2.symbolsUsed).name = NameRef.blkArg ∧
        (gs'.data Examples.yieldTwicePre.2.2.symbolsUsed).kind = SymbolKind.methodArgument ∧
        (gs'.data Examples.yieldTwicePre.2.2.symbolsUsed).owner =
          Examples.yieldTwicePre.1.symbol ∧
        (gs'.data Examples.yieldTwicePre.2.2.symbolsUsed).argBlock = true ∧
        (gs'.data Examples.yieldTwicePre.2.2.symbolsUsed).resultType =
          some (TypePtr.untyped Examples.yieldTwicePre.2.2.symbolsUsed) := by
  obtain ⟨self2, h1, _, h3⟩ := C10_block_argument_discovery Examples.atFileBody
    Examples.yieldTwicePre.2.1 [] { scopeId := 1 } { scopeId := 0 } [{ scopeId := 0 }]
    Examples.yieldTwiceUses ⟨Examples.yieldTwicePre.2.2, Symbols.Object⟩
    Examples.yieldTwicePre.1 (by decide!) (by decide!)
    (by intro u hu
        simp only [Examples.yieldTwiceUses, List.mem_cons, List.mem_singleton,
          List.mem_nil_iff, or_false] at hu
        rcases hu with rfl | rfl <;> rfl)
    WF_yieldTwicePre (by decide!) (by decide!)
  exact ⟨self2, h1, h3 rfl _ _ rfl (by decide!) (by decide!) (by decide!)⟩

/-- Block-argument discovery run end to end. `def f; yield; yield; end`: the method symbol 7
gets the one argument 8, named `blkArg`, flagged as block argument, with result type
`untyped`, and the definition gets the one argument `Local(blkArg, 0)` located at the first
`yield`. `def f(&blk); yield; end`: the method keeps its one declared argument, and the
`yield` is a call on the declared local `blk`. -/
theorem block_argument_discovery_scenario :
    Examples.succeeded Examples.yieldTwiceRun = true ∧
    Examples.topLevelMethodSymbols (Examples.treeAfter Examples.yieldTwiceRun) = [7] ∧
    Examples.topLevelMethodArgs (Examples.treeAfter Examples.yieldTwiceRun) =
      [[some ⟨⟨1, 2⟩, ⟨NameRef.blkArg, 0⟩⟩]] ∧
    ((Examples.tableAfter Examples.yieldTwiceRun GlobalState.initial).data 7).arguments = [8] ∧
    ((Examples.tableAfter Examples.yieldTwiceRun GlobalState.initial).data 8).name =
      NameRef.blkArg ∧
    ((Examples.tableAfter Examples.yieldTwiceRun GlobalState.initial).data 8).argBlock = true ∧
    ((Examples.tableAfter Examples.yieldTwiceRun GlobalState.initial).data 8).resultType =
      some (TypePtr.untyped 8) ∧
    Examples.succeeded Examples.declaredBlockRun = true ∧
    Examples.topLevelMethodArgs (Examples.treeAfter Examples.declaredBlockRun) =
      [[some ⟨⟨1, 1⟩, ⟨NameRef.utf8 2, 0⟩⟩]] ∧
    Examples.topLevelMethodBodyRecv (Examples.treeAfter Examples.declaredBlockRun) =
      [some ⟨⟨1, 2⟩, ⟨NameRef.utf8 2, 0⟩⟩] ∧
    ((Examples.tableAfter Examples.declaredBlockRun GlobalState.initial).data 7).arguments =
      [8] ∧
    (Examples.tableAfter Examples.declaredBlockRun GlobalState.initial).symbolsUsed = 9 := by
  decide!

/-! ### Yield, visibility, and the parsing and naming of arguments (C11, C12, C18, C19, C20) -/

/-- C11: `postTransformYield` always returns a `Send` of `call` at the location of the
`yield` with exactly the arguments of the `yield`, and no block. With an empty
block-argument stack the receiver is `T.unsafe(nil)` and the state of the pass is returned
as it is. With a frame on the stack the receiver is a `Local` of the block parameter of
that frame (declared, else discovered, else the newly discovered `blkArg`), and only that
frame may change, by recording the discovery. The handler has no access to the symbol
table or the error sink other than through `findOrCreateBlockParameter`, which uses
neither. -/
theorem C11_postTransformYield_spec (scopeStack : List LocalFrame) (scopeCounter : Nat)
    (ctx : MutableContext) (yield : Yield) :
    NameInserter.postTransformYield ⟨scopeStack, scopeCounter, []⟩ ctx yield =
      .ok (.Send { loc := yield.loc, recv := MK.Unsafe yield.loc (MK.Nil yield.loc),
                   fun_ := NameRef.call, args := yield.args, block := none },
        ⟨scopeStack, scopeCounter, []⟩) ∧
    ∀ (frame : BlockArgs) (rest : List BlockArgs),
      NameInserter.postTransformYield ⟨scopeStack, scopeCounter, frame :: rest⟩ ctx yield =
        .ok (.Send { loc := yield.loc,
                     recv := .Local ⟨yield.loc, Spec.frameBlockParam frame⟩,
                     fun_ := NameRef.call, args := yield.args, block := none },
          ⟨scopeStack, scopeCounter, Spec.frameAfterUse frame yield.loc :: rest⟩) := by
  refine ⟨rfl, ?_⟩
  intro f bs
  have hfo := findOrCreateBlockParameter_spec ⟨scopeStack, scopeCounter, f :: bs⟩ yield.loc f bs rfl
  simp only [NameInserter.postTransformYield, List.isEmpty_cons, Bool.not_false,
    if_true, hfo, bind, Except.bind,
    pure, Except.pure, Spec.frameBlockParam, Spec.frameAfterUse]
  by_cases h1 : f.declared.exists = true
  · simp [h1]
  · by_cases h2 : f.discovered.exists = true
    · simp [h1, h2]
    · simp [h1, h2]

/-- C12: a `Send` whose only argument is a `MethodDef`. For `private` and
`private_class_method` the symbol of the definition is set private, for `protected` it is
set protected, for `public` both bits are cleared, and in these cases the inner `MethodDef`
is returned in place of the `Send`, the state of the pass unchanged. For every function
other than these and `module_function` the `Send` is returned as it is and the table is
unchanged. -/
theorem C12_visibility_of_wrapped_def (self : NameInserter) (ctx : MutableContext)
    (original : Send) (mdef : MethodDef) (hargs : original.args = [.MethodDef mdef]) :
    ((original.fun_ = NameRef.private_ ∨ original.fun_ = NameRef.privateClassMethod) →
      NameInserter.postTransformSend self ctx original =
        .ok (.MethodDef mdef, self,
          ctx.state.update mdef.symbol (fun d => { d with methodPrivate := true }))) ∧
    (original.fun_ = NameRef.protected_ →
      NameInserter.postTransformSend self ctx original =
        .ok (.MethodDef mdef, self,
          ctx.state.update mdef.symbol (fun d => { d with methodProtected := true }))) ∧
    (original.fun_ = NameRef.public_ →
      NameInserter.postTransformSend self ctx original =
        .ok (.MethodDef mdef, self,
          ctx.state.update mdef.symbol
            (fun d => { d with methodPrivate := false, methodProtected := false }))) ∧
    (original.fun_ ≠ NameRef.private_ → original.fun_ ≠ NameRef.privateClassMethod →
      original.fun_ ≠ NameRef.protected_ → original.fun_ ≠ NameRef.public_ →
      original.fun_ ≠ NameRef.moduleFunction →
      NameInserter.postTransformSend self ctx original = .ok (.Send original, self, ctx.state)) := by
  refine ⟨?_, ?_, ?_, ?_⟩
  · intro h
    rcases h with h | h <;>
      simp [NameInserter.postTransformSend, hargs, h, bind, Except.bind, pure, Except.pure]
  · intro h
    simp [NameInserter.postTransformSend, hargs, h, bind, Except.bind, pure, Except.pure]
  · intro h
    simp [NameInserter.postTransformSend, hargs, h, bind, Except.bind, pure, Except.pure]
  · intro h1 h2 h3 h4 h5
    simp [NameInserter.postTransformSend, hargs, h1, h2, h3, h4, h5, bind, Except.bind, pure,
      Except.pure]

set_option maxHeartbeats 4000000 in
/-- The descriptor that `parseArg` returns for a chain of wrappers. -/
theorem parseArg_chain (e : Expression) (h : Spec.ArgChain e) :
    ∃ leaf p, Spec.chainLeaf e = some leaf ∧ parseArg e = .ok p ∧
      p.name = leaf.name ∧ p.loc = leaf.loc ∧
      p.default_ = Spec.outermostDefault e ∧
      p.repeated = Spec.occursRestArg e ∧ p.keyword = Spec.occursKeywordArg e ∧
      p.block = Spec.occursBlockArg e ∧ p.shadow = Spec.occursShadowArg e := by
  induction h with
  | leaf nm =>
    refine ⟨nm, { name := nm.name, loc := nm.loc }, ?_, ?_, rfl, rfl, ?_, ?_, ?_, ?_, ?_⟩
    · rw [Spec.chainLeaf]
    · rw [parseArg]; rfl
    · rw [Spec.outermostDefault] <;> (intro n h; cases h)
    · rw [Spec.occursRestArg] <;> (intro n h; cases h)
    · rw [Spec.occursKeywordArg] <;> (intro n h; cases h)
    · rw [Spec.occursBlockArg] <;> (intro n h; cases h)
    · rw [Spec.occursShadowArg] <;> (intro n h; cases h)
  | rest n _ ih =>
    obtain ⟨leaf, p, h1, h2, h3, h4, h5, h6, h7, h8, h9⟩ := ih
    refine ⟨leaf, { p with repeated := true }, ?_, ?_, h3, h4, ?_, ?_, ?_, ?_, ?_⟩
    · rw [Spec.chainLeaf]; exact h1
    · rw [parseArg, h2]; rfl
    · rw [Spec.outermostDefault]; exact h5
    · rw [Spec.occursRestArg]
    · rw [Spec.occursKeywordArg]; exact h7
    · rw [Spec.occursBlockArg]; exact h8
    · rw [Spec.occursShadowArg]; exact h9
  | keyword n _ ih =>
    obtain ⟨leaf, p, h1, h2, h3, h4, h5, h6, h7, h8, h9⟩ := ih
    refine ⟨leaf, { p with keyword := true }, ?_, ?_, h3, h4, ?_, ?_, ?_, ?_, ?_⟩
    · rw [Spec.chainLeaf]; exact h1
    · rw [parseArg, h2]; rfl
    · rw [Spec.outermostDefault]; exact h5
    · rw [Spec.occursRestArg]; exact h6
    · rw [Spec.occursKeywordArg]
    · rw [Spec.occursBlockArg]; exact h8
    · rw [Spec.occursShadowArg]; exact h9
  | block n _ ih =>
    obtain ⟨leaf, p, h1, h2, h3, h4, h5, h6, h7, h8, h9⟩ := ih
    refine ⟨leaf, { p with block := true }, ?_, ?_, h3, h4, ?_, ?_, ?_, ?_, ?_⟩
    · rw [Spec.chainLeaf]; exact h1
    · rw [parseArg, h2]; rfl
    · rw [Spec.outermostDefault]; exact h5
    · rw [Spec.occursRestArg]; exact h6
    · rw [Spec.occursKeywordArg]; exact h7
    · rw [Spec.occursBlockArg]
    · rw [Spec.occursShadowArg]; exact h9
  | shadow n _ ih =>
    obtain ⟨leaf, p, h1, h2, h3, h4, h5, h6, h7, h8, h9⟩ := ih
    refine ⟨leaf, { p with shadow := true }, ?_, ?_, h3, h4, ?_, ?_, ?_, ?_, ?_⟩
    · rw [Spec.chainLeaf]; exact h1
    · rw [parseArg, h2]; rfl
    · rw [Spec.outermostDefault]; exact h5
    · rw [Spec.occursRestArg]; exact h6
    · rw [Spec.occursKeywordArg]; exact h7
    · rw [Spec.occursBlockArg]; exact h8
    · rw [Spec.occursShadowArg]
  | optional n _ ih =>
    obtain ⟨leaf, p, h1, h2, h3, h4, h5, h6, h7, h8, h9⟩ := ih
    refine ⟨leaf, { p with default_ := some n.default_ }, ?_, ?_, h3, h4, ?_, ?_, ?_, ?_, ?_⟩
    · rw [Spec.chainLeaf]; exact h1
    · rw [parseArg, h2]; rfl
    · rw [Spec.outermostDefault]
    · rw [Spec.occursRestArg]; exact h6
    · rw [Spec.occursKeywordArg]; exact h7
    · rw [Spec.occursBlockArg]; exact h8
    · rw [Spec.occursShadowArg]; exact h9

theorem enterLocal_total (self : NameInserter) (ctx : MutableContext) (name : NameRef)
    (hstack : self.scopeStack ≠ []) :
    ∃ lv, NameInserter.enterLocal self ctx name = .ok lv ∧ lv._name = name := by
  unfold NameInserter.enterLocal
  split
  · exact ⟨_, rfl, rfl⟩
  · cases hs : self.scopeStack with
    | nil => exact absurd hs hstack
    | cons f fs => exact ⟨_, rfl, rfl⟩

theorem enterSymbol_new (gs : GlobalState) (loc : Loc) (owner : SymbolRef) (name : NameRef)
    (kind : SymbolKind) (h : (gs.data owner).members.find name = 0) :
    (gs.enterSymbol loc owner name kind).1 = gs.symbolsUsed ∧
    (gs.enterSymbol loc owner name kind).2.symbolsUsed = gs.symbolsUsed + 1 ∧
    ((gs.enterSymbol loc owner name kind).2.data gs.symbolsUsed).name = name ∧
    ((gs.enterSymbol loc owner name kind).2.data gs.symbolsUsed).kind = kind ∧
    ((gs.enterSymbol loc owner name kind).2.data gs.symbolsUsed).owner = owner ∧
    ((gs.enterSymbol loc owner name kind).2.data gs.symbolsUsed).argOptional = false ∧
    ((gs.enterSymbol loc owner name kind).2.data gs.symbolsUsed).argKeyword = false ∧
    ((gs.enterSymbol loc owner name kind).2.data gs.symbolsUsed).argBlock = false ∧
    ((gs.enterSymbol loc owner name kind).2.data gs.symbolsUsed).argRepeated = false := by
  have hex : ((gs.data owner).members.find name).exists = false := by
    simp [SymbolRef.exists, h]
  unfold GlobalState.enterSymbol
  simp only [hex, Bool.false_eq_true, if_false, update_symbolsUsed, allocate_symbolsUsed,
    allocate_fst, data_update, data_allocate, if_true, true_and]
  by_cases hl : loc.exists = true <;> by_cases ho : gs.symbolsUsed = owner <;>
    simp [Symbol.addLoc, hl, ho]

/-- C20: `arg2Symbol` at position `pos` (with a scope frame on the stack).
(1) If the owner has an argument at index `pos`, that symbol is returned with a bare
`Local`, and the table is returned unchanged.
(2) If the owner has at most `pos` arguments and no member of the name chosen for the
argument, a new symbol is entered: it is a method argument owned by the owner, named
by the argument's own name for a keyword argument, else `blkArg` for a block argument,
else the unique name `(PositionalArg, arg, pos + 1)`, and its flags Optional, Keyword,
BlockArgument and Repeated are set exactly when the parsed argument has a default, is a
keyword, a block, a repeated argument. -/
theorem C20_arg2Symbol_spec (self : NameInserter) (ctx : MutableContext) (pos : Nat)
    (parsedArg : ParsedArg) (hstack : self.scopeStack ≠ []) :
    (pos < (ctx.state.data ctx.owner).arguments.length →
      ∃ lv, NameInserter.arg2Symbol self ctx pos parsedArg =
        .ok ((ctx.state.data ctx.owner).arguments.getD pos Symbols.noSymbol,
          .Local ⟨parsedArg.loc, lv⟩, ctx.state)) ∧
    ((ctx.state.data ctx.owner).arguments.length ≤ pos →
      (ctx.state.data ctx.owner).members.find (Spec.argSymbolName pos parsedArg) = 0 →
      ∃ lv gs', NameInserter.arg2Symbol self ctx pos parsedArg =
          .ok (ctx.state.symbolsUsed, Spec.argNode parsedArg lv, gs') ∧
        gs'.symbolsUsed = ctx.state.symbolsUsed + 1 ∧
        (gs'.data ctx.state.symbolsUsed).name = Spec.argSymbolName pos parsedArg ∧
        (gs'.data ctx.state.symbolsUsed).kind = SymbolKind.methodArgument ∧
        (gs'.data ctx.state.symbolsUsed).owner = ctx.owner ∧
        (gs'.data ctx.state.symbolsUsed).argOptional = parsedArg.default_.isSome ∧
        (gs'.data ctx.state.symbolsUsed).argKeyword = parsedArg.keyword ∧
        (gs'.data ctx.state.symbolsUsed).argBlock = parsedArg.block ∧
        (gs'.data ctx.state.symbolsUsed).argRepeated = parsedArg.repeated) := by
  constructor
  · intro hpos
    obtain ⟨lv, hlv, _⟩ := enterLocal_total self ctx parsedArg.name hstack
    exact ⟨lv, by simp [NameInserter.arg2Symbol, hpos, hlv, bind, Except.bind, pure, Except.pure]⟩
  · intro hpos hnew
    have hpos' : ¬ pos < (ctx.state.data ctx.owner).arguments.length := Nat.not_lt.mpr hpos
    obtain ⟨h1, h2, h3, h4, h5, h6, h7, h8, h9⟩ := enterSymbol_new ctx.state parsedArg.loc
      ctx.owner (Spec.argSymbolName pos parsedArg) SymbolKind.methodArgument hnew
    obtain ⟨lv, hlv, _⟩ := enterLocal_total self
      { ctx with state := (ctx.state.enterSymbol parsedArg.loc ctx.owner
        (Spec.argSymbolName pos parsedArg) SymbolKind.methodArgument).2 } parsedArg.name hstack
    have hname : (if parsedArg.keyword = true then parsedArg.name
        else if parsedArg.block = true then NameRef.blkArg
        else ctx.state.freshNameUnique UniqueNameKind.PositionalArg NameRef.arg (pos + 1)) =
        Spec.argSymbolName pos parsedArg := rfl
    simp only [NameInserter.arg2Symbol, hpos', if_false, hname, hlv, bind, Except.bind, pure,
      Except.pure, GlobalState.enterMethodArgumentSymbol]
    generalize ctx.state.enterSymbol parsedArg.loc ctx.owner
      (Spec.argSymbolName pos parsedArg) SymbolKind.methodArgument = r at *
    obtain ⟨r1, r2⟩ := r
    simp only at h1 h2 h3 h4 h5 h6 h7 h8 h9 hlv
    subst h1
    refine ⟨lv, _, rfl, ?_, ?_, ?_, ?_, ?_, ?_, ?_, ?_⟩
    all_goals
      cases hk : parsedArg.keyword <;> cases hb : parsedArg.block <;>
        cases hr : parsedArg.repeated <;> cases hd : parsedArg.default_ <;>
          simp [data_update, update_symbolsUsed, h2, h3, h4, h5, h6, h7, h8, h9]

theorem paramsMatchLoop_spec (gs : GlobalState) (sym : SymbolRef) (loc : Loc) :
    ∀ (parsedArgs : List ParsedArg) (i : Nat) (symArgs : List SymbolRef),
      (gs.data sym).arguments.drop i = symArgs → symArgs.length = parsedArgs.length →
      NameInserter.paramsMatchLoop sym loc parsedArgs i gs =
        ((List.zip symArgs parsedArgs).all (fun p => Spec.argAgrees (gs.data p.1) p.2),
          bif (List.zip symArgs parsedArgs).all (fun p => Spec.argAgrees (gs.data p.1) p.2)
          then gs else gs.beginError loc ErrorClass.RedefinitionOfMethod) := by
  intro parsedArgs
  induction parsedArgs with
  | nil =>
    intro i symArgs _ hlen
    cases symArgs with
    | nil => rfl
    | cons _ _ => simp at hlen
  | cons a rest ih =>
    intro i symArgs hdrop hlen
    cases symArgs with
    | nil => simp at hlen
    | cons s ss =>
      have hi : i < (gs.data sym).arguments.length := by
        by_contra hcon
        rw [List.drop_eq_nil_of_le (Nat.le_of_not_lt hcon)] at hdrop
        cases hdrop
      have hget : (gs.data sym).arguments.getD i Symbols.noSymbol = s := by
        rw [List.getD_eq_getElem _ _ hi]
        have := List.drop_eq_getElem_cons hi
        rw [this] at hdrop
        exact (List.cons.inj hdrop).1
      have hdrop' : (gs.data sym).arguments.drop (i + 1) = ss := by
        have := List.drop_eq_getElem_cons hi
        rw [this] at hdrop
        exact (List.cons.inj hdrop).2
      have hlen' : ss.length = rest.length := by simpa using hlen
      have hrec := ih (i + 1) ss hdrop' hlen'
      unfold NameInserter.paramsMatchLoop
      simp only [hget, hrec, List.zip_cons_cons, List.all_cons]
      generalize ((ss.zip rest).all fun p => Spec.argAgrees (gs.data p.1) p.2) = tail
      simp only [Spec.argAgrees]
      clear ih hrec hget hdrop hdrop' hlen hlen' hi
      generalize (gs.data s).argKeyword = k1
      generalize (gs.data s).argBlock = k2
      generalize (gs.data s).argRepeated = k3
      generalize a.keyword = a1
      generalize a.block = a2
      generalize a.repeated = a3
      cases h4 : ((gs.data s).name == a.name) <;>
        cases k1 <;> cases k2 <;> cases k3 <;> cases a1 <;> cases a2 <;> cases a3 <;>
          cases tail <;> simp [bne, h4]

theorem argAgrees_sameShape (s : Symbol) (a b : ParsedArg) (h : Spec.sameShape a b) :
    Spec.argAgrees s b = Spec.argAgrees s a := by
  obtain ⟨h1, h2, h3, h4⟩ := h
  unfold Spec.argAgrees
  rw [h1, h2, h3]
  cases hk : a.keyword
  · cases hs : s.argKeyword <;> simp
  · rw [h4 hk]

theorem paramsAgree_sameShape (gs : GlobalState) (sym : SymbolRef)
    (parsedArgs parsedArgs' : List ParsedArg)
    (h : List.Forall₂ Spec.sameShape parsedArgs parsedArgs') :
    Spec.paramsAgree gs sym parsedArgs' = Spec.paramsAgree gs sym parsedArgs := by
  unfold Spec.paramsAgree
  rw [h.length_eq]
  congr 1
  generalize (gs.data sym).arguments = symArgs
  induction h generalizing symArgs with
  | nil => cases symArgs <;> rfl
  | cons hab _ ih =>
    cases symArgs with
    | nil => rfl
    | cons s ss =>
      simp only [List.zip_cons_cons, List.all_cons, argAgrees_sameShape _ _ _ hab, ih ss]

/-- C18: `paramsMatch` returns `true` exactly when the existing method symbol has as many
arguments as there are parsed arguments and at every index the keyword, block and
repeated flags agree and a keyword argument has the parsed name (`Spec.paramsAgree`). It
returns the table unchanged when it returns `true` and with exactly one
`RedefinitionOfMethod` error appended when it returns `false`. The result does not
depend on the defaults of the parsed arguments nor on the names of those that are not
keyword arguments (`Spec.sameShape`). -/
theorem C18_paramsMatch_spec (gs : GlobalState) (sym : SymbolRef) (loc : Loc)
    (parsedArgs : List ParsedArg) :
    NameInserter.paramsMatch ⟨gs, sym⟩ loc parsedArgs =
      (Spec.paramsAgree gs sym parsedArgs,
        bif Spec.paramsAgree gs sym parsedArgs then gs
        else gs.beginError loc ErrorClass.RedefinitionOfMethod) ∧
    ∀ parsedArgs', List.Forall₂ Spec.sameShape parsedArgs parsedArgs' →
      (NameInserter.paramsMatch ⟨gs, sym⟩ loc parsedArgs').1 =
        (NameInserter.paramsMatch ⟨gs, sym⟩ loc parsedArgs).1 := by
  have key : ∀ args : List ParsedArg, NameInserter.paramsMatch ⟨gs, sym⟩ loc args =
      (Spec.paramsAgree gs sym args,
        bif Spec.paramsAgree gs sym args then gs
        else gs.beginError loc ErrorClass.RedefinitionOfMethod) := by
    intro args
    unfold NameInserter.paramsMatch Spec.paramsAgree
    by_cases hlen : (gs.data sym).arguments.length = args.length
    · have := paramsMatchLoop_spec gs sym loc args 0 (gs.data sym).arguments rfl hlen
      simp [hlen, this]
    · have hb : ((gs.data sym).arguments.length == args.length) = false := by
        simpa using hlen
      simp [hlen, hb]
  refine ⟨key parsedArgs, ?_⟩
  intro parsedArgs' h
  rw [key, key]
  exact paramsAgree_sameShape gs sym parsedArgs parsedArgs' h

/-- C19: for every chain of `RestArg`, `KeywordArg`, `OptionalArg`, `BlockArg` and
`ShadowArg` wrappers around an `UnresolvedIdent` leaf, `parseArg` returns the descriptor
with the name and location of the leaf, each of the flags repeated, keyword, block, shadow
set exactly when the corresponding wrapper occurs in the chain, and the default of the
outermost `OptionalArg` of the chain (none if there is no `OptionalArg`). -/
theorem C19_parseArg_spec (e : Expression) (h : Spec.ArgChain e) :
    ∃ leaf, Spec.chainLeaf e = some leaf ∧
      parseArg e =
        .ok { name := leaf.name, loc := leaf.loc, default_ := Spec.outermostDefault e,
              keyword := Spec.occursKeywordArg e, block := Spec.occursBlockArg e,
              repeated := Spec.occursRestArg e, shadow := Spec.occursShadowArg e } := by
  obtain ⟨leaf, p, h1, h2, h3, h4, h5, h6, h7, h8, h9⟩ := parseArg_chain e h
  refine ⟨leaf, h1, ?_⟩
  rw [h2]
  cases p
  simp only at h3 h4 h5 h6 h7 h8 h9
  subst h3 h4 h5 h6 h7 h8 h9
  rfl

/-- Witness of C19: the parameter `a: nil`, `KeywordArg(OptionalArg(a, nil))`. -/
theorem C19_parseArg_spec_witness :
    ∃ leaf, Spec.chainLeaf Examples.keywordOptionalArg = some leaf ∧
      parseArg Examples.keywordOptionalArg =
        .ok { name := leaf.name, loc := leaf.loc,
              default_ := Spec.outermostDefault Examples.keywordOptionalArg,
              keyword := Spec.occursKeywordArg Examples.keywordOptionalArg,
              block := Spec.occursBlockArg Examples.keywordOptionalArg,
              repeated := Spec.occursRestArg Examples.keywordOptionalArg,
              shadow := Spec.occursShadowArg Examples.keywordOptionalArg } :=
  C19_parseArg_spec Examples.keywordOptionalArg
    (Spec.ArgChain.keyword _ (Spec.ArgChain.optional _ (Spec.ArgChain.leaf _)))

/-- The example of the claim evaluated: `KeywordArg(OptionalArg(a, nil))` gives the name and
location of `a`, `keyword = true`, the default `nil`, and the other flags `false`. -/
theorem parseArg_keywordOptionalArg :
    parseArg Examples.keywordOptionalArg =
      .ok { name := NameRef.utf8 2, loc := ⟨1, 1⟩, default_ := some (MK.Nil ⟨1, 2⟩),
            keyword := true, block := false, repeated := false, shadow := false } := by
  unfold Examples.keywordOptionalArg Examples.ident
  rw [parseArg, parseArg, parseArg]
  rfl

/-- Witness of C12: `private def f; end` over the initial table. -/
theorem C12_visibility_of_wrapped_def_witness :
    ((Examples.privateDef.fun_ = NameRef.private_ ∨
        Examples.privateDef.fun_ = NameRef.privateClassMethod) →
      NameInserter.postTransformSend NameInserter.init ⟨GlobalState.initial, Symbols.root⟩
          Examples.privateDef =
        .ok (.MethodDef { Examples.methodDef 1 1 1 [] .EmptyTree with symbol := 7 },
          NameInserter.init,
          GlobalState.initial.update 7 (fun d => { d with methodPrivate := true }))) ∧
    (Examples.privateDef.fun_ = NameRef.protected_ →
      NameInserter.postTransformSend NameInserter.init ⟨GlobalState.initial, Symbols.root⟩
          Examples.privateDef =
        .ok (.MethodDef { Examples.methodDef 1 1 1 [] .EmptyTree with symbol := 7 },
          NameInserter.init,
          GlobalState.initial.update 7 (fun d => { d with methodProtected := true }))) ∧
    (Examples.privateDef.fun_ = NameRef.public_ →
      NameInserter.postTransformSend NameInserter.init ⟨GlobalState.initial, Symbols.root⟩
          Examples.privateDef =
        .ok (.MethodDef { Examples.methodDef 1 1 1 [] .EmptyTree with symbol := 7 },
          NameInserter.init,
          GlobalState.initial.update 7
            (fun d => { d with methodPrivate := false, methodProtected := false }))) ∧
    (Examples.privateDef.fun_ ≠ NameRef.private_ →
      Examples.privateDef.fun_ ≠ NameRef.privateClassMethod →
      Examples.privateDef.fun_ ≠ NameRef.protected_ →
      Examples.privateDef.fun_ ≠ NameRef.public_ →
      Examples.privateDef.fun_ ≠ NameRef.moduleFunction →
      NameInserter.postTransformSend NameInserter.init ⟨GlobalState.initial, Symbols.root⟩
          Examples.privateDef =
        .ok (.Send Examples.privateDef, NameInserter.init, GlobalState.initial)) :=
  C12_visibility_of_wrapped_def NameInserter.init ⟨GlobalState.initial, Symbols.root⟩
    Examples.privateDef { Examples.methodDef 1 1 1 [] .EmptyTree with symbol := 7 } rfl

/-- Witness of C20: the keyword parameter `a:` at position 0 of `Object` in the initial
table, which has no arguments and no member `a`. -/
theorem C20_arg2Symbol_spec_witness :
    (0 < (GlobalState.initial.data Symbols.Object).arguments.length →
      ∃ lv, NameInserter.arg2Symbol NameInserter.init ⟨GlobalState.initial, Symbols.Object⟩ 0
          Examples.keywordParsedArg =
        .ok ((GlobalState.initial.data Symbols.Object).arguments.getD 0 Symbols.noSymbol,
          .Local ⟨Examples.keywordParsedArg.loc, lv⟩, GlobalState.initial)) ∧
    ((GlobalState.initial.data Symbols.Object).arguments.length ≤ 0 →
      (GlobalState.initial.data Symbols.Object).members.find
        (Spec.argSymbolName 0 Examples.keywordParsedArg) = 0 →
      ∃ lv gs', NameInserter.arg2Symbol NameInserter.init
            ⟨GlobalState.initial, Symbols.Object⟩ 0 Examples.keywordParsedArg =
          .ok (GlobalState.initial.symbolsUsed, Spec.argNode Examples.keywordParsedArg lv, gs') ∧
        gs'.symbolsUsed = GlobalState.initial.symbolsUsed + 1 ∧
        (gs'.data GlobalState.initial.symbolsUsed).name =
          Spec.argSymbolName 0 Examples.keywordParsedArg ∧
        (gs'.data GlobalState.initial.symbolsUsed).kind = SymbolKind.methodArgument ∧
        (gs'.data GlobalState.initial.symbolsUsed).owner = Symbols.Object ∧
        (gs'.data GlobalState.initial.symbolsUsed).argOptional =
          Examples.keywordParsedArg.default_.isSome ∧
        (gs'.data GlobalState.initial.symbolsUsed).argKeyword =
          Examples.keywordParsedArg.keyword ∧
        (gs'.data GlobalState.initial.symbolsUsed).argBlock = Examples.keywordParsedArg.block ∧
        (gs'.data GlobalState.initial.symbolsUsed).argRepeated =
          Examples.keywordParsedArg.repeated) :=
  C20_arg2Symbol_spec NameInserter.init ⟨GlobalState.initial, Symbols.Object⟩ 0
    Examples.keywordParsedArg (by decide)

/-- Witness of C18: against `Object` of the initial table, which has no arguments, the
parameter lists `(a)` and `(b = nil)` give the same result. -/
theorem C18_paramsMatch_spec_witness :
    (NameInserter.paramsMatch ⟨GlobalState.initial, Symbols.Object⟩ ⟨1, 1⟩
        [{ name := NameRef.utf8 3, default_ := some (MK.Nil ⟨1, 2⟩) }]).1 =
      (NameInserter.paramsMatch ⟨GlobalState.initial, Symbols.Object⟩ ⟨1, 1⟩
        [{ name := NameRef.utf8 2 }]).1 :=
  (C18_paramsMatch_spec GlobalState.initial Symbols.Object ⟨1, 1⟩
      [{ name := NameRef.utf8 2 }]).2
    [{ name := NameRef.utf8 3, default_ := some (MK.Nil ⟨1, 2⟩) }]
    (List.Forall₂.cons ⟨rfl, rfl, rfl, fun h => by cases h⟩ List.Forall₂.nil)

/-! ### Members tables and renaming -/

theorem find_eq_zero_of_not_mem (ms : Members) (k : NameRef) (h : k ∉ ms.map Prod.fst) :
    ms.find k = 0 := by
  induction ms with
  | nil => rfl
  | cons e rest ih =>
    obtain ⟨a, b⟩ := e
    simp only [List.map_cons, List.mem_cons, not_or] at h
    have hne : ¬ a = k := fun e => h.1 e.symm
    simp only [Members.find, hne, if_false]
    exact ih h.2

theorem mem_keys_of_find_ne_zero (ms : Members) (k : NameRef) (h : ms.find k ≠ 0) :
    k ∈ ms.map Prod.fst := by
  by_contra hcon
  exact h (find_eq_zero_of_not_mem ms k hcon)

theorem not_mem_keys_of_find_eq_zero (ms : Members) (hok : Spec.MembersOK ms) (k : NameRef)
    (h : ms.find k = 0) : k ∉ ms.map Prod.fst := by
  induction ms with
  | nil => simp
  | cons e rest ih =>
    obtain ⟨a, b⟩ := e
    have hb : b ≠ 0 := hok.2 (a, b) (List.mem_cons_self _ _)
    have hok' : Spec.MembersOK rest :=
      ⟨(List.nodup_cons.mp hok.1).2, fun e he => hok.2 e (List.mem_cons_of_mem _ he)⟩
    by_cases hak : a = k
    · simp [Members.find, hak] at h
      exact absurd h hb
    · simp only [Members.find, hak, if_false] at h
      simp only [List.map_cons, List.mem_cons, not_or]
      exact ⟨fun e => hak e.symm, ih hok' h⟩

theorem find_rename (ms : Members) (old new k : NameRef)
    (hnodup : (ms.map Prod.fst).Nodup) (hnew : new ∉ ms.map Prod.fst) (hne : new ≠ old) :
    (ms.rename old new).find k =
      if k = new then ms.find old else if k = old then 0 else ms.find k := by
  induction ms with
  | nil => simp [Members.rename, Members.find, Symbols.noSymbol]
  | cons e rest ih =>
    obtain ⟨a, b⟩ := e
    simp only [List.map_cons, List.mem_cons, not_or] at hnew
    have hnodup' := (List.nodup_cons.mp hnodup)
    by_cases hao : a = old
    · subst hao
      have hrest : Members.find rest a = 0 := find_eq_zero_of_not_mem rest a hnodup'.1
      simp only [Members.rename, Members.find, if_true]
      by_cases hk : k = new
      · subst hk; simp
      · have hk' : ¬ new = k := fun e => hk e.symm
        simp only [hk', hk, if_false]
        by_cases hka : k = a
        · subst hka; simp [hrest]
        · have hka' : ¬ a = k := fun e => hka e.symm
          simp [hka, hka']
    · simp only [Members.rename, Members.find, hao, if_false]
      rw [ih hnodup'.2 hnew.2]
      by_cases hk : k = new
      · subst hk
        have : ¬ a = k := fun e => hnew.1 e.symm
        simp [this, hao]
      · by_cases hka : a = k
        · subst hka; simp [hk, hao]
        · simp [hk, hka]

theorem rename_keys_length (ms : Members) (old new : NameRef) :
    (ms.rename old new).length = ms.length := by
  induction ms with
  | nil => rfl
  | cons e rest ih =>
    obtain ⟨a, b⟩ := e
    by_cases hao : a = old <;> simp [Members.rename, hao, ih]

theorem unique_ne_original (kind : UniqueNameKind) (n : NameRef) (c : Nat) :
    NameRef.unique kind n c ≠ n := by
  intro h
  have := congrArg sizeOf h
  simp at this
  omega

theorem freshCollision_spec (ms : Members) (kind : UniqueNameKind) (orig : NameRef) :
    ∀ (fuel c : Nat),
      c ≤ GlobalState.freshCollision ms kind orig fuel c ∧
      GlobalState.freshCollision ms kind orig fuel c ≤ c + fuel ∧
      (GlobalState.freshCollision ms kind orig fuel c < c + fuel →
        ms.find (NameRef.unique kind orig (GlobalState.freshCollision ms kind orig fuel c)) = 0) ∧
      ∀ j, c ≤ j → j < GlobalState.freshCollision ms kind orig fuel c →
        ms.find (NameRef.unique kind orig j) ≠ 0 := by
  intro fuel
  induction fuel with
  | zero =>
    intro c
    simp only [GlobalState.freshCollision]
    exact ⟨Nat.le_refl _, Nat.le_refl _, fun h => absurd h (Nat.lt_irrefl _),
      fun j h1 h2 => absurd (Nat.lt_of_le_of_lt h1 h2) (Nat.lt_irrefl _)⟩
  | succ fuel ih =>
    intro c
    unfold GlobalState.freshCollision
    by_cases hex : (ms.find (NameRef.unique kind orig c)).exists = true
    · simp only [hex, if_true]
      obtain ⟨h1, h2, h3, h4⟩ := ih (c + 1)
      refine ⟨by omega, by omega, fun h => h3 (by omega), ?_⟩
      intro j hj1 hj2
      by_cases hjc : j = c
      · subst hjc; exact (exists_iff _).mp hex
      · exact h4 j (by omega) hj2
    · simp only [hex, Bool.false_eq_true, if_false]
      refine ⟨Nat.le_refl _, by omega, fun _ => ?_,
        fun j h1 h2 => absurd (Nat.lt_of_le_of_lt h1 h2) (Nat.lt_irrefl _)⟩
      have : ¬ (ms.find (NameRef.unique kind orig c)) ≠ 0 := fun h => hex ((exists_iff _).mpr h)
      exact not_not.mp this

theorem freshCollision_fresh (ms : Members) (kind : UniqueNameKind) (orig : NameRef) :
    ms.find (NameRef.unique kind orig
      (GlobalState.freshCollision ms kind orig (ms.length + 1) 1)) = 0 := by
  obtain ⟨h1, h2, h3, h4⟩ := freshCollision_spec ms kind orig (ms.length + 1) 1
  by_cases hlt : GlobalState.freshCollision ms kind orig (ms.length + 1) 1 < 1 + (ms.length + 1)
  · exact h3 hlt
  · exfalso
    have heq : GlobalState.freshCollision ms kind orig (ms.length + 1) 1 = 1 + (ms.length + 1) := by
      omega
    rw [heq] at h4
    have hsub : (List.range (ms.length + 1)).map (fun j => NameRef.unique kind orig (1 + j)) ⊆
        ms.map Prod.fst := by
      intro x hx
      simp only [List.mem_map, List.mem_range] at hx
      obtain ⟨j, hj, rfl⟩ := hx
      exact mem_keys_of_find_ne_zero ms _ (h4 (1 + j) (by omega) (by omega))
    have hnd : ((List.range (ms.length + 1)).map
        (fun j => NameRef.unique kind orig (1 + j))).Nodup := by
      apply List.Nodup.map _ (List.nodup_range _)
      intro a b hab
      simp only [NameRef.unique.injEq, true_and] at hab
      omega
    have := (List.Nodup.subperm hnd hsub).length_le
    simp at this

theorem mangleRenameSymbol_data (g : GlobalState) (what : SymbolRef) (n : NameRef)
    (kind : UniqueNameKind)
    (hreg : (g.data (g.data what).owner).members.find n ≠ 0) :
    (g.mangleRenameSymbol what n kind).symbolsUsed = g.symbolsUsed ∧
    (g.mangleRenameSymbol what n kind).errors = g.errors ∧
    ∀ r, (g.mangleRenameSymbol what n kind).data r =
      { g.data r with
        members :=
          if r = (g.data what).owner then
            (g.data r).members.rename n (Spec.mangledName g what n kind)
          else (g.data r).members,
        name :=
          if r = (g.data (g.data what).owner).members.find n then Spec.mangledName g what n kind
          else (g.data r).name } := by
  have hex : ((g.data (g.data what).owner).members.find n).exists = true :=
    (exists_iff _).mpr hreg
  unfold GlobalState.mangleRenameSymbol
  simp only [hex, if_true, update_symbolsUsed, update_errors, true_and]
  intro r
  simp only [data_update, Spec.mangledName]
  generalize NameRef.unique kind n
    (GlobalState.freshCollision (g.data (g.data what).owner).members kind n
      ((g.data (g.data what).owner).members.length + 1) 1) = newn
  generalize (g.data (g.data what).owner).members.find n = old
  generalize (g.data what).owner = o
  by_cases h1 : r = old
  · subst h1
    by_cases h2 : r = o
    · subst h2; simp
    · simp [h2]
  · by_cases h2 : r = o
    · subst h2; simp [h1]
    · simp [h1, h2]

theorem mangleRenameSymbol_find (g : GlobalState) (what : SymbolRef) (n : NameRef)
    (kind : UniqueNameKind)
    (hreg : (g.data (g.data what).owner).members.find n ≠ 0)
    (hok : Spec.MembersOK (g.data (g.data what).owner).members) (k : NameRef) :
    ((g.mangleRenameSymbol what n kind).data (g.data what).owner).members.find k =
      if k = Spec.mangledName g what n kind then (g.data (g.data what).owner).members.find n
      else if k = n then 0 else (g.data (g.data what).owner).members.find k := by
  rw [(mangleRenameSymbol_data g what n kind hreg).2.2]
  simp only [if_true]
  apply find_rename _ _ _ _ hok.1
  · exact not_mem_keys_of_find_eq_zero _ hok _ (freshCollision_fresh _ kind n)
  · exact unique_ne_original kind n _

/-! ### Type members (C13, C14, C15) -/

theorem enterSymbol_errors (gs : GlobalState) (loc : Loc) (owner : SymbolRef) (name : NameRef)
    (kind : SymbolKind) : (gs.enterSymbol loc owner name kind).2.errors = gs.errors := by
  unfold GlobalState.enterSymbol
  by_cases h : ((gs.data owner).members.find name).exists = true
  · simp only [h, if_true]
  · simp only [h, Bool.false_eq_true, if_false]; rfl

theorem singletonClass_errors (gs : GlobalState) (self : SymbolRef) :
    (gs.singletonClass self).2.errors = gs.errors := by
  unfold GlobalState.singletonClass
  by_cases h : (gs.findMember self NameRef.singleton).exists = true
  · simp only [h, if_true]
  · simp only [h, Bool.false_eq_true, if_false, update_errors, GlobalState.enterClassSymbol,
      enterSymbol_errors]

theorem mangleRenameSymbol_errors (gs : GlobalState) (what : SymbolRef) (n : NameRef)
    (kind : UniqueNameKind) : (gs.mangleRenameSymbol what n kind).errors = gs.errors := by
  unfold GlobalState.mangleRenameSymbol
  by_cases h : ((gs.data (gs.data what).owner).members.find n).exists = true
  · simp only [h, if_true, update_errors]
  · simp only [h, Bool.false_eq_true, if_false]

theorem enterTypeMember_errors (gs : GlobalState) (loc : Loc) (owner : SymbolRef)
    (name : NameRef) (variance : Variance) :
    (gs.enterTypeMember loc owner name variance).2.errors = gs.errors := by
  unfold GlobalState.enterTypeMember
  by_cases h : ((gs.data owner).members.find name).exists = true
  · simp only [h, if_true]
    split <;> simp [update_errors, enterSymbol_errors]
  · simp only [h, Bool.false_eq_true, if_false]
    split <;> simp [update_errors, enterSymbol_errors]

theorem reportAll_data (gs : GlobalState) (errs : List Error) (r : SymbolRef) :
    (Spec.reportAll gs errs).data r = gs.data r := by
  unfold Spec.reportAll
  induction errs generalizing gs with
  | nil => rfl
  | cons e rest ih => simp only [List.foldl_cons]; rw [ih]; rfl

theorem reportAll_symbolsUsed (gs : GlobalState) (errs : List Error) :
    (Spec.reportAll gs errs).symbolsUsed = gs.symbolsUsed := by
  unfold Spec.reportAll
  induction errs generalizing gs with
  | nil => rfl
  | cons e rest ih => simp only [List.foldl_cons]; rw [ih]; rfl

theorem reportAll_errors (gs : GlobalState) (errs : List Error) :
    (Spec.reportAll gs errs).errors = gs.errors ++ errs := by
  unfold Spec.reportAll
  induction errs generalizing gs with
  | nil => simp
  | cons e rest ih =>
    simp only [List.foldl_cons]; rw [ih]; simp [GlobalState.beginError]

set_option maxHeartbeats 4000000 in
theorem typeArgsStep_spec (send : Send) (gs : GlobalState) :
    Spec.typeArgsStep send gs =
      (Spec.typeVariance send, Spec.reportAll gs (Spec.typeArgErrors send)) := by
  unfold Spec.typeArgsStep Spec.typeVariance Spec.typeArgErrors Spec.varianceOf Spec.reportAll
  cases hargs : send.args with
  | nil => simp
  | cons a rest =>
    cases a <;> cases rest <;> simp <;> (split_ifs <;> simp_all)

/-- The source function `handleTypeMemberDefinition` read as its four steps. -/
theorem handleTypeMemberDefinition_steps (ctx : MutableContext) (send : Send) (asgn : Assign)
    (typeName : UnresolvedConstantLit) :
    NameInserter.handleTypeMemberDefinition ctx send asgn typeName =
      if !(ctx.state.data ctx.owner).isClass then
        (.EmptyTree, ctx.state.beginError send.loc ErrorClass.InvalidTypeDefinition)
      else if send.args.length > 2 then
        (.EmptyTree, (Spec.typeMemberHolder ctx send).2.beginError send.loc
          ErrorClass.InvalidTypeDefinition)
      else if ((Spec.typeArgsStep send (Spec.typeMemberHolder ctx send).2).2.data
          (Spec.typeMemberHolder ctx send).1).typeMembers.any
          (fun mem => ((Spec.typeArgsStep send (Spec.typeMemberHolder ctx send).2).2.data mem).name
            == typeName.cnst) then
        (.EmptyTree, (Spec.typeArgsStep send (Spec.typeMemberHolder ctx send).2).2.beginError
          typeName.loc ErrorClass.InvalidTypeDefinition)
      else
        match send.args.getLast? with
        | some (.Hash hash) =>
          if hash.keys.any NameInserter.isFixedKey then
            (.Assign { asgn with
                lhs := MK.Constant asgn.lhs.loc
                  (Spec.typeMemberSymbols ctx send asgn typeName (Spec.typeMemberHolder ctx send).1
                    (Spec.typeArgsStep send (Spec.typeMemberHolder ctx send).2).1
                    (Spec.typeArgsStep send (Spec.typeMemberHolder ctx send).2).2).1 },
              Spec.markFixed
                (Spec.typeMemberSymbols ctx send asgn typeName (Spec.typeMemberHolder ctx send).1
                  (Spec.typeArgsStep send (Spec.typeMemberHolder ctx send).2).1
                  (Spec.typeArgsStep send (Spec.typeMemberHolder ctx send).2).2).2
                (Spec.typeMemberSymbols ctx send asgn typeName (Spec.typeMemberHolder ctx send).1
                  (Spec.typeArgsStep send (Spec.typeMemberHolder ctx send).2).1
                  (Spec.typeArgsStep send (Spec.typeMemberHolder ctx send).2).2).1)
          else
            (.EmptyTree,
              (Spec.typeMemberSymbols ctx send asgn typeName (Spec.typeMemberHolder ctx send).1
                (Spec.typeArgsStep send (Spec.typeMemberHolder ctx send).2).1
                (Spec.typeArgsStep send (Spec.typeMemberHolder ctx send).2).2).2.beginError send.loc
                ErrorClass.InvalidTypeDefinition)
        | _ =>
          (.EmptyTree,
            (Spec.typeMemberSymbols ctx send asgn typeName (Spec.typeMemberHolder ctx send).1
              (Spec.typeArgsStep send (Spec.typeMemberHolder ctx send).2).1
              (Spec.typeArgsStep send (Spec.typeMemberHolder ctx send).2).2).2) := by
  rfl

theorem handleTypeMemberDefinition_main (ctx : MutableContext) (send : Send) (asgn : Assign)
    (typeName : UnresolvedConstantLit)
    (hclass : (ctx.state.data ctx.owner).isClass = true) (hlen : send.args.length ≤ 2)
    (hdup : Spec.duplicateTypeMember ctx send typeName = false) :
    NameInserter.handleTypeMemberDefinition ctx send asgn typeName =
      if Spec.fixedGiven send then
        (.Assign { asgn with
            lhs := MK.Constant asgn.lhs.loc (Spec.typeMemberEntered ctx send asgn typeName).1 },
          Spec.markFixed (Spec.typeMemberEntered ctx send asgn typeName).2
            (Spec.typeMemberEntered ctx send asgn typeName).1)
      else
        (.EmptyTree,
          if Spec.fixedMissing send then
            (Spec.typeMemberEntered ctx send asgn typeName).2.beginError send.loc
              ErrorClass.InvalidTypeDefinition
          else (Spec.typeMemberEntered ctx send asgn typeName).2) := by
  have hlen' : ¬ send.args.length > 2 := Nat.not_lt.mpr hlen
  unfold Spec.duplicateTypeMember at hdup
  rw [handleTypeMemberDefinition_steps]
  simp only [hclass, Bool.not_true, Bool.false_eq_true, if_false, hlen', typeArgsStep_spec,
    reportAll_data, hdup]
  unfold Spec.fixedGiven Spec.fixedMissing Spec.typeMemberEntered
  cases hlast : send.args.getLast? with
  | none => simp
  | some e =>
    cases e
    case Hash hash =>
      cases hfix : hash.keys.any NameInserter.isFixedKey <;>
        simp only [hfix, Bool.false_eq_true, if_false, if_true, Bool.not_false, Bool.not_true]
    all_goals simp

theorem handleTypeMemberDefinition_duplicate (ctx : MutableContext) (send : Send)
    (asgn : Assign) (typeName : UnresolvedConstantLit)
    (hclass : (ctx.state.data ctx.owner).isClass = true) (hlen : send.args.length ≤ 2)
    (hdup : Spec.duplicateTypeMember ctx send typeName = true) :
    NameInserter.handleTypeMemberDefinition ctx send asgn typeName =
      (.EmptyTree,
        (Spec.reportAll (Spec.typeMemberHolder ctx send).2 (Spec.typeArgErrors send)).beginError
          typeName.loc ErrorClass.InvalidTypeDefinition) := by
  have hlen' : ¬ send.args.length > 2 := Nat.not_lt.mpr hlen
  unfold Spec.duplicateTypeMember at hdup
  rw [handleTypeMemberDefinition_steps]
  simp only [hclass, Bool.not_true, Bool.false_eq_true, if_false, hlen', typeArgsStep_spec,
    reportAll_data, hdup, if_true]

/-- The diagnostics of the symbol-entering step. -/
theorem typeMemberEntered_errors (ctx : MutableContext) (send : Send) (asgn : Assign)
    (typeName : UnresolvedConstantLit) :
    (Spec.typeMemberEntered ctx send asgn typeName).2.errors =
      ctx.state.errors ++ Spec.typeArgErrors send ++
        (if ((Spec.typeMemberHolder ctx send).2.findMemberNoDealias
              (Spec.typeMemberHolder ctx send).1 typeName.cnst).exists
         then [⟨typeName.loc, ErrorClass.InvalidTypeDefinition⟩] else []) := by
  have hH : (Spec.typeMemberHolder ctx send).2.errors = ctx.state.errors := by
    unfold Spec.typeMemberHolder
    split
    · exact singletonClass_errors _ _
    · rfl
  have hfm : ∀ r k, (Spec.reportAll (Spec.typeMemberHolder ctx send).2
      (Spec.typeArgErrors send)).findMemberNoDealias r k =
      (Spec.typeMemberHolder ctx send).2.findMemberNoDealias r k := by
    intro r k
    unfold GlobalState.findMemberNoDealias
    rw [reportAll_data]
  unfold Spec.typeMemberEntered Spec.typeMemberSymbols
  simp only [hfm]
  by_cases hex : ((Spec.typeMemberHolder ctx send).2.findMemberNoDealias
      (Spec.typeMemberHolder ctx send).1 typeName.cnst).exists = true
  · simp only [hex, if_true]
    split
    · simp [update_errors, GlobalState.enterStaticFieldSymbol, enterSymbol_errors,
        enterTypeMember_errors, mangleRenameSymbol_errors, beginError_errors, reportAll_errors,
        hH]
    · simp [enterTypeMember_errors, mangleRenameSymbol_errors, beginError_errors,
        reportAll_errors, hH]
  · simp only [hex, Bool.false_eq_true, if_false]
    split
    · simp [update_errors, GlobalState.enterStaticFieldSymbol, enterSymbol_errors,
        enterTypeMember_errors, reportAll_errors, hH]
    · simp [enterTypeMember_errors, reportAll_errors, hH]

/-- The table after a new symbol has been entered under an allocated owner. -/
theorem enterSymbol_new_data (gs : GlobalState) (loc : Loc) (owner : SymbolRef) (name : NameRef)
    (kind : SymbolKind) (h : (gs.data owner).members.find name = 0)
    (ho : owner < gs.symbolsUsed) :
    (gs.enterSymbol loc owner name kind).1 = gs.symbolsUsed ∧
    (gs.enterSymbol loc owner name kind).2.symbolsUsed = gs.symbolsUsed + 1 ∧
    ∀ r, (gs.enterSymbol loc owner name kind).2.data r =
      if r = owner then
        { gs.data owner with members := (gs.data owner).members.set name gs.symbolsUsed }
      else if r = gs.symbolsUsed then
        Symbol.addLoc { owner := owner, name := name, kind := kind } loc
      else gs.data r := by
  have hex : ((gs.data owner).members.find name).exists = false := by
    simp [SymbolRef.exists, h]
  have hne : owner ≠ gs.symbolsUsed := Nat.ne_of_lt ho
  unfold GlobalState.enterSymbol
  simp only [hex, Bool.false_eq_true, if_false, update_symbolsUsed, allocate_symbolsUsed,
    allocate_fst, data_update, data_allocate, true_and, hne]
  intro r
  by_cases h1 : r = owner
  · simp [h1]
  · simp [h1]

/-- The table after a new type member has been entered. -/
theorem enterTypeMember_new (gs : GlobalState) (loc : Loc) (owner : SymbolRef) (name : NameRef)
    (variance : Variance) (h : (gs.data owner).members.find name = 0)
    (ho : owner < gs.symbolsUsed)
    (htm : ∀ m ∈ (gs.data owner).typeMembers, m < gs.symbolsUsed) :
    (gs.enterTypeMember loc owner name variance).1 = gs.symbolsUsed ∧
    (gs.enterTypeMember loc owner name variance).2.symbolsUsed = gs.symbolsUsed + 1 ∧
    ∀ r, (gs.enterTypeMember loc owner name variance).2.data r =
      if r = owner then
        { gs.data owner with
          members := (gs.data owner).members.set name gs.symbolsUsed,
          typeMembers := (gs.data owner).typeMembers ++ [gs.symbolsUsed] }
      else if r = gs.symbolsUsed then
        { Symbol.addLoc { owner := owner, name := name, kind := SymbolKind.typeMember } loc with
          variance := variance }
      else gs.data r := by
  have hex : ((gs.data owner).members.find name).exists = false := by
    simp [SymbolRef.exists, h]
  have hne : owner ≠ gs.symbolsUsed := Nat.ne_of_lt ho
  have hne' : gs.symbolsUsed ≠ owner := fun e => hne e.symm
  obtain ⟨h1, h2, h3⟩ := enterSymbol_new_data gs loc owner name SymbolKind.typeMember h ho
  have hnot : (gs.data owner).typeMembers.contains gs.symbolsUsed = false := by
    rw [Bool.eq_false_iff]
    intro hc
    have := htm _ (by simpa using hc)
    exact Nat.lt_irrefl _ this
  unfold GlobalState.enterTypeMember
  simp only [hex, Bool.false_eq_true, if_false, h1, data_update, h3, if_true, hne, hnot,
    update_symbolsUsed, h2, true_and]
  intro r
  by_cases hr : r = owner
  · simp [hr]
  · by_cases hr2 : r = gs.symbolsUsed
    · simp [hr2, hne']
    · simp [hr, hr2]

/-- Counterexample to C14 as stated: `X = self.type_member()` and `X = self.type_member(:out)`
in `Object` over the initial table have no `fixed:` key, and no error is reported for them:
the node is dropped (`EmptyTree`), the error sink stays empty, and the type member is
entered all the same (symbol 7 becomes the only type member of `Object`). -/
theorem C14_counterexample :
    Spec.fixedGiven (Examples.typeSend NameRef.typeMember []) = false ∧
    Examples.typeMemberOutcome
        (NameInserter.handleTypeMemberDefinition ⟨GlobalState.initial, Symbols.Object⟩
          (Examples.typeSend NameRef.typeMember [])
          (Examples.typeAssign (Examples.typeSend NameRef.typeMember [])) Examples.typeNameX)
        Symbols.Object = (true, [], [7]) ∧
    Spec.fixedGiven (Examples.typeSend NameRef.typeMember [Examples.outLiteral]) = false ∧
    Examples.typeMemberOutcome
        (NameInserter.handleTypeMemberDefinition ⟨GlobalState.initial, Symbols.Object⟩
          (Examples.typeSend NameRef.typeMember [Examples.outLiteral])
          (Examples.typeAssign (Examples.typeSend NameRef.typeMember [Examples.outLiteral]))
          Examples.typeNameX)
        Symbols.Object = (true, [], [7]) := by
  decide!

theorem markFixed_errors (gs : GlobalState) (sym : SymbolRef) :
    (Spec.markFixed gs sym).errors = gs.errors := by
  simp [Spec.markFixed, update_errors]

/-- C14 (as amended): for a definition at the scope of a class, with at most two arguments
and no type member of the name on the holder, the errors that `handleTypeMemberDefinition`
reports are, in order: the diagnostics about the argument list, one `InvalidTypeDefinition`
at the name when the holder has a member of that name, and the missing-`fixed:` error, one
`InvalidTypeDefinition` at the call, exactly when the last argument is a `Hash` without a
symbol-literal key `fixed`. Whenever no `fixed` key is given the node is dropped
(`EmptyTree`), with or without an error. -/
theorem C14_missing_fixed_reported_for_hash_only (ctx : MutableContext) (send : Send)
    (asgn : Assign) (typeName : UnresolvedConstantLit)
    (hclass : (ctx.state.data ctx.owner).isClass = true) (hlen : send.args.length ≤ 2)
    (hdup : Spec.duplicateTypeMember ctx send typeName = false) :
    (NameInserter.handleTypeMemberDefinition ctx send asgn typeName).2.errors =
      ctx.state.errors ++ Spec.typeArgErrors send ++
        (if ((Spec.typeMemberHolder ctx send).2.findMemberNoDealias
              (Spec.typeMemberHolder ctx send).1 typeName.cnst).exists
         then [⟨typeName.loc, ErrorClass.InvalidTypeDefinition⟩] else []) ++
        (if Spec.fixedMissing send then [⟨send.loc, ErrorClass.InvalidTypeDefinition⟩] else []) ∧
    (Spec.fixedGiven send = false →
      (NameInserter.handleTypeMemberDefinition ctx send asgn typeName).1 = .EmptyTree) := by
  rw [handleTypeMemberDefinition_main ctx send asgn typeName hclass hlen hdup]
  have herr := typeMemberEntered_errors ctx send asgn typeName
  have hexcl : Spec.fixedGiven send = true → Spec.fixedMissing send = false := by
    unfold Spec.fixedGiven Spec.fixedMissing
    cases send.args.getLast? with
    | none => intro h; cases h
    | some e => cases e <;> simp
  cases hfix : Spec.fixedGiven send
  · simp only [Bool.false_eq_true, if_false, true_implies, and_true]
    cases hmiss : Spec.fixedMissing send
    · simp only [Bool.false_eq_true, if_false, herr, List.append_nil]
    · simp only [if_true, beginError_errors, herr]
  · simp only [if_true, markFixed_errors, herr, hexcl hfix, Bool.false_eq_true, if_false,
      List.append_nil, true_and]
    intro h; cases h

/-- Witness of C14: `X = self.type_member(lower: Integer)` in `Object` over the initial
table: the trailing hash has no key `fixed`, and exactly the missing-`fixed:` error is
reported. -/
theorem C14_missing_fixed_reported_for_hash_only_witness :
    (NameInserter.handleTypeMemberDefinition ⟨GlobalState.initial, Symbols.Object⟩
        (Examples.typeSend NameRef.typeMember [Examples.lowerHash])
        (Examples.typeAssign (Examples.typeSend NameRef.typeMember [Examples.lowerHash]))
        Examples.typeNameX).2.errors = [⟨⟨1, 3⟩, ErrorClass.InvalidTypeDefinition⟩] ∧
    (NameInserter.handleTypeMemberDefinition ⟨GlobalState.initial, Symbols.Object⟩
        (Examples.typeSend NameRef.typeMember [Examples.lowerHash])
        (Examples.typeAssign (Examples.typeSend NameRef.typeMember [Examples.lowerHash]))
        Examples.typeNameX).1 = .EmptyTree := by
  have h := C14_missing_fixed_reported_for_hash_only ⟨GlobalState.initial, Symbols.Object⟩
    (Examples.typeSend NameRef.typeMember [Examples.lowerHash])
    (Examples.typeAssign (Examples.typeSend NameRef.typeMember [Examples.lowerHash]))
    Examples.typeNameX (by decide) (by decide) (by decide)
  exact ⟨h.1.trans (by decide), h.2 (by decide)⟩

/-- Entering a symbol changes, of the records already allocated, only the members. -/
theorem enterSymbol_data_old (gs : GlobalState) (loc : Loc) (owner : SymbolRef) (name : NameRef)
    (kind : SymbolKind) (r : SymbolRef) (hr : r < gs.symbolsUsed) :
    (gs.enterSymbol loc owner name kind).2.data r =
      { gs.data r with members := ((gs.enterSymbol loc owner name kind).2.data r).members } := by
  unfold GlobalState.enterSymbol
  by_cases hex : ((gs.data owner).members.find name).exists = true
  · simp only [hex, if_true]
  · simp only [hex, Bool.false_eq_true, if_false, data_update, data_allocate, Nat.ne_of_lt hr]
    by_cases h : r = owner
    · subst h; simp [Nat.ne_of_lt hr]
    · simp [h]

/-- The table before the type member is entered: a member of the holder with the name has
been reported and renamed. The name is free on the holder afterwards, the type members
are as before, and only the renamed member has changed its name. -/
theorem typeMember_renamed (H : SymbolRef) (typeName : UnresolvedConstantLit) (g1 : GlobalState)
    (hok : Spec.MembersOK (g1.data H).members)
    (hcons : (g1.data H).members.find typeName.cnst ≠ 0 →
      (g1.data ((g1.data H).members.find typeName.cnst)).owner = H ∧
      (g1.data ((g1.data H).members.find typeName.cnst)).name = typeName.cnst)
    (g2 : GlobalState)
    (hg2 : g2 = if (g1.findMemberNoDealias H typeName.cnst).exists then
        (g1.beginError typeName.loc ErrorClass.InvalidTypeDefinition).mangleRenameSymbol
          (g1.findMemberNoDealias H typeName.cnst)
          ((g1.beginError typeName.loc ErrorClass.InvalidTypeDefinition).data
            (g1.findMemberNoDealias H typeName.cnst)).name UniqueNameKind.Namer
      else g1) :
    g2.symbolsUsed = g1.symbolsUsed ∧
    (g2.data H).members.find typeName.cnst = 0 ∧
    (∀ r, (g2.data r).typeMembers = (g1.data r).typeMembers) ∧
    (∀ m, (g1.data H).members.find typeName.cnst = 0 ∨
        m ≠ (g1.data H).members.find typeName.cnst → (g2.data m).name = (g1.data m).name) := by
  subst hg2
  unfold GlobalState.findMemberNoDealias
  by_cases hex : ((g1.data H).members.find typeName.cnst).exists = true
  · have hne : (g1.data H).members.find typeName.cnst ≠ 0 := (exists_iff _).mp hex
    obtain ⟨ho, hn⟩ := hcons hne
    simp only [hex, if_true, beginError_data, hn]
    have hreg : ((g1.beginError typeName.loc ErrorClass.InvalidTypeDefinition).data
        ((g1.beginError typeName.loc ErrorClass.InvalidTypeDefinition).data
          ((g1.data H).members.find typeName.cnst)).owner).members.find typeName.cnst ≠ 0 := by
      simp only [beginError_data, ho]; exact hne
    obtain ⟨h1, _, h3⟩ := mangleRenameSymbol_data
      (g1.beginError typeName.loc ErrorClass.InvalidTypeDefinition)
      ((g1.data H).members.find typeName.cnst) typeName.cnst UniqueNameKind.Namer hreg
    have h4 := mangleRenameSymbol_find
      (g1.beginError typeName.loc ErrorClass.InvalidTypeDefinition)
      ((g1.data H).members.find typeName.cnst) typeName.cnst UniqueNameKind.Namer hreg
      (by simp only [beginError_data, ho]; exact hok) typeName.cnst
    simp only [beginError_data, ho] at h4
    have hfresh : typeName.cnst ≠ Spec.mangledName
        (g1.beginError typeName.loc ErrorClass.InvalidTypeDefinition)
        ((g1.data H).members.find typeName.cnst) typeName.cnst UniqueNameKind.Namer :=
      fun e => unique_ne_original UniqueNameKind.Namer typeName.cnst _ e.symm
    refine ⟨by rw [h1]; rfl, ?_, ?_, ?_⟩
    · rw [h4]; simp [hfresh]
    · intro r; rw [h3]; rfl
    · intro m hm
      rw [h3]
      simp only [beginError_data, ho]
      rcases hm with h0 | hm
      · exact absurd h0 hne
      · simp [hm]
  · have h0 : (g1.data H).members.find typeName.cnst = 0 := by
      by_contra hcon; exact hex ((exists_iff _).mpr hcon)
    simp only [hex, Bool.false_eq_true, if_false]
    simp [h0]

/-- The symbol-entering step on a holder whose member of the name, if any, is consistently
registered: the new symbol is the next free one, it is appended to the type members of the
holder and carries the name; no other type member of the holder changes its name. -/
theorem typeMemberSymbols_names (ctx : MutableContext) (send : Send) (asgn : Assign)
    (typeName : UnresolvedConstantLit) (H : SymbolRef) (variance : Variance) (g1 : GlobalState)
    (hH : H < g1.symbolsUsed)
    (hok : Spec.MembersOK (g1.data H).members)
    (hcons : (g1.data H).members.find typeName.cnst ≠ 0 →
      (g1.data ((g1.data H).members.find typeName.cnst)).owner = H ∧
      (g1.data ((g1.data H).members.find typeName.cnst)).name = typeName.cnst)
    (htm : ∀ m ∈ (g1.data H).typeMembers, m < g1.symbolsUsed) :
    (Spec.typeMemberSymbols ctx send asgn typeName H variance g1).1 = g1.symbolsUsed ∧
    ((Spec.typeMemberSymbols ctx send asgn typeName H variance g1).2.data H).typeMembers =
      (g1.data H).typeMembers ++ [g1.symbolsUsed] ∧
    ((Spec.typeMemberSymbols ctx send asgn typeName H variance g1).2.data g1.symbolsUsed).name =
      typeName.cnst ∧
    (∀ m, m < g1.symbolsUsed →
      ((g1.data H).members.find typeName.cnst = 0 ∨ m ≠ (g1.data H).members.find typeName.cnst) →
      ((Spec.typeMemberSymbols ctx send asgn typeName H variance g1).2.data m).name =
        (g1.data m).name) := by
  obtain ⟨k1, k2, k3, k4⟩ := typeMember_renamed H typeName g1 hok hcons _ rfl
  unfold Spec.typeMemberSymbols
  simp only
  generalize (if (g1.findMemberNoDealias H typeName.cnst).exists then
        (g1.beginError typeName.loc ErrorClass.InvalidTypeDefinition).mangleRenameSymbol
          (g1.findMemberNoDealias H typeName.cnst)
          ((g1.beginError typeName.loc ErrorClass.InvalidTypeDefinition).data
            (g1.findMemberNoDealias H typeName.cnst)).name UniqueNameKind.Namer
      else g1) = g2 at k1 k2 k3 k4 ⊢
  obtain ⟨t1, t2, t3⟩ := enterTypeMember_new g2 asgn.loc H typeName.cnst variance k2
    (by rw [k1]; exact hH) (by intro m hm; rw [k1]; rw [k3] at hm; exact htm m hm)
  rw [k1] at t1 t2 t3
  generalize g2.enterTypeMember asgn.loc H typeName.cnst variance = T at t1 t2 t3 ⊢
  obtain ⟨ts, tg⟩ := T
  simp only at t1 t2 t3 ⊢
  subst t1
  have hne : H ≠ g1.symbolsUsed := Nat.ne_of_lt hH
  have base : (tg.data H).typeMembers = (g1.data H).typeMembers ++ [g1.symbolsUsed] ∧
      (tg.data g1.symbolsUsed).name = typeName.cnst ∧
      (∀ m, m < g1.symbolsUsed →
        ((g1.data H).members.find typeName.cnst = 0 ∨
          m ≠ (g1.data H).members.find typeName.cnst) → (tg.data m).name = (g1.data m).name) := by
    refine ⟨by simp [t3, k3], by simp [t3, hne.symm, addLoc_name], ?_⟩
    intro m hm hcond
    rw [t3, ← k4 m hcond]
    by_cases h1 : m = H
    · subst h1; simp
    · simp [h1, Nat.ne_of_lt hm]
  refine ⟨rfl, ?_⟩
  by_cases ht : (send.fun_ == NameRef.typeTemplate) = true
  · simp only [ht, if_true, GlobalState.enterStaticFieldSymbol]
    have hold : ∀ r, r < tg.symbolsUsed →
        (((tg.enterSymbol asgn.loc (tg.enclosingClass ctx.owner) typeName.cnst
            SymbolKind.staticField).2.update
          (tg.enterSymbol asgn.loc (tg.enclosingClass ctx.owner) typeName.cnst
            SymbolKind.staticField).1
          (fun d => { d with resultType := some (TypePtr.alias g1.symbolsUsed) })).data r).name =
          (tg.data r).name ∧
        (((tg.enterSymbol asgn.loc (tg.enclosingClass ctx.owner) typeName.cnst
            SymbolKind.staticField).2.update
          (tg.enterSymbol asgn.loc (tg.enclosingClass ctx.owner) typeName.cnst
            SymbolKind.staticField).1
          (fun d => { d with resultType := some (TypePtr.alias g1.symbolsUsed) })).data r).typeMembers
          = (tg.data r).typeMembers := by
      intro r hr
      have := enterSymbol_data_old tg asgn.loc (tg.enclosingClass ctx.owner) typeName.cnst
        SymbolKind.staticField r hr
      rw [data_update]
      split
      · rename_i heq; rw [← heq, this]; exact ⟨rfl, rfl⟩
      · rw [this]; exact ⟨rfl, rfl⟩
    refine ⟨?_, ?_, ?_⟩
    · rw [(hold H (by rw [t2]; exact Nat.lt_succ_of_lt hH)).2]; exact base.1
    · rw [(hold g1.symbolsUsed (by rw [t2]; exact Nat.lt_succ_self _)).1]; exact base.2.1
    · intro m hm hcond
      rw [(hold m (by rw [t2]; exact Nat.lt_succ_of_lt hm)).1]; exact base.2.2 m hm hcond
  · simp only [ht, Bool.false_eq_true, if_false]
    exact base

theorem reportAll_eq (gs : GlobalState) (errs : List Error) :
    Spec.reportAll gs errs = { gs with errors := gs.errors ++ errs } := by
  unfold Spec.reportAll
  induction errs generalizing gs with
  | nil => simp
  | cons e rest ih => rw [List.foldl_cons, ih]; simp [GlobalState.beginError]

theorem typeArgErrors_what (send : Send) :
    ∀ e ∈ Spec.typeArgErrors send, e.what = ErrorClass.InvalidTypeDefinition := by
  unfold Spec.typeArgErrors
  intro e he
  split at he
  · cases he
  · split at he
    · split at he
      · cases he
      · simp only [List.mem_singleton] at he; rw [he]
    · simp only [List.mem_singleton] at he; rw [he]
  · cases he
  · simp only [List.mem_singleton] at he; rw [he]

theorem typeMemberHolder_errors (ctx : MutableContext) (send : Send) :
    (Spec.typeMemberHolder ctx send).2.errors = ctx.state.errors := by
  unfold Spec.typeMemberHolder
  split
  · exact singletonClass_errors _ _
  · rfl

theorem typeMemberNames_congr (g g' : GlobalState) (H : SymbolRef)
    (h : ∀ r, g'.data r = g.data r) : Spec.typeMemberNames g' H = Spec.typeMemberNames g H := by
  unfold Spec.typeMemberNames
  simp only [h]

theorem markFixed_names (gs : GlobalState) (sym H : SymbolRef) :
    Spec.typeMemberNames (Spec.markFixed gs sym) H = Spec.typeMemberNames gs H := by
  have key : ∀ r, ((Spec.markFixed gs sym).data r).name = (gs.data r).name ∧
      ((Spec.markFixed gs sym).data r).typeMembers = (gs.data r).typeMembers := by
    intro r
    unfold Spec.markFixed
    by_cases h : r = sym
    · subst h; simp [data_update]
    · simp [data_update, h]
  unfold Spec.typeMemberNames
  rw [(key H).2]
  apply List.map_congr_left
  intro m _
  exact (key m).1

/-- C15: a type-member definition at the scope of a class. (1) If the holder (the class for
`type_member`, its singleton class for `type_template`) already has a type member of the
name, or if there are more than two arguments, `handleTypeMemberDefinition` returns
`EmptyTree` and the table of the holder lookup with nothing but errors added, all of them
`InvalidTypeDefinition` and at least one: no symbol is entered, nothing is renamed, the type
members of the holder are unchanged. (2) On a holder whose member of the name, if there is
one, is consistently registered (it is owned by the holder and carries the name) and whose
type members are allocated, every call keeps the names of the type members of the holder
pairwise distinct. -/
theorem C15_duplicate_type_member (ctx : MutableContext) (send : Send) (asgn : Assign)
    (typeName : UnresolvedConstantLit)
    (hclass : (ctx.state.data ctx.owner).isClass = true)
    (hH : (Spec.typeMemberHolder ctx send).1 < (Spec.typeMemberHolder ctx send).2.symbolsUsed)
    (hok : Spec.MembersOK
      ((Spec.typeMemberHolder ctx send).2.data (Spec.typeMemberHolder ctx send).1).members)
    (hcons : ((Spec.typeMemberHolder ctx send).2.data
        (Spec.typeMemberHolder ctx send).1).members.find typeName.cnst ≠ 0 →
      ((Spec.typeMemberHolder ctx send).2.data
        (((Spec.typeMemberHolder ctx send).2.data
          (Spec.typeMemberHolder ctx send).1).members.find typeName.cnst)).owner =
        (Spec.typeMemberHolder ctx send).1 ∧
      ((Spec.typeMemberHolder ctx send).2.data
        (((Spec.typeMemberHolder ctx send).2.data
          (Spec.typeMemberHolder ctx send).1).members.find typeName.cnst)).name = typeName.cnst)
    (htm : ∀ m ∈ ((Spec.typeMemberHolder ctx send).2.data
        (Spec.typeMemberHolder ctx send).1).typeMembers,
      m < (Spec.typeMemberHolder ctx send).2.symbolsUsed) :
    ((2 < send.args.length ∨ Spec.duplicateTypeMember ctx send typeName = true) →
      ∃ errs, errs ≠ [] ∧ (∀ e ∈ errs, e.what = ErrorClass.InvalidTypeDefinition) ∧
        NameInserter.handleTypeMemberDefinition ctx send asgn typeName =
          (.EmptyTree,
            { (Spec.typeMemberHolder ctx send).2 with errors := ctx.state.errors ++ errs })) ∧
    ((Spec.typeMemberNames (Spec.typeMemberHolder ctx send).2
        (Spec.typeMemberHolder ctx send).1).Nodup →
      (Spec.typeMemberNames (NameInserter.handleTypeMemberDefinition ctx send asgn typeName).2
        (Spec.typeMemberHolder ctx send).1).Nodup) := by
  have herrH := typeMemberHolder_errors ctx send
  have hlong : 2 < send.args.length →
      NameInserter.handleTypeMemberDefinition ctx send asgn typeName =
        (.EmptyTree, (Spec.typeMemberHolder ctx send).2.beginError send.loc
          ErrorClass.InvalidTypeDefinition) := by
    intro h
    rw [handleTypeMemberDefinition_steps]
    have h' : send.args.length > 2 := h
    simp only [hclass, Bool.not_true, Bool.false_eq_true, if_false, h', if_true]
  constructor
  · intro hcase
    by_cases hlen : 2 < send.args.length
    · refine ⟨[⟨send.loc, ErrorClass.InvalidTypeDefinition⟩], by simp, ?_, ?_⟩
      · intro e he; simp only [List.mem_singleton] at he; rw [he]
      · rw [hlong hlen, ← herrH]; rfl
    · have hdup : Spec.duplicateTypeMember ctx send typeName = true := by
        rcases hcase with h | h
        · exact absurd h hlen
        · exact h
      refine ⟨Spec.typeArgErrors send ++ [⟨typeName.loc, ErrorClass.InvalidTypeDefinition⟩],
        by simp, ?_, ?_⟩
      · intro e he
        rcases List.mem_append.mp he with h | h
        · exact typeArgErrors_what send e h
        · simp only [List.mem_singleton] at h; rw [h]
      · rw [handleTypeMemberDefinition_duplicate ctx send asgn typeName hclass
          (Nat.le_of_not_lt hlen) hdup, reportAll_eq, ← herrH]
        simp [GlobalState.beginError]
  · intro hnd
    by_cases hlen : 2 < send.args.length
    · rw [hlong hlen, typeMemberNames_congr _ _ _ (fun r => beginError_data _ _ _ r)]
      exact hnd
    · by_cases hdup : Spec.duplicateTypeMember ctx send typeName = true
      · rw [handleTypeMemberDefinition_duplicate ctx send asgn typeName hclass
          (Nat.le_of_not_lt hlen) hdup,
          typeMemberNames_congr (Spec.typeMemberHolder ctx send).2 _ _
            (fun r => by rw [beginError_data, reportAll_data])]
        exact hnd
      · have hdup' : Spec.duplicateTypeMember ctx send typeName = false := by
          simpa using hdup
        obtain ⟨_, e2, e3, e4⟩ := typeMemberSymbols_names ctx send asgn typeName
          (Spec.typeMemberHolder ctx send).1 (Spec.typeVariance send)
          (Spec.reportAll (Spec.typeMemberHolder ctx send).2 (Spec.typeArgErrors send))
          (by rw [reportAll_symbolsUsed]; exact hH)
          (by rw [reportAll_data]; exact hok)
          (by simp only [reportAll_data]; exact hcons)
          (by intro m hm; rw [reportAll_data] at hm; rw [reportAll_symbolsUsed]; exact htm m hm)
        simp only [reportAll_data, reportAll_symbolsUsed] at e2 e3 e4
        have hnot : ∀ m ∈ ((Spec.typeMemberHolder ctx send).2.data
            (Spec.typeMemberHolder ctx send).1).typeMembers,
            ((Spec.typeMemberHolder ctx send).2.data m).name ≠ typeName.cnst := by
          intro m hm hname
          unfold Spec.duplicateTypeMember at hdup'
          rw [List.any_eq_false] at hdup'
          exact hdup' m hm (by simpa using hname)
        have hE : Spec.typeMemberNames (Spec.typeMemberEntered ctx send asgn typeName).2
            (Spec.typeMemberHolder ctx send).1 =
            Spec.typeMemberNames (Spec.typeMemberHolder ctx send).2
              (Spec.typeMemberHolder ctx send).1 ++ [typeName.cnst] := by
          unfold Spec.typeMemberNames Spec.typeMemberEntered
          rw [e2, List.map_append, List.map_singleton, e3]
          congr 1
          apply List.map_congr_left
          intro m hm
          apply e4 m (htm m hm)
          by_cases h0 : ((Spec.typeMemberHolder ctx send).2.data
              (Spec.typeMemberHolder ctx send).1).members.find typeName.cnst = 0
          · exact Or.inl h0
          · right
            intro heq
            exact hnot m hm (by rw [heq]; exact (hcons h0).2)
        have hfinal : Spec.typeMemberNames
            (NameInserter.handleTypeMemberDefinition ctx send asgn typeName).2
            (Spec.typeMemberHolder ctx send).1 =
            Spec.typeMemberNames (Spec.typeMemberEntered ctx send asgn typeName).2
              (Spec.typeMemberHolder ctx send).1 := by
          rw [handleTypeMemberDefinition_main ctx send asgn typeName hclass
            (Nat.le_of_not_lt hlen) hdup']
          split
          · exact markFixed_names _ _ _
          · simp only
            split
            · exact typeMemberNames_congr _ _ _ (fun r => beginError_data _ _ _ r)
            · rfl
        rw [hfinal, hE]
        apply List.Nodup.append hnd (List.nodup_singleton _)
        intro x hx hx'
        simp only [List.mem_singleton] at hx'
        subst hx'
        unfold Spec.typeMemberNames at hx
        obtain ⟨m, hm, hmn⟩ := List.mem_map.mp hx
        exact hnot m hm hmn

/-- Witness of C15: `X = self.type_member(:out, fixed: Integer)` handled a second time in
`Object`, which has the type member `X` from the first time: the definition is rejected. -/
theorem C15_duplicate_type_member_witness :
    ∃ errs, errs ≠ [] ∧ (∀ e ∈ errs, e.what = ErrorClass.InvalidTypeDefinition) ∧
      NameInserter.handleTypeMemberDefinition ⟨Examples.typeMemberTable, Symbols.Object⟩
          Examples.typeMemberOut (Examples.typeAssign Examples.typeMemberOut) Examples.typeNameX =
        (.EmptyTree,
          { (Spec.typeMemberHolder ⟨Examples.typeMemberTable, Symbols.Object⟩
              Examples.typeMemberOut).2 with
            errors := Examples.typeMemberTable.errors ++ errs }) :=
  (C15_duplicate_type_member ⟨Examples.typeMemberTable, Symbols.Object⟩ Examples.typeMemberOut
    (Examples.typeAssign Examples.typeMemberOut) Examples.typeNameX (by decide!) (by decide!)
    ⟨by decide!, by decide!⟩ (fun _ => ⟨by decide!, by decide!⟩) (by decide!)).1
    (Or.inr (by decide!))

/-- The scenario of C15 evaluated: the second definition of `X` in `Object` is dropped,
one error is reported, and `Object` keeps its single type member, symbol 7. -/
theorem duplicate_type_member_scenario :
    Examples.typeMemberOutcome
        (NameInserter.handleTypeMemberDefinition ⟨GlobalState.initial, Symbols.Object⟩
          Examples.typeMemberOut (Examples.typeAssign Examples.typeMemberOut) Examples.typeNameX)
        Symbols.Object = (false, [], [7]) ∧
    Examples.typeMemberOutcome
        (NameInserter.handleTypeMemberDefinition ⟨Examples.typeMemberTable, Symbols.Object⟩
          Examples.typeMemberOut (Examples.typeAssign Examples.typeMemberOut) Examples.typeNameX)
        Symbols.Object = (true, [⟨⟨1, 2⟩, ErrorClass.InvalidTypeDefinition⟩], [7]) ∧
    (NameInserter.handleTypeMemberDefinition ⟨Examples.typeMemberTable, Symbols.Object⟩
          Examples.typeMemberOut (Examples.typeAssign Examples.typeMemberOut)
          Examples.typeNameX).2.symbolsUsed = Examples.typeMemberTable.symbolsUsed := by
  decide!

/-! ### Constant assignments (C16) -/

/-- Renaming the member `old` of `H` registered under `X`: the record of `old` gets the
unique name, the entry of `H` is re-keyed, and nothing else changes. -/
theorem mangleRename_member (g : GlobalState) (H old : SymbolRef) (X : NameRef)
    (kind : UniqueNameKind) (hold : (g.data H).members.find X = old) (hne : old ≠ 0)
    (hown : (g.data old).owner = H) (hok : Spec.MembersOK (g.data H).members) :
    (g.mangleRenameSymbol old X kind).symbolsUsed = g.symbolsUsed ∧
    (g.mangleRenameSymbol old X kind).errors = g.errors ∧
    Spec.mangledName g old X kind ≠ X ∧
    (∀ k, ((g.mangleRenameSymbol old X kind).data H).members.find k =
      if k = Spec.mangledName g old X kind then old
      else if k = X then 0 else (g.data H).members.find k) ∧
    (∀ r, (g.mangleRenameSymbol old X kind).data r =
      { g.data r with
        members :=
          if r = H then (g.data r).members.rename X (Spec.mangledName g old X kind)
          else (g.data r).members,
        name := if r = old then Spec.mangledName g old X kind else (g.data r).name }) := by
  have hreg : (g.data (g.data old).owner).members.find X ≠ 0 := by rw [hown, hold]; exact hne
  obtain ⟨h1, h2, h3⟩ := mangleRenameSymbol_data g old X kind hreg
  have h4 := mangleRenameSymbol_find g old X kind hreg (by rw [hown]; exact hok)
  rw [hown] at h4
  rw [hown, hold] at h3
  refine ⟨h1, h2, unique_ne_original kind X _, ?_, h3⟩
  intro k
  rw [h4 k, hold]

theorem fillAssign_steps (ctx : MutableContext) (loc : Loc) (lhs : UnresolvedConstantLit)
    (rhs : Expression) (S : SymbolRef) (scope' : Expression) (gs : GlobalState)
    (hsq : squashNames ctx.state ctx.contextClass lhs.scope = .ok (S, scope', gs)) :
    NameInserter.fillAssign ctx ⟨loc, .UnresolvedConstantLit lhs, rhs⟩ =
      .ok ({ loc := loc,
             lhs := .ConstantLit
               { loc := lhs.loc, symbol := (Spec.constantEntered gs S loc lhs.loc lhs.cnst).1,
                 original := some (.UnresolvedConstantLit { lhs with scope := scope' }) },
             rhs := rhs },
        (Spec.constantEntered gs S loc lhs.loc lhs.cnst).2) := by
  simp only [NameInserter.fillAssign, hsq, bind, Except.bind, pure, Except.pure]
  rfl

theorem postTransformAssign_steps (ctx : MutableContext) (loc : Loc)
    (lhs : UnresolvedConstantLit) (rhs : Expression) (S : SymbolRef) (scope' : Expression)
    (gs : GlobalState)
    (hsq : squashNames ctx.state ctx.contextClass lhs.scope = .ok (S, scope', gs))
    (hrhs : Spec.isTypeMemberCall rhs = false)
    (hc : (Spec.constantEntered gs S loc lhs.loc lhs.cnst).1 ≠ 0)
    (hs : ((Spec.constantEntered gs S loc lhs.loc lhs.cnst).2.data
      (Spec.constantEntered gs S loc lhs.loc lhs.cnst).1).isStaticField = true) :
    NameInserter.postTransformAssign ctx ⟨loc, .UnresolvedConstantLit lhs, rhs⟩ =
      .ok (.Assign
            { loc := loc,
              lhs := .ConstantLit
                { loc := lhs.loc, symbol := (Spec.constantEntered gs S loc lhs.loc lhs.cnst).1,
                  original := some (.UnresolvedConstantLit { lhs with scope := scope' }) },
              rhs := rhs },
        if Spec.isTypeAliasCall rhs then
          (Spec.constantEntered gs S loc lhs.loc lhs.cnst).2.update
            (Spec.constantEntered gs S loc lhs.loc lhs.cnst).1
            (fun d => { d with staticTypeAlias := true })
        else (Spec.constantEntered gs S loc lhs.loc lhs.cnst).2) := by
  have hf := fillAssign_steps ctx loc lhs rhs S scope' gs hsq
  have hex : (Spec.constantEntered gs S loc lhs.loc lhs.cnst).1.exists = true :=
    (exists_iff _).mpr hc
  cases rhs with
  | Send send =>
    simp only [Spec.isTypeMemberCall, Spec.isTypeAliasCall] at hrhs ⊢
    by_cases hself : send.recv.isSelf = true
    · simp only [hself, Bool.true_and] at hrhs
      simp only [NameInserter.postTransformAssign, hself, hf, hrhs, bind, Except.bind, pure,
        Except.pure, Bool.not_true, Bool.false_eq_true, if_false, Bool.false_and]
    · have hself' : send.recv.isSelf = false := by simpa using hself
      simp only [NameInserter.postTransformAssign, hself', hf, bind, Except.bind, pure,
        Except.pure, Bool.not_false, if_true, Bool.true_and]
      by_cases hal : (send.fun_ == NameRef.typeAlias) = true
      · simp [hal, hex, hs]
      · simp [hal]
  | _ =>
    simp only [NameInserter.postTransformAssign, hf, bind, Except.bind, pure, Except.pure,
      Spec.isTypeAliasCall, Bool.false_eq_true, if_false]

/-- The symbol-entering step of `fillAssign` on a scope whose member of the name, if any, is
consistently registered. -/
theorem constantEntered_spec (gs : GlobalState) (S : SymbolRef) (asgnLoc lhsLoc : Loc)
    (X : NameRef) (hwf : Spec.WF gs) (hS : S < gs.symbolsUsed)
    (hok : Spec.MembersOK (gs.data S).members)
    (hcons : (gs.data S).members.find X ≠ 0 →
      (gs.data ((gs.data S).members.find X)).owner = S ∧
      (gs.data ((gs.data S).members.find X)).name = X) :
    (Spec.constantEntered gs S asgnLoc lhsLoc X).1 ≠ 0 ∧
    ((Spec.constantEntered gs S asgnLoc lhsLoc X).2.data
      (Spec.constantEntered gs S asgnLoc lhsLoc X).1).kind = SymbolKind.staticField ∧
    ((Spec.constantEntered gs S asgnLoc lhsLoc X).2.data
      (Spec.constantEntered gs S asgnLoc lhsLoc X).1).name = X ∧
    ((Spec.constantEntered gs S asgnLoc lhsLoc X).2.data
      (Spec.constantEntered gs S asgnLoc lhsLoc X).1).owner = S ∧
    ((Spec.constantEntered gs S asgnLoc lhsLoc X).2.data S).members.find X =
      (Spec.constantEntered gs S asgnLoc lhsLoc X).1 ∧
    (Spec.constantEntered gs S asgnLoc lhsLoc X).2.errors =
      gs.errors ++ (if Spec.redefinesConstant gs S X then
        [⟨asgnLoc, ErrorClass.ModuleKindRedefinition⟩] else []) ∧
    (Spec.redefinesConstant gs S X = true →
      (Spec.constantEntered gs S asgnLoc lhsLoc X).1 = gs.symbolsUsed ∧
      (Spec.constantEntered gs S asgnLoc lhsLoc X).1 ≠ (gs.data S).members.find X ∧
      ((Spec.constantEntered gs S asgnLoc lhsLoc X).2.data ((gs.data S).members.find X)).name =
        Spec.mangledName gs ((gs.data S).members.find X) X UniqueNameKind.Namer ∧
      ((Spec.constantEntered gs S asgnLoc lhsLoc X).2.data S).members.find
        (Spec.mangledName gs ((gs.data S).members.find X) X UniqueNameKind.Namer) =
        (gs.data S).members.find X ∧
      Spec.mangledName gs ((gs.data S).members.find X) X UniqueNameKind.Namer ≠ X) ∧
    (Spec.redefinesConstant gs S X = false →
      ∀ r, r < gs.symbolsUsed →
        ((Spec.constantEntered gs S asgnLoc lhsLoc X).2.data r).name = (gs.data r).name ∧
        ∀ k, (gs.data r).members.find k ≠ 0 →
          ((Spec.constantEntered gs S asgnLoc lhsLoc X).2.data r).members.find k =
            (gs.data r).members.find k) := by
  have hused : gs.symbolsUsed ≠ 0 := fun h => by rw [h] at hS; exact Nat.not_lt_zero _ hS
  have hneS : S ≠ gs.symbolsUsed := Nat.ne_of_lt hS
  have hold_lt : (gs.data S).members.find X < gs.symbolsUsed := hwf.members_lt S X
  unfold Spec.constantEntered Spec.redefinesConstant GlobalState.findMemberNoDealias
    GlobalState.enterStaticFieldSymbol
  by_cases hex : ((gs.data S).members.find X).exists = true
  · have hne : (gs.data S).members.find X ≠ 0 := (exists_iff _).mp hex
    obtain ⟨ho, hn⟩ := hcons hne
    by_cases hst : (gs.data ((gs.data S).members.find X)).isStaticField = true
    · have hfound : gs.enterSymbol lhsLoc S X SymbolKind.staticField =
          ((gs.data S).members.find X, gs) := by
        simp [GlobalState.enterSymbol, hex]
      have hk : (gs.data ((gs.data S).members.find X)).kind = SymbolKind.staticField := by
        simpa [Symbol.isStaticField] using hst
      simp only [hex, hst, Bool.not_true, Bool.and_false, Bool.false_eq_true, if_false, hfound,
        List.append_nil]
      simp [hne, hk, hn, ho]
    · have hst' : (gs.data ((gs.data S).members.find X)).isStaticField = false := by
        simpa using hst
      simp only [hex, hst', Bool.not_false, Bool.and_true, if_true, beginError_data, hn]
      obtain ⟨m1, m2, m3, m4, m5⟩ := mangleRename_member
        (gs.beginError asgnLoc ErrorClass.ModuleKindRedefinition) S
        ((gs.data S).members.find X) X UniqueNameKind.Namer rfl hne ho hok
      have hN : Spec.mangledName (gs.beginError asgnLoc ErrorClass.ModuleKindRedefinition)
          ((gs.data S).members.find X) X UniqueNameKind.Namer =
          Spec.mangledName gs ((gs.data S).members.find X) X UniqueNameKind.Namer := rfl
      rw [hN] at m3 m4 m5
      simp only [beginError_data, beginError_symbolsUsed, beginError_errors] at m1 m2 m4 m5
      have hfree : (((gs.beginError asgnLoc ErrorClass.ModuleKindRedefinition).mangleRenameSymbol
          ((gs.data S).members.find X) X UniqueNameKind.Namer).data S).members.find X = 0 := by
        rw [m4]; simp [m3.symm]
      obtain ⟨e1, e2, e3⟩ := enterSymbol_new_data
        ((gs.beginError asgnLoc ErrorClass.ModuleKindRedefinition).mangleRenameSymbol
          ((gs.data S).members.find X) X UniqueNameKind.Namer) lhsLoc S X SymbolKind.staticField
        hfree (by rw [m1]; exact hS)
      have eerr := enterSymbol_errors
        ((gs.beginError asgnLoc ErrorClass.ModuleKindRedefinition).mangleRenameSymbol
          ((gs.data S).members.find X) X UniqueNameKind.Namer) lhsLoc S X SymbolKind.staticField
      rw [m1] at e1 e2 e3
      rw [m2] at eerr
      generalize ((gs.beginError asgnLoc ErrorClass.ModuleKindRedefinition).mangleRenameSymbol
          ((gs.data S).members.find X) X UniqueNameKind.Namer).enterSymbol lhsLoc S X
          SymbolKind.staticField = E at e1 e2 e3 eerr ⊢
      obtain ⟨c, g'⟩ := E
      simp only at e1 e2 e3 eerr ⊢
      subst e1
      have hold_ne : (gs.data S).members.find X ≠ gs.symbolsUsed := Nat.ne_of_lt hold_lt
      refine ⟨hused, ?_, ?_, ?_, ?_, eerr, fun _ => ⟨rfl, hold_ne.symm, ?_, ?_, m3⟩,
        fun h => by cases h⟩
      · simp [e3, hneS.symm, addLoc_kind]
      · simp [e3, hneS.symm, addLoc_name]
      · simp [e3, hneS.symm, addLoc_owner]
      · simp [e3, find_set]
      · have hname : ∀ r, r ≠ gs.symbolsUsed → (g'.data r).name =
            (((gs.beginError asgnLoc ErrorClass.ModuleKindRedefinition).mangleRenameSymbol
              ((gs.data S).members.find X) X UniqueNameKind.Namer).data r).name := by
          intro r hr
          rw [e3]
          by_cases h1 : r = S
          · simp [h1]
          · simp [h1, hr]
        rw [hname _ hold_ne, m5]; simp
      · simp only [e3, if_true, find_set, m3.symm, if_false]
        rw [m4]; simp
  · have h0 : (gs.data S).members.find X = 0 := by
      by_contra hcon; exact hex ((exists_iff _).mpr hcon)
    simp only [hex, Bool.false_and, Bool.false_eq_true, if_false, List.append_nil]
    obtain ⟨e1, e2, e3⟩ := enterSymbol_new_data gs lhsLoc S X SymbolKind.staticField h0 hS
    have eerr := enterSymbol_errors gs lhsLoc S X SymbolKind.staticField
    generalize gs.enterSymbol lhsLoc S X SymbolKind.staticField = E at e1 e2 e3 eerr ⊢
    obtain ⟨c, g'⟩ := E
    simp only at e1 e2 e3 eerr ⊢
    subst e1
    refine ⟨hused, ?_, ?_, ?_, ?_, eerr, fun h => h.elim, ?_⟩
    · simp [e3, hneS.symm, addLoc_kind]
    · simp [e3, hneS.symm, addLoc_name]
    · simp [e3, hneS.symm, addLoc_owner]
    · simp [e3, find_set]
    · intro _ r hr
      rw [e3]
      by_cases h1 : r = S
      · subst h1
        refine ⟨by simp, ?_⟩
        intro k hk
        have hkX : X ≠ k := fun e => hk (by rw [← e]; exact h0)
        simp [find_set, hkX]
      · simp [h1, Nat.ne_of_lt hr]

theorem staticTypeAlias_data (g : GlobalState) (c r : SymbolRef) (b : Bool) :
    ((if b then g.update c (fun d => { d with staticTypeAlias := true }) else g).data r).kind =
      (g.data r).kind ∧
    ((if b then g.update c (fun d => { d with staticTypeAlias := true }) else g).data r).name =
      (g.data r).name ∧
    ((if b then g.update c (fun d => { d with staticTypeAlias := true }) else g).data r).owner =
      (g.data r).owner ∧
    ((if b then g.update c (fun d => { d with staticTypeAlias := true }) else g).data r).members =
      (g.data r).members ∧
    (if b then g.update c (fun d => { d with staticTypeAlias := true }) else g).errors =
      g.errors := by
  cases b
  · simp
  · by_cases h : r = c
    · subst h; simp [data_update, update_errors]
    · simp [data_update, update_errors, h]

theorem squashedScope_ok (ctx : MutableContext) (lhs : UnresolvedConstantLit)
    (hwf : Spec.WF ctx.state) (hctx : ctx.contextClass < ctx.state.symbolsUsed)
    (hpath : Spec.ConstPath (fun _ => True) lhs.scope) :
    squashNames ctx.state ctx.contextClass lhs.scope = .ok (Spec.squashedScope ctx lhs) ∧
    Spec.WF (Spec.squashedScope ctx lhs).2.2 ∧
    Spec.Ext ctx.state (Spec.squashedScope ctx lhs).2.2 ∧
    (Spec.squashedScope ctx lhs).1 < (Spec.squashedScope ctx lhs).2.2.symbolsUsed := by
  obtain ⟨S, e', gs', h1, h2, h3, h4⟩ := squashNames_path lhs.scope hpath ctx.state
    ctx.contextClass hwf hctx
  have : Spec.squashedScope ctx lhs = (S, e', gs') := by
    unfold Spec.squashedScope; rw [h1]
  rw [this]
  exact ⟨h1, h2, h3, h4⟩

/-- C16: `postTransformAssign` on a constant assignment. Let the table be well formed with
an allocated context class, let the scope of the left-hand side be a constant path, and
let the right-hand side be no `type_member`/`type_template` call on `self`; let the member
of the squashed scope registered under the constant's name, if there is one, be
consistently registered. Then the scope squashes (to `Spec.squashedScope`) and the call
returns the `Assign` with its left-hand side replaced by a `ConstantLit` that keeps the
original node and refers to a symbol `c` that is a static field named as the constant,
owned by the squashed scope and registered there under that name. A
`ModuleKindRedefinition` error is reported, at the assignment, exactly when the scope
already had a member of that name (looked up without dealiasing) that is not a static
field; in that case the old member is renamed to a `Namer` unique name and `c` is a new
symbol; otherwise no error is reported, no allocated symbol changes its name and every
member stays registered under its name. An `Assign` whose left-hand side is no
`UnresolvedConstantLit` is returned unchanged with the table untouched. -/
theorem C16_postTransformAssign_constant (ctx : MutableContext) (loc : Loc)
    (lhs : UnresolvedConstantLit) (rhs : Expression) (other : Assign)
    (hwf : Spec.WF ctx.state) (hctx : ctx.contextClass < ctx.state.symbolsUsed)
    (hpath : Spec.ConstPath (fun _ => True) lhs.scope)
    (hrhs : Spec.isTypeMemberCall rhs = false)
    (hok : Spec.MembersOK
      ((Spec.squashedScope ctx lhs).2.2.data (Spec.squashedScope ctx lhs).1).members)
    (hcons : ((Spec.squashedScope ctx lhs).2.2.data
        (Spec.squashedScope ctx lhs).1).members.find lhs.cnst ≠ 0 →
      ((Spec.squashedScope ctx lhs).2.2.data
        (((Spec.squashedScope ctx lhs).2.2.data
          (Spec.squashedScope ctx lhs).1).members.find lhs.cnst)).owner =
        (Spec.squashedScope ctx lhs).1 ∧
      ((Spec.squashedScope ctx lhs).2.2.data
        (((Spec.squashedScope ctx lhs).2.2.data
          (Spec.squashedScope ctx lhs).1).members.find lhs.cnst)).name = lhs.cnst)
    (hother : ∀ l, other.lhs ≠ Expression.UnresolvedConstantLit l) :
    squashNames ctx.state ctx.contextClass lhs.scope = .ok (Spec.squashedScope ctx lhs) ∧
    (∃ c gs',
      NameInserter.postTransformAssign ctx ⟨loc, .UnresolvedConstantLit lhs, rhs⟩ =
        .ok (.Assign
              { loc := loc,
                lhs := .ConstantLit
                  { loc := lhs.loc, symbol := c,
                    original := some (.UnresolvedConstantLit
                      { lhs with scope := (Spec.squashedScope ctx lhs).2.1 }) },
                rhs := rhs },
          gs') ∧
      (gs'.data c).kind = SymbolKind.staticField ∧
      (gs'.data c).name = lhs.cnst ∧
      (gs'.data c).owner = (Spec.squashedScope ctx lhs).1 ∧
      (gs'.data (Spec.squashedScope ctx lhs).1).members.find lhs.cnst = c ∧
      gs'.errors = (Spec.squashedScope ctx lhs).2.2.errors ++
        (if Spec.redefinesConstant (Spec.squashedScope ctx lhs).2.2
            (Spec.squashedScope ctx lhs).1 lhs.cnst
         then [⟨loc, ErrorClass.ModuleKindRedefinition⟩] else []) ∧
      (Spec.redefinesConstant (Spec.squashedScope ctx lhs).2.2
          (Spec.squashedScope ctx lhs).1 lhs.cnst = true →
        c = (Spec.squashedScope ctx lhs).2.2.symbolsUsed ∧
        c ≠ ((Spec.squashedScope ctx lhs).2.2.data
          (Spec.squashedScope ctx lhs).1).members.find lhs.cnst ∧
        (gs'.data (((Spec.squashedScope ctx lhs).2.2.data
          (Spec.squashedScope ctx lhs).1).members.find lhs.cnst)).name =
          Spec.mangledName (Spec.squashedScope ctx lhs).2.2
            (((Spec.squashedScope ctx lhs).2.2.data
              (Spec.squashedScope ctx lhs).1).members.find lhs.cnst) lhs.cnst
            UniqueNameKind.Namer ∧
        (gs'.data (Spec.squashedScope ctx lhs).1).members.find
          (Spec.mangledName (Spec.squashedScope ctx lhs).2.2
            (((Spec.squashedScope ctx lhs).2.2.data
              (Spec.squashedScope ctx lhs).1).members.find lhs.cnst) lhs.cnst
            UniqueNameKind.Namer) =
          ((Spec.squashedScope ctx lhs).2.2.data
            (Spec.squashedScope ctx lhs).1).members.find lhs.cnst ∧
        Spec.mangledName (Spec.squashedScope ctx lhs).2.2
            (((Spec.squashedScope ctx lhs).2.2.data
              (Spec.squashedScope ctx lhs).1).members.find lhs.cnst) lhs.cnst
            UniqueNameKind.Namer ≠ lhs.cnst) ∧
      (Spec.redefinesConstant (Spec.squashedScope ctx lhs).2.2
          (Spec.squashedScope ctx lhs).1 lhs.cnst = false →
        ∀ r, r < (Spec.squashedScope ctx lhs).2.2.symbolsUsed →
          (gs'.data r).name = ((Spec.squashedScope ctx lhs).2.2.data r).name ∧
          ∀ k, ((Spec.squashedScope ctx lhs).2.2.data r).members.find k ≠ 0 →
            (gs'.data r).members.find k =
              ((Spec.squashedScope ctx lhs).2.2.data r).members.find k)) ∧
    NameInserter.postTransformAssign ctx other = .ok (.Assign other, ctx.state) := by
  obtain ⟨hsq, hwfS, _, hS⟩ := squashedScope_ok ctx lhs hwf hctx hpath
  refine ⟨hsq, ?_, ?_⟩
  · generalize Spec.squashedScope ctx lhs = Q at hsq hwfS hS hok hcons ⊢
    obtain ⟨S, scope', gs⟩ := Q
    simp only at hsq hwfS hS hok hcons ⊢
    obtain ⟨c1, c2, c3, c4, c5, c6, c7, c8⟩ :=
      constantEntered_spec gs S loc lhs.loc lhs.cnst hwfS hS hok hcons
    have hst : ((Spec.constantEntered gs S loc lhs.loc lhs.cnst).2.data
        (Spec.constantEntered gs S loc lhs.loc lhs.cnst).1).isStaticField = true := by
      simp [Symbol.isStaticField, c2]
    have hk := fun r => staticTypeAlias_data (Spec.constantEntered gs S loc lhs.loc lhs.cnst).2
      (Spec.constantEntered gs S loc lhs.loc lhs.cnst).1 r (Spec.isTypeAliasCall rhs)
    refine ⟨_, _, postTransformAssign_steps ctx loc lhs rhs S scope' gs hsq hrhs c1 hst,
      ?_, ?_, ?_, ?_, ?_, ?_, ?_⟩
    · rw [(hk _).1]; exact c2
    · rw [(hk _).2.1]; exact c3
    · rw [(hk _).2.2.1]; exact c4
    · rw [(hk _).2.2.2.1]; exact c5
    · rw [(hk 0).2.2.2.2]; exact c6
    · intro hR
      obtain ⟨d1, d2, d3, d4, d5⟩ := c7 hR
      refine ⟨d1, d2, ?_, ?_, d5⟩
      · rw [(hk _).2.1]; exact d3
      · rw [(hk _).2.2.2.1]; exact d4
    · intro hR r hr
      obtain ⟨d1, d2⟩ := c8 hR r hr
      refine ⟨by rw [(hk _).2.1]; exact d1, ?_⟩
      intro k hkk
      rw [(hk _).2.2.2.1]; exact d2 k hkk
  · obtain ⟨oloc, olhs, orhs⟩ := other
    simp only at hother
    cases olhs with
    | UnresolvedConstantLit l => exact absurd rfl (hother l)
    | _ => simp [NameInserter.postTransformAssign, pure, Except.pure]

/-- Witness of C16: `Object = nil` at the top level over the initial table, where `Object`
is a class: the redefinition is reported, the class symbol 3 is renamed, and the new static
field is symbol 7. The assignment `a = nil` to a local is returned unchanged. -/
theorem C16_postTransformAssign_constant_witness :
    ∃ gs',
      NameInserter.postTransformAssign ⟨GlobalState.initial, Symbols.root⟩
          Examples.objectAssign =
        .ok (.Assign
              { Examples.objectAssign with
                lhs := .ConstantLit
                  { loc := ⟨1, 1⟩, symbol := 7,
                    original := some (.UnresolvedConstantLit Examples.objectConstant) } },
          gs') ∧
      (gs'.data 7).kind = SymbolKind.staticField ∧
      (gs'.data 7).name = NameRef.Object ∧
      (gs'.data 7).owner = Symbols.root ∧
      (gs'.data Symbols.root).members.find NameRef.Object = 7 ∧
      gs'.errors = [⟨⟨1, 0⟩, ErrorClass.ModuleKindRedefinition⟩] ∧
      (gs'.data Symbols.Object).name =
        NameRef.unique UniqueNameKind.Namer NameRef.Object 1 ∧
      NameInserter.postTransformAssign ⟨GlobalState.initial, Symbols.root⟩
          Examples.localAssign = .ok (.Assign Examples.localAssign, GlobalState.initial) := by
  have hq : Spec.squashedScope ⟨GlobalState.initial, Symbols.root⟩ Examples.objectConstant =
      (Symbols.root, Expression.EmptyTree, GlobalState.initial) := by
    unfold Spec.squashedScope
    rw [show Examples.objectConstant.scope = Expression.EmptyTree from rfl, squashNames_empty]
    have : MutableContext.contextClass ⟨GlobalState.initial, Symbols.root⟩ = Symbols.root := by
      decide
    rw [this]
  obtain ⟨_, ⟨c, gs', h1, h2, h3, h4, h5, h6, h7, _⟩, h9⟩ :=
    C16_postTransformAssign_constant ⟨GlobalState.initial, Symbols.root⟩ ⟨1, 0⟩
      Examples.objectConstant (MK.Nil ⟨1, 2⟩) Examples.localAssign WF_initial (by decide)
      Spec.ConstPath.empty rfl (by rw [hq]; exact ⟨by decide, by decide⟩)
      (by rw [hq]; exact fun _ => ⟨by decide, by decide⟩) (by intro l h; cases h)
  rw [hq] at h1 h4 h5 h6 h7
  obtain ⟨k1, _, k3, _, _⟩ := h7 (by decide)
  have hc : c = 7 := k1
  subst hc
  have hN : Spec.mangledName GlobalState.initial
      ((GlobalState.initial.data Symbols.root).members.find Examples.objectConstant.cnst)
      Examples.objectConstant.cnst UniqueNameKind.Namer =
      NameRef.unique UniqueNameKind.Namer NameRef.Object 1 := by decide
  rw [hN] at k3
  exact ⟨gs', h1, h2, h3, h4, h5, h6, k3, h9⟩

/-! ### Filling in arguments (C21, C22, C23, C24) -/

theorem enterLocal_localFor (self : NameInserter) (gs : GlobalState) (owner : SymbolRef)
    (name : NameRef) (top : LocalFrame) (rest : List LocalFrame)
    (hs : self.scopeStack = top :: rest) :
    NameInserter.enterLocal self ⟨gs, owner⟩ name = .ok (Spec.localFor gs owner top name) := by
  unfold NameInserter.enterLocal Spec.localFor
  cases hb : (gs.data owner).isBlockSymbol <;>
    simp [hs, back, bind, Except.bind, pure, Except.pure]

/-- What `arg2Symbol` does to the table, for an allocated owner: the symbols allocated
before keep everything but their flags, and those other than the owner and the returned
symbol keep everything but their members; the owner keeps its arguments. -/
theorem arg2Symbol_owner (self : NameInserter) (gs : GlobalState) (owner : SymbolRef)
    (pos : Nat) (a : ParsedArg) (top : LocalFrame) (rest : List LocalFrame)
    (hs : self.scopeStack = top :: rest) (ho : owner < gs.symbolsUsed) :
    ∃ s node gs', NameInserter.arg2Symbol self ⟨gs, owner⟩ pos a = .ok (s, node, gs') ∧
      gs.symbolsUsed ≤ gs'.symbolsUsed ∧ gs'.errors = gs.errors ∧
      (gs'.data owner).arguments = (gs.data owner).arguments ∧
      (∀ r, r < gs.symbolsUsed → (gs'.data r).name = (gs.data r).name ∧
        (gs'.data r).kind = (gs.data r).kind ∧
        (r ≠ owner → (gs'.data r).members = (gs.data r).members)) ∧
      (pos < (gs.data owner).arguments.length →
        s = (gs.data owner).arguments.getD pos Symbols.noSymbol ∧ gs' = gs ∧
        node = .Local ⟨a.loc, Spec.localFor gs owner top a.name⟩) ∧
      (¬ pos < (gs.data owner).arguments.length →
        node = Spec.argNode a (Spec.localFor gs owner top a.name)) := by
  unfold NameInserter.arg2Symbol
  by_cases hpos : pos < (gs.data owner).arguments.length
  · simp only [hpos, if_true, enterLocal_localFor self gs owner a.name top rest hs, bind,
      Except.bind, pure, Except.pure]
    exact ⟨_, _, _, rfl, Nat.le_refl _, rfl, rfl, fun r _ => ⟨rfl, rfl, fun _ => rfl⟩,
      fun _ => ⟨rfl, rfl, rfl⟩, fun h => absurd trivial h⟩
  · simp only [hpos, if_false, GlobalState.enterMethodArgumentSymbol]
    generalize (if a.keyword = true then a.name
      else if a.block = true then NameRef.blkArg
      else gs.freshNameUnique UniqueNameKind.PositionalArg NameRef.arg (pos + 1)) = name
    have hold := enterSymbol_data_old gs a.loc owner name SymbolKind.methodArgument
    have hle := enterSymbol_used_le gs a.loc owner name SymbolKind.methodArgument
    have herr := enterSymbol_errors gs a.loc owner name SymbolKind.methodArgument
    have hmem : ∀ r, r < gs.symbolsUsed → r ≠ owner →
        ((gs.enterSymbol a.loc owner name SymbolKind.methodArgument).2.data r).members =
          (gs.data r).members := by
      intro r hr hne
      unfold GlobalState.enterSymbol
      by_cases hex : ((gs.data owner).members.find name).exists = true
      · simp only [hex, if_true]
      · simp only [hex, Bool.false_eq_true, if_false, data_update, data_allocate, hne, if_false,
          Nat.ne_of_lt hr]
    have hlf : ∀ g : GlobalState, (g.data owner).name = (gs.data owner).name →
        Spec.localFor g owner top a.name = Spec.localFor gs owner top a.name := by
      intro g hg
      unfold Spec.localFor Symbol.isBlockSymbol
      rw [hg]
    have hname1 : ((gs.enterSymbol a.loc owner name SymbolKind.methodArgument).2.data owner).name =
        (gs.data owner).name := by rw [hold owner ho]
    rw [enterLocal_localFor self _ owner a.name top rest hs, hlf _ hname1]
    generalize gs.enterSymbol a.loc owner name SymbolKind.methodArgument = r at hold hle herr hmem
    simp only [bind, Except.bind, pure, Except.pure]
    have step : ∀ (g : GlobalState) (b : Bool) (f : Symbol → Symbol),
        (∀ s, (f s).arguments = s.arguments ∧ (f s).name = s.name ∧ (f s).kind = s.kind ∧
          (f s).members = s.members) →
        (gs.symbolsUsed ≤ g.symbolsUsed ∧ g.errors = gs.errors ∧
          ∀ x, x < gs.symbolsUsed → (g.data x).arguments = (gs.data x).arguments ∧
            (g.data x).name = (gs.data x).name ∧ (g.data x).kind = (gs.data x).kind ∧
            (x ≠ owner → (g.data x).members = (gs.data x).members)) →
        (gs.symbolsUsed ≤ (if b = true then g.update r.1 f else g).symbolsUsed ∧
          (if b = true then g.update r.1 f else g).errors = gs.errors ∧
          ∀ x, x < gs.symbolsUsed →
            ((if b = true then g.update r.1 f else g).data x).arguments = (gs.data x).arguments ∧
            ((if b = true then g.update r.1 f else g).data x).name = (gs.data x).name ∧
            ((if b = true then g.update r.1 f else g).data x).kind = (gs.data x).kind ∧
            (x ≠ owner →
              ((if b = true then g.update r.1 f else g).data x).members = (gs.data x).members)) := by
      intro g b f hf ⟨h1, h2, h3⟩
      cases b
      · exact ⟨h1, h2, h3⟩
      · refine ⟨h1, h2, ?_⟩
        intro x hx
        simp only [if_true, data_update]
        by_cases hxr : x = r.1
        · simp only [hxr, if_true]
          rw [(hf _).1, (hf _).2.1, (hf _).2.2.1, (hf _).2.2.2, ← hxr]
          exact h3 x hx
        · simp only [hxr, if_false]
          exact h3 x hx
    have s0 : gs.symbolsUsed ≤ r.2.symbolsUsed ∧ r.2.errors = gs.errors ∧
        ∀ x, x < gs.symbolsUsed → (r.2.data x).arguments = (gs.data x).arguments ∧
          (r.2.data x).name = (gs.data x).name ∧ (r.2.data x).kind = (gs.data x).kind ∧
          (x ≠ owner → (r.2.data x).members = (gs.data x).members) := by
      refine ⟨hle, herr, ?_⟩
      intro x hx
      refine ⟨by rw [hold x hx], by rw [hold x hx], by rw [hold x hx], hmem x hx⟩
    have s1 := step r.2 a.default_.isSome (fun d => { d with argOptional := true })
      (fun _ => ⟨rfl, rfl, rfl, rfl⟩) s0
    have s2 := step _ a.keyword (fun d => { d with argKeyword := true })
      (fun _ => ⟨rfl, rfl, rfl, rfl⟩) s1
    have s3 := step _ a.block (fun d => { d with argBlock := true })
      (fun _ => ⟨rfl, rfl, rfl, rfl⟩) s2
    have s4 := step _ a.repeated (fun d => { d with argRepeated := true })
      (fun _ => ⟨rfl, rfl, rfl, rfl⟩) s3
    refine ⟨_, _, _, rfl, s4.1, s4.2.1, (s4.2.2 owner ho).1,
      fun x hx => (s4.2.2 x hx).2, fun h => h.elim, fun _ => ?_⟩
    unfold Spec.argNode
    cases a.default_ <;> rfl

/-- The frame after one argument has been recorded. -/
theorem frameWithArgs_cons (top : LocalFrame) (v : LocalVariable) (lvs : List LocalVariable) :
    Spec.frameWithArgs { top with locals := top.locals.set v._name v, args := top.args ++ [v] }
      lvs = Spec.frameWithArgs top (v :: lvs) := by
  simp [Spec.frameWithArgs, List.foldl_cons, List.append_assoc]

theorem frameWithArgs_nil (top : LocalFrame) : Spec.frameWithArgs top [] = top := by
  cases top; simp [Spec.frameWithArgs]

theorem fillInArgsLoop_shadow (owner : SymbolRef) (a : ParsedArg) (l : List ParsedArg) (i : Nat)
    (b : Bool) (args : List Expression) (self : NameInserter) (gs : GlobalState)
    (top : LocalFrame) (rest : List LocalFrame) (hs : self.scopeStack = top :: rest)
    (ha : a.shadow = true) :
    NameInserter.fillInArgsLoop owner (a :: l) i b args self gs =
      NameInserter.fillInArgsLoop owner l (i + 1) true
        (args ++ [Expression.Local ⟨a.loc, Spec.localFor gs owner top a.name⟩])
        { self with scopeStack :=
            { top with
              locals := top.locals.set a.name (Spec.localFor gs owner top a.name),
              args := top.args ++ [Spec.localFor gs owner top a.name] } :: rest } gs := by
  rw [NameInserter.fillInArgsLoop]
  simp only [enterLocal_localFor self gs owner a.name top rest hs, ha, if_true, hs, modifyBack,
    bind, Except.bind, pure, Except.pure]

theorem fillInArgsLoop_reject (owner : SymbolRef) (a : ParsedArg) (l : List ParsedArg) (i : Nat)
    (args : List Expression) (self : NameInserter) (gs : GlobalState)
    (top : LocalFrame) (rest : List LocalFrame) (hs : self.scopeStack = top :: rest)
    (ha : a.shadow = false) :
    NameInserter.fillInArgsLoop owner (a :: l) i true args self gs = .error Abort.enforce := by
  rw [NameInserter.fillInArgsLoop]
  simp [enterLocal_localFor self gs owner a.name top rest hs, ha, ENFORCE, bind, Except.bind,
    pure, Except.pure]

theorem fillInArgsLoop_plain (owner : SymbolRef) (a : ParsedArg) (l : List ParsedArg) (i : Nat)
    (args : List Expression) (self : NameInserter) (gs : GlobalState)
    (top : LocalFrame) (rest : List LocalFrame) (hs : self.scopeStack = top :: rest)
    (ho : owner < gs.symbolsUsed) (ha : a.shadow = false) :
    ∃ s node gs1, NameInserter.arg2Symbol self ⟨gs, owner⟩ i a = .ok (s, node, gs1) ∧
      gs.symbolsUsed ≤ gs1.symbolsUsed ∧ gs1.errors = gs.errors ∧
      (gs1.data owner).arguments = (gs.data owner).arguments ∧
      (∀ r, r < gs.symbolsUsed → (gs1.data r).name = (gs.data r).name ∧
        (gs1.data r).kind = (gs.data r).kind ∧
        (r ≠ owner → (gs1.data r).members = (gs.data r).members)) ∧
      (i < (gs.data owner).arguments.length → gs1 = gs) ∧
      NameInserter.fillInArgsLoop owner (a :: l) i false args self gs =
        NameInserter.fillInArgsLoop owner l (i + 1) false (args ++ [node])
          { self with scopeStack :=
              { top with
                locals := top.locals.set a.name (Spec.localFor gs owner top a.name),
                args := top.args ++ [Spec.localFor gs owner top a.name] } :: rest }
          (if i < (gs.data owner).arguments.length then gs1
           else gs1.update owner (fun o => { o with arguments := o.arguments ++ [s] })) := by
  obtain ⟨s, node, gs1, h1, h2, h3, h4, h5, h6, h7⟩ :=
    arg2Symbol_owner self gs owner i a top rest hs ho
  refine ⟨s, node, gs1, h1, h2, h3, h4, h5, fun h => (h6 h).2.1, ?_⟩
  rw [NameInserter.fillInArgsLoop]
  simp only [enterLocal_localFor self gs owner a.name top rest hs, ha, Bool.false_eq_true,
    if_false, ENFORCE, Bool.not_false, if_true, h1, h4, hs, modifyBack, bind, Except.bind, pure,
    Except.pure]
  by_cases hi : i < (gs.data owner).arguments.length
  · obtain ⟨e1, e2, _⟩ := h6 hi
    subst e2
    simp [hi, e1]
  · simp [hi]

/-- The assertion of `fillInArgs`: with a frame on the scope stack and an allocated owner,
the loop ends normally when no non-shadow argument comes after a shadow argument, and fails
an assertion otherwise. -/
theorem fillInArgsLoop_total (owner : SymbolRef) (parsedArgs : List ParsedArg) :
    ∀ (i : Nat) (inShadows : Bool) (args : List Expression) (self : NameInserter)
      (gs : GlobalState) (top : LocalFrame) (rest : List LocalFrame),
      self.scopeStack = top :: rest → owner < gs.symbolsUsed →
      (Spec.shadowsLast inShadows parsedArgs = true →
        ∃ r, NameInserter.fillInArgsLoop owner parsedArgs i inShadows args self gs = .ok r) ∧
      (Spec.shadowsLast inShadows parsedArgs = false →
        NameInserter.fillInArgsLoop owner parsedArgs i inShadows args self gs =
          .error Abort.enforce) := by
  induction parsedArgs with
  | nil =>
    intro i inShadows args self gs top rest _ _
    refine ⟨fun _ => ⟨(args, self, gs), by simp [NameInserter.fillInArgsLoop, pure, Except.pure]⟩, ?_⟩
    intro h; simp [Spec.shadowsLast] at h
  | cons a l ih =>
    intro i inShadows args self gs top rest hs ho
    cases ha : a.shadow
    · cases inShadows
      · obtain ⟨s, node, gs1, _, h2, _, _, _, _, h7⟩ :=
          fillInArgsLoop_plain owner a l i args self gs top rest hs ho ha
        have ho2 : owner < (if i < (gs.data owner).arguments.length then gs1
            else gs1.update owner (fun o => { o with arguments := o.arguments ++ [s] })).symbolsUsed := by
          split
          · exact Nat.lt_of_lt_of_le ho h2
          · rw [update_symbolsUsed]; exact Nat.lt_of_lt_of_le ho h2
        have := ih (i + 1) false (args ++ [node])
          { self with scopeStack :=
              { top with
                locals := top.locals.set a.name (Spec.localFor gs owner top a.name),
                args := top.args ++ [Spec.localFor gs owner top a.name] } :: rest }
          _ _ rest rfl ho2
        rw [h7]
        simpa [Spec.shadowsLast, ha] using this
      · rw [fillInArgsLoop_reject owner a l i args self gs top rest hs ha]
        simp [Spec.shadowsLast, ha]
    · rw [fillInArgsLoop_shadow owner a l i inShadows args self gs top rest hs ha]
      have := ih (i + 1) true
        (args ++ [Expression.Local ⟨a.loc, Spec.localFor gs owner top a.name⟩])
        { self with scopeStack :=
            { top with
              locals := top.locals.set a.name (Spec.localFor gs owner top a.name),
              args := top.args ++ [Spec.localFor gs owner top a.name] } :: rest }
        gs _ rest rfl ho
      simpa [Spec.shadowsLast, ha] using this

theorem shadowsLast_true_iff (l : List ParsedArg) :
    Spec.shadowsLast true l = true ↔ ∀ a ∈ l, a.shadow = true := by
  induction l with
  | nil => simp [Spec.shadowsLast]
  | cons a rest ih =>
    cases ha : a.shadow <;> simp [Spec.shadowsLast, ha, ih]

/-- The assertion of `fillInArgs` in words: the list is rejected exactly when some
non-shadow argument comes after a shadow argument. -/
theorem shadowsLast_false_iff (l : List ParsedArg) :
    Spec.shadowsLast false l = false ↔ Spec.plainAfterShadow l := by
  induction l with
  | nil =>
    simp only [Spec.shadowsLast, Bool.true_eq_false, false_iff]
    rintro ⟨pre, a, mid, b, post, h, _⟩
    cases pre <;> simp at h
  | cons x rest ih =>
    cases hx : x.shadow
    · simp only [Spec.shadowsLast, hx, Bool.false_eq_true, if_false, Bool.not_false,
        Bool.true_and, ih]
      constructor
      · rintro ⟨pre, a, mid, b, post, h, h1, h2⟩
        exact ⟨x :: pre, a, mid, b, post, by rw [h]; rfl, h1, h2⟩
      · rintro ⟨pre, a, mid, b, post, h, h1, h2⟩
        cases pre with
        | nil =>
          simp only [List.nil_append, List.cons.injEq] at h
          rw [h.1] at hx; rw [hx] at h1; cases h1
        | cons p pre' =>
          simp only [List.cons_append, List.cons.injEq] at h
          exact ⟨pre', a, mid, b, post, h.2, h1, h2⟩
    · simp only [Spec.shadowsLast, hx, if_true]
      constructor
      · intro h
        have hnot : ¬ ∀ a ∈ rest, a.shadow = true := by
          intro hall
          rw [(shadowsLast_true_iff rest).mpr hall] at h; cases h
        simp only [not_forall] at hnot
        obtain ⟨b, hb, hbs⟩ := hnot
        obtain ⟨mid, post, hsplit⟩ := List.append_of_mem hb
        exact ⟨[], x, mid, b, post, by rw [hsplit]; rfl, hx, by simpa using hbs⟩
      · rintro ⟨pre, a, mid, b, post, h, h1, h2⟩
        have hb : b ∈ rest := by
          cases pre with
          | nil =>
            simp only [List.nil_append, List.cons.injEq] at h
            rw [h.2]; simp
          | cons p pre' =>
            simp only [List.cons_append, List.cons.injEq] at h
            rw [h.2]; simp
        by_contra hcon
        have htrue : Spec.shadowsLast true rest = true := by simpa using hcon
        have := (shadowsLast_true_iff rest).mp htrue b hb
        rw [h2] at this; cases this

theorem localFor_name (gs : GlobalState) (owner : SymbolRef) (top : LocalFrame) (name : NameRef) :
    (Spec.localFor gs owner top name)._name = name := by
  unfold Spec.localFor; split <;> rfl

theorem localFor_congr (gs gs' : GlobalState) (owner : SymbolRef) (top top' : LocalFrame)
    (hn : (gs'.data owner).name = (gs.data owner).name) (hid : top'.scopeId = top.scopeId) :
    Spec.localFor gs' owner top' = Spec.localFor gs owner top := by
  funext name
  unfold Spec.localFor Symbol.isBlockSymbol
  rw [hn, hid]

/-- The loop of `fillInArgs` on a list that its assertion accepts: every parsed argument
gets its node, the top frame records every argument, and on an owner whose arguments so far
are those of the positions before `i`, the symbols of the non-shadow arguments are appended
to the arguments of the owner. -/
theorem fillInArgsLoop_filled (owner : SymbolRef) (parsedArgs : List ParsedArg) :
    ∀ (i : Nat) (inShadows : Bool) (args : List Expression) (self : NameInserter)
      (gs : GlobalState) (top : LocalFrame) (rest : List LocalFrame),
      self.scopeStack = top :: rest → owner < gs.symbolsUsed →
      Spec.shadowsLast inShadows parsedArgs = true →
      ∃ nodes syms gs',
        NameInserter.fillInArgsLoop owner parsedArgs i inShadows args self gs =
          .ok (args ++ nodes,
            { self with
              scopeStack := Spec.frameWithArgs top (Spec.argLocals gs owner top parsedArgs) :: rest },
            gs') ∧
        Spec.ArgsFilled owner (Spec.localFor gs owner top) i parsedArgs nodes syms ∧
        ((inShadows = false → (gs.data owner).arguments.length = i) →
          (gs'.data owner).arguments = (gs.data owner).arguments ++ syms) ∧
        gs'.errors = gs.errors ∧ gs.symbolsUsed ≤ gs'.symbolsUsed ∧
        ∀ r, r < gs.symbolsUsed → (gs'.data r).name = (gs.data r).name ∧
          (gs'.data r).kind = (gs.data r).kind ∧
          (r ≠ owner → (gs'.data r).members = (gs.data r).members) := by
  induction parsedArgs with
  | nil =>
    intro i inShadows args self gs top rest hs _ _
    refine ⟨[], [], gs, ?_, Spec.ArgsFilled.nil i, by simp, rfl, Nat.le_refl _,
      fun r _ => ⟨rfl, rfl, fun _ => rfl⟩⟩
    have : ({ self with scopeStack := Spec.frameWithArgs top [] :: rest } : NameInserter) =
        self := by
      cases self
      simp only at hs
      subst hs
      rw [frameWithArgs_nil]
    simp [NameInserter.fillInArgsLoop, pure, Except.pure, Spec.argLocals, this]
  | cons a l ih =>
    intro i inShadows args self gs top rest hs ho hsh
    cases ha : a.shadow
    · cases inShadows
      · simp only [Spec.shadowsLast, ha, Bool.false_eq_true, if_false, Bool.not_false,
          Bool.true_and] at hsh
        obtain ⟨s, node, gs1, h1, h2, h3, h4, h5, h6, h7⟩ :=
          fillInArgsLoop_plain owner a l i args self gs top rest hs ho ha
        generalize hg2 : (if i < (gs.data owner).arguments.length then gs1
            else gs1.update owner (fun o => { o with arguments := o.arguments ++ [s] })) = gs2
          at h7
        have hu2 : gs2.symbolsUsed = gs1.symbolsUsed := by
          rw [← hg2]; split
          · rfl
          · rw [update_symbolsUsed]
        have he2 : gs2.errors = gs1.errors := by
          rw [← hg2]; split
          · rfl
          · rw [update_errors]
        have hd2 : ∀ r, (gs2.data r).name = (gs1.data r).name ∧
            (gs2.data r).kind = (gs1.data r).kind ∧
            (gs2.data r).members = (gs1.data r).members := by
          intro r
          rw [← hg2]; split
          · exact ⟨rfl, rfl, rfl⟩
          · rw [data_update]; split
            · rename_i heq; rw [heq]; exact ⟨rfl, rfl, rfl⟩
            · exact ⟨rfl, rfl, rfl⟩
        have hlf := localFor_congr gs gs2 owner top
          { top with
            locals := top.locals.set a.name (Spec.localFor gs owner top a.name),
            args := top.args ++ [Spec.localFor gs owner top a.name] }
          (by rw [(hd2 owner).1, (h5 owner ho).1]) rfl
        obtain ⟨nodes, syms, gs', k1, k2, k3, k4, k5, k6⟩ := ih (i + 1) false (args ++ [node])
          { self with scopeStack :=
              { top with
                locals := top.locals.set a.name (Spec.localFor gs owner top a.name),
                args := top.args ++ [Spec.localFor gs owner top a.name] } :: rest }
          gs2 _ rest rfl (by rw [hu2]; exact Nat.lt_of_lt_of_le ho h2) hsh
        simp only [Spec.argLocals, hlf] at k1 k2
        refine ⟨node :: nodes, s :: syms, gs', ?_, Spec.ArgsFilled.plain i a l nodes syms self gs
          gs1 s node ha h1 k2, ?_, ?_, ?_, ?_⟩
        · rw [h7, k1]
          have hfr := frameWithArgs_cons top (Spec.localFor gs owner top a.name)
            (Spec.argLocals gs owner top l)
          rw [localFor_name] at hfr
          simp only [Spec.argLocals, List.map_cons, List.append_assoc, List.singleton_append] at hfr ⊢
          rw [hfr]
        · intro harg
          have hlen := harg rfl
          have hi : ¬ i < (gs.data owner).arguments.length := by
            rw [hlen]; exact Nat.lt_irrefl _
          simp only [hi, if_false] at hg2
          have harg2 : (gs2.data owner).arguments = (gs.data owner).arguments ++ [s] := by
            rw [← hg2]; simp [data_update, h4]
          rw [k3 (by intro _; rw [harg2]; simp [hlen]), harg2]
          simp
        · rw [k4, he2, h3]
        · rw [hu2] at k5; exact Nat.le_trans h2 k5
        · intro r hr
          obtain ⟨q1, q2, q3⟩ := k6 r (by rw [hu2]; exact Nat.lt_of_lt_of_le hr h2)
          refine ⟨by rw [q1, (hd2 r).1]; exact (h5 r hr).1,
            by rw [q2, (hd2 r).2.1]; exact (h5 r hr).2.1, ?_⟩
          intro hne
          rw [q3 hne, (hd2 r).2.2]
          exact (h5 r hr).2.2 hne
      · simp [Spec.shadowsLast, ha] at hsh
    · simp only [Spec.shadowsLast, ha, if_true] at hsh
      have hlf := localFor_congr gs gs owner top
        { top with
          locals := top.locals.set a.name (Spec.localFor gs owner top a.name),
          args := top.args ++ [Spec.localFor gs owner top a.name] } rfl rfl
      obtain ⟨nodes, syms, gs', k1, k2, k3, k4, k5, k6⟩ := ih (i + 1) true
        (args ++ [Expression.Local ⟨a.loc, Spec.localFor gs owner top a.name⟩])
        { self with scopeStack :=
            { top with
              locals := top.locals.set a.name (Spec.localFor gs owner top a.name),
              args := top.args ++ [Spec.localFor gs owner top a.name] } :: rest }
        gs _ rest rfl ho hsh
      simp only [Spec.argLocals, hlf] at k1 k2
      refine ⟨Expression.Local ⟨a.loc, Spec.localFor gs owner top a.name⟩ :: nodes, syms, gs', ?_,
        Spec.ArgsFilled.shadow i a l nodes syms ha k2, ?_, k4, k5, k6⟩
      · rw [fillInArgsLoop_shadow owner a l i inShadows args self gs top rest hs ha, k1]
        have hfr := frameWithArgs_cons top (Spec.localFor gs owner top a.name)
          (Spec.argLocals gs owner top l)
        rw [localFor_name] at hfr
        simp only [Spec.argLocals, List.map_cons, List.append_assoc, List.singleton_append] at hfr ⊢
        rw [hfr]
      · intro _
        exact k3 (by intro h; cases h)

/-- C21 (defect): the node that `arg2Symbol` produces, with a frame on the scope stack.
(1) When the owner has at most `pos` arguments and a symbol is entered, the node is
`OptionalArg(Local, default)` for an argument with a default and a bare `Local` without one
(`Spec.argNode`). (2) When the owner has an argument at index `pos`, which is then reused,
the node is a bare `Local` whether or not the parsed argument carries a default: the default
expression is dropped from the tree, and the table is left as it was. -/
theorem C21_arg2Symbol_node (top : LocalFrame) (rest : List LocalFrame) (scopeCounter : Nat)
    (blockArgStack : List BlockArgs) (gs : GlobalState) (owner : SymbolRef) (pos : Nat)
    (parsedArg : ParsedArg) :
    ((gs.data owner).arguments.length ≤ pos →
      ∃ sym lv gs',
        NameInserter.arg2Symbol ⟨top :: rest, scopeCounter, blockArgStack⟩ ⟨gs, owner⟩ pos
            parsedArg = .ok (sym, Spec.argNode parsedArg lv, gs') ∧
        lv._name = parsedArg.name) ∧
    (pos < (gs.data owner).arguments.length →
      NameInserter.arg2Symbol ⟨top :: rest, scopeCounter, blockArgStack⟩ ⟨gs, owner⟩ pos
          parsedArg =
        .ok ((gs.data owner).arguments.getD pos Symbols.noSymbol,
          .Local ⟨parsedArg.loc, Spec.localFor gs owner top parsedArg.name⟩, gs)) := by
  constructor
  · intro hpos
    have hpos' : ¬ pos < (gs.data owner).arguments.length := Nat.not_lt.mpr hpos
    unfold NameInserter.arg2Symbol
    simp only [hpos', if_false]
    obtain ⟨lv, hlv, hname⟩ := enterLocal_total ⟨top :: rest, scopeCounter, blockArgStack⟩
      { (⟨gs, owner⟩ : MutableContext) with
        state := (gs.enterMethodArgumentSymbol parsedArg.loc owner
          (if parsedArg.keyword = true then parsedArg.name
           else if parsedArg.block = true then NameRef.blkArg
           else gs.freshNameUnique UniqueNameKind.PositionalArg NameRef.arg (pos + 1))).2 }
      parsedArg.name (by simp)
    simp only [hlv, bind, Except.bind, pure, Except.pure]
    unfold Spec.argNode
    obtain ⟨name, loc, default_, kw, blk, rep, sh⟩ := parsedArg
    cases default_ <;> exact ⟨_, lv, _, rfl, hname⟩
  · intro hpos
    unfold NameInserter.arg2Symbol
    simp only [hpos, if_true,
      enterLocal_localFor ⟨top :: rest, scopeCounter, blockArgStack⟩ gs owner parsedArg.name top
        rest rfl, bind, Except.bind, pure, Except.pure]

/-- The defect of C21 on `def f(a = nil); end`, named twice. The first run gives the
parameter an `OptionalArg` node (no bare `Local`) and enters the argument symbol 8 with the
flag Optional. The second run takes the reparse path, reuses symbol 8, which keeps its flag,
and leaves a bare `Local` in the tree: the default `nil` is gone. -/
theorem reparse_drops_default_scenario :
    Examples.topLevelMethodArgs
        (Examples.treeAfter
          (Namer.run ⟨GlobalState.initial, Symbols.root⟩ Examples.optionalFile)) = [[none]] ∧
    (Examples.optionalTable.data 7).arguments = [8] ∧
    (Examples.optionalTable.data 8).argOptional = true ∧
    Examples.topLevelMethodArgs
        (Examples.treeAfter
          (Namer.run ⟨Examples.optionalTable, Symbols.root⟩ Examples.optionalFile)) =
      [[some ⟨⟨1, 2⟩, ⟨NameRef.utf8 2, 0⟩⟩]] ∧
    ((Examples.tableAfter
        (Namer.run ⟨Examples.optionalTable, Symbols.root⟩ Examples.optionalFile)
        GlobalState.initial).data 8).argOptional = true := by
  decide!

/-- The scenario of C22 evaluated: `b; c` on `Object` gives two bare `Local` nodes, one
argument symbol (7, for `b`), and a frame that binds and lists both `b` and `c`. -/
theorem fillInArgs_shadow_scenario :
    (match NameInserter.fillInArgs NameInserter.init ⟨GlobalState.initial, Symbols.Object⟩
        [Examples.plainParsedArg, Examples.shadowParsedArg] with
     | .ok r =>
       some (r.1.map (fun e => match e with
               | Expression.Local l => some l.localVariable
               | _ => none),
             (r.2.2.data Symbols.Object).arguments, r.2.1.scopeStack)
     | .error _ => none) =
      some ([some ⟨NameRef.utf8 3, 0⟩, some ⟨NameRef.utf8 4, 0⟩], [7],
        [{ locals := [(NameRef.utf8 3, ⟨NameRef.utf8 3, 0⟩), (NameRef.utf8 4, ⟨NameRef.utf8 4, 0⟩)],
           args := [⟨NameRef.utf8 3, 0⟩, ⟨NameRef.utf8 4, 0⟩], scopeId := 0 }]) := by
  decide!

theorem fillInArgs_abort_iff (self : NameInserter) (ctx : MutableContext)
    (parsedArgs : List ParsedArg) (hstack : self.scopeStack ≠ [])
    (ho : ctx.owner < ctx.state.symbolsUsed) :
    (Spec.plainAfterShadow parsedArgs →
      NameInserter.fillInArgs self ctx parsedArgs = .error Abort.enforce) ∧
    (¬ Spec.plainAfterShadow parsedArgs →
      ∃ r, NameInserter.fillInArgs self ctx parsedArgs = .ok r) := by
  obtain ⟨top, rest, hs⟩ : ∃ top rest, self.scopeStack = top :: rest := by
    cases h : self.scopeStack with
    | nil => exact absurd h hstack
    | cons a b => exact ⟨a, b, rfl⟩
  obtain ⟨h1, h2⟩ := fillInArgsLoop_total ctx.owner parsedArgs 0 false [] self ctx.state top rest
    hs ho
  constructor
  · intro h
    exact h2 ((shadowsLast_false_iff parsedArgs).mpr h)
  · intro h
    apply h1
    cases hc : Spec.shadowsLast false parsedArgs
    · exact absurd ((shadowsLast_false_iff parsedArgs).mp hc) h
    · rfl

/-- C23: with a frame on the scope stack and an allocated owner, `fillInArgs` fails its
assertion exactly when the argument list contains a shadow argument that is followed, at
some later position, by a non-shadow argument (`Spec.plainAfterShadow`); on every other
list it ends normally. -/
theorem C23_fillInArgs_abort_iff (self : NameInserter) (ctx : MutableContext)
    (parsedArgs : List ParsedArg) (hstack : self.scopeStack ≠ [])
    (ho : ctx.owner < ctx.state.symbolsUsed) :
    (NameInserter.fillInArgs self ctx parsedArgs = .error Abort.enforce ↔
      Spec.plainAfterShadow parsedArgs) ∧
    (¬ Spec.plainAfterShadow parsedArgs →
      ∃ r, NameInserter.fillInArgs self ctx parsedArgs = .ok r) := by
  obtain ⟨h1, h2⟩ := fillInArgs_abort_iff self ctx parsedArgs hstack ho
  refine ⟨⟨?_, h1⟩, h2⟩
  intro herr
  by_contra hcon
  obtain ⟨r, hr⟩ := h2 hcon
  rw [hr] at herr
  cases herr

/-- Witness of C23: the list `c; b` with the shadow argument `c` first is rejected. -/
theorem C23_fillInArgs_abort_iff_witness :
    NameInserter.fillInArgs NameInserter.init ⟨GlobalState.initial, Symbols.Object⟩
        [Examples.shadowParsedArg, Examples.plainParsedArg] = .error Abort.enforce :=
  (C23_fillInArgs_abort_iff NameInserter.init ⟨GlobalState.initial, Symbols.Object⟩
    [Examples.shadowParsedArg, Examples.plainParsedArg] (by decide) (by decide)).1.mpr
    ⟨[], Examples.shadowParsedArg, [], Examples.plainParsedArg, [], rfl, rfl, rfl⟩

/-- Counterexample to C24 as stated: in the list `b; c` the shadow argument `c` comes after
the non-shadow argument `b`, and `fillInArgs` accepts it; it is the list `c; b`, with the
non-shadow argument after the shadow argument, that fails the assertion. -/
theorem C24_counterexample :
    Examples.abortOf
        (NameInserter.fillInArgs NameInserter.init ⟨GlobalState.initial, Symbols.Object⟩
          [Examples.plainParsedArg, Examples.shadowParsedArg]) = none ∧
    Examples.abortOf
        (NameInserter.fillInArgs NameInserter.init ⟨GlobalState.initial, Symbols.Object⟩
          [Examples.shadowParsedArg, Examples.plainParsedArg]) = some Abort.enforce := by
  decide!

theorem shadowsLast_append (plain shadows : List ParsedArg)
    (hp : ∀ a ∈ plain, a.shadow = false) (hsd : ∀ a ∈ shadows, a.shadow = true) :
    Spec.shadowsLast false (plain ++ shadows) = true := by
  induction plain with
  | nil =>
    cases shadows with
    | nil => rfl
    | cons s ss =>
      have h1 := hsd s (List.mem_cons_self _ _)
      have h2 := (shadowsLast_true_iff ss).mpr (fun a ha => hsd a (List.mem_cons_of_mem _ ha))
      simp [Spec.shadowsLast, h1, h2]
  | cons p ps ih =>
    have h1 := hp p (List.mem_cons_self _ _)
    have h2 := ih (fun a ha => hp a (List.mem_cons_of_mem _ ha))
    simp [Spec.shadowsLast, h1, h2]

/-- C24 (as amended): the order that the assertion of `fillInArgs` enforces is that no
non-shadow argument follows a shadow argument. With a frame on the scope stack and an
allocated owner, every list with a non-shadow argument `b` somewhere after a shadow argument
`a` is rejected, and every list of non-shadow arguments followed by shadow arguments is
accepted. -/
theorem C24_plain_after_shadow_rejected (self : NameInserter) (ctx : MutableContext)
    (hstack : self.scopeStack ≠ []) (ho : ctx.owner < ctx.state.symbolsUsed) :
    (∀ (pre mid post : List ParsedArg) (a b : ParsedArg), a.shadow = true → b.shadow = false →
      NameInserter.fillInArgs self ctx (pre ++ a :: (mid ++ b :: post)) =
        .error Abort.enforce) ∧
    (∀ plain shadows : List ParsedArg, (∀ a ∈ plain, a.shadow = false) →
      (∀ a ∈ shadows, a.shadow = true) →
      ∃ r, NameInserter.fillInArgs self ctx (plain ++ shadows) = .ok r) := by
  constructor
  · intro pre mid post a b ha hb
    exact (fillInArgs_abort_iff self ctx _ hstack ho).1 ⟨pre, a, mid, b, post, rfl, ha, hb⟩
  · intro plain shadows hp hsd
    apply (fillInArgs_abort_iff self ctx _ hstack ho).2
    intro hcon
    have := (shadowsLast_false_iff _).mpr hcon
    rw [shadowsLast_append plain shadows hp hsd] at this
    cases this

/-- Witness of C24: over the initial table, `c; b` is rejected and `b; c` is accepted. -/
theorem C24_plain_after_shadow_rejected_witness :
    NameInserter.fillInArgs NameInserter.init ⟨GlobalState.initial, Symbols.Object⟩
        ([] ++ Examples.shadowParsedArg :: ([] ++ Examples.plainParsedArg :: [])) =
      .error Abort.enforce ∧
    ∃ r, NameInserter.fillInArgs NameInserter.init ⟨GlobalState.initial, Symbols.Object⟩
        ([Examples.plainParsedArg] ++ [Examples.shadowParsedArg]) = .ok r :=
  ⟨(C24_plain_after_shadow_rejected NameInserter.init ⟨GlobalState.initial, Symbols.Object⟩
      (by decide) (by decide)).1 [] [] [] Examples.shadowParsedArg Examples.plainParsedArg rfl rfl,
   (C24_plain_after_shadow_rejected NameInserter.init ⟨GlobalState.initial, Symbols.Object⟩
      (by decide) (by decide)).2 [Examples.plainParsedArg] [Examples.shadowParsedArg]
      (by decide) (by decide)⟩

/-! ### Method redefinition (C17) -/

/-- The scenario of C17 evaluated on the file `def f; end; def f(a); end`: the two
definitions get the symbols 7 and 8, symbol 7 is renamed to the unique name
`(Namer, f, 1)`, `Object` has the member `f = 8`, symbol 8 has the one argument 9, and one
`RedefinitionOfMethod` error is reported. -/
theorem method_redefinition_scenario :
    Examples.topLevelMethodSymbols
        (Examples.treeAfter
          (Namer.run ⟨GlobalState.initial, Symbols.root⟩ Examples.redefinitionFile)) = [7, 8] ∧
    (Examples.redefinitionTable.data 7).name =
      NameRef.unique UniqueNameKind.Namer (NameRef.utf8 1) 1 ∧
    (Examples.redefinitionTable.data Symbols.Object).members.find (NameRef.utf8 1) = 8 ∧
    (Examples.redefinitionTable.data 8).arguments = [9] ∧
    Examples.redefinitionTable.errors.map (fun e => e.what) =
      [ErrorClass.RedefinitionOfMethod] := by
  decide!

/-! ### Mixin ingestion by addAncestor (C25, C26) -/

theorem all_reverse_isConstantOrEmpty (args : List Expression) :
    args.reverse.all Spec.isConstantOrEmpty = args.all Spec.isConstantOrEmpty := by
  simp [List.all_eq, List.mem_reverse]

/-- C25: for a call `self.include(a1, ..., an)` with `n ≥ 1`, no block, and arguments that
are constants or `EmptyTree` (as the desugarer emits them), `addAncestor` returns `true`,
appends to `ancestors`, after the entries already there, exactly the arguments that are
not `EmptyTree`, in reverse argument order, and leaves `singleton_ancestors` and the table
as they were; for `self.extend` the same holds with the two lists exchanged. -/
theorem C25_addAncestor_appends (ctx : MutableContext) (klass : ClassDef) (send : Send)
    (hrecv : send.recv.isSelf = true) (hargs : send.args ≠ []) (hblock : send.block = none)
    (hwell : send.args.all Spec.isConstantOrEmpty = true) :
    (send.fun_ = NameRef.include_ →
      NameInserter.addAncestor ctx klass (.Send send) =
        .ok (true,
          { klass with
            ancestors := klass.ancestors ++ send.args.reverse.filter (fun a => !a.isEmptyTree) },
          ctx.state)) ∧
    (send.fun_ = NameRef.extend →
      NameInserter.addAncestor ctx klass (.Send send) =
        .ok (true,
          { klass with
            singleton_ancestors :=
              klass.singleton_ancestors ++ send.args.reverse.filter (fun a => !a.isEmptyTree) },
          ctx.state)) := by
  have hempty : send.args.isEmpty = false := by
    cases h : send.args with
    | nil => exact absurd h hargs
    | cons _ _ => rfl
  have hloop : ∀ dest, NameInserter.addAncestorLoop send.args.reverse dest =
      .ok (dest ++ send.args.reverse.filter (fun a => !a.isEmptyTree)) := fun dest =>
    addAncestorLoop_ok _ dest (by rw [all_reverse_isConstantOrEmpty]; exact hwell)
  constructor
  · intro hf
    simp [NameInserter.addAncestor, hf, hrecv, hempty, hblock, hloop, bind, Except.bind, pure,
      Except.pure]
  · intro hf
    simp [NameInserter.addAncestor, hf, hrecv, hempty, hblock, hloop, bind, Except.bind, pure,
      Except.pure]

/-- Witness of C25: `self.include(B, D)` appends `D`, then `B`. -/
theorem C25_addAncestor_appends_witness :
    NameInserter.addAncestor ⟨GlobalState.initial, Symbols.Object⟩ Examples.mixinClassDef
        (.Send Examples.includeTwo) =
      .ok (true,
        { Examples.mixinClassDef with
          ancestors := Examples.mixinClassDef.ancestors ++
            Examples.includeTwo.args.reverse.filter (fun a => !a.isEmptyTree) },
        GlobalState.initial) :=
  (C25_addAncestor_appends ⟨GlobalState.initial, Symbols.Object⟩ Examples.mixinClassDef
    Examples.includeTwo rfl (by simp [Examples.includeTwo]) rfl (by decide)).1 rfl

/-- The arguments that the witness of C25 appends: `D`, then `B`. -/
theorem include_two_scenario :
    Spec.mixinNames (Examples.includeTwo.args.reverse.filter (fun a => !a.isEmptyTree)) =
      [NameRef.utf8 23, NameRef.utf8 22] := by
  decide

/-- C26: `addAncestor` on any statement. (1) A statement that is not a call of `include` or
`extend` on `self` with at least one argument and no block is not ingested: the result is
`false`, the class definition is returned as it was, and the table gets the errors
`Spec.mixinErrors`: `IncludeMutipleParam` exactly for a self-call without arguments,
`IncludePassedBlock` exactly for a self-call with arguments and a block, and none when the
receiver is not `self` or the statement is no such call. (2) For a call of `include` or
`extend` on `self` with at least one argument and no block, whenever `addAncestor` returns,
it returns `true` and the table unchanged; it does return when the arguments are constants
or `EmptyTree`. -/
theorem C26_addAncestor_result (ctx : MutableContext) (klass : ClassDef) (node : Expression) :
    ((Spec.isMixinCall NameRef.include_ node || Spec.isMixinCall NameRef.extend node) = false →
      NameInserter.addAncestor ctx klass node =
        .ok (false, klass, Spec.reportAll ctx.state (Spec.mixinErrors node))) ∧
    ((Spec.isMixinCall NameRef.include_ node || Spec.isMixinCall NameRef.extend node) = true →
      Spec.mixinErrors node = [] ∧
      (∀ r, NameInserter.addAncestor ctx klass node = .ok r → r.1 = true ∧ r.2.2 = ctx.state) ∧
      (Spec.mixinArgsWellFormed node = true →
        ∃ k, NameInserter.addAncestor ctx klass node = .ok (true, k, ctx.state))) := by
  cases node with
  | Send send =>
    obtain ⟨loc, recv, fn, args, block⟩ := send
    simp only [Spec.isMixinCall, Spec.mixinErrors, Spec.mixinArgsWellFormed]
    by_cases hf : (fn == NameRef.include_ || fn == NameRef.extend) = true
    · have hf' : (fn != NameRef.include_ && fn != NameRef.extend) = false := by
        rcases Bool.or_eq_true _ _ |>.mp hf with h | h <;> simp [bne, h]
      by_cases hrecv : recv.isSelf = true
      · cases args with
        | nil =>
          simp [NameInserter.addAncestor, hf, hf', hrecv, Spec.reportAll, pure, Except.pure]
        | cons a rest =>
          cases block with
          | some blk =>
            simp [NameInserter.addAncestor, hf, hf', hrecv, Spec.reportAll, pure, Except.pure]
          | none =>
            have hcase : fn = NameRef.include_ ∨ fn = NameRef.extend := by simpa using hf
            refine ⟨?_, ?_⟩
            · intro hfalse
              exfalso
              rcases hcase with h | h <;> simp [h, hrecv] at hfalse
            · intro _
              refine ⟨by simp [hf, hrecv], ?_, ?_⟩
              · intro r hr
                simp only [NameInserter.addAncestor, hf', hrecv, Bool.false_eq_true,
                  if_false, Bool.not_true, Option.isSome_none, List.isEmpty_cons] at hr
                split at hr
                · simp only [bind, Except.bind] at hr
                  split at hr
                  · cases hr
                  · simp only [pure, Except.pure, Except.ok.injEq] at hr
                    rw [← hr]; exact ⟨rfl, rfl⟩
                · simp only [bind, Except.bind] at hr
                  split at hr
                  · cases hr
                  · simp only [pure, Except.pure, Except.ok.injEq] at hr
                    rw [← hr]; exact ⟨rfl, rfl⟩
              · intro hwell
                have hw : (a :: rest).all Spec.isConstantOrEmpty = true := by
                  rcases hcase with h | h <;> simpa [h, hrecv] using hwell
                have hloop : ∀ dest, NameInserter.addAncestorLoop (a :: rest).reverse dest =
                    .ok (dest ++ (a :: rest).reverse.filter (fun a => !a.isEmptyTree)) :=
                  fun dest => addAncestorLoop_ok _ dest
                    (by rw [all_reverse_isConstantOrEmpty]; exact hw)
                simp only [NameInserter.addAncestor, hf', hrecv, Bool.false_eq_true,
                  if_false, Bool.not_true, Option.isSome_none, List.isEmpty_cons, hloop, bind,
                  Except.bind, pure, Except.pure]
                split <;> exact ⟨_, rfl⟩
      · have hrecv' : recv.isSelf = false := by simpa using hrecv
        simp [NameInserter.addAncestor, hrecv', Spec.reportAll, pure, Except.pure]
    · have hf0 : (fn == NameRef.include_ || fn == NameRef.extend) = false := by
        simpa using hf
      have h1 : (fn == NameRef.include_) = false := by
        cases h : (fn == NameRef.include_) <;> simp [h] at hf0 ⊢
      have h2 : (fn == NameRef.extend) = false := by
        cases h : (fn == NameRef.extend) <;> simp [h] at hf0 ⊢
      simp [NameInserter.addAncestor, h1, h2, bne, Spec.reportAll, pure, Except.pure]
  | _ =>
    simp [Spec.isMixinCall, Spec.mixinErrors, Spec.reportAll, NameInserter.addAncestor, pure,
      Except.pure]

/-- The error cases of C26 evaluated over the initial table: `self.include()` reports
`IncludeMutipleParam`; `self.include(B, D)` with a block reports `IncludePassedBlock`; the
same call on another receiver reports nothing; none of them is ingested. -/
theorem addAncestor_errors_scenario :
    (match NameInserter.addAncestor ⟨GlobalState.initial, Symbols.Object⟩ Examples.mixinClassDef
        (.Send { Examples.includeTwo with args := [] }) with
     | .ok r => some (r.1, r.2.2.errors)
     | .error _ => none) = some (false, [⟨⟨1, 4⟩, ErrorClass.IncludeMutipleParam⟩]) ∧
    (match NameInserter.addAncestor ⟨GlobalState.initial, Symbols.Object⟩ Examples.mixinClassDef
        (.Send { Examples.includeTwo with
          block := some ⟨⟨1, 7⟩, [], .EmptyTree, Symbols.noSymbol⟩ }) with
     | .ok r => some (r.1, r.2.2.errors)
     | .error _ => none) = some (false, [⟨⟨1, 4⟩, ErrorClass.IncludePassedBlock⟩]) ∧
    (match NameInserter.addAncestor ⟨GlobalState.initial, Symbols.Object⟩ Examples.mixinClassDef
        (.Send { Examples.includeTwo with recv := Examples.cnst 1 4 24, args := [] }) with
     | .ok r => some (r.1, r.2.2.errors)
     | .error _ => none) = some (false, []) := by
  decide

/-! ### Calls on self: alias_method, super, block_given? (C28, C29, C30) -/

set_option maxHeartbeats 4000000 in
/-- On an argument list that is neither a single `ZSuperArgs` nor a single `MethodDef`,
`postTransformSend` is its dispatch on the function of a call on `self`. -/
theorem postTransformSend_plain (self : NameInserter) (ctx : MutableContext) (original : Send)
    (h : Spec.plainArgs original.args = true) :
    NameInserter.postTransformSend self ctx original =
      if original.recv.isSelf then
        if original.fun_ == NameRef.moduleFunction then
          if original.args.isEmpty then do
            let stack ← modifyBack
              (fun (frame : LocalFrame) => { frame with moduleFunctionActive := true })
              self.scopeStack
            pure (.Send original, { self with scopeStack := stack }, ctx.state)
          else
            pure (.Send original, self,
              NameInserter.moduleFunctionLoop ctx.owner original.args ctx.state)
        else if original.fun_ == NameRef.aliasMethod then
          if original.args.length != 2 then
            pure (.Send original, self,
              (NameInserter.aliasMethodArgs original.args [] ctx.state).2.beginError original.loc
                ErrorClass.InvalidAlias)
          else if (NameInserter.aliasMethodArgs original.args [] ctx.state).1.length != 2 then
            pure (.Send original, self, (NameInserter.aliasMethodArgs original.args [] ctx.state).2)
          else
            if !((NameInserter.aliasMethodArgs original.args [] ctx.state).2.findMember
                (NameInserter.methodOwner
                  ⟨(NameInserter.aliasMethodArgs original.args [] ctx.state).2, ctx.owner⟩)
                ((NameInserter.aliasMethodArgs original.args [] ctx.state).1.getD 1
                  NameRef.noName)).exists then
              pure (.Send original, self,
                (NameInserter.aliasMethodArgs original.args [] ctx.state).2.beginError
                  (original.args.getD 1 Expression.EmptyTree).loc ErrorClass.MethodNotFound)
            else
              pure (.Send original, self,
                NameInserter.aliasMethod
                  ⟨(NameInserter.aliasMethodArgs original.args [] ctx.state).2, ctx.owner⟩
                  (NameInserter.methodOwner
                    ⟨(NameInserter.aliasMethodArgs original.args [] ctx.state).2, ctx.owner⟩)
                  ((NameInserter.aliasMethodArgs original.args [] ctx.state).1.getD 0
                    NameRef.noName)
                  ((NameInserter.aliasMethodArgs original.args [] ctx.state).2.findMember
                    (NameInserter.methodOwner
                      ⟨(NameInserter.aliasMethodArgs original.args [] ctx.state).2, ctx.owner⟩)
                    ((NameInserter.aliasMethodArgs original.args [] ctx.state).1.getD 1
                      NameRef.noName)))
        else if original.fun_ == NameRef.blockGiven_p then
          if !self.blockArgStack.isEmpty then do
            let b ← NameInserter.findOrCreateBlockParameter self original.loc
            pure (MK.If original.loc (.Local ⟨original.loc, b.1⟩) (.Send original)
              (MK.False original.loc), b.2, ctx.state)
          else pure (.Send original, self, ctx.state)
        else pure (.Send original, self, ctx.state)
      else pure (.Send original, self, ctx.state) := by
  obtain ⟨loc, recv, fn, args, block⟩ := original
  simp only at h ⊢
  cases args with
  | nil => simp only [NameInserter.postTransformSend, pure, Except.pure, bind, Except.bind]
  | cons a rest =>
    cases rest with
    | cons b rest2 =>
      simp only [NameInserter.postTransformSend, pure, Except.pure, bind, Except.bind]
    | nil =>
      cases a <;>
        first
        | (simp [Spec.plainArgs] at h; done)
        | simp only [NameInserter.postTransformSend, pure, Except.pure, bind, Except.bind]

theorem postTransformYield_inMethod (scopeStack : List LocalFrame) (scopeCounter : Nat)
    (ctx : MutableContext) (yield : Yield) (f : BlockArgs) (bs : List BlockArgs) :
    NameInserter.postTransformYield ⟨scopeStack, scopeCounter, f :: bs⟩ ctx yield =
      .ok (.Send { loc := yield.loc,
                   recv := .Local ⟨yield.loc, Spec.frameBlockParam f⟩,
                   fun_ := NameRef.call, args := yield.args, block := none },
        ⟨scopeStack, scopeCounter, Spec.frameAfterUse f yield.loc :: bs⟩) := by
  have hfo := findOrCreateBlockParameter_spec ⟨scopeStack, scopeCounter, f :: bs⟩ yield.loc f bs rfl
  simp only [NameInserter.postTransformYield, List.isEmpty_cons, Bool.not_false,
    if_true, hfo, bind, Except.bind,
    pure, Except.pure, Spec.frameBlockParam, Spec.frameAfterUse]
  by_cases h1 : f.declared.exists = true
  · simp [h1]
  · by_cases h2 : f.discovered.exists = true
    · simp [h1, h2]
    · simp [h1, h2]

theorem frameBlockParam_afterUse (f : BlockArgs) (loc : Loc) :
    Spec.frameBlockParam (Spec.frameAfterUse f loc) = Spec.frameBlockParam f := by
  unfold Spec.frameBlockParam Spec.frameAfterUse
  by_cases h1 : f.declared.exists = true
  · simp [h1]
  · by_cases h2 : f.discovered.exists = true
    · simp [h1, h2]
    · have h1' : f.declared.exists = false := by simpa using h1
      have h2' : f.discovered.exists = false := by simpa using h2
      have hb : (⟨NameRef.blkArg, 0⟩ : LocalVariable).exists = true := rfl
      simp [h1', h2', hb]

/-- C30: `self.block_given?` (with an argument list that is neither a single `ZSuperArgs`
nor a single `MethodDef`). Outside any method, where the block-argument stack is empty, the
`Send` is returned unchanged and neither the state of the pass nor the table changes.
Inside a method with the frame `frame` on top of the stack the call becomes
`If(Local(blk), <the original send>, false)`, where `blk` is the declared block argument of
the method if it has one, else the one discovered earlier, else the local `blkArg` that is
discovered now (`Spec.frameBlockParam`, `Spec.frameAfterUse`); the table is unchanged. The
local is the one that `yield` uses: a `yield` visited afterwards in that method calls the
same `Local`. -/
theorem C30_block_given_spec (scopeStack : List LocalFrame) (scopeCounter : Nat)
    (ctx : MutableContext) (original : Send)
    (hrecv : original.recv.isSelf = true) (hfun : original.fun_ = NameRef.blockGiven_p)
    (hargs : Spec.plainArgs original.args = true) :
    NameInserter.postTransformSend ⟨scopeStack, scopeCounter, []⟩ ctx original =
      .ok (.Send original, ⟨scopeStack, scopeCounter, []⟩, ctx.state) ∧
    ∀ (frame : BlockArgs) (rest : List BlockArgs),
      NameInserter.postTransformSend ⟨scopeStack, scopeCounter, frame :: rest⟩ ctx original =
        .ok (MK.If original.loc (.Local ⟨original.loc, Spec.frameBlockParam frame⟩)
            (.Send original) (MK.False original.loc),
          ⟨scopeStack, scopeCounter, Spec.frameAfterUse frame original.loc :: rest⟩,
          ctx.state) ∧
      (frame.declared.exists = true → Spec.frameBlockParam frame = frame.declared) ∧
      ∀ (ctx' : MutableContext) (yield : Yield),
        NameInserter.postTransformYield
            ⟨scopeStack, scopeCounter, Spec.frameAfterUse frame original.loc :: rest⟩ ctx' yield =
          .ok (.Send { loc := yield.loc,
                       recv := .Local ⟨yield.loc, Spec.frameBlockParam frame⟩,
                       fun_ := NameRef.call, args := yield.args, block := none },
            ⟨scopeStack, scopeCounter, Spec.frameAfterUse frame original.loc :: rest⟩) := by
  constructor
  · rw [postTransformSend_plain _ _ _ hargs]
    simp [hrecv, hfun, blockGiven_ne_moduleFunction, blockGiven_ne_aliasMethod, pure,
      Except.pure]
  · intro f bs
    refine ⟨?_, ?_, ?_⟩
    · rw [postTransformSend_plain _ _ _ hargs]
      have hfo := findOrCreateBlockParameter_spec ⟨scopeStack, scopeCounter, f :: bs⟩
        original.loc f bs rfl
      simp only [hrecv, hfun, blockGiven_ne_moduleFunction, blockGiven_ne_aliasMethod,
        blockGiven_beq_self, Bool.false_eq_true, if_false, if_true, List.isEmpty_cons,
        Bool.not_false, hfo, bind, Except.bind, pure, Except.pure, Spec.frameBlockParam,
        Spec.frameAfterUse]
      by_cases h1 : f.declared.exists = true
      · simp [h1]
      · by_cases h2 : f.discovered.exists = true
        · simp [h1, h2]
        · simp [h1, h2]
    · intro h; simp [Spec.frameBlockParam, h]
    · intro ctx' yield
      have h1 := postTransformYield_inMethod scopeStack scopeCounter ctx' yield
        (Spec.frameAfterUse f original.loc) bs
      rw [frameBlockParam_afterUse] at h1
      have h2 : Spec.frameAfterUse (Spec.frameAfterUse f original.loc) yield.loc =
          Spec.frameAfterUse f original.loc := by
        unfold Spec.frameAfterUse
        by_cases k1 : f.declared.exists = true
        · simp [k1]
        · by_cases k2 : f.discovered.exists = true
          · simp [k1, k2]
          · have k1' : f.declared.exists = false := by simpa using k1
            have k2' : f.discovered.exists = false := by simpa using k2
            have hb : (⟨NameRef.blkArg, 0⟩ : LocalVariable).exists = true := rfl
            simp [k1', k2', hb]
      rw [h2] at h1
      exact h1

/-- Witness of C30: `self.block_given?` in a method without a declared block argument and
with nothing discovered yet: the local `blkArg` is discovered at the call. -/
theorem C30_block_given_spec_witness :
    NameInserter.postTransformSend
        ⟨[], 0, [{ declared := LocalVariable.noVariable, discovered := LocalVariable.noVariable }]⟩
        ⟨GlobalState.initial, Symbols.Object⟩ Examples.blockGivenSend =
      .ok (MK.If ⟨1, 2⟩
          (.Local ⟨⟨1, 2⟩, Spec.frameBlockParam
            { declared := LocalVariable.noVariable, discovered := LocalVariable.noVariable }⟩)
          (.Send Examples.blockGivenSend) (MK.False ⟨1, 2⟩),
        ⟨[], 0, [Spec.frameAfterUse
          { declared := LocalVariable.noVariable, discovered := LocalVariable.noVariable }
          ⟨1, 2⟩]⟩,
        GlobalState.initial) :=
  ((C30_block_given_spec [] 0 ⟨GlobalState.initial, Symbols.Object⟩ Examples.blockGivenSend
    rfl rfl rfl).2
    { declared := LocalVariable.noVariable, discovered := LocalVariable.noVariable } []).1

/-- The local of the witness of C30, evaluated: `blkArg` with unique id 0, recorded as
discovered at the call. -/
theorem block_given_scenario :
    Spec.frameBlockParam
        { declared := LocalVariable.noVariable, discovered := LocalVariable.noVariable } =
      ⟨NameRef.blkArg, 0⟩ ∧
    Spec.frameAfterUse
        { declared := LocalVariable.noVariable, discovered := LocalVariable.noVariable } ⟨1, 2⟩ =
      { declared := LocalVariable.noVariable, discovered := ⟨NameRef.blkArg, 0⟩,
        discoveredLoc := ⟨1, 2⟩ } := by
  decide

theorem aliasMethodArgs_spec (args : List Expression) :
    ∀ (acc : List NameRef) (gs : GlobalState),
      NameInserter.aliasMethodArgs args acc gs =
        (acc ++ Spec.symbolNames args, Spec.reportAll gs (Spec.dynamicArgErrors args)) := by
  induction args with
  | nil =>
    intro acc gs
    simp [NameInserter.aliasMethodArgs, Spec.symbolNames, Spec.dynamicArgErrors, Spec.reportAll]
  | cons a rest ih =>
    intro acc gs
    cases a <;>
      simp [NameInserter.aliasMethodArgs, ih, Spec.symbolNames, Spec.dynamicArgErrors,
        Spec.reportAll, Spec.isSymbolLiteral, Spec.symbolName, List.filter_cons]
    case Literal lit =>
      by_cases hl : lit.isSymbol = true
      · simp [hl, Spec.symbolName]
      · simp [hl]

theorem enclosingClassFrom_errors (gs : GlobalState) (es : List Error) (fuel : Nat) :
    ∀ o, GlobalState.enclosingClassFrom { gs with errors := es } fuel o =
      gs.enclosingClassFrom fuel o := by
  induction fuel with
  | zero => intro o; rfl
  | succ n ih =>
    intro o
    simp only [GlobalState.enclosingClassFrom]
    rw [ih]
    rfl

theorem methodOwner_errors (gs : GlobalState) (es : List Error) (o : SymbolRef) :
    NameInserter.methodOwner ⟨{ gs with errors := es }, o⟩ =
      NameInserter.methodOwner ⟨gs, o⟩ := by
  simp only [NameInserter.methodOwner, GlobalState.enclosingClass, enclosingClassFrom_errors]

theorem findMember_errors (gs : GlobalState) (es : List Error) (o : SymbolRef) (k : NameRef) :
    GlobalState.findMember { gs with errors := es } o k = gs.findMember o k :=
  rfl

theorem aliasMethod_ne_moduleFunction :
    (NameRef.aliasMethod == NameRef.moduleFunction) = false := by decide

theorem aliasMethod_beq_self : (NameRef.aliasMethod == NameRef.aliasMethod) = true := by decide

theorem aliasMethod_entered (gs : GlobalState) (o mo : SymbolRef) (a : NameRef)
    (meth : SymbolRef) (hmo : mo < gs.symbolsUsed) :
    (NameInserter.aliasMethod ⟨gs, o⟩ mo a meth).errors = gs.errors ∧
    ((NameInserter.aliasMethod ⟨gs, o⟩ mo a meth).data mo).members.find a ≠ 0 ∧
    ((NameInserter.aliasMethod ⟨gs, o⟩ mo a meth).data
      (((NameInserter.aliasMethod ⟨gs, o⟩ mo a meth).data mo).members.find a)).resultType =
        some (TypePtr.alias meth) ∧
    ((gs.data mo).members.find a ≠ 0 →
      ((NameInserter.aliasMethod ⟨gs, o⟩ mo a meth).data mo).members.find a =
        (gs.data mo).members.find a ∧
      (NameInserter.aliasMethod ⟨gs, o⟩ mo a meth).symbolsUsed = gs.symbolsUsed) ∧
    ((gs.data mo).members.find a = 0 →
      ((NameInserter.aliasMethod ⟨gs, o⟩ mo a meth).data mo).members.find a = gs.symbolsUsed ∧
      (NameInserter.aliasMethod ⟨gs, o⟩ mo a meth).symbolsUsed = gs.symbolsUsed + 1 ∧
      ((NameInserter.aliasMethod ⟨gs, o⟩ mo a meth).data gs.symbolsUsed).kind = .method ∧
      ((NameInserter.aliasMethod ⟨gs, o⟩ mo a meth).data gs.symbolsUsed).owner = mo ∧
      ((NameInserter.aliasMethod ⟨gs, o⟩ mo a meth).data gs.symbolsUsed).name = a) ∧
    ∀ r, r ≠ mo → r ≠ ((NameInserter.aliasMethod ⟨gs, o⟩ mo a meth).data mo).members.find a →
      (NameInserter.aliasMethod ⟨gs, o⟩ mo a meth).data r = gs.data r := by
  have hne : mo ≠ gs.symbolsUsed := Nat.ne_of_lt hmo
  by_cases h : (gs.data mo).members.find a = 0
  · obtain ⟨e1, e2, e3⟩ := enterSymbol_new_data gs (gs.data meth).loc mo a .method h hmo
    simp only [NameInserter.aliasMethod, GlobalState.enterMethodSymbol, update_errors,
      enterSymbol_errors, data_update, update_symbolsUsed, e1, e2, e3, hne, if_true, if_false,
      find_set, true_and]
    have hne' : gs.symbolsUsed ≠ mo := fun e => hne e.symm
    have hpos : gs.symbolsUsed ≠ 0 :=
      Nat.ne_of_gt (Nat.lt_of_le_of_lt (Nat.zero_le mo) hmo)
    refine ⟨hpos, fun h' => absurd h h', fun _ => ?_, ?_⟩
    · simp [hne', addLoc_kind, addLoc_owner, addLoc_name]
    · intro r h1 h2
      simp [h1, h2]
  · have hex : ((gs.data mo).members.find a).exists = true := (exists_iff _).mpr h
    have hen : gs.enterSymbol (gs.data meth).loc mo a .method =
        ((gs.data mo).members.find a, gs) := by
      unfold GlobalState.enterSymbol
      simp only [hex, if_true]
    simp only [NameInserter.aliasMethod, GlobalState.enterMethodSymbol, hen, update_errors,
      data_update, update_symbolsUsed, true_and]
    refine ⟨?_, ?_, fun _ => ?_, fun h' => absurd h' h, ?_⟩
    · by_cases hm : mo = (gs.data mo).members.find a
      · simp only [← hm, if_true]; rw [← hm] at h; exact h
      · simp only [hm, if_false]; exact h
    · by_cases hm : mo = (gs.data mo).members.find a
      · simp only [← hm, if_true]
      · simp only [hm, if_false, if_true]
    · by_cases hm : mo = (gs.data mo).members.find a
      · simp only [← hm, if_true, and_self]
      · simp only [hm, if_false, and_self]
    · intro r h1 h2
      by_cases hm : mo = (gs.data mo).members.find a
      · simp only [← hm, if_true] at h2 ⊢
        simp [h1]
      · simp only [hm, if_false] at h2 ⊢
        simp [h2]

set_option maxHeartbeats 4000000 in
theorem postTransformSend_alias (self : NameInserter) (ctx : MutableContext) (original : Send)
    (hrecv : original.recv.isSelf = true) (hfun : original.fun_ = NameRef.aliasMethod)
    (hargs : Spec.plainArgs original.args = true) :
    NameInserter.postTransformSend self ctx original =
      .ok (.Send original, self,
        if original.args.length ≠ 2 then
          (Spec.reportAll ctx.state (Spec.dynamicArgErrors original.args)).beginError
            original.loc ErrorClass.InvalidAlias
        else if (Spec.symbolNames original.args).length ≠ 2 then
          Spec.reportAll ctx.state (Spec.dynamicArgErrors original.args)
        else if (ctx.state.findMember (NameInserter.methodOwner ctx)
            ((Spec.symbolNames original.args).getD 1 NameRef.noName)).exists then
          NameInserter.aliasMethod
            ⟨Spec.reportAll ctx.state (Spec.dynamicArgErrors original.args), ctx.owner⟩
            (NameInserter.methodOwner ctx)
            ((Spec.symbolNames original.args).getD 0 NameRef.noName)
            (ctx.state.findMember (NameInserter.methodOwner ctx)
              ((Spec.symbolNames original.args).getD 1 NameRef.noName))
        else
          (Spec.reportAll ctx.state (Spec.dynamicArgErrors original.args)).beginError
            (original.args.getD 1 Expression.EmptyTree).loc ErrorClass.MethodNotFound) := by
  rw [postTransformSend_plain _ _ _ hargs]
  have hmo : NameInserter.methodOwner
      ⟨Spec.reportAll ctx.state (Spec.dynamicArgErrors original.args), ctx.owner⟩ =
      NameInserter.methodOwner ctx := by
    rw [reportAll_eq]; exact methodOwner_errors _ _ _
  have hfm : ∀ o k, GlobalState.findMember
      (Spec.reportAll ctx.state (Spec.dynamicArgErrors original.args)) o k =
      ctx.state.findMember o k := by
    intro o k; rw [reportAll_eq]; rfl
  simp only [hrecv, hfun, aliasMethod_ne_moduleFunction, aliasMethod_beq_self, if_true,
    Bool.false_eq_true, if_false, aliasMethodArgs_spec, List.nil_append, hmo, hfm, pure,
    Except.pure]
  by_cases h1 : original.args.length = 2
  · have e1 : (original.args.length != 2) = false := by simp [h1]
    by_cases h2 : (Spec.symbolNames original.args).length = 2
    · have e2 : ((Spec.symbolNames original.args).length != 2) = false := by simp [h2]
      by_cases h3 : (ctx.state.findMember (NameInserter.methodOwner ctx)
          ((Spec.symbolNames original.args).getD 1 NameRef.noName)).exists = true
      · simp only [e1, e2, h3, Bool.false_eq_true, if_false, Bool.not_true, ne_eq,
          not_true_eq_false, if_true]
        simp [h1, h2]
      · have h3' : (ctx.state.findMember (NameInserter.methodOwner ctx)
            ((Spec.symbolNames original.args).getD 1 NameRef.noName)).exists = false := by
          simpa using h3
        simp only [e1, e2, h3', Bool.false_eq_true, if_false, Bool.not_false, ne_eq,
          not_true_eq_false, if_true]
        simp [h1, h2]
    · have e2 : ((Spec.symbolNames original.args).length != 2) = true := by simp [h2]
      simp only [e1, e2, Bool.false_eq_true, if_false, ne_eq, not_true_eq_false,
        not_false_eq_true, if_true]
      simp [h1, h2]
  · have e1 : (original.args.length != 2) = true := by simp [h1]
    simp only [e1, ne_eq, not_false_eq_true, if_true]
    simp [h1]

theorem aliasRequest_some (args : List Expression) (a b : NameRef)
    (h : Spec.aliasRequest args = some (a, b)) :
    args.length = 2 ∧ Spec.symbolNames args = [a, b] ∧ Spec.dynamicArgErrors args = [] := by
  rcases args with _ | ⟨x, _ | ⟨y, _ | ⟨z, l⟩⟩⟩
  · simp [Spec.aliasRequest] at h
  · simp [Spec.aliasRequest] at h
  · by_cases hx : Spec.isSymbolLiteral x = true
    · by_cases hy : Spec.isSymbolLiteral y = true
      · simp [Spec.aliasRequest, hx, hy] at h
        simp [Spec.symbolNames, Spec.dynamicArgErrors, hx, hy, h.1, h.2]
      · simp [Spec.aliasRequest, hx, hy] at h
    · simp [Spec.aliasRequest, hx] at h
  · simp [Spec.aliasRequest] at h

theorem aliasRequest_none (args : List Expression) (h1 : args.length = 2)
    (h : Spec.aliasRequest args = none) : (Spec.symbolNames args).length ≠ 2 := by
  rcases args with _ | ⟨x, _ | ⟨y, _ | ⟨z, l⟩⟩⟩
  · simp at h1
  · simp at h1
  · by_cases hx : Spec.isSymbolLiteral x = true
    · by_cases hy : Spec.isSymbolLiteral y = true
      · simp [Spec.aliasRequest, hx, hy] at h
      · simp [Spec.symbolNames, hx, hy]
    · by_cases hy : Spec.isSymbolLiteral y = true
      · simp [Spec.symbolNames, hx, hy]
      · simp [Spec.symbolNames, hx, hy]
  · simp at h1

/-- C28 (as the source has it): `self.alias_method(args)` where the argument list is
neither a single `ZSuperArgs` nor a single `MethodDef`, with the method owner allocated.
The `Send` is returned unchanged and the state of the pass is unchanged. The errors are one
`DynamicDSLInvocation` per argument that is not a symbol literal, then `InvalidAlias` iff
there are not two arguments, or `MethodNotFound` iff there are two symbol literals and the
second does not name a member of the method owner (`Spec.aliasErrors`). When there are two
symbol literals `a`, `b` and `b` names a member, the table is that of
`aliasMethod(methodOwner, a, found)`: the method owner has a member `a` whose resultType is
`Alias(found)`; it is a new method symbol owned by the method owner and named `a` when the
owner had no member `a`, and the existing member `a` otherwise. In every other case no
symbol is entered or changed. -/
theorem C28_alias_method_of_plain_arguments (self : NameInserter) (ctx : MutableContext)
    (original : Send)
    (hrecv : original.recv.isSelf = true) (hfun : original.fun_ = NameRef.aliasMethod)
    (hargs : Spec.plainArgs original.args = true)
    (hmo : NameInserter.methodOwner ctx < ctx.state.symbolsUsed) :
    ∃ gs', NameInserter.postTransformSend self ctx original = .ok (.Send original, self, gs') ∧
      gs'.errors =
        ctx.state.errors ++ Spec.dynamicArgErrors original.args ++
          Spec.aliasErrors ctx original ∧
      (∀ a b, Spec.aliasRequest original.args = some (a, b) →
        (ctx.state.findMember (NameInserter.methodOwner ctx) b).exists = true →
        gs' = NameInserter.aliasMethod ctx (NameInserter.methodOwner ctx) a
          (ctx.state.findMember (NameInserter.methodOwner ctx) b) ∧
        (gs'.data (NameInserter.methodOwner ctx)).members.find a ≠ Symbols.noSymbol ∧
        (gs'.data ((gs'.data (NameInserter.methodOwner ctx)).members.find a)).resultType =
          some (TypePtr.alias (ctx.state.findMember (NameInserter.methodOwner ctx) b)) ∧
        ((ctx.state.data (NameInserter.methodOwner ctx)).members.find a ≠ Symbols.noSymbol →
          (gs'.data (NameInserter.methodOwner ctx)).members.find a =
            (ctx.state.data (NameInserter.methodOwner ctx)).members.find a ∧
          gs'.symbolsUsed = ctx.state.symbolsUsed) ∧
        ((ctx.state.data (NameInserter.methodOwner ctx)).members.find a = Symbols.noSymbol →
          (gs'.data (NameInserter.methodOwner ctx)).members.find a = ctx.state.symbolsUsed ∧
          gs'.symbolsUsed = ctx.state.symbolsUsed + 1 ∧
          (gs'.data ctx.state.symbolsUsed).kind = SymbolKind.method ∧
          (gs'.data ctx.state.symbolsUsed).owner = NameInserter.methodOwner ctx ∧
          (gs'.data ctx.state.symbolsUsed).name = a)) ∧
      ((∀ a b, Spec.aliasRequest original.args = some (a, b) →
          (ctx.state.findMember (NameInserter.methodOwner ctx) b).exists = false) →
        gs'.symbols = ctx.state.symbols ∧ gs'.symbolsUsed = ctx.state.symbolsUsed) := by
  refine ⟨_, postTransformSend_alias self ctx original hrecv hfun hargs, ?_, ?_, ?_⟩
  · by_cases h1 : original.args.length = 2
    · cases hreq : Spec.aliasRequest original.args with
      | none =>
        have h2 := aliasRequest_none _ h1 hreq
        simp [h1, h2, Spec.aliasErrors, hreq, reportAll_errors]
      | some p =>
        obtain ⟨a, b⟩ := p
        obtain ⟨_, h2, h3⟩ := aliasRequest_some _ a b hreq
        by_cases h4 : (ctx.state.findMember (NameInserter.methodOwner ctx) b).exists = true
        · simp [h1, h2, h3, h4, Spec.aliasErrors, hreq, Spec.reportAll,
            (aliasMethod_entered ctx.state ctx.owner _ a _ hmo).1]
        · simp [h1, h2, h3, h4, Spec.aliasErrors, hreq, Spec.reportAll,
            GlobalState.beginError]
    · simp [h1, Spec.aliasErrors, reportAll_errors, GlobalState.beginError]
  · intro a b hreq hex
    obtain ⟨h1, h2, h3⟩ := aliasRequest_some _ a b hreq
    have hgs : (if original.args.length ≠ 2 then
          (Spec.reportAll ctx.state (Spec.dynamicArgErrors original.args)).beginError
            original.loc ErrorClass.InvalidAlias
        else if (Spec.symbolNames original.args).length ≠ 2 then
          Spec.reportAll ctx.state (Spec.dynamicArgErrors original.args)
        else if (ctx.state.findMember (NameInserter.methodOwner ctx)
            ((Spec.symbolNames original.args).getD 1 NameRef.noName)).exists then
          NameInserter.aliasMethod
            ⟨Spec.reportAll ctx.state (Spec.dynamicArgErrors original.args), ctx.owner⟩
            (NameInserter.methodOwner ctx)
            ((Spec.symbolNames original.args).getD 0 NameRef.noName)
            (ctx.state.findMember (NameInserter.methodOwner ctx)
              ((Spec.symbolNames original.args).getD 1 NameRef.noName))
        else
          (Spec.reportAll ctx.state (Spec.dynamicArgErrors original.args)).beginError
            (original.args.getD 1 Expression.EmptyTree).loc ErrorClass.MethodNotFound) =
        NameInserter.aliasMethod ⟨ctx.state, ctx.owner⟩ (NameInserter.methodOwner ctx) a
          (ctx.state.findMember (NameInserter.methodOwner ctx) b) := by
      simp [h1, h2, h3, hex, Spec.reportAll]
    rw [hgs]
    obtain ⟨_, k2, k3, k4, k5, _⟩ := aliasMethod_entered ctx.state ctx.owner
      (NameInserter.methodOwner ctx) a (ctx.state.findMember (NameInserter.methodOwner ctx) b) hmo
    exact ⟨rfl, k2, k3, k4, k5⟩
  · intro hno
    by_cases h1 : original.args.length = 2
    · cases hreq : Spec.aliasRequest original.args with
      | none =>
        have h2 := aliasRequest_none _ h1 hreq
        simp [h1, h2, reportAll_eq]
      | some p =>
        obtain ⟨a, b⟩ := p
        obtain ⟨_, h2, h3⟩ := aliasRequest_some _ a b hreq
        have h4 := hno a b hreq
        simp [h1, h2, h3, h4, Spec.reportAll, GlobalState.beginError]
    · simp [h1, reportAll_eq, GlobalState.beginError]

/-- Witness of C28: `self.alias_method(:h, :g)` at the top level of a file in which
`def g(a, k:)` has been named. -/
theorem C28_alias_method_of_plain_arguments_witness :
    ∃ gs', NameInserter.postTransformSend Examples.atFileBody
        ⟨Examples.plainTable, Symbols.root⟩ Examples.aliasSend =
          .ok (.Send Examples.aliasSend, Examples.atFileBody, gs') ∧
      gs'.errors =
        Examples.plainTable.errors ++ Spec.dynamicArgErrors Examples.aliasSend.args ++
          Spec.aliasErrors ⟨Examples.plainTable, Symbols.root⟩ Examples.aliasSend :=
  (C28_alias_method_of_plain_arguments Examples.atFileBody ⟨Examples.plainTable, Symbols.root⟩
    Examples.aliasSend rfl rfl rfl (by decide!)).imp (fun _ h => ⟨h.1, h.2.1⟩)

/-- The witness of C28, evaluated: the alias `h` is the new method symbol after the table
of `def g(a, k:)`, a member of `Object` whose resultType is `Alias(g)`; no error. -/
theorem alias_method_scenario :
    (NameInserter.postTransformSend Examples.atFileBody
        ⟨Examples.plainTable, Symbols.root⟩ Examples.aliasSend).toOption.map
      (fun r => (r.2.2.symbolsUsed, (r.2.2.data Symbols.Object).members.find (NameRef.utf8 5),
        (r.2.2.data Examples.plainTable.symbolsUsed).resultType)) =
      some (Examples.plainTable.symbolsUsed + 1, Examples.plainTable.symbolsUsed,
        some (TypePtr.alias ((Examples.plainTable.data Symbols.Object).members.find
          (NameRef.utf8 3)))) ∧
    (NameInserter.postTransformSend Examples.atFileBody
        ⟨Examples.plainTable, Symbols.root⟩ Examples.aliasSend).toOption.map
      (fun r => ((r.2.2.data Examples.plainTable.symbolsUsed).kind,
        (r.2.2.data Examples.plainTable.symbolsUsed).owner, r.2.2.errors)) =
      some (SymbolKind.method, Symbols.Object, []) ∧
    (Examples.plainTable.data Symbols.Object).members.find (NameRef.utf8 3) ≠
      Symbols.noSymbol := by
  decide!

/-- Counterexample to C28 as stated: `self.alias_method(def f; end)`. The only argument is
a method definition, so it is not a symbol literal and the argument count is not 2, but
`postTransformSend` returns the `Send` without reporting `DynamicDSLInvocation` or
`InvalidAlias`: the table, errors included, is unchanged. -/
theorem C28_counterexample :
    NameInserter.postTransformSend Examples.atFileBody ⟨GlobalState.initial, Symbols.root⟩
        Examples.aliasOfDef =
      .ok (.Send Examples.aliasOfDef, Examples.atFileBody, GlobalState.initial) ∧
    Examples.aliasOfDef.recv.isSelf = true ∧
    Examples.aliasOfDef.fun_ = NameRef.aliasMethod ∧
    Examples.aliasOfDef.args.length ≠ 2 ∧
    Spec.dynamicArgErrors Examples.aliasOfDef.args =
      [⟨⟨1, 3⟩, ErrorClass.DynamicDSLInvocation⟩] ∧
    Spec.aliasErrors ⟨GlobalState.initial, Symbols.root⟩ Examples.aliasOfDef =
      [⟨⟨1, 2⟩, ErrorClass.InvalidAlias⟩] := by
  refine ⟨rfl, rfl, rfl, by decide, rfl, rfl⟩

set_option maxHeartbeats 4000000 in
theorem postTransformSend_zsuper (self : NameInserter) (ctx : MutableContext) (loc : Loc)
    (recv : Expression) (fn : NameRef) (zloc : Loc) (block : Option Block)
    (top : LocalFrame) (rest : List LocalFrame) (hs : self.scopeStack = top :: rest)
    (hfn : recv.isSelf = true →
      fn ≠ NameRef.moduleFunction ∧ fn ≠ NameRef.aliasMethod ∧ fn ≠ NameRef.blockGiven_p) :
    NameInserter.postTransformSend self ctx ⟨loc, recv, fn, [.ZSuperArgs zloc], block⟩ =
      if (ctx.state.data (ctx.state.enclosingMethod ctx.owner)).isMethod then
        .ok (.Send ⟨loc, recv, fn, top.args.map (fun a => Expression.Local ⟨loc, a⟩), block⟩,
          self, ctx.state)
      else
        .ok (.Send ⟨loc, recv, fn, [], block⟩, self,
          ctx.state.beginError loc ErrorClass.SelfOutsideClass) := by
  have hdef : ∀ (l : List Expression) (gs : GlobalState),
      (∀ m, l ≠ [Expression.MethodDef m]) → (∀ z, l ≠ [Expression.ZSuperArgs z]) →
      NameInserter.postTransformSend self ⟨gs, ctx.owner⟩ ⟨loc, recv, fn, l, block⟩ =
        .ok (.Send ⟨loc, recv, fn, l, block⟩, self, gs) := by
    intro l gs h1 h2
    have hp : Spec.plainArgs l = true := by
      rcases l with _ | ⟨x, _ | ⟨y, t⟩⟩
      · rfl
      · cases x <;> first | rfl | exact absurd rfl (h1 _) | exact absurd rfl (h2 _)
      · cases x <;> rfl
    rw [postTransformSend_plain _ _ _ hp]
    by_cases hr : recv.isSelf = true
    · obtain ⟨k1, k2, k3⟩ := hfn hr
      have e1 : (fn == NameRef.moduleFunction) = false := by simpa using k1
      have e2 : (fn == NameRef.aliasMethod) = false := by simpa using k2
      have e3 : (fn == NameRef.blockGiven_p) = false := by simpa using k3
      simp only [hr, e1, e2, e3, if_true, Bool.false_eq_true, if_false, pure, Except.pure]
    · simp only [hr, Bool.false_eq_true, if_false, pure, Except.pure]
  by_cases hm : (ctx.state.data (ctx.state.enclosingMethod ctx.owner)).isMethod = true
  · rw [if_pos hm]
    rw [← hdef (top.args.map (fun a => Expression.Local ⟨loc, a⟩)) ctx.state
      (by intro m; rcases top.args with _ | ⟨a, _ | ⟨b, t⟩⟩ <;> simp)
      (by intro m; rcases top.args with _ | ⟨a, _ | ⟨b, t⟩⟩ <;> simp)]
    rcases hta : top.args with _ | ⟨a, _ | ⟨b, t⟩⟩ <;>
      simp only [NameInserter.postTransformSend, hm, hs, hta, back, if_true, bind, Except.bind,
        pure, Except.pure, List.map_nil, List.map_cons]
  · rw [if_neg hm]
    rw [← hdef [] (ctx.state.beginError loc ErrorClass.SelfOutsideClass)
      (by intro m; simp) (by intro m; simp)]
    simp only [NameInserter.postTransformSend, hm, if_false, bind, Except.bind,
      pure, Except.pure, Bool.false_eq_true]

theorem blockOwner_spec (ctx : MutableContext) (blk : Block) (hwf : Spec.WF ctx.state)
    (ho : ctx.owner < ctx.state.symbolsUsed) :
    Spec.WF (Spec.blockOwner ctx blk).2 ∧ Spec.Ext ctx.state (Spec.blockOwner ctx blk).2 ∧
    (Spec.blockOwner ctx blk).1 < (Spec.blockOwner ctx blk).2.symbolsUsed ∧
    (Spec.blockOwner ctx blk).2.errors = ctx.state.errors := by
  unfold Spec.blockOwner
  by_cases h1 : (ctx.owner == Symbols.noSymbol || ctx.owner == Symbols.root) = true
  · simp only [h1, if_true, GlobalState.staticInitForFile, GlobalState.enterMethodSymbol]
    obtain ⟨k1, k2, k3, _, _⟩ := enterSymbol_spec ctx.state hwf blk.loc Symbols.rootSingleton
      (ctx.state.freshNameUnique .Namer .staticInit blk.loc.file) .method
    exact ⟨k1, k2, k3, enterSymbol_errors _ _ _ _ _⟩
  · simp only [h1, Bool.false_eq_true, if_false]
    by_cases h2 : (ctx.state.data ctx.owner).isClass = true
    · simp only [h2, if_true]
      obtain ⟨k1, k2, k3, _, _⟩ := singletonClass_spec ctx.state hwf ctx.owner ho
      exact ⟨k1, k2, k3, singletonClass_errors _ _⟩
    · simp only [h2, Bool.false_eq_true, if_false]
      exact ⟨hwf, Ext_refl _, ho, trivial⟩

theorem blockEntered_spec (ctx : MutableContext) (blk : Block) (hwf : Spec.WF ctx.state)
    (ho : ctx.owner < ctx.state.symbolsUsed) :
    Spec.WF (Spec.blockEntered ctx blk).2 ∧ Spec.Ext ctx.state (Spec.blockEntered ctx blk).2 ∧
    (Spec.blockEntered ctx blk).1 < (Spec.blockEntered ctx blk).2.symbolsUsed ∧
    (Spec.blockEntered ctx blk).1 ≠ 0 ∧
    (Spec.blockEntered ctx blk).2.errors = ctx.state.errors ∧
    (((Spec.blockOwner ctx blk).2.data (Spec.blockOwner ctx blk).1).members.find
        (Spec.blockName ctx blk) = 0 →
      (Spec.blockEntered ctx blk).1 = (Spec.blockOwner ctx blk).2.symbolsUsed ∧
      ((Spec.blockEntered ctx blk).2.data (Spec.blockEntered ctx blk).1).isBlockSymbol = true) := by
  obtain ⟨w1, x1, l1, e1⟩ := blockOwner_spec ctx blk hwf ho
  have hk : Spec.KeepsCore (fun d : Symbol => { d with uniqueCounter := Spec.blockCounter ctx blk }) :=
    fun s => ⟨rfl, rfl, rfl, rfl, rfl⟩
  obtain ⟨w2, x2⟩ := update_keepsCore (Spec.blockOwner ctx blk).2 w1 (Spec.blockOwner ctx blk).1 _ hk
  obtain ⟨w3, x3, l3, n3, _⟩ := enterSymbol_spec _ w2 blk.loc (Spec.blockOwner ctx blk).1
    (Spec.blockName ctx blk) .method
  refine ⟨w3, Ext_trans x1 (Ext_trans x2 x3), l3, n3, ?_, ?_⟩
  · unfold Spec.blockEntered GlobalState.enterMethodSymbol
    rw [enterSymbol_errors, update_errors, e1]
  · intro hfresh
    have hfresh' : (((Spec.blockOwner ctx blk).2.update (Spec.blockOwner ctx blk).1
        (fun d => { d with uniqueCounter := Spec.blockCounter ctx blk })).data
        (Spec.blockOwner ctx blk).1).members.find (Spec.blockName ctx blk) = 0 := by
      rw [data_update]; simpa using hfresh
    obtain ⟨a1, a2, a3⟩ := enterSymbol_new_data _ blk.loc (Spec.blockOwner ctx blk).1
      (Spec.blockName ctx blk) .method hfresh' l1
    unfold Spec.blockEntered GlobalState.enterMethodSymbol
    refine ⟨a1, ?_⟩
    rw [a1, a3]
    have hne : (Spec.blockOwner ctx blk).2.symbolsUsed ≠ (Spec.blockOwner ctx blk).1 :=
      fun e => absurd l1 (by rw [← e]; exact Nat.lt_irrefl _)
    simp only [update_symbolsUsed, hne, if_false, if_true]
    simp [Symbol.isBlockSymbol, addLoc_name, Spec.blockName]

/-- What `preTransformBlock` does on a well-formed table under an allocated owner: the
block symbol is entered, one frame is pushed that starts from the `args` and `locals` of
the enclosing frame and then records the parameters of the block, and the parameters
become nodes as `fillInArgs` makes them. -/
theorem preTransformBlock_spec (self : NameInserter) (ctx : MutableContext) (blk : Block)
    (outer : LocalFrame) (rest : List LocalFrame) (parsedArgs : List ParsedArg)
    (hwf : Spec.WF ctx.state) (ho : ctx.owner < ctx.state.symbolsUsed)
    (hs : self.scopeStack = outer :: rest)
    (hloc : ctx.owner = Symbols.noSymbol ∨ ctx.owner = Symbols.root → blk.loc.exists = true)
    (hparse : NameInserter.parseArgs blk.args = .ok parsedArgs)
    (hshadow : Spec.shadowsLast false parsedArgs = true) :
    ∃ nodes syms gs',
      NameInserter.preTransformBlock self ctx blk =
        .ok ({ blk with symbol := (Spec.blockEntered ctx blk).1, args := nodes },
          { scopeStack :=
              Spec.frameWithArgs (Spec.blockFrame self outer)
                (Spec.argLocals (Spec.blockEntered ctx blk).2 (Spec.blockEntered ctx blk).1
                  (Spec.blockFrame self outer) parsedArgs) :: outer :: rest,
            scopeCounter := (self.scopeCounter + 1) % 2 ^ 32,
            blockArgStack := self.blockArgStack },
          gs') ∧
      Spec.ArgsFilled (Spec.blockEntered ctx blk).1
        (Spec.localFor (Spec.blockEntered ctx blk).2 (Spec.blockEntered ctx blk).1
          (Spec.blockFrame self outer)) 0 parsedArgs nodes syms ∧
      gs'.errors = ctx.state.errors ∧
      (Spec.blockEntered ctx blk).2.symbolsUsed ≤ gs'.symbolsUsed := by
  obtain ⟨w3, x3, l3, n3, e3, _⟩ := blockEntered_spec ctx blk hwf ho
  obtain ⟨nodes, syms, gs', f1, f2, _, f4, f5, _⟩ :=
    fillInArgsLoop_filled (Spec.blockEntered ctx blk).1 parsedArgs 0 false []
      { scopeStack := Spec.blockFrame self outer :: outer :: rest,
        scopeCounter := (self.scopeCounter + 1) % 2 ^ 32,
        blockArgStack := self.blockArgStack }
      (Spec.blockEntered ctx blk).2 (Spec.blockFrame self outer) (outer :: rest) rfl l3 hshadow
  refine ⟨nodes, syms, gs', ?_, f2, by rw [f4, e3], f5⟩
  have hc : (ctx.owner == Symbols.noSymbol || ctx.owner == Symbols.root) = true →
      blk.loc.exists = true := by
    intro h
    apply hloc
    simpa using h
  simp only [List.nil_append] at f1
  unfold NameInserter.preTransformBlock
  simp only [Spec.blockEntered, Spec.blockOwner, Spec.blockName, Spec.blockCounter,
    Spec.blockFrame, GlobalState.freshNameUnique] at f1 ⊢
  by_cases hc1 : (ctx.owner == Symbols.noSymbol || ctx.owner == Symbols.root) = true
  · have hl := hc hc1
    simp only [hc1, hl, ENFORCE, if_true, bind, Except.bind, pure, Except.pure, hs, back,
      NameInserter.enterScope, modifyBack, hparse, NameInserter.fillInArgs, Bool.not_true,
      Bool.false_eq_true, if_false] at f1 ⊢
    rw [f1]
  · by_cases h2 : (ctx.state.data ctx.owner).isClass = true
    · simp only [hc1, h2, if_true, bind, Except.bind, pure, Except.pure, hs, back,
        NameInserter.enterScope, modifyBack, hparse, NameInserter.fillInArgs,
        Bool.false_eq_true, if_false] at f1 ⊢
      rw [f1]
    · simp only [hc1, h2, if_true, bind, Except.bind, pure, Except.pure, hs, back,
        NameInserter.enterScope, modifyBack, hparse, NameInserter.fillInArgs,
        Bool.false_eq_true, if_false] at f1 ⊢
      rw [f1]

/-- C29: the `Send` whose only argument is `ZSuperArgs` (its function not one of the names
that `postTransformSend` treats specially on `self`). When the enclosing method symbol is
a method, the argument list becomes one `Local` per entry of the `args` of the top scope
frame, in order; otherwise `SelfOutsideClass` is reported and the argument list is left
empty. The top frame of a block is the one that `preTransformBlock` pushes: its `args` are
those of the enclosing frame followed by the locals of the parameters of the block itself,
so that a `super` in a block with parameters receives the formal arguments of the method
and then the parameters of the block. -/
theorem C29_zsuper_args_from_top_frame (self : NameInserter) (ctx : MutableContext)
    (blk : Block) (outer : LocalFrame) (rest : List LocalFrame) (parsedArgs : List ParsedArg)
    (hwf : Spec.WF ctx.state) (ho : ctx.owner < ctx.state.symbolsUsed)
    (hs : self.scopeStack = outer :: rest)
    (hloc : ctx.owner = Symbols.noSymbol ∨ ctx.owner = Symbols.root → blk.loc.exists = true)
    (hparse : NameInserter.parseArgs blk.args = .ok parsedArgs)
    (hshadow : Spec.shadowsLast false parsedArgs = true) :
    (∀ (ctx' : MutableContext) (loc : Loc) (recv : Expression) (fn : NameRef) (zloc : Loc)
        (block : Option Block),
      (recv.isSelf = true →
        fn ≠ NameRef.moduleFunction ∧ fn ≠ NameRef.aliasMethod ∧ fn ≠ NameRef.blockGiven_p) →
      ((ctx'.state.data (ctx'.state.enclosingMethod ctx'.owner)).isMethod = true →
        NameInserter.postTransformSend self ctx' ⟨loc, recv, fn, [.ZSuperArgs zloc], block⟩ =
          .ok (.Send ⟨loc, recv, fn, outer.args.map (fun a => Expression.Local ⟨loc, a⟩),
            block⟩, self, ctx'.state)) ∧
      ((ctx'.state.data (ctx'.state.enclosingMethod ctx'.owner)).isMethod = false →
        NameInserter.postTransformSend self ctx' ⟨loc, recv, fn, [.ZSuperArgs zloc], block⟩ =
          .ok (.Send ⟨loc, recv, fn, [], block⟩, self,
            ctx'.state.beginError loc ErrorClass.SelfOutsideClass))) ∧
    ∃ p, NameInserter.preTransformBlock self ctx blk = .ok p ∧
      ∀ (ctx' : MutableContext) (loc : Loc) (recv : Expression) (fn : NameRef) (zloc : Loc)
        (block : Option Block),
        (recv.isSelf = true →
          fn ≠ NameRef.moduleFunction ∧ fn ≠ NameRef.aliasMethod ∧
            fn ≠ NameRef.blockGiven_p) →
        (ctx'.state.data (ctx'.state.enclosingMethod ctx'.owner)).isMethod = true →
        NameInserter.postTransformSend p.2.1 ctx'
            ⟨loc, recv, fn, [.ZSuperArgs zloc], block⟩ =
          .ok (.Send ⟨loc, recv, fn,
              (outer.args ++
                Spec.argLocals (Spec.blockEntered ctx blk).2 (Spec.blockEntered ctx blk).1
                  (Spec.blockFrame self outer) parsedArgs).map
                (fun a => Expression.Local ⟨loc, a⟩),
              block⟩, p.2.1, ctx'.state) := by
  constructor
  · intro ctx' loc recv fn zloc block hfn
    have h := postTransformSend_zsuper self ctx' loc recv fn zloc block outer rest hs hfn
    constructor
    · intro hm; rw [h, if_pos hm]
    · intro hm; rw [h]; simp [hm]
  · obtain ⟨nodes, syms, gs', h1, _⟩ :=
      preTransformBlock_spec self ctx blk outer rest parsedArgs hwf ho hs hloc hparse hshadow
    refine ⟨_, h1, ?_⟩
    intro ctx' loc recv fn zloc block hfn hm
    have h := postTransformSend_zsuper
      { scopeStack :=
          Spec.frameWithArgs (Spec.blockFrame self outer)
            (Spec.argLocals (Spec.blockEntered ctx blk).2 (Spec.blockEntered ctx blk).1
              (Spec.blockFrame self outer) parsedArgs) :: outer :: rest,
        scopeCounter := (self.scopeCounter + 1) % 2 ^ 32,
        blockArgStack := self.blockArgStack }
      ctx' loc recv fn zloc block _ _ rfl hfn
    rw [h, if_pos hm]
    rfl

/-- Witness of C29: the block `{ |x| super }` entered in the body of the method `f` of
`def f; yield; yield; end`. -/
theorem C29_zsuper_args_from_top_frame_witness :
    ∃ p, NameInserter.preTransformBlock Examples.yieldTwicePre.2.1
        ⟨Examples.yieldTwicePre.2.2, Examples.yieldTwicePre.1.symbol⟩ Examples.superBlock =
          .ok p :=
  (C29_zsuper_args_from_top_frame Examples.yieldTwicePre.2.1
    ⟨Examples.yieldTwicePre.2.2, Examples.yieldTwicePre.1.symbol⟩ Examples.superBlock
    { scopeId := 1 } [{ scopeId := 0 }, { scopeId := 0 }]
    [{ name := NameRef.utf8 4, loc := ⟨1, 4⟩ }]
    WF_yieldTwicePre (by decide!) (by decide!) (by decide!) rfl (by decide!)).2.imp
    (fun _ h => h.1)

/-- The file `def f(a); g { |x| super }; end` named from the initial table: the `super` in
the block is given two arguments, the formal argument `a` of the method and the parameter
`x` of the block. -/
theorem zsuper_in_block_scenario :
    (Namer.run ⟨GlobalState.initial, Symbols.root⟩ Examples.superInBlockFile).toOption.map
        (fun r => Examples.callsInBlocks r.1) =
      some [[some ⟨⟨1, 5⟩, ⟨NameRef.utf8 2, 0⟩⟩, some ⟨⟨1, 5⟩, ⟨NameRef.utf8 4, 2⟩⟩]] ∧
    (Namer.run ⟨GlobalState.initial, Symbols.root⟩ Examples.superInBlockFile).toOption.map
        (fun r => Examples.topLevelMethodArgs r.1) =
      some [[some ⟨⟨1, 2⟩, ⟨NameRef.utf8 2, 0⟩⟩]] := by
  decide!

/-! ### Handlers with a local effect: type aliases, local identifiers, IDE copies, abstract!, type-member results (C31, C32, C34, C35, C39) -/

theorem typeAlias_not_member_call (send : Send) (h : send.fun_ = NameRef.typeAlias) :
    Spec.isTypeMemberCall (.Send send) = false := by
  simp [Spec.isTypeMemberCall, h]

/-- C31 (as the source has it): a constant assignment whose right-hand side is a call of
`type_alias`, on a well-formed table with an allocated context class, a constant path as
scope, and a consistently registered member of the name in the squashed scope, if any.
When the receiver of the call is not `self`, `postTransformAssign` returns the assignment
with the left-hand side resolved to a static field that is marked `isStaticTypeAlias`. When
the receiver is `self`, the table is exactly the one that `fillAssign` leaves
(`Spec.constantEntered`): nothing is marked, and a newly entered static field is not a
static type alias. -/
theorem C31_type_alias_marked_unless_on_self (ctx : MutableContext) (loc : Loc)
    (lhs : UnresolvedConstantLit) (send : Send)
    (hwf : Spec.WF ctx.state) (hctx : ctx.contextClass < ctx.state.symbolsUsed)
    (hpath : Spec.ConstPath (fun _ => True) lhs.scope)
    (hfun : send.fun_ = NameRef.typeAlias)
    (hok : Spec.MembersOK
      ((Spec.squashedScope ctx lhs).2.2.data (Spec.squashedScope ctx lhs).1).members)
    (hcons : ((Spec.squashedScope ctx lhs).2.2.data
        (Spec.squashedScope ctx lhs).1).members.find lhs.cnst ≠ 0 →
      ((Spec.squashedScope ctx lhs).2.2.data
        (((Spec.squashedScope ctx lhs).2.2.data
          (Spec.squashedScope ctx lhs).1).members.find lhs.cnst)).owner =
        (Spec.squashedScope ctx lhs).1 ∧
      ((Spec.squashedScope ctx lhs).2.2.data
        (((Spec.squashedScope ctx lhs).2.2.data
          (Spec.squashedScope ctx lhs).1).members.find lhs.cnst)).name = lhs.cnst) :
    ∃ c gs',
      NameInserter.postTransformAssign ctx ⟨loc, .UnresolvedConstantLit lhs, .Send send⟩ =
        .ok (.Assign
              { loc := loc,
                lhs := .ConstantLit
                  { loc := lhs.loc, symbol := c,
                    original := some (.UnresolvedConstantLit
                      { lhs with scope := (Spec.squashedScope ctx lhs).2.1 }) },
                rhs := .Send send },
          gs') ∧
      c ≠ Symbols.noSymbol ∧
      (gs'.data c).isStaticField = true ∧
      (gs'.data (Spec.squashedScope ctx lhs).1).members.find lhs.cnst = c ∧
      (send.recv.isSelf = false → (gs'.data c).staticTypeAlias = true) ∧
      (send.recv.isSelf = true →
        (c, gs') = Spec.constantEntered (Spec.squashedScope ctx lhs).2.2
          (Spec.squashedScope ctx lhs).1 loc lhs.loc lhs.cnst ∧
        (((Spec.squashedScope ctx lhs).2.2.data (Spec.squashedScope ctx lhs).1).members.find
            lhs.cnst = 0 →
          (gs'.data c).staticTypeAlias = false)) := by
  obtain ⟨hsq, hwfS, _, hS⟩ := squashedScope_ok ctx lhs hwf hctx hpath
  generalize Spec.squashedScope ctx lhs = Q at hsq hwfS hS hok hcons ⊢
  obtain ⟨S, scope', gs⟩ := Q
  simp only at hsq hwfS hS hok hcons ⊢
  obtain ⟨c1, c2, c3, c4, c5, c6, c7, c8⟩ :=
    constantEntered_spec gs S loc lhs.loc lhs.cnst hwfS hS hok hcons
  have hst : ((Spec.constantEntered gs S loc lhs.loc lhs.cnst).2.data
      (Spec.constantEntered gs S loc lhs.loc lhs.cnst).1).isStaticField = true := by
    simp [Symbol.isStaticField, c2]
  have hk := fun r => staticTypeAlias_data (Spec.constantEntered gs S loc lhs.loc lhs.cnst).2
    (Spec.constantEntered gs S loc lhs.loc lhs.cnst).1 r (Spec.isTypeAliasCall (.Send send))
  refine ⟨_, _, postTransformAssign_steps ctx loc lhs (.Send send) S scope' gs hsq
    (typeAlias_not_member_call send hfun) c1 hst, c1, ?_, ?_, ?_, ?_⟩
  · unfold Symbol.isStaticField; rw [(hk _).1, c2]; rfl
  · rw [(hk _).2.2.2.1]; exact c5
  · intro hself
    simp [Spec.isTypeAliasCall, hself, hfun, data_update]
  · intro hself
    have hno : Spec.isTypeAliasCall (.Send send) = false := by
      simp [Spec.isTypeAliasCall, hself]
    simp only [hno, Bool.false_eq_true, if_false, true_and]
    intro hnew
    have hS' : S ≠ gs.symbolsUsed := Nat.ne_of_lt hS
    have hex : ((gs.data S).members.find lhs.cnst).exists = false := by
      simp [SymbolRef.exists, hnew]
    obtain ⟨e1, _, e3⟩ := enterSymbol_new_data gs lhs.loc S lhs.cnst .staticField hnew hS
    unfold Spec.constantEntered GlobalState.findMemberNoDealias
      GlobalState.enterStaticFieldSymbol
    simp only [hex, Bool.false_and, Bool.false_eq_true, if_false]
    rw [e1, e3]
    simp [hS'.symm, Symbol.addLoc]
    split <;> rfl

/-- Witness of C31: `X = T.type_alias()` at the top level over the initial table. -/
theorem C31_type_alias_marked_unless_on_self_witness :
    ∃ c gs',
      NameInserter.postTransformAssign ⟨GlobalState.initial, Symbols.root⟩
          Examples.constAliasAssign =
        .ok (.Assign
              { Examples.constAliasAssign with
                lhs := .ConstantLit
                  { loc := ⟨1, 2⟩, symbol := c,
                    original := some (.UnresolvedConstantLit Examples.typeNameX) } },
          gs') ∧
      c ≠ Symbols.noSymbol ∧
      (gs'.data c).isStaticField = true ∧
      (gs'.data c).staticTypeAlias = true := by
  have hq : Spec.squashedScope ⟨GlobalState.initial, Symbols.root⟩ Examples.typeNameX =
      (Symbols.root, Expression.EmptyTree, GlobalState.initial) := by
    unfold Spec.squashedScope
    rw [show Examples.typeNameX.scope = Expression.EmptyTree from rfl, squashNames_empty]
    have : MutableContext.contextClass ⟨GlobalState.initial, Symbols.root⟩ = Symbols.root := by
      decide
    rw [this]
  obtain ⟨c, gs', h1, h2, h3, _, h5, _⟩ :=
    C31_type_alias_marked_unless_on_self ⟨GlobalState.initial, Symbols.root⟩ ⟨1, 0⟩
      Examples.typeNameX
      { loc := ⟨1, 3⟩, recv := Examples.cnst 1 3 32, fun_ := NameRef.typeAlias, args := [],
        block := none }
      WF_initial (by decide) Spec.ConstPath.empty rfl
      (by rw [hq]; exact ⟨by decide, by decide⟩)
      (by rw [hq]; exact fun h => absurd (by decide) h)
  rw [hq] at h1
  exact ⟨c, gs', h1, h2, h3, h5 rfl⟩

/-- Counterexample to C31 as stated: `X = self.type_alias()` at the top level over the
initial table. The right-hand side is a `Send` of `type_alias`, the static field `X` is
entered as symbol 7 and resolved on the left-hand side, and it is not marked
`isStaticTypeAlias`; with the receiver `T` it is. -/
theorem C31_counterexample :
    (NameInserter.postTransformAssign ⟨GlobalState.initial, Symbols.root⟩
        Examples.selfAliasAssign).toOption.map
      (fun r => ((r.2.data Symbols.root).members.find (NameRef.utf8 30),
        (r.2.data 7).isStaticField, (r.2.data 7).staticTypeAlias)) =
      some (7, true, false) ∧
    (NameInserter.postTransformAssign ⟨GlobalState.initial, Symbols.root⟩
        Examples.constAliasAssign).toOption.map
      (fun r => ((r.2.data Symbols.root).members.find (NameRef.utf8 30),
        (r.2.data 7).isStaticField, (r.2.data 7).staticTypeAlias)) =
      some (7, true, true) := by
  decide!

theorem locals_find_set (l : Locals) (k k' : NameRef) (v : LocalVariable) :
    (l.set k v).find k' = if k = k' then v else l.find k' := by
  induction l with
  | nil => simp [Locals.set, Locals.find]
  | cons e rest ih =>
    obtain ⟨a, b⟩ := e
    by_cases h1 : a = k
    · subst h1
      by_cases h2 : a = k' <;> simp [Locals.set, Locals.find, h2]
    · by_cases h2 : a = k'
      · subst h2
        have h3 : ¬ k = a := fun e => h1 e.symm
        simp [Locals.set, Locals.find, h1, h3]
      · simp [Locals.set, Locals.find, h1, h2, ih]

theorem localFor_exists (gs : GlobalState) (owner : SymbolRef) (top : LocalFrame)
    (name : NameRef) (h : name.exists = true) :
    (Spec.localFor gs owner top name).exists = true := by
  unfold LocalVariable.exists
  rw [localFor_name]
  exact h

theorem postTransformUnresolvedIdent_bound (self : NameInserter) (ctx : MutableContext)
    (loc : Loc) (n : NameRef) (top : LocalFrame) (rest : List LocalFrame)
    (hs : self.scopeStack = top :: rest) (hb : (top.locals.find n).exists = true) :
    NameInserter.postTransformUnresolvedIdent self ctx ⟨loc, IdentKind.Local, n⟩ =
      .ok (.Local ⟨loc, top.locals.find n⟩, self, ctx.state) := by
  simp [NameInserter.postTransformUnresolvedIdent, hs, back, hb, bind, Except.bind, pure,
    Except.pure]

theorem postTransformUnresolvedIdent_unbound (self : NameInserter) (ctx : MutableContext)
    (loc : Loc) (n : NameRef) (top : LocalFrame) (rest : List LocalFrame)
    (hs : self.scopeStack = top :: rest) (hb : (top.locals.find n).exists = false) :
    NameInserter.postTransformUnresolvedIdent self ctx ⟨loc, IdentKind.Local, n⟩ =
      .ok (.Local ⟨loc, Spec.localFor ctx.state ctx.owner top n⟩,
        { self with
          scopeStack :=
            { top with locals := top.locals.set n (Spec.localFor ctx.state ctx.owner top n) } ::
              rest },
        ctx.state) := by
  have he := enterLocal_localFor self ctx.state ctx.owner n top rest hs
  simp only [NameInserter.postTransformUnresolvedIdent, hs, back, hb, bind, Except.bind, pure,
    Except.pure, Bool.not_false, if_true, he, modifyBack]

/-- C32: an `UnresolvedIdent` of kind `Local` named `n`, visited with the frame `top` on
top of the scope stack. If `top.locals` binds `n`, the result is the `Local` of the
recorded variable and neither the state of the pass nor the table changes. Otherwise the
result is `Local(n, u)` with `u = 0` when the current owner is not the symbol of a block
and `u = top.scopeId` when it is; the table is unchanged, and the only change of the pass
is that the `locals` of the top frame bind `n` to that variable. Consequently, for a name
that exists, an occurrence of `n` visited afterwards with that frame on top (under any
context) gets the same local variable and changes nothing. -/
theorem C32_postTransformUnresolvedIdent_local (self : NameInserter) (ctx : MutableContext)
    (loc : Loc) (n : NameRef) (top : LocalFrame) (rest : List LocalFrame)
    (hs : self.scopeStack = top :: rest) :
    ((top.locals.find n).exists = true →
      NameInserter.postTransformUnresolvedIdent self ctx ⟨loc, IdentKind.Local, n⟩ =
        .ok (.Local ⟨loc, top.locals.find n⟩, self, ctx.state)) ∧
    ((top.locals.find n).exists = false →
      ∃ u self',
        NameInserter.postTransformUnresolvedIdent self ctx ⟨loc, IdentKind.Local, n⟩ =
          .ok (.Local ⟨loc, ⟨n, u⟩⟩, self', ctx.state) ∧
        ((ctx.state.data ctx.owner).isBlockSymbol = false → u = 0) ∧
        ((ctx.state.data ctx.owner).isBlockSymbol = true → u = top.scopeId) ∧
        self' = { self with scopeStack := { top with locals := top.locals.set n ⟨n, u⟩ } :: rest } ∧
        (top.locals.set n ⟨n, u⟩).find n = ⟨n, u⟩ ∧
        (∀ k, k ≠ n → (top.locals.set n ⟨n, u⟩).find k = top.locals.find k) ∧
        (n.exists = true →
          ∀ (ctx' : MutableContext) (loc' : Loc),
            NameInserter.postTransformUnresolvedIdent self' ctx' ⟨loc', IdentKind.Local, n⟩ =
              .ok (.Local ⟨loc', ⟨n, u⟩⟩, self', ctx'.state))) := by
  refine ⟨postTransformUnresolvedIdent_bound self ctx loc n top rest hs, ?_⟩
  intro hb
  have hlf : ∃ u, Spec.localFor ctx.state ctx.owner top n = ⟨n, u⟩ ∧
      ((ctx.state.data ctx.owner).isBlockSymbol = false → u = 0) ∧
      ((ctx.state.data ctx.owner).isBlockSymbol = true → u = top.scopeId) := by
    unfold Spec.localFor
    cases hbs : (ctx.state.data ctx.owner).isBlockSymbol
    · exact ⟨0, by simp, fun _ => rfl, fun h => Bool.noConfusion h⟩
    · exact ⟨top.scopeId, by simp, fun h => Bool.noConfusion h, fun _ => rfl⟩
  obtain ⟨u, hu, h0, h1⟩ := hlf
  have h := postTransformUnresolvedIdent_unbound self ctx loc n top rest hs hb
  rw [hu] at h
  refine ⟨u, _, h, h0, h1, rfl, ?_, ?_, ?_⟩
  · rw [locals_find_set]; simp
  · intro k hk
    rw [locals_find_set]
    have : ¬ n = k := fun e => hk e.symm
    simp [this]
  · intro hn ctx' loc'
    have hfind : (top.locals.set n ⟨n, u⟩).find n = ⟨n, u⟩ := by
      rw [locals_find_set]; simp
    have h2 := postTransformUnresolvedIdent_bound
      { self with scopeStack := { top with locals := top.locals.set n ⟨n, u⟩ } :: rest }
      ctx' loc' n { top with locals := top.locals.set n ⟨n, u⟩ } rest rfl
      (by simp only [hfind]; exact hn)
    simp only [hfind] at h2
    exact h2

/-- Witness of C32: the identifier `a` visited in a fresh frame at the top level: it is not
bound, and it is given the local variable `(a, 0)`. -/
theorem C32_postTransformUnresolvedIdent_local_witness :
    ∃ u self',
      NameInserter.postTransformUnresolvedIdent NameInserter.init
          ⟨GlobalState.initial, Symbols.root⟩ ⟨⟨1, 1⟩, IdentKind.Local, NameRef.utf8 2⟩ =
        .ok (.Local ⟨⟨1, 1⟩, ⟨NameRef.utf8 2, u⟩⟩, self', GlobalState.initial) ∧ u = 0 :=
  ((C32_postTransformUnresolvedIdent_local NameInserter.init
    ⟨GlobalState.initial, Symbols.root⟩ ⟨1, 1⟩ (NameRef.utf8 2) { scopeId := 0 } [] rfl).2
    (by decide)).imp
    (fun _ h => h.imp (fun _ k => ⟨k.1, k.2.1 (by decide)⟩))

theorem update_proj {α : Type} (p : Symbol → α) (gs : GlobalState) (r : SymbolRef)
    (f : Symbol → Symbol) (x : SymbolRef) (hf : p (f (gs.data r)) = p (gs.data r)) :
    p ((gs.update r f).data x) = p (gs.data x) := by
  rw [data_update]
  split
  · rename_i h; subst h; exact hf
  · rfl

theorem enterSymbol_proj {α : Type} (p : Symbol → α)
    (hp : ∀ (s : Symbol) (m : Members), p { s with members := m } = p s)
    (gs : GlobalState) (loc : Loc) (owner : SymbolRef) (name : NameRef) (kind : SymbolKind)
    (r : SymbolRef) (hr : r < gs.symbolsUsed) :
    p ((gs.enterSymbol loc owner name kind).2.data r) = p (gs.data r) := by
  rw [enterSymbol_data_old gs loc owner name kind r hr]
  exact hp _ _

/-- The accessor `singletonClass` changes nothing of an allocated symbol but its members,
its superclass and its class bit. -/
theorem singletonClass_proj {α : Type} (p : Symbol → α)
    (hp : ∀ (s : Symbol) (m : Members), p { s with members := m } = p s)
    (hq : ∀ (s : Symbol) (m : Members) (t : SymbolRef),
      p (Symbol.setIsModule { s with members := m, superClass := t } false) = p s)
    (gs : GlobalState) (self r : SymbolRef) (hr : r < gs.symbolsUsed) :
    p ((gs.singletonClass self).2.data r) = p (gs.data r) := by
  unfold GlobalState.singletonClass
  by_cases hfound : (gs.findMember self NameRef.singleton).exists = true
  · simp [hfound]
  · simp only [hfound, Bool.false_eq_true, if_false, GlobalState.enterClassSymbol]
    rw [update_proj p _ _ _ _ (hp _ _), update_proj p _ _ _ _ (hq _ _ _)]
    exact enterSymbol_proj p hp gs _ _ _ _ r hr

theorem handleNamerDSL_declare (ctx : MutableContext) (klass : ClassDef) (send : Send)
    (hfun : send.fun_ = NameRef.declareAbstract ∨ send.fun_ = NameRef.declareInterface) :
    NameInserter.handleNamerDSL ctx klass (.Send send) =
      .ok (true, klass,
        if send.fun_ = NameRef.declareInterface then
          if klass.kind = ClassDefKind.Class then
            (((Spec.declaredSingleton ctx klass).2.update (Spec.declaredSingleton ctx klass).1
              (fun d => { d with classAbstract := true })).update klass.symbol
              (fun d => { d with classInterface := true })).beginError send.loc
              ErrorClass.InterfaceClass
          else
            ((Spec.declaredSingleton ctx klass).2.update (Spec.declaredSingleton ctx klass).1
              (fun d => { d with classAbstract := true })).update klass.symbol
              (fun d => { d with classInterface := true })
        else
          (Spec.declaredSingleton ctx klass).2.update (Spec.declaredSingleton ctx klass).1
            (fun d => { d with classAbstract := true })) := by
  obtain ⟨loc, recv, fn, args, block⟩ := send
  simp only at hfun
  rcases hfun with h | h
  · subst h
    simp [NameInserter.handleNamerDSL, NameInserter.addAncestor, Spec.declaredSingleton, bind,
      Except.bind, pure, Except.pure]
  · subst h
    by_cases hk : klass.kind = ClassDefKind.Class
    · simp [NameInserter.handleNamerDSL, NameInserter.addAncestor, Spec.declaredSingleton, bind,
        Except.bind, pure, Except.pure, hk]
    · simp [NameInserter.handleNamerDSL, NameInserter.addAncestor, Spec.declaredSingleton, bind,
        Except.bind, pure, Except.pure, hk]

/-- C35: a body statement that is a `Send` of `abstract!` or `interface!`, whatever its
receiver, arguments and block, on an allocated class symbol. `handleNamerDSL` returns
`true` with the class definition as it was; afterwards the class symbol and its singleton
class (`Spec.declaredSingleton`, allocated on demand) are marked abstract. For `interface!`
the class symbol is also marked as an interface, also when the definition is a `class`,
and `InterfaceClass` is reported at the statement exactly in that case; no other error is
reported. The interface mark of every symbol but the class symbol is left as the lookup of
the singleton class has it, and `abstract!` sets no interface mark at all. -/
theorem C35_handleNamerDSL_abstract_interface (ctx : MutableContext) (klass : ClassDef)
    (send : Send)
    (hfun : send.fun_ = NameRef.declareAbstract ∨ send.fun_ = NameRef.declareInterface)
    (hK : klass.symbol < ctx.state.symbolsUsed) :
    ∃ gs', NameInserter.handleNamerDSL ctx klass (.Send send) = .ok (true, klass, gs') ∧
      (gs'.data klass.symbol).classAbstract = true ∧
      (gs'.data (Spec.declaredSingleton ctx klass).1).classAbstract = true ∧
      gs'.errors = ctx.state.errors ++
        (if send.fun_ = NameRef.declareInterface ∧ klass.kind = ClassDefKind.Class then
          [⟨send.loc, ErrorClass.InterfaceClass⟩] else []) ∧
      (send.fun_ = NameRef.declareInterface → (gs'.data klass.symbol).classInterface = true) ∧
      (∀ r, r ≠ klass.symbol ∨ send.fun_ = NameRef.declareAbstract →
        (gs'.data r).classInterface =
          ((Spec.declaredSingleton ctx klass).2.data r).classInterface) ∧
      (∀ r, r < ctx.state.symbolsUsed →
        ((Spec.declaredSingleton ctx klass).2.data r).classInterface =
          (ctx.state.data r).classInterface) := by
  have hab : ((Spec.declaredSingleton ctx klass).2.data klass.symbol).classAbstract = true := by
    have h := singletonClass_proj (fun s => s.classAbstract) (fun _ _ => rfl)
      (fun _ _ _ => by simp [Symbol.setIsModule])
      (ctx.state.update klass.symbol (fun d => { d with classAbstract := true }))
      klass.symbol klass.symbol hK
    simp only at h
    unfold Spec.declaredSingleton
    rw [h, data_update]
    simp
  have herr : (Spec.declaredSingleton ctx klass).2.errors = ctx.state.errors := by
    unfold Spec.declaredSingleton
    rw [singletonClass_errors]; rfl
  have hint : ∀ r, r < ctx.state.symbolsUsed →
      ((Spec.declaredSingleton ctx klass).2.data r).classInterface =
        (ctx.state.data r).classInterface := by
    intro r hr
    have h := singletonClass_proj (fun s => s.classInterface) (fun _ _ => rfl)
      (fun _ _ _ => by simp [Symbol.setIsModule])
      (ctx.state.update klass.symbol (fun d => { d with classAbstract := true }))
      klass.symbol r hr
    simp only at h
    unfold Spec.declaredSingleton
    rw [h]
    exact update_proj (fun s => s.classInterface) _ _ _ _ rfl
  have g2A : ∀ x, x = klass.symbol ∨ x = (Spec.declaredSingleton ctx klass).1 →
      (((Spec.declaredSingleton ctx klass).2.update (Spec.declaredSingleton ctx klass).1
        (fun d => { d with classAbstract := true })).data x).classAbstract = true := by
    intro x hx
    rw [data_update]
    split
    · rfl
    · rcases hx with h | h
      · rw [h]; exact hab
      · rename_i hne; exact absurd h hne
  have g2I : ∀ x, (((Spec.declaredSingleton ctx klass).2.update (Spec.declaredSingleton ctx klass).1
        (fun d => { d with classAbstract := true })).data x).classInterface =
      ((Spec.declaredSingleton ctx klass).2.data x).classInterface :=
    fun x => update_proj (fun s => s.classInterface) _ _ _ _ rfl
  have g3A : ∀ x, x = klass.symbol ∨ x = (Spec.declaredSingleton ctx klass).1 →
      ((((Spec.declaredSingleton ctx klass).2.update (Spec.declaredSingleton ctx klass).1
        (fun d => { d with classAbstract := true })).update klass.symbol
        (fun d => { d with classInterface := true })).data x).classAbstract = true := by
    intro x hx
    rw [update_proj (fun s => s.classAbstract) _ _ _ _ rfl]
    exact g2A x hx
  refine ⟨_, handleNamerDSL_declare ctx klass send hfun, ?_, ?_, ?_, ?_, ?_, hint⟩
  · by_cases hi : send.fun_ = NameRef.declareInterface
    · by_cases hk : klass.kind = ClassDefKind.Class
      · simp only [hi, hk, if_true, beginError_data]; exact g3A _ (Or.inl rfl)
      · simp only [hi, hk, if_true, if_false]; exact g3A _ (Or.inl rfl)
    · simp only [hi, if_false]; exact g2A _ (Or.inl rfl)
  · by_cases hi : send.fun_ = NameRef.declareInterface
    · by_cases hk : klass.kind = ClassDefKind.Class
      · simp only [hi, hk, if_true, beginError_data]; exact g3A _ (Or.inr rfl)
      · simp only [hi, hk, if_true, if_false]; exact g3A _ (Or.inr rfl)
    · simp only [hi, if_false]; exact g2A _ (Or.inr rfl)
  · by_cases hi : send.fun_ = NameRef.declareInterface
    · by_cases hk : klass.kind = ClassDefKind.Class <;>
        simp [hi, hk, update_errors, herr, GlobalState.beginError]
    · simp [hi, update_errors, herr]
  · intro hi
    by_cases hk : klass.kind = ClassDefKind.Class <;>
      simp [hi, hk, data_update, beginError_data]
  · intro r hr
    by_cases hi : send.fun_ = NameRef.declareInterface
    · have hne : r ≠ klass.symbol := by
        rcases hr with h | h
        · exact h
        · rw [hi] at h; cases h
      by_cases hk : klass.kind = ClassDefKind.Class
      · simp only [hi, hk, if_true, beginError_data]
        rw [data_update, if_neg hne]; exact g2I r
      · simp only [hi, hk, if_true, if_false]
        rw [data_update, if_neg hne]; exact g2I r
    · simp only [hi, if_false]; exact g2I r

/-- Witness of C35: `T.interface!(nil) { }` in the body of `class Object` over the initial
table: the statement is claimed, `Object` is marked abstract and an interface, and
`InterfaceClass` is reported. -/
theorem C35_handleNamerDSL_abstract_interface_witness :
    ∃ gs', NameInserter.handleNamerDSL ⟨GlobalState.initial, Symbols.root⟩
        Examples.objectClassDef (.Send Examples.interfaceSend) =
          .ok (true, Examples.objectClassDef, gs') ∧
      (gs'.data Symbols.Object).classAbstract = true ∧
      (gs'.data Symbols.Object).classInterface = true ∧
      gs'.errors = [⟨⟨1, 3⟩, ErrorClass.InterfaceClass⟩] :=
  (C35_handleNamerDSL_abstract_interface ⟨GlobalState.initial, Symbols.root⟩
    Examples.objectClassDef Examples.interfaceSend (Or.inr rfl) (by decide)).imp
    (fun _ h => ⟨h.1, h.2.1, h.2.2.2.2.1 rfl, h.2.2.2.1⟩)

/-- The witness of C35, evaluated: the singleton class of `Object` is allocated as symbol 7
and marked abstract but not as an interface. -/
theorem interface_scenario :
    (NameInserter.handleNamerDSL ⟨GlobalState.initial, Symbols.root⟩
        Examples.objectClassDef (.Send Examples.interfaceSend)).toOption.map
      (fun r => (r.1, (r.2.2.data Symbols.Object).members.find NameRef.singleton,
        (r.2.2.data 7).classAbstract, (r.2.2.data 7).classInterface)) =
      some (true, 7, true, false) := by
  decide!

theorem enterSymbol_member (gs : GlobalState) (loc : Loc) (o : SymbolRef) (n : NameRef)
    (k : SymbolKind) (ho : o < gs.symbolsUsed) :
    ((gs.enterSymbol loc o n k).2.data o).members.find n = (gs.enterSymbol loc o n k).1 ∧
    (gs.enterSymbol loc o n k).1 ≠ 0 ∧
    gs.symbolsUsed ≤ (gs.enterSymbol loc o n k).2.symbolsUsed ∧
    (∀ r, r ≠ o → r < gs.symbolsUsed →
      ((gs.enterSymbol loc o n k).2.data r).members = (gs.data r).members) ∧
    ((gs.data o).members.find n ≠ 0 → gs.enterSymbol loc o n k = ((gs.data o).members.find n, gs)) := by
  by_cases h : (gs.data o).members.find n = 0
  · obtain ⟨e1, e2, e3⟩ := enterSymbol_new_data gs loc o n k h ho
    have hpos : gs.symbolsUsed ≠ 0 := Nat.ne_of_gt (Nat.lt_of_le_of_lt (Nat.zero_le o) ho)
    refine ⟨?_, by rw [e1]; exact hpos, by rw [e2]; exact Nat.le_succ _, ?_, fun h' => absurd h h'⟩
    · rw [e3, e1]; simp [find_set]
    · intro r hr hlt
      rw [e3]
      simp only [hr, if_false, Nat.ne_of_lt hlt]
  · have hex : ((gs.data o).members.find n).exists = true := (exists_iff _).mpr h
    have hen : gs.enterSymbol loc o n k = ((gs.data o).members.find n, gs) := by
      unfold GlobalState.enterSymbol
      simp only [hex, if_true]
    rw [hen]
    exact ⟨rfl, h, Nat.le_refl _, fun _ _ _ => rfl, fun _ => rfl⟩

theorem enterTypeMember_entered (gs : GlobalState) (loc : Loc) (H : SymbolRef) (X : NameRef)
    (v : Variance) (hH : H < gs.symbolsUsed) :
    ((gs.enterTypeMember loc H X v).2.data H).members.find X = (gs.enterTypeMember loc H X v).1 ∧
    (gs.enterTypeMember loc H X v).1 ≠ 0 ∧
    (gs.enterTypeMember loc H X v).1 ∈ ((gs.enterTypeMember loc H X v).2.data H).typeMembers ∧
    gs.symbolsUsed ≤ (gs.enterTypeMember loc H X v).2.symbolsUsed ∧
    ((gs.data H).members.find X = 0 →
      (gs.enterTypeMember loc H X v).1 = gs.symbolsUsed ∧
      (gs.enterTypeMember loc H X v).2.symbolsUsed = gs.symbolsUsed + 1 ∧
      ((gs.enterTypeMember loc H X v).2.data gs.symbolsUsed).kind = SymbolKind.typeMember ∧
      ((gs.enterTypeMember loc H X v).2.data gs.symbolsUsed).owner = H ∧
      ((gs.enterTypeMember loc H X v).2.data gs.symbolsUsed).name = X) := by
  obtain ⟨m1, m2, m3, _, _⟩ := enterSymbol_member gs loc H X .typeMember hH
  unfold GlobalState.enterTypeMember
  simp only
  generalize hg1 : (if ((gs.data H).members.find X).exists = true then
      (gs.enterSymbol loc H X SymbolKind.typeMember).2
    else (gs.enterSymbol loc H X SymbolKind.typeMember).2.update
      (gs.enterSymbol loc H X SymbolKind.typeMember).1 (fun d => { d with variance := v })) = g1
  have hp : ∀ {α : Type} (p : Symbol → α), (∀ (s : Symbol) (w : Variance),
      p { s with variance := w } = p s) → ∀ x,
      p (g1.data x) = p ((gs.enterSymbol loc H X SymbolKind.typeMember).2.data x) := by
    intro α p hpv x
    rw [← hg1]
    split
    · rfl
    · exact update_proj p _ _ _ _ (hpv _ _)
  have hu : g1.symbolsUsed = (gs.enterSymbol loc H X SymbolKind.typeMember).2.symbolsUsed := by
    rw [← hg1]; split <;> rfl
  have hnew : (gs.data H).members.find X = 0 →
      (gs.enterSymbol loc H X SymbolKind.typeMember).1 = gs.symbolsUsed ∧
      g1.symbolsUsed = gs.symbolsUsed + 1 ∧
      (g1.data gs.symbolsUsed).kind = SymbolKind.typeMember ∧
      (g1.data gs.symbolsUsed).owner = H ∧ (g1.data gs.symbolsUsed).name = X := by
    intro h0
    obtain ⟨e1, e2, e3⟩ := enterSymbol_new_data gs loc H X .typeMember h0 hH
    have hne : gs.symbolsUsed ≠ H := fun e => absurd hH (by rw [← e]; exact Nat.lt_irrefl _)
    refine ⟨e1, by rw [hu, e2], ?_, ?_, ?_⟩
    · rw [hp (fun s => s.kind) (fun _ _ => rfl), e3]; simp [hne, addLoc_kind]
    · rw [hp (fun s => s.owner) (fun _ _ => rfl), e3]; simp [hne, addLoc_owner]
    · rw [hp (fun s => s.name) (fun _ _ => rfl), e3]; simp [hne, addLoc_name]
  by_cases hc : (g1.data H).typeMembers.contains
      (gs.enterSymbol loc H X SymbolKind.typeMember).1 = true
  · simp only [hc, if_true]
    refine ⟨?_, m2, ?_, by rw [hu]; exact m3, hnew⟩
    · rw [hp (fun s => s.members.find X) (fun _ _ => rfl)]; exact m1
    · simpa using hc
  · simp only [hc, Bool.false_eq_true, if_false]
    refine ⟨?_, m2, ?_, by rw [update_symbolsUsed, hu]; exact m3, ?_⟩
    · rw [update_proj (fun s => s.members.find X) _ _ _ _ rfl,
        hp (fun s => s.members.find X) (fun _ _ => rfl)]
      exact m1
    · rw [data_update]; simp
    · intro h0
      obtain ⟨k1, k0, k2, k3, k4⟩ := hnew h0
      refine ⟨k1, by rw [update_symbolsUsed]; exact k0, ?_, ?_, ?_⟩
      · rw [update_proj (fun s => s.kind) _ _ _ _ rfl]; exact k2
      · rw [update_proj (fun s => s.owner) _ _ _ _ rfl]; exact k3
      · rw [update_proj (fun s => s.name) _ _ _ _ rfl]; exact k4

theorem mangleRenameSymbol_symbolsUsed (gs : GlobalState) (what : SymbolRef) (n : NameRef)
    (kind : UniqueNameKind) : (gs.mangleRenameSymbol what n kind).symbolsUsed = gs.symbolsUsed := by
  unfold GlobalState.mangleRenameSymbol
  simp only
  split <;> rfl

theorem enterSymbol_other (gs : GlobalState) (loc : Loc) (o : SymbolRef) (n : NameRef)
    (k : SymbolKind) (r : SymbolRef) (hr : r ≠ o) (hlt : r < gs.symbolsUsed) :
    (gs.enterSymbol loc o n k).2.data r = gs.data r := by
  unfold GlobalState.enterSymbol
  by_cases hex : ((gs.data o).members.find n).exists = true
  · simp only [hex, if_true]
  · simp only [hex, Bool.false_eq_true, if_false, data_update, data_allocate, hr,
      Nat.ne_of_lt hlt]

theorem enterSymbol_existing (gs : GlobalState) (loc : Loc) (o : SymbolRef) (n : NameRef)
    (k : SymbolKind) (h : (gs.data o).members.find n ≠ 0) :
    gs.enterSymbol loc o n k = ((gs.data o).members.find n, gs) := by
  have hex : ((gs.data o).members.find n).exists = true := (exists_iff _).mpr h
  unfold GlobalState.enterSymbol
  simp only [hex, if_true]

/-- The symbol-entering step of `handleTypeMemberDefinition` on an allocated holder: the
returned symbol is registered on the holder under the name and listed among its type
members; on a holder without a member of the name it is a new type-member symbol. -/
theorem typeMemberSymbols_entered (ctx : MutableContext) (send : Send) (asgn : Assign)
    (typeName : UnresolvedConstantLit) (H : SymbolRef) (v : Variance) (g1 : GlobalState)
    (hH : H < g1.symbolsUsed) :
    ((Spec.typeMemberSymbols ctx send asgn typeName H v g1).2.data H).members.find
        typeName.cnst = (Spec.typeMemberSymbols ctx send asgn typeName H v g1).1 ∧
    (Spec.typeMemberSymbols ctx send asgn typeName H v g1).1 ≠ 0 ∧
    (Spec.typeMemberSymbols ctx send asgn typeName H v g1).1 ∈
      ((Spec.typeMemberSymbols ctx send asgn typeName H v g1).2.data H).typeMembers ∧
    ((g1.data H).members.find typeName.cnst = 0 →
      (Spec.typeMemberSymbols ctx send asgn typeName H v g1).1 = g1.symbolsUsed ∧
      ((Spec.typeMemberSymbols ctx send asgn typeName H v g1).2.data g1.symbolsUsed).kind =
        SymbolKind.typeMember ∧
      ((Spec.typeMemberSymbols ctx send asgn typeName H v g1).2.data g1.symbolsUsed).owner = H ∧
      ((Spec.typeMemberSymbols ctx send asgn typeName H v g1).2.data g1.symbolsUsed).name =
        typeName.cnst) := by
  unfold Spec.typeMemberSymbols
  simp only
  generalize hg2 : (if (g1.findMemberNoDealias H typeName.cnst).exists = true then
      (g1.beginError typeName.loc ErrorClass.InvalidTypeDefinition).mangleRenameSymbol
        (g1.findMemberNoDealias H typeName.cnst)
        ((g1.beginError typeName.loc ErrorClass.InvalidTypeDefinition).data
          (g1.findMemberNoDealias H typeName.cnst)).name UniqueNameKind.Namer
    else g1) = g2
  have hu2 : g2.symbolsUsed = g1.symbolsUsed := by
    rw [← hg2]; split
    · rw [mangleRenameSymbol_symbolsUsed]; rfl
    · rfl
  have hfree : (g1.data H).members.find typeName.cnst = 0 → g2 = g1 := by
    intro h0
    rw [← hg2]
    simp [GlobalState.findMemberNoDealias, SymbolRef.exists, h0]
  have hH2 : H < g2.symbolsUsed := by rw [hu2]; exact hH
  obtain ⟨t1, t2, t3, t4, t5⟩ :=
    enterTypeMember_entered g2 asgn.loc H typeName.cnst v hH2
  generalize g2.enterTypeMember asgn.loc H typeName.cnst v = T at t1 t2 t3 t4 t5 ⊢
  have hHT : H < T.2.symbolsUsed := Nat.lt_of_lt_of_le hH2 t4
  by_cases ht : (send.fun_ == NameRef.typeTemplate) = true
  · simp only [ht, if_true, GlobalState.enterStaticFieldSymbol]
    have key : ∀ {α : Type} (p : Symbol → α),
        (∀ (s : Symbol) (m : Members), p { s with members := m } = p s) →
        (∀ (s : Symbol) (t : Option TypePtr), p { s with resultType := t } = p s) →
        ∀ x, x < T.2.symbolsUsed →
        p (((T.2.enterSymbol asgn.loc (T.2.enclosingClass ctx.owner) typeName.cnst
          SymbolKind.staticField).2.update
          (T.2.enterSymbol asgn.loc (T.2.enclosingClass ctx.owner) typeName.cnst
            SymbolKind.staticField).1
          (fun d => { d with resultType := some (TypePtr.alias T.1) })).data x) =
        p (T.2.data x) := by
      intro α p h1 h2 x hx
      rw [update_proj p _ _ _ _ (h2 _ _)]
      exact enterSymbol_proj p h1 _ _ _ _ _ x hx
    have hmem : (((T.2.enterSymbol asgn.loc (T.2.enclosingClass ctx.owner) typeName.cnst
          SymbolKind.staticField).2.update
          (T.2.enterSymbol asgn.loc (T.2.enclosingClass ctx.owner) typeName.cnst
            SymbolKind.staticField).1
          (fun d => { d with resultType := some (TypePtr.alias T.1) })).data H).members.find
          typeName.cnst = T.1 := by
      rw [update_proj (fun s => s.members.find typeName.cnst) _ _ _ _ rfl]
      by_cases hCH : T.2.enclosingClass ctx.owner = H
      · rw [hCH, enterSymbol_existing T.2 asgn.loc H typeName.cnst .staticField
          (by rw [t1]; exact t2)]
        exact t1
      · rw [enterSymbol_other T.2 _ _ _ _ H (fun e => hCH e.symm) hHT]
        exact t1
    refine ⟨hmem, t2, ?_, ?_⟩
    · rw [key (fun s => s.typeMembers) (fun _ _ => rfl) (fun _ _ => rfl) H hHT]
      exact t3
    · intro h0
      have hg := hfree h0
      subst hg
      obtain ⟨k1, k0, k2, k3, k4⟩ := t5 h0
      have hlt : g2.symbolsUsed < T.2.symbolsUsed := by rw [k0]; exact Nat.lt_succ_self _
      refine ⟨k1, ?_, ?_, ?_⟩
      · rw [key (fun s => s.kind) (fun _ _ => rfl) (fun _ _ => rfl) _ hlt]; exact k2
      · rw [key (fun s => s.owner) (fun _ _ => rfl) (fun _ _ => rfl) _ hlt]; exact k3
      · rw [key (fun s => s.name) (fun _ _ => rfl) (fun _ _ => rfl) _ hlt]; exact k4
  · simp only [ht, Bool.false_eq_true, if_false]
    refine ⟨t1, t2, t3, ?_⟩
    intro h0
    have hg := hfree h0
    subst hg
    obtain ⟨k1, _, k2, k3, k4⟩ := t5 h0
    exact ⟨k1, k2, k3, k4⟩

/-- C39: the node that `handleTypeMemberDefinition` returns. It is the `Assign`, with its
left-hand side resolved to the entered symbol, exactly when the symbol-entering step is
reached (the owner is a class, there are at most two arguments, the holder has no type
member of the name) and the last argument is a `Hash` with a symbol-literal key `fixed`;
in every other case it is `EmptyTree`. Whenever the symbol-entering step is reached on an
allocated holder, with or without `fixed:` and whatever the diagnostics about the
arguments (an invalid variance symbol among them), the returned table has the symbol
registered on the holder under the name and listed among its type members; if the holder
had no member of the name it is a new type-member symbol owned by the holder. -/
theorem C39_handleTypeMemberDefinition_result (ctx : MutableContext) (send : Send)
    (asgn : Assign) (typeName : UnresolvedConstantLit)
    (hH : (Spec.typeMemberHolder ctx send).1 < (Spec.typeMemberHolder ctx send).2.symbolsUsed) :
    (((ctx.state.data ctx.owner).isClass = true ∧ send.args.length ≤ 2 ∧
        Spec.duplicateTypeMember ctx send typeName = false) ∧ Spec.fixedGiven send = true →
      (NameInserter.handleTypeMemberDefinition ctx send asgn typeName).1 =
        .Assign { asgn with
          lhs := MK.Constant asgn.lhs.loc (Spec.typeMemberEntered ctx send asgn typeName).1 }) ∧
    (¬ (((ctx.state.data ctx.owner).isClass = true ∧ send.args.length ≤ 2 ∧
        Spec.duplicateTypeMember ctx send typeName = false) ∧ Spec.fixedGiven send = true) →
      (NameInserter.handleTypeMemberDefinition ctx send asgn typeName).1 = .EmptyTree) ∧
    ((ctx.state.data ctx.owner).isClass = true ∧ send.args.length ≤ 2 ∧
        Spec.duplicateTypeMember ctx send typeName = false →
      ((NameInserter.handleTypeMemberDefinition ctx send asgn typeName).2.data
          (Spec.typeMemberHolder ctx send).1).members.find typeName.cnst =
        (Spec.typeMemberEntered ctx send asgn typeName).1 ∧
      (Spec.typeMemberEntered ctx send asgn typeName).1 ≠ Symbols.noSymbol ∧
      (Spec.typeMemberEntered ctx send asgn typeName).1 ∈
        ((NameInserter.handleTypeMemberDefinition ctx send asgn typeName).2.data
          (Spec.typeMemberHolder ctx send).1).typeMembers ∧
      (((Spec.typeMemberHolder ctx send).2.data (Spec.typeMemberHolder ctx send).1).members.find
          typeName.cnst = 0 →
        (Spec.typeMemberEntered ctx send asgn typeName).1 =
          (Spec.typeMemberHolder ctx send).2.symbolsUsed ∧
        ((NameInserter.handleTypeMemberDefinition ctx send asgn typeName).2.data
          (Spec.typeMemberEntered ctx send asgn typeName).1).kind = SymbolKind.typeMember ∧
        ((NameInserter.handleTypeMemberDefinition ctx send asgn typeName).2.data
          (Spec.typeMemberEntered ctx send asgn typeName).1).owner =
            (Spec.typeMemberHolder ctx send).1)) := by
  refine ⟨?_, ?_, ?_⟩
  · rintro ⟨⟨hc, hl, hd⟩, hf⟩
    rw [handleTypeMemberDefinition_main ctx send asgn typeName hc hl hd]
    simp [hf]
  · intro hn
    by_cases hc : (ctx.state.data ctx.owner).isClass = true
    · by_cases hl : send.args.length ≤ 2
      · by_cases hd : Spec.duplicateTypeMember ctx send typeName = false
        · have hf : Spec.fixedGiven send = false := by
            cases h : Spec.fixedGiven send
            · rfl
            · exact absurd ⟨⟨hc, hl, hd⟩, h⟩ hn
          rw [handleTypeMemberDefinition_main ctx send asgn typeName hc hl hd]
          simp [hf]
        · have hd' : Spec.duplicateTypeMember ctx send typeName = true := by simpa using hd
          rw [handleTypeMemberDefinition_duplicate ctx send asgn typeName hc hl hd']
      · rw [handleTypeMemberDefinition_steps]
        have hl' : send.args.length > 2 := Nat.lt_of_not_le hl
        simp [hc, hl']
    · rw [handleTypeMemberDefinition_steps]
      simp [hc]
  · rintro ⟨hc, hl, hd⟩
    have hH' : (Spec.typeMemberHolder ctx send).1 <
        (Spec.reportAll (Spec.typeMemberHolder ctx send).2
          (Spec.typeArgErrors send)).symbolsUsed := by
      rw [reportAll_symbolsUsed]; exact hH
    obtain ⟨e1, e2, e3, e4⟩ := typeMemberSymbols_entered ctx send asgn typeName
      (Spec.typeMemberHolder ctx send).1 (Spec.typeVariance send)
      (Spec.reportAll (Spec.typeMemberHolder ctx send).2 (Spec.typeArgErrors send)) hH'
    rw [reportAll_data, reportAll_symbolsUsed] at e4
    have hE : Spec.typeMemberEntered ctx send asgn typeName =
        Spec.typeMemberSymbols ctx send asgn typeName (Spec.typeMemberHolder ctx send).1
          (Spec.typeVariance send)
          (Spec.reportAll (Spec.typeMemberHolder ctx send).2 (Spec.typeArgErrors send)) := rfl
    rw [← hE] at e1 e2 e3 e4
    have key : ∀ {α : Type} (p : Symbol → α),
        (∀ (s : Symbol) (b : Bool), p { s with fixed := b } = p s) →
        (∀ (s : Symbol) (t : Option TypePtr), p { s with resultType := t } = p s) →
        ∀ x, p ((NameInserter.handleTypeMemberDefinition ctx send asgn typeName).2.data x) =
          p ((Spec.typeMemberEntered ctx send asgn typeName).2.data x) := by
      intro α p h1 h2 x
      rw [handleTypeMemberDefinition_main ctx send asgn typeName hc hl hd]
      by_cases hf : Spec.fixedGiven send = true
      · simp only [hf, if_true, Spec.markFixed]
        rw [update_proj p _ _ _ _ (h2 _ _), update_proj p _ _ _ _ (h1 _ _)]
      · simp only [hf, Bool.false_eq_true, if_false]
        split <;> rfl
    refine ⟨?_, e2, ?_, ?_⟩
    · rw [key (fun s => s.members.find typeName.cnst) (fun _ _ => rfl) (fun _ _ => rfl)]
      exact e1
    · rw [key (fun s => s.typeMembers) (fun _ _ => rfl) (fun _ _ => rfl)]
      exact e3
    · intro h0
      obtain ⟨k1, k2, k3, _⟩ := e4 h0
      refine ⟨k1, ?_, ?_⟩
      · rw [key (fun s => s.kind) (fun _ _ => rfl) (fun _ _ => rfl), k1]; exact k2
      · rw [key (fun s => s.owner) (fun _ _ => rfl) (fun _ _ => rfl), k1]; exact k3

/-- Witness of C39: `X = self.type_member(:out)` in `Object` over the initial table, without
`fixed:`: the node is dropped and the type member is entered all the same. -/
theorem C39_handleTypeMemberDefinition_result_witness :
    (NameInserter.handleTypeMemberDefinition ⟨GlobalState.initial, Symbols.Object⟩
        (Examples.typeSend NameRef.typeMember [Examples.outLiteral])
        (Examples.typeAssign (Examples.typeSend NameRef.typeMember [Examples.outLiteral]))
        Examples.typeNameX).1 = .EmptyTree ∧
    ((NameInserter.handleTypeMemberDefinition ⟨GlobalState.initial, Symbols.Object⟩
        (Examples.typeSend NameRef.typeMember [Examples.outLiteral])
        (Examples.typeAssign (Examples.typeSend NameRef.typeMember [Examples.outLiteral]))
        Examples.typeNameX).2.data Symbols.Object).members.find (NameRef.utf8 30) =
      (Spec.typeMemberEntered ⟨GlobalState.initial, Symbols.Object⟩
        (Examples.typeSend NameRef.typeMember [Examples.outLiteral])
        (Examples.typeAssign (Examples.typeSend NameRef.typeMember [Examples.outLiteral]))
        Examples.typeNameX).1 :=
  ⟨(C39_handleTypeMemberDefinition_result ⟨GlobalState.initial, Symbols.Object⟩
      (Examples.typeSend NameRef.typeMember [Examples.outLiteral])
      (Examples.typeAssign (Examples.typeSend NameRef.typeMember [Examples.outLiteral]))
      Examples.typeNameX (by decide)).2.1 (by decide),
   ((C39_handleTypeMemberDefinition_result ⟨GlobalState.initial, Symbols.Object⟩
      (Examples.typeSend NameRef.typeMember [Examples.outLiteral])
      (Examples.typeAssign (Examples.typeSend NameRef.typeMember [Examples.outLiteral]))
      Examples.typeNameX (by decide)).2.2 ⟨by decide, by decide, by decide⟩).1⟩

/-- Two definitions with an invalid variance symbol over the initial table,
`X = self.type_member(:v)` and `X = self.type_member(:v, fixed: T)`: the error is reported
at the symbol, the type member 7 is entered on `Object`, and the node is dropped in the
first and kept in the second. -/
theorem type_member_result_scenario :
    Examples.typeMemberOutcome
        (NameInserter.handleTypeMemberDefinition ⟨GlobalState.initial, Symbols.Object⟩
          (Examples.typeSend NameRef.typeMember [Examples.badVariance])
          (Examples.typeAssign (Examples.typeSend NameRef.typeMember [Examples.badVariance]))
          Examples.typeNameX) Symbols.Object =
      (true, [⟨⟨1, 4⟩, ErrorClass.InvalidTypeDefinition⟩], [7]) ∧
    Examples.typeMemberOutcome
        (NameInserter.handleTypeMemberDefinition ⟨GlobalState.initial, Symbols.Object⟩
          (Examples.typeSend NameRef.typeMember [Examples.badVariance, Examples.fixedHash])
          (Examples.typeAssign
            (Examples.typeSend NameRef.typeMember [Examples.badVariance, Examples.fixedHash]))
          Examples.typeNameX) Symbols.Object =
      (false, [⟨⟨1, 4⟩, ErrorClass.InvalidTypeDefinition⟩], [7]) := by
  decide!

theorem Outcome_ok {α : Type} (v : α) (P : α → Prop) (h : P v) :
    Spec.Outcome (Except.ok v) P := by
  unfold Spec.Outcome
  exact h

theorem Outcome_pure {α : Type} (v : α) (P : α → Prop) (h : P v) :
    Spec.Outcome (pure v : Except Abort α) P :=
  Outcome_ok v P h

theorem Outcome_error {α : Type} (a : Abort) (P : α → Prop) (h : a ≠ Abort.emptyStack) :
    Spec.Outcome (Except.error a) P := by
  unfold Spec.Outcome
  exact h

theorem Outcome_throw {α : Type} (a : Abort) (P : α → Prop) (h : a ≠ Abort.emptyStack) :
    Spec.Outcome (throw a : Except Abort α) P :=
  Outcome_error a P h

theorem Outcome_ok_inv {α : Type} (v : α) (P : α → Prop)
    (h : Spec.Outcome (Except.ok v) P) : P v := by
  unfold Spec.Outcome at h
  exact h

theorem Outcome_error_inv {α : Type} (a : Abort) (P : α → Prop)
    (h : Spec.Outcome (Except.error a) P) : a ≠ Abort.emptyStack := by
  unfold Spec.Outcome at h
  exact h

theorem Outcome_bind {α β : Type} (x : Except Abort α) (f : α → Except Abort β)
    (P : α → Prop) (Q : β → Prop) (hx : Spec.Outcome x P)
    (hf : ∀ v, P v → Spec.Outcome (f v) Q) : Spec.Outcome (x >>= f) Q := by
  cases x with
  | ok v => exact hf v (Outcome_ok_inv v P hx)
  | error a => exact Outcome_error a Q (Outcome_error_inv a P hx)

theorem Outcome_mono {α : Type} (x : Except Abort α) (P Q : α → Prop)
    (hx : Spec.Outcome x P) (h : ∀ v, P v → Q v) : Spec.Outcome x Q := by
  cases x with
  | ok v => exact Outcome_ok v Q (h v (Outcome_ok_inv v P hx))
  | error a => exact Outcome_error a Q (Outcome_error_inv a P hx)

theorem Outcome_ENFORCE (c : Bool) : Spec.Outcome (ENFORCE c) (fun _ => c = true) := by
  cases c
  · exact Outcome_error _ _ (by decide)
  · exact Outcome_ok _ _ rfl

theorem Outcome_back {α : Type} (l : List α) (x : α) (rest : List α) (h : l = x :: rest) :
    Spec.Outcome (back l) (fun v => v = x) := by
  subst h; exact Outcome_ok _ _ rfl

theorem Outcome_of_eq {α : Type} (x : Except Abort α) (v : α) (P : α → Prop)
    (h : x = .ok v) (hv : P v) : Spec.Outcome x P := by
  rw [h]; exact Outcome_ok _ _ hv

theorem FrameKept_refl (t : LocalFrame) : Spec.FrameKept t t :=
  ⟨rfl, rfl, fun h => h, fun _ _ => rfl⟩

theorem FrameKept_trans {a b c : LocalFrame} (h1 : Spec.FrameKept a b)
    (h2 : Spec.FrameKept b c) : Spec.FrameKept a c := by
  refine ⟨by rw [h2.scopeId, h1.scopeId], by rw [h2.args, h1.args],
    fun h => h2.flag (h1.flag h), ?_⟩
  intro n hn
  have e1 := h1.locals n hn
  rw [h2.locals n (by rw [e1]; exact hn), e1]

theorem frameAfterUse_idem (b : BlockArgs) (l l' : Loc) :
    Spec.frameAfterUse (Spec.frameAfterUse b l) l' = Spec.frameAfterUse b l := by
  unfold Spec.frameAfterUse
  by_cases k1 : b.declared.exists = true
  · simp [k1]
  · by_cases k2 : b.discovered.exists = true
    · simp [k1, k2]
    · have k1' : b.declared.exists = false := by simpa using k1
      have k2' : b.discovered.exists = false := by simpa using k2
      have hb : (⟨NameRef.blkArg, 0⟩ : LocalVariable).exists = true := rfl
      simp [k1', k2', hb]

theorem BlockKept_refl (B : List BlockArgs) : Spec.BlockKept B B := Or.inl rfl

theorem BlockKept_trans {A B C : List BlockArgs} (h1 : Spec.BlockKept A B)
    (h2 : Spec.BlockKept B C) : Spec.BlockKept A C := by
  rcases h1 with h1 | ⟨b, rest, loc, ha, hb⟩
  · rw [h1] at h2; exact h2
  · rcases h2 with h2 | ⟨b', rest', loc', hb', hc⟩
    · rw [h2]; exact Or.inr ⟨b, rest, loc, ha, hb⟩
    · rw [hb] at hb'
      injection hb' with e1 e2
      subst e1 e2
      rw [frameAfterUse_idem] at hc
      exact Or.inr ⟨b, _, loc, ha, hc⟩

theorem Kept_refl (self : NameInserter) (h : self.scopeStack ≠ []) : Spec.Kept self self := by
  cases hs : self.scopeStack with
  | nil => exact absurd hs h
  | cons t S => exact ⟨⟨t, t, S, hs, hs, FrameKept_refl t⟩, BlockKept_refl _⟩

theorem Kept_trans {a b c : NameInserter} (h1 : Spec.Kept a b) (h2 : Spec.Kept b c) :
    Spec.Kept a c := by
  obtain ⟨⟨t, t', S, e1, e2, k1⟩, b1⟩ := h1
  obtain ⟨⟨u, u', S', f1, f2, k2⟩, b2⟩ := h2
  rw [e2] at f1
  injection f1 with g1 g2
  subst g1 g2
  exact ⟨⟨t, u', S, e1, f2, FrameKept_trans k1 k2⟩, BlockKept_trans b1 b2⟩

theorem Kept_nonempty {a b : NameInserter} (h : Spec.Kept a b) : b.scopeStack ≠ [] := by
  obtain ⟨⟨t, t', S, _, e2, _⟩, _⟩ := h
  rw [e2]; exact List.cons_ne_nil _ _

theorem Kept_of_stacks (a b : NameInserter) (h : a.scopeStack ≠ [])
    (h1 : b.scopeStack = a.scopeStack) (h2 : Spec.BlockKept a.blockArgStack b.blockArgStack) :
    Spec.Kept a b := by
  cases hs : a.scopeStack with
  | nil => exact absurd hs h
  | cons t S => exact ⟨⟨t, t, S, hs, by rw [h1, hs], FrameKept_refl t⟩, h2⟩

theorem squashNames_safe (gs : GlobalState) (owner : SymbolRef) (e : Expression) :
    Spec.Outcome (squashNames gs owner e) (fun _ => True) := by
  induction e using squashNames.induct gs owner with
  | case1 constLit ih =>
    rw [squashNames]
    exact Outcome_bind _ _ _ _ ih (fun _ _ => Outcome_pure _ _ trivial)
  | case2 id => rw [squashNames]; exact Outcome_pure _ _ trivial
  | case3 uid =>
    rw [squashNames]
    exact Outcome_bind _ _ _ _ (Outcome_ENFORCE _)
      (fun _ _ => Outcome_bind _ _ _ _ (Outcome_ENFORCE _) (fun _ _ => Outcome_pure _ _ trivial))
  | case4 => rw [squashNames]; exact Outcome_pure _ _ trivial
  | case5 t h1 h2 h3 h4 =>
    have : squashNames gs owner t = throw Abort.enforce := by
      cases t <;> first
        | rfl
        | exact absurd rfl (h1 _)
        | exact absurd rfl (h2 _)
        | exact absurd rfl (h3 _)
        | exact absurd rfl h4
    rw [this]
    exact Outcome_throw _ _ (by decide : Abort.enforce ≠ Abort.emptyStack)

theorem parseArg_safe (e : Expression) : Spec.Outcome (parseArg e) (fun _ => True) := by
  induction e using parseArg.induct with
  | case1 nm => rw [parseArg]; exact Outcome_pure _ _ trivial
  | case2 rest ih => rw [parseArg]; exact Outcome_bind _ _ _ _ ih (fun _ _ => Outcome_pure _ _ trivial)
  | case3 kw ih => rw [parseArg]; exact Outcome_bind _ _ _ _ ih (fun _ _ => Outcome_pure _ _ trivial)
  | case4 opt ih => rw [parseArg]; exact Outcome_bind _ _ _ _ ih (fun _ _ => Outcome_pure _ _ trivial)
  | case5 blk ih => rw [parseArg]; exact Outcome_bind _ _ _ _ ih (fun _ _ => Outcome_pure _ _ trivial)
  | case6 shadow ih => rw [parseArg]; exact Outcome_bind _ _ _ _ ih (fun _ _ => Outcome_pure _ _ trivial)
  | case7 t h1 h2 h3 h4 h5 h6 =>
    have : parseArg t = throw Abort.raise := by
      cases t <;> first
        | rfl
        | exact absurd rfl (h1 _)
        | exact absurd rfl (h2 _)
        | exact absurd rfl (h3 _)
        | exact absurd rfl (h4 _)
        | exact absurd rfl (h5 _)
        | exact absurd rfl (h6 _)
    rw [this]
    exact Outcome_throw _ _ (by decide : Abort.raise ≠ Abort.emptyStack)

theorem parseArgs_safe (l : List Expression) :
    Spec.Outcome (NameInserter.parseArgs l) (fun _ => True) := by
  induction l with
  | nil => exact Outcome_pure _ _ trivial
  | cons a rest ih =>
    rw [NameInserter.parseArgs]
    by_cases h : (!a.isReference) = true
    · simp only [h, if_true, bind, Except.bind, throw, throwThe, MonadExceptOf.throw]
      exact Outcome_throw _ _ (by decide : Abort.raise ≠ Abort.emptyStack)
    · simp only [h, Bool.false_eq_true, if_false]
      exact Outcome_bind _ _ _ _ (Outcome_pure _ (fun _ => True) trivial) (fun _ _ =>
        Outcome_bind _ _ _ _ (parseArg_safe a) (fun _ _ =>
          Outcome_bind _ _ _ _ ih (fun _ _ => Outcome_pure _ _ trivial)))

theorem addAncestorLoop_safe (args dest : List Expression) :
    Spec.Outcome (NameInserter.addAncestorLoop args dest) (fun _ => True) := by
  induction args generalizing dest with
  | nil => exact Outcome_pure _ _ trivial
  | cons a rest ih =>
    unfold NameInserter.addAncestorLoop
    repeat' first
      | exact Outcome_pure _ _ trivial
      | exact Outcome_throw _ _ (by decide : Abort.enforce ≠ Abort.emptyStack)
      | exact ih _
      | split

theorem addAncestor_safe (ctx : MutableContext) (klass : ClassDef) (node : Expression) :
    Spec.Outcome (NameInserter.addAncestor ctx klass node) (fun _ => True) := by
  unfold NameInserter.addAncestor
  repeat' first
    | exact Outcome_pure _ _ trivial
    | exact Outcome_bind _ _ (fun _ => True) _ (addAncestorLoop_safe _ _) (fun _ _ => Outcome_pure _ _ trivial)
    | split

theorem handleNamerDSL_safe (ctx : MutableContext) (klass : ClassDef) (line : Expression) :
    Spec.Outcome (NameInserter.handleNamerDSL ctx klass line) (fun _ => True) := by
  unfold NameInserter.handleNamerDSL
  refine Outcome_bind _ _ _ _ (addAncestor_safe ctx klass line) (fun a _ => ?_)
  repeat' first
    | exact Outcome_pure _ _ trivial
    | split
    | dsimp only

theorem removeNamerDSL_safe (owner : SymbolRef) (rhs : List Expression) :
    ∀ (klass : ClassDef) (gs : GlobalState),
      Spec.Outcome (NameInserter.removeNamerDSL owner rhs klass gs) (fun _ => True) := by
  induction rhs with
  | nil => intro klass gs; exact Outcome_pure _ _ trivial
  | cons line rest ih =>
    intro klass gs
    rw [NameInserter.removeNamerDSL]
    exact Outcome_bind _ _ _ _ (handleNamerDSL_safe _ _ _) (fun h _ =>
      Outcome_bind _ _ _ _ (ih _ _) (fun _ _ => Outcome_pure _ _ trivial))

theorem fillAssign_safe (ctx : MutableContext) (asgn : Assign) :
    Spec.Outcome (NameInserter.fillAssign ctx asgn) (fun _ => True) := by
  unfold NameInserter.fillAssign
  repeat' first
    | exact Outcome_pure _ _ trivial
    | exact Outcome_throw _ _ (by decide : Abort.enforce ≠ Abort.emptyStack)
    | exact Outcome_bind _ _ (fun _ => True) _ (squashNames_safe _ _ _) (fun _ _ => Outcome_pure _ _ trivial)
    | split

theorem postTransformAssign_safe (ctx : MutableContext) (asgn : Assign) :
    Spec.Outcome (NameInserter.postTransformAssign ctx asgn) (fun _ => True) := by
  unfold NameInserter.postTransformAssign
  repeat' first
    | exact Outcome_pure _ _ trivial
    | refine Outcome_bind _ _ (fun _ => True) _ (fillAssign_safe _ _) (fun _ _ => ?_)
    | split
    | dsimp only

theorem arg2Symbol_safe (self : NameInserter) (ctx : MutableContext) (pos : Nat)
    (a : ParsedArg) (t : LocalFrame) (S : List LocalFrame) (hs : self.scopeStack = t :: S) :
    Spec.Outcome (NameInserter.arg2Symbol self ctx pos a) (fun _ => True) := by
  unfold NameInserter.arg2Symbol
  split
  · rw [enterLocal_localFor self ctx.state ctx.owner a.name t S hs]
    exact Outcome_pure _ _ trivial
  · simp only [bind, Except.bind]
    rw [enterLocal_localFor self _ ctx.owner a.name t S hs]
    exact Outcome_pure _ _ trivial

theorem fillInArgsLoop_kept (owner : SymbolRef) (parsedArgs : List ParsedArg) :
    ∀ (i : Nat) (inShadows : Bool) (args : List Expression) (self : NameInserter)
      (gs : GlobalState) (t : LocalFrame) (S : List LocalFrame),
      self.scopeStack = t :: S →
      Spec.Outcome (NameInserter.fillInArgsLoop owner parsedArgs i inShadows args self gs)
        (fun r => ∃ t', r.2.1 = { self with scopeStack := t' :: S } ∧
          t'.scopeId = t.scopeId ∧ t'.moduleFunctionActive = t.moduleFunctionActive) := by
  induction parsedArgs with
  | nil =>
    intro i inShadows args self gs t S hs
    refine Outcome_pure _ _ ⟨t, ?_, rfl, rfl⟩
    cases self
    simp only at hs
    subst hs
    rfl
  | cons a rest ih =>
    intro i inShadows args self gs t S hs
    rw [NameInserter.fillInArgsLoop]
    refine Outcome_bind _ _ (fun lv => lv = Spec.localFor gs owner t a.name) _
      (Outcome_of_eq _ _ _ (enterLocal_localFor self gs owner a.name t S hs) rfl)
      (fun lv hlv => ?_)
    subst hlv
    have hjp : ∀ r : Bool × List Expression × GlobalState,
        Spec.Outcome
          (modifyBack
              (fun (frame : LocalFrame) =>
                { frame with
                  locals := frame.locals.set a.name (Spec.localFor gs owner t a.name),
                  args := frame.args ++ [Spec.localFor gs owner t a.name] })
              self.scopeStack >>= fun stack =>
            NameInserter.fillInArgsLoop owner rest (i + 1) r.1 r.2.1
              { self with scopeStack := stack } r.2.2)
          (fun r => ∃ t', r.2.1 = { self with scopeStack := t' :: S } ∧
            t'.scopeId = t.scopeId ∧ t'.moduleFunctionActive = t.moduleFunctionActive) := by
      intro r
      refine Outcome_bind _ _
        (fun st => st =
          { t with locals := t.locals.set a.name (Spec.localFor gs owner t a.name),
                   args := t.args ++ [Spec.localFor gs owner t a.name] } :: S) _
        (by rw [hs]; exact Outcome_ok _ _ rfl) (fun st hst => ?_)
      subst hst
      have := ih (i + 1) r.1 r.2.1
        { self with scopeStack :=
            { t with locals := t.locals.set a.name (Spec.localFor gs owner t a.name),
                     args := t.args ++ [Spec.localFor gs owner t a.name] } :: S }
        r.2.2 _ S rfl
      exact Outcome_mono _ _ _ this (fun v ⟨t', h1, h2, h3⟩ => ⟨t', h1, h2, h3⟩)
    dsimp only
    split
    · refine Outcome_bind _ _ (fun _ => True) _ (Outcome_pure _ _ trivial) (fun _ _ => ?_)
      exact hjp _
    · refine Outcome_bind _ _ (fun _ => True) _
          (Outcome_mono _ _ _ (Outcome_ENFORCE _) (fun _ _ => trivial)) (fun _ _ => ?_)
      refine Outcome_bind _ _ (fun _ => True) _
          (arg2Symbol_safe _ _ _ _ t S hs) (fun p _ => ?_)
      split
      · refine Outcome_bind _ _ (fun _ => True) _
          (Outcome_mono _ _ _ (Outcome_ENFORCE _) (fun _ _ => trivial)) (fun _ _ => ?_)
        refine Outcome_bind _ _ (fun _ => True) _ (Outcome_pure _ _ trivial) (fun _ _ => ?_)
        exact hjp _
      · refine Outcome_bind _ _ (fun _ => True) _ (Outcome_pure _ _ trivial) (fun _ _ => ?_)
        exact hjp _

theorem preTransformClassDef_kept (self : NameInserter) (ctx : MutableContext)
    (klass : ClassDef) :
    Spec.Outcome (NameInserter.preTransformClassDef self ctx klass)
      (fun r => r.2.1 = NameInserter.enterScope { self with scopeCounter := 0 }) := by
  unfold NameInserter.preTransformClassDef
  dsimp only
  split
  · refine Outcome_bind _ _ (fun _ => True) _
      (Outcome_mono _ _ _ (Outcome_ENFORCE _) (fun _ _ => trivial)) (fun _ _ => ?_)
    exact Outcome_pure _ _ rfl
  · split
    · refine Outcome_bind _ _ (fun _ => True) _ (squashNames_safe _ _ _) (fun _ _ => ?_)
      refine Outcome_bind _ _ (fun _ => True) _ (Outcome_pure _ _ trivial) (fun _ _ => ?_)
      split
      · exact Outcome_pure _ _ rfl
      · split <;> exact Outcome_pure _ _ rfl
    · refine Outcome_bind _ _ (fun _ => True) _
        (Outcome_mono _ _ _ (Outcome_ENFORCE _) (fun _ _ => trivial)) (fun _ _ => ?_)
      refine Outcome_bind _ _ (fun _ => True) _ (Outcome_pure _ _ trivial) (fun _ _ => ?_)
      split
      · exact Outcome_pure _ _ rfl
      · split <;> exact Outcome_pure _ _ rfl

theorem postTransformClassDef_kept (self : NameInserter) (ctx : MutableContext)
    (klass : ClassDef) (f : LocalFrame) (S : List LocalFrame) (hs : self.scopeStack = f :: S) :
    Spec.Outcome (NameInserter.postTransformClassDef self ctx klass)
      (fun r => r.2.1 = { self with scopeStack := S }) := by
  unfold NameInserter.postTransformClassDef
  refine Outcome_bind _ _ (fun s => s = { self with scopeStack := S }) _ ?_ (fun s hs' => ?_)
  · unfold NameInserter.exitScope
    rw [hs]
    exact Outcome_ok _ _ rfl
  · subst hs'
    dsimp only
    exact Outcome_bind _ _ (fun _ => True) _ (removeNamerDSL_safe _ _ _ _) (fun _ _ => Outcome_pure _ _ rfl)

theorem postTransformBlock_kept (self : NameInserter) (ctx : MutableContext) (blk : Block)
    (f : LocalFrame) (S : List LocalFrame) (hs : self.scopeStack = f :: S) :
    NameInserter.postTransformBlock self ctx blk = .ok (blk, { self with scopeStack := S }) := by
  unfold NameInserter.postTransformBlock NameInserter.exitScope
  rw [hs]
  rfl

theorem preTransformBlock_kept (self : NameInserter) (ctx : MutableContext) (blk : Block)
    (t : LocalFrame) (S : List LocalFrame) (hs : self.scopeStack = t :: S) :
    Spec.Outcome (NameInserter.preTransformBlock self ctx blk)
      (fun r => ∃ f, f.scopeId = self.scopeCounter ∧ f.moduleFunctionActive = false ∧
        r.2.1 = { self with
          scopeStack := f :: t :: S, scopeCounter := (self.scopeCounter + 1) % 2 ^ 32 }) := by
  unfold NameInserter.preTransformBlock
  dsimp only
  split
  on_goal 1 =>
    refine Outcome_bind _ _ (fun _ => True) _
      (Outcome_mono _ _ _ (Outcome_ENFORCE _) (fun _ _ => trivial)) (fun _ _ => ?_)
  on_goal 2 =>
    split
  all_goals
    refine Outcome_bind _ _ (fun _ => True) _ (Outcome_pure _ _ trivial) (fun o _ => ?_)
    refine Outcome_bind _ _ (fun v => v = t) _ (Outcome_back _ t S hs) (fun outer ho => ?_)
    subst ho
    refine Outcome_bind _ _
      (fun st => st = ({ scopeId := self.scopeCounter, args := outer.args,
                         locals := outer.locals } : LocalFrame) :: outer :: S) _
      (by simp only [NameInserter.enterScope, modifyBack, hs]; exact Outcome_ok _ _ rfl) (fun st hst => ?_)
    subst hst
    refine Outcome_bind _ _ (fun _ => True) _ (parseArgs_safe _) (fun pa _ => ?_)
    refine Outcome_bind _ _ _ _
      (fillInArgsLoop_kept _ pa 0 false [] _ _ _ (outer :: S) rfl) (fun f hf => ?_)
    obtain ⟨t', h1, h2, h3⟩ := hf
    exact Outcome_pure _ _ ⟨t', h2, h3, h1⟩

theorem Outcome_ite {α : Type} (c : Prop) [Decidable c] (a b : Except Abort α)
    (P : α → Prop) (ha : Spec.Outcome a P) (hb : Spec.Outcome b P) :
    Spec.Outcome (if c then a else b) P := by
  split
  · exact ha
  · exact hb

theorem preTransformMethodDef_kept (self : NameInserter) (ctx : MutableContext)
    (method : MethodDef) :
    Spec.Outcome (NameInserter.preTransformMethodDef self ctx method)
      (fun r => ∃ f b, f.scopeId = self.scopeCounter ∧ f.moduleFunctionActive = false ∧
        r.2.1 = { scopeStack := f :: self.scopeStack,
                  scopeCounter := (self.scopeCounter + 1) % 2 ^ 32,
                  blockArgStack := b :: self.blockArgStack }) := by
  unfold NameInserter.preTransformMethodDef
  dsimp only
  refine Outcome_bind _ _ (fun _ => True) _
    (Outcome_mono _ _ _ (Outcome_ENFORCE _) (fun _ _ => trivial)) (fun _ _ => ?_)
  refine Outcome_bind _ _ (fun _ => True) _ (parseArgs_safe _) (fun pa _ => ?_)
  refine Outcome_ite _ _ _ _ ?_ ?_
  all_goals
    refine Outcome_bind _ _ _ _
      (fillInArgsLoop_kept _ pa 0 false [] _ _ _ self.scopeStack (by exact rfl)) (fun f hf => ?_)
    obtain ⟨t', h1, h2, h3⟩ := hf
    exact Outcome_pure _ _ ⟨t', _, h2, h3, h1⟩

theorem postTransformMethodDef_kept (self : NameInserter) (ctx : MutableContext)
    (method : MethodDef) (b : BlockArgs) (B : List BlockArgs) (f t : LocalFrame)
    (S : List LocalFrame) (hb : self.blockArgStack = b :: B)
    (hs : self.scopeStack = f :: t :: S) :
    Spec.Outcome (NameInserter.postTransformMethodDef self ctx method)
      (fun r => r.2.1 = { self with scopeStack := t :: S, blockArgStack := B }) := by
  unfold NameInserter.postTransformMethodDef
  refine Outcome_bind _ _ (fun _ => True) _
    (Outcome_mono _ _ _ (Outcome_back _ b B hb) (fun _ _ => trivial)) (fun _ _ => ?_)
  dsimp only
  refine Outcome_bind _ _ (fun _ => True) _
    (Outcome_mono _ _ _ (Outcome_ENFORCE _) (fun _ _ => trivial)) (fun _ _ => ?_)
  refine Outcome_bind _ _
    (fun s => s = ({ self with scopeStack := t :: S, blockArgStack := B } : NameInserter)) _
    (by simp only [NameInserter.exitScope, hs, hb, List.tail_cons]; exact Outcome_ok _ _ rfl)
    (fun s hs' => ?_)
  subst hs'
  refine Outcome_bind _ _ (fun _ => True) _
    (Outcome_mono _ _ _ (Outcome_back _ t S rfl) (fun _ _ => trivial)) (fun _ _ => ?_)
  refine Outcome_bind _ _ (fun _ => True) _
    (Outcome_mono _ _ _ (Outcome_ENFORCE _) (fun _ _ => trivial)) (fun _ _ => ?_)
  exact Outcome_pure _ _ rfl

theorem findOrCreateBlockParameter_kept (self : NameInserter) (loc : Loc) :
    Spec.Outcome (NameInserter.findOrCreateBlockParameter self loc)
      (fun r => r.2.scopeStack = self.scopeStack ∧ r.2.scopeCounter = self.scopeCounter ∧
        Spec.BlockKept self.blockArgStack r.2.blockArgStack) := by
  cases hB : self.blockArgStack with
  | nil =>
    unfold NameInserter.findOrCreateBlockParameter
    rw [hB]
    exact Outcome_throw _ _ (by decide : Abort.enforce ≠ Abort.emptyStack)
  | cons b B =>
    rw [findOrCreateBlockParameter_spec self loc b B hB]
    refine Outcome_ok _ _ ?_
    by_cases h1 : b.declared.exists = true
    · rw [if_pos h1]
      exact ⟨rfl, rfl, Or.inl hB⟩
    · by_cases h2 : b.discovered.exists = true
      · rw [if_neg h1, if_pos h2]
        exact ⟨rfl, rfl, Or.inl hB⟩
      · rw [if_neg h1, if_neg h2]
        refine ⟨rfl, rfl, Or.inr ⟨b, B, loc, rfl, ?_⟩⟩
        simp [Spec.frameAfterUse, h1, h2]

theorem Kept_of_eq (a b : NameInserter) (h : a.scopeStack ≠ [])
    (h1 : b.scopeStack = a.scopeStack) (h2 : b.blockArgStack = a.blockArgStack) :
    Spec.Kept a b :=
  Kept_of_stacks a b h h1 (Or.inl h2)

theorem postTransformYield_kept (self : NameInserter) (ctx : MutableContext) (y : Yield)
    (h : self.scopeStack ≠ []) :
    Spec.Outcome (NameInserter.postTransformYield self ctx y)
      (fun r => Spec.Kept self r.2) := by
  unfold NameInserter.postTransformYield
  split
  · refine Outcome_bind _ _ _ _ (findOrCreateBlockParameter_kept self y.loc) (fun b hb => ?_)
    exact Outcome_pure _ _ (Kept_of_stacks _ _ h hb.1 hb.2.2)
  · exact Outcome_pure _ _ (Kept_refl self h)

theorem postTransformUnresolvedIdent_kept (self : NameInserter) (ctx : MutableContext)
    (nm : UnresolvedIdentNode) (h : self.scopeStack ≠ []) :
    Spec.Outcome (NameInserter.postTransformUnresolvedIdent self ctx nm)
      (fun r => Spec.Kept self r.2.1) := by
  cases hs : self.scopeStack with
  | nil => exact absurd hs h
  | cons t S =>
    unfold NameInserter.postTransformUnresolvedIdent
    split
    · refine Outcome_bind _ _ (fun v => v = t) _ (Outcome_back _ t S hs) (fun fr hfr => ?_)
      subst hfr
      dsimp only
      split
      · rename_i hb
        refine Outcome_bind _ _ (fun _ => True) _
          (Outcome_of_eq _ _ _ (enterLocal_localFor self ctx.state ctx.owner nm.name fr S hs)
            trivial) (fun cur _ => ?_)
        rw [hs]
        refine Outcome_bind _ _ (fun st => st = _ :: S) _ (Outcome_ok _ _ rfl) (fun st hst => ?_)
        subst hst
        refine Outcome_pure _ _ ⟨⟨fr, _, S, hs, rfl, rfl, rfl, fun hh => hh, ?_⟩, Or.inl rfl⟩
        intro n hn
        simp only [locals_find_set]
        split
        · rename_i e
          subst e
          simp [hn] at hb
        · rfl
      · exact Outcome_pure _ _ (Kept_refl self h)
    · dsimp only
      split <;> exact Outcome_pure _ _ (Kept_refl self h)
    · exact Outcome_pure _ _ (Kept_refl self h)

theorem postTransformSend_kept (self : NameInserter) (ctx : MutableContext) (original : Send)
    (h : self.scopeStack ≠ []) :
    Spec.Outcome (NameInserter.postTransformSend self ctx original)
      (fun r => Spec.Kept self r.2.1) := by
  cases hs : self.scopeStack with
  | nil => exact absurd hs h
  | cons t S =>
    unfold NameInserter.postTransformSend
    dsimp only
    split
    on_goal 1 =>
      split
    on_goal 1 =>
      refine Outcome_bind _ _ (fun _ => True) _
        (Outcome_mono _ _ _ (Outcome_back _ t S hs) (fun _ _ => trivial)) (fun _ _ => ?_)
    all_goals
      refine Outcome_bind _ _ (fun _ => True) _ (Outcome_pure _ _ trivial) (fun z _ => ?_)
      dsimp only
      split
      · repeat' first
          | exact Outcome_pure _ _ (Kept_refl self h)
          | split
      · refine Outcome_ite _ _ _ _ ?_ (Outcome_pure _ _ (Kept_refl self h))
        refine Outcome_ite _ _ _ _ ?_ ?_
        · refine Outcome_ite _ _ _ _ ?_ (Outcome_pure _ _ (Kept_refl self h))
          rw [hs]
          refine Outcome_bind _ _ (fun st => st = _ :: S) _ (Outcome_ok _ _ rfl)
            (fun st hst => ?_)
          subst hst
          exact Outcome_pure _ _
            ⟨⟨t, _, S, hs, rfl, rfl, rfl, fun _ => rfl, fun _ _ => rfl⟩, Or.inl rfl⟩
        · refine Outcome_ite _ _ _ _ ?_ ?_
          · dsimp only
            repeat' first
              | exact Outcome_pure _ _ (Kept_refl self h)
              | split
          · refine Outcome_ite _ _ _ _ ?_ (Outcome_pure _ _ (Kept_refl self h))
            refine Outcome_ite _ _ _ _ ?_ (Outcome_pure _ _ (Kept_refl self h))
            refine Outcome_bind _ _ _ _ (findOrCreateBlockParameter_kept self _)
              (fun b hb => ?_)
            exact Outcome_pure _ _ (Kept_of_stacks _ _ h hb.1 hb.2.2)

theorem Kept_top {a b : NameInserter} (h : Spec.Kept a b) (f : LocalFrame)
    (T : List LocalFrame) (ha : a.scopeStack = f :: T) :
    ∃ f', b.scopeStack = f' :: T ∧ Spec.FrameKept f f' := by
  obtain ⟨⟨t, t', S, e1, e2, k⟩, _⟩ := h
  rw [ha] at e1
  injection e1 with g1 g2
  subst g1 g2
  exact ⟨t', e2, k⟩

theorem BlockKept_cons {b : BlockArgs} {B B' : List BlockArgs}
    (h : Spec.BlockKept (b :: B) B') : ∃ b', B' = b' :: B := by
  rcases h with h | ⟨c, rest, loc, e1, e2⟩
  · exact ⟨b, h⟩
  · injection e1 with g1 g2
    subst g1 g2
    exact ⟨_, e2⟩

theorem mapSeq_kept (visit : NameInserter → MutableContext → Expression →
      Except Abort (Expression × NameInserter × GlobalState))
    (hv : Spec.Visits visit) (owner : SymbolRef) (l : List Expression) :
    ∀ (self : NameInserter) (gs : GlobalState), self.scopeStack ≠ [] →
      Spec.Outcome (TreeMap.mapSeq visit owner l self gs) (fun r => Spec.Kept self r.2.1) := by
  induction l with
  | nil => intro self gs h; exact Outcome_pure _ _ (Kept_refl self h)
  | cons e rest ih =>
    intro self gs h
    rw [TreeMap.mapSeq]
    refine Outcome_bind _ _ _ _ (hv self _ e h) (fun r hr => ?_)
    refine Outcome_bind _ _ _ _ (ih r.2.1 r.2.2 (Kept_nonempty hr)) (fun rs hrs => ?_)
    exact Outcome_pure _ _ (Kept_trans hr hrs)

theorem mapArgs_kept (visit : NameInserter → MutableContext → Expression →
      Except Abort (Expression × NameInserter × GlobalState))
    (hv : Spec.Visits visit) (owner : SymbolRef) (l : List Expression) :
    ∀ (self : NameInserter) (gs : GlobalState), self.scopeStack ≠ [] →
      Spec.Outcome (TreeMap.mapArgs visit owner l self gs) (fun r => Spec.Kept self r.2.1) := by
  induction l with
  | nil => intro self gs h; exact Outcome_pure _ _ (Kept_refl self h)
  | cons e rest ih =>
    intro self gs h
    unfold TreeMap.mapArgs
    dsimp only
    split
    · refine Outcome_bind _ _ _ _ (hv self _ _ h) (fun d hd => ?_)
      refine Outcome_bind _ _ (fun r => r.2.1 = d.2.1) _ (Outcome_pure _ _ rfl) (fun r hr => ?_)
      refine Outcome_bind _ _ _ _ (ih r.2.1 r.2.2 (by rw [hr]; exact Kept_nonempty hd))
        (fun rs hrs => ?_)
      rw [hr] at hrs
      exact Outcome_pure _ _ (Kept_trans hd hrs)
    · refine Outcome_bind _ _ (fun r => r.2.1 = self) _ (Outcome_pure _ _ rfl) (fun r hr => ?_)
      refine Outcome_bind _ _ _ _ (ih r.2.1 r.2.2 (by rw [hr]; exact h)) (fun rs hrs => ?_)
      rw [hr] at hrs
      exact Outcome_pure _ _ hrs

theorem mapBlock_kept (visit : NameInserter → MutableContext → Expression →
      Except Abort (Expression × NameInserter × GlobalState))
    (hv : Spec.Visits visit) (self : NameInserter) (ctx : MutableContext) (v : Block)
    (h : self.scopeStack ≠ []) :
    Spec.Outcome (TreeMap.mapBlock visit self ctx v)
      (fun r => r.2.1.scopeStack = self.scopeStack ∧
        Spec.BlockKept self.blockArgStack r.2.1.blockArgStack) := by
  cases hs : self.scopeStack with
  | nil => exact absurd hs h
  | cons t S =>
    unfold TreeMap.mapBlock
    refine Outcome_bind _ _ _ _ (preTransformBlock_kept self ctx v t S hs) (fun p hp => ?_)
    obtain ⟨f, _, _, hp⟩ := hp
    have hp1 : p.2.1.scopeStack = f :: t :: S := by rw [hp]
    have hpb : p.2.1.blockArgStack = self.blockArgStack := by rw [hp]
    refine Outcome_bind _ _ _ _
      (mapArgs_kept visit hv _ _ p.2.1 p.2.2 (by rw [hp1]; exact List.cons_ne_nil _ _))
      (fun a ha => ?_)
    refine Outcome_bind _ _ _ _ (hv a.2.1 _ _ (Kept_nonempty ha)) (fun b hb => ?_)
    have hab := Kept_trans ha hb
    obtain ⟨f', hf', _⟩ := Kept_top hab f (t :: S) hp1
    rw [postTransformBlock_kept b.2.1 _ _ f' (t :: S) hf']
    refine Outcome_pure _ _ ⟨rfl, ?_⟩
    obtain ⟨_, hblocks⟩ := hab
    rw [hpb] at hblocks
    exact hblocks

theorem mapNode_kept (visit : NameInserter → MutableContext → Expression →
      Except Abort (Expression × NameInserter × GlobalState))
    (hv : Spec.Visits visit) : Spec.Visits (TreeMap.mapNode visit) := by
  intro self ctx e h
  cases hs : self.scopeStack with
  | nil => exact absurd hs h
  | cons t S =>
  cases e with
  | ClassDef v =>
    rw [TreeMap.mapNode]
    refine Outcome_bind _ _ _ _ (preTransformClassDef_kept self ctx v) (fun p hp => ?_)
    have hp1 : p.2.1.scopeStack = { scopeId := 0 } :: t :: S := by
      rw [hp]; simp only [NameInserter.enterScope, hs]
    have hpb : p.2.1.blockArgStack = self.blockArgStack := by rw [hp]; rfl
    refine Outcome_bind _ _ _ _
      (mapSeq_kept visit hv _ _ p.2.1 p.2.2 (by rw [hp1]; exact List.cons_ne_nil _ _))
      (fun b hb => ?_)
    obtain ⟨f', hf', _⟩ := Kept_top hb _ _ hp1
    refine Outcome_mono _ _ _ (postTransformClassDef_kept b.2.1 _ _ f' (t :: S) hf')
      (fun q hq => ?_)
    obtain ⟨_, hblocks⟩ := hb
    rw [hpb] at hblocks
    exact Kept_of_stacks _ _ h (by rw [hq, hs]) (by rw [hq]; exact hblocks)
  | MethodDef v =>
    rw [TreeMap.mapNode]
    refine Outcome_bind _ _ _ _ (preTransformMethodDef_kept self ctx v) (fun p hp => ?_)
    obtain ⟨f, b0, _, _, hp⟩ := hp
    have hp1 : p.2.1.scopeStack = f :: t :: S := by rw [hp, hs]
    have hpb : p.2.1.blockArgStack = b0 :: self.blockArgStack := by rw [hp]
    refine Outcome_bind _ _ _ _
      (mapArgs_kept visit hv _ _ p.2.1 p.2.2 (by rw [hp1]; exact List.cons_ne_nil _ _))
      (fun a ha => ?_)
    refine Outcome_bind _ _ _ _ (hv a.2.1 _ _ (Kept_nonempty ha)) (fun b hb => ?_)
    have hab := Kept_trans ha hb
    obtain ⟨f', hf', _⟩ := Kept_top hab f (t :: S) hp1
    obtain ⟨_, hblocks⟩ := hab
    rw [hpb] at hblocks
    obtain ⟨b', hb'⟩ := BlockKept_cons hblocks
    refine Outcome_bind _ _ _ _
      (postTransformMethodDef_kept b.2.1 _ _ b' self.blockArgStack f' t S hb' hf')
      (fun q hq => ?_)
    exact Outcome_pure _ _ (Kept_of_eq _ _ h (by rw [hq, hs]) (by rw [hq]))
  | Block v =>
    rw [TreeMap.mapNode]
    refine Outcome_bind _ _ _ _ (mapBlock_kept visit hv self ctx v h) (fun b hb => ?_)
    exact Outcome_pure _ _ (Kept_of_stacks _ _ h hb.1 hb.2)
  | Send v =>
    rw [TreeMap.mapNode]
    dsimp only
    refine Outcome_bind _ _ _ _ (hv self ctx _ h) (fun r hr => ?_)
    refine Outcome_bind _ _ _ _ (mapSeq_kept visit hv _ _ r.2.1 r.2.2 (Kept_nonempty hr))
      (fun a ha => ?_)
    have hra := Kept_trans hr ha
    split
    · refine Outcome_bind _ _ _ _
        (mapBlock_kept visit hv a.2.1 _ _ (Kept_nonempty hra)) (fun m hm => ?_)
      have hm' : Spec.Kept a.2.1 m.2.1 := Kept_of_stacks _ _ (Kept_nonempty hra) hm.1 hm.2
      refine Outcome_bind _ _ (fun y => y.2.1 = m.2.1) _ (Outcome_pure _ _ rfl)
        (fun y hy => ?_)
      refine Outcome_mono _ _ _
        (postTransformSend_kept y.2.1 _ _ (by rw [hy]; exact Kept_nonempty hm'))
        (fun q hq => ?_)
      rw [hy] at hq
      exact Kept_trans (Kept_trans hra hm') hq
    · refine Outcome_bind _ _ (fun y => y.2.1 = a.2.1) _ (Outcome_pure _ _ rfl)
        (fun y hy => ?_)
      refine Outcome_mono _ _ _
        (postTransformSend_kept y.2.1 _ _ (by rw [hy]; exact Kept_nonempty hra))
        (fun q hq => ?_)
      rw [hy] at hq
      exact Kept_trans hra hq
  | Assign v =>
    rw [TreeMap.mapNode]
    refine Outcome_bind _ _ _ _ (hv self ctx _ h) (fun l hl => ?_)
    refine Outcome_bind _ _ _ _ (hv l.2.1 _ _ (Kept_nonempty hl)) (fun r hr => ?_)
    refine Outcome_bind _ _ (fun _ => True) _ (postTransformAssign_safe _ _) (fun q _ => ?_)
    exact Outcome_pure _ _ (Kept_trans hl hr)
  | If v =>
    rw [TreeMap.mapNode]
    refine Outcome_bind _ _ _ _ (hv self ctx _ h) (fun c hc => ?_)
    refine Outcome_bind _ _ _ _ (hv c.2.1 _ _ (Kept_nonempty hc)) (fun t1 ht => ?_)
    refine Outcome_bind _ _ _ _ (hv t1.2.1 _ _ (Kept_nonempty (Kept_trans hc ht)))
      (fun e1 he => ?_)
    exact Outcome_pure _ _ (Kept_trans (Kept_trans hc ht) he)
  | InsSeq v =>
    rw [TreeMap.mapNode]
    refine Outcome_bind _ _ _ _ (mapSeq_kept visit hv _ _ self ctx.state h) (fun s1 hs1 => ?_)
    refine Outcome_bind _ _ _ _ (hv s1.2.1 _ _ (Kept_nonempty hs1)) (fun e1 he => ?_)
    exact Outcome_pure _ _ (Kept_trans hs1 he)
  | Hash v =>
    rw [TreeMap.mapNode]
    refine Outcome_bind _ _ _ _ (mapSeq_kept visit hv _ _ self ctx.state h) (fun k hk => ?_)
    refine Outcome_bind _ _ _ _ (mapSeq_kept visit hv _ _ k.2.1 k.2.2 (Kept_nonempty hk))
      (fun w hw => ?_)
    exact Outcome_pure _ _ (Kept_trans hk hw)
  | Yield v =>
    rw [TreeMap.mapNode]
    refine Outcome_bind _ _ _ _ (mapSeq_kept visit hv _ _ self ctx.state h) (fun a ha => ?_)
    refine Outcome_bind _ _ _ _ (postTransformYield_kept a.2.1 _ _ (Kept_nonempty ha))
      (fun q hq => ?_)
    exact Outcome_pure _ _ (Kept_trans ha hq)
  | UnresolvedConstantLit v =>
    rw [TreeMap.mapNode]
    refine Outcome_bind _ _ _ _ (hv self ctx _ h) (fun s1 hs1 => ?_)
    exact Outcome_pure _ _ hs1
  | UnresolvedIdent v =>
    rw [TreeMap.mapNode]
    exact postTransformUnresolvedIdent_kept self ctx v h
  | Self v =>
    rw [TreeMap.mapNode]
    exact Outcome_pure _ _ (Kept_refl self h)
  | _ => exact Outcome_ok _ _ (Kept_refl self h)

theorem mapIt_kept (fuel : Nat) : Spec.Visits (TreeMap.mapIt fuel) := by
  induction fuel with
  | zero =>
    intro self ctx e _
    exact Outcome_throw _ _ (by decide : Abort.outOfFuel ≠ Abort.emptyStack)
  | succ n ih => exact mapNode_kept _ ih

theorem BlockKept_length {B B' : List BlockArgs} (h : Spec.BlockKept B B') :
    B'.length = B.length := by
  rcases h with h | ⟨b, rest, loc, e1, e2⟩
  · rw [h]
  · rw [e1, e2]; rfl

/-- C37: the stack discipline of the pass. With a scope stack `t :: S`, and reading "runs"
as: the handler returns normally with the stated stacks, or it aborts otherwise than by
reading the top of an empty stack (`Spec.Outcome`):
`preTransformClassDef`, `preTransformMethodDef` and `preTransformBlock` push exactly one
scope frame (so inside `preTransformBlock` the stack has at least two frames), and
`postTransformClassDef`, `postTransformMethodDef` and `postTransformBlock` pop exactly one;
the pre- and post-transform of a `MethodDef` push and pop exactly one block-argument frame,
those of a `ClassDef` and of a `Block` leave the block-argument stack as it is, so that a
`yield` visited right after `preTransformBlock` is rewritten to a call on the block
parameter of the frame `b` of the enclosing method; the walk of any subtree, with any
fuel, never reads an empty stack and returns with the frames below the top unchanged and
both stacks at their depths of before; and a walk from a fresh `NameInserter` ends with
one scope frame and no block-argument frame. -/
theorem C37_stack_discipline (self : NameInserter) (ctx : MutableContext) (t : LocalFrame)
    (S : List LocalFrame) (hs : self.scopeStack = t :: S) :
    (∀ klass, Spec.Outcome (NameInserter.preTransformClassDef self ctx klass)
      (fun r => ∃ f, r.2.1.scopeStack = f :: t :: S ∧
        r.2.1.blockArgStack = self.blockArgStack)) ∧
    (∀ method, Spec.Outcome (NameInserter.preTransformMethodDef self ctx method)
      (fun r => ∃ f b, r.2.1.scopeStack = f :: t :: S ∧
        r.2.1.blockArgStack = b :: self.blockArgStack)) ∧
    (∀ blk, Spec.Outcome (NameInserter.preTransformBlock self ctx blk)
      (fun r => ∃ f, r.2.1.scopeStack = f :: t :: S ∧
        r.2.1.blockArgStack = self.blockArgStack)) ∧
    (∀ klass, Spec.Outcome (NameInserter.postTransformClassDef self ctx klass)
      (fun r => r.2.1.scopeStack = S ∧ r.2.1.blockArgStack = self.blockArgStack)) ∧
    (∀ method b B u S1, self.blockArgStack = b :: B → S = u :: S1 →
      Spec.Outcome (NameInserter.postTransformMethodDef self ctx method)
        (fun r => r.2.1.scopeStack = S ∧ r.2.1.blockArgStack = B)) ∧
    (∀ blk, NameInserter.postTransformBlock self ctx blk =
      .ok (blk, { self with scopeStack := S })) ∧
    (∀ blk b B, self.blockArgStack = b :: B →
      Spec.Outcome (NameInserter.preTransformBlock self ctx blk)
        (fun r => ∀ ctx1 y, NameInserter.postTransformYield r.2.1 ctx1 y =
          .ok (.Send { loc := y.loc, recv := .Local ⟨y.loc, Spec.frameBlockParam b⟩,
                       fun_ := NameRef.call, args := y.args, block := none },
            { r.2.1 with blockArgStack := Spec.frameAfterUse b y.loc :: B }))) ∧
    (∀ fuel e, Spec.Outcome (TreeMap.mapIt fuel self ctx e)
      (fun r => (∃ t1, r.2.1.scopeStack = t1 :: S) ∧
        r.2.1.scopeStack.length = self.scopeStack.length ∧
        r.2.1.blockArgStack.length = self.blockArgStack.length)) ∧
    (∀ fuel ctx0 e, Spec.Outcome (TreeMap.mapIt fuel NameInserter.init ctx0 e)
      (fun r => r.2.1.scopeStack.length = 1 ∧ r.2.1.blockArgStack = [])) := by
  have hne : self.scopeStack ≠ [] := by rw [hs]; exact List.cons_ne_nil _ _
  refine ⟨?_, ?_, ?_, ?_, ?_, ?_, ?_, ?_, ?_⟩
  · intro klass
    refine Outcome_mono _ _ _ (preTransformClassDef_kept self ctx klass) (fun r hr => ?_)
    rw [hr]
    exact ⟨{ scopeId := 0 }, by simp only [NameInserter.enterScope, hs], rfl⟩
  · intro method
    refine Outcome_mono _ _ _ (preTransformMethodDef_kept self ctx method) (fun r hr => ?_)
    obtain ⟨f, b, _, _, hr⟩ := hr
    exact ⟨f, b, by rw [hr, hs], by rw [hr]⟩
  · intro blk
    refine Outcome_mono _ _ _ (preTransformBlock_kept self ctx blk t S hs) (fun r hr => ?_)
    obtain ⟨f, _, _, hr⟩ := hr
    exact ⟨f, by rw [hr], by rw [hr]⟩
  · intro klass
    refine Outcome_mono _ _ _ (postTransformClassDef_kept self ctx klass t S hs)
      (fun r hr => ?_)
    rw [hr]
    exact ⟨rfl, rfl⟩
  · intro method b B u S1 hb hS
    subst hS
    refine Outcome_mono _ _ _ (postTransformMethodDef_kept self ctx method b B t u S1 hb hs)
      (fun r hr => ?_)
    rw [hr]
    exact ⟨rfl, rfl⟩
  · intro blk
    exact postTransformBlock_kept self ctx blk t S hs
  · intro blk b B hb
    refine Outcome_mono _ _ _ (preTransformBlock_kept self ctx blk t S hs) (fun r hr => ?_)
    obtain ⟨f, _, _, hr⟩ := hr
    intro ctx1 y
    rw [hr, hb]
    exact postTransformYield_inMethod _ _ ctx1 y b B
  · intro fuel e
    refine Outcome_mono _ _ _ (mapIt_kept fuel self ctx e hne) (fun r hr => ?_)
    obtain ⟨t1, h1, _⟩ := Kept_top hr t S hs
    obtain ⟨_, hblocks⟩ := hr
    exact ⟨⟨t1, h1⟩, by rw [h1, hs]; rfl, BlockKept_length hblocks⟩
  · intro fuel ctx0 e
    refine Outcome_mono _ _ _
      (mapIt_kept fuel NameInserter.init ctx0 e (List.cons_ne_nil _ _)) (fun r hr => ?_)
    obtain ⟨t1, h1, _⟩ := Kept_top hr { scopeId := 0 } [] rfl
    obtain ⟨_, hblocks⟩ := hr
    have hl := BlockKept_length hblocks
    exact ⟨by rw [h1]; rfl, List.eq_nil_of_length_eq_zero hl⟩

theorem C37_stack_discipline_witness :
    Spec.Outcome
      (TreeMap.mapIt (treeSize Examples.nestedScopesFile + 1) NameInserter.init
        ⟨GlobalState.initial, Symbols.root⟩ Examples.nestedScopesFile)
      (fun r => r.2.1.scopeStack.length = 1 ∧ r.2.1.blockArgStack = []) :=
  (C37_stack_discipline NameInserter.init ⟨GlobalState.initial, Symbols.root⟩
    { scopeId := 0 } [] rfl).2.2.2.2.2.2.2.2 (treeSize Examples.nestedScopesFile + 1)
    ⟨GlobalState.initial, Symbols.root⟩ Examples.nestedScopesFile

/-- The walk of `class A; def f; g { |x| yield }; end; end` from a fresh `NameInserter`
returns, with one scope frame and no block-argument frame. -/
theorem stack_depths_scenario :
    Examples.depthsAfter
      (TreeMap.mapIt (treeSize Examples.nestedScopesFile + 1) NameInserter.init
        ⟨GlobalState.initial, Symbols.root⟩ Examples.nestedScopesFile) = some (1, 0) := by
  decide!

/-! ### Scope ids, block scopes and module_function (C38, C33, C27) -/

theorem postTransformClassDef_counter (self : NameInserter) (ctx : MutableContext)
    (klass : ClassDef) (r : Expression × NameInserter × GlobalState)
    (h : NameInserter.postTransformClassDef self ctx klass = .ok r) :
    r.2.1.scopeCounter = self.scopeCounter := by
  cases hs : self.scopeStack with
  | nil =>
    have he : NameInserter.postTransformClassDef self ctx klass = .error Abort.emptyStack := by
      unfold NameInserter.postTransformClassDef NameInserter.exitScope
      rw [hs]
      rfl
    rw [he] at h
    cases h
  | cons t S =>
    have hk := postTransformClassDef_kept self ctx klass t S hs
    rw [h] at hk
    rw [Outcome_ok_inv _ _ hk]

/-- C38 (defect): scope ids are not unique within a class. `preTransformClassDef` sets the
counter to 0 before it pushes its frame, so the frame of every class body has the scope
id 0 and the counter is 1 afterwards, whatever it was; `postTransformClassDef` returns the
counter as it finds it, so the value of before the nested definition is not restored. In
`def f; g { x }; h { x }; end` the two blocks get the scope ids 2 and 3 and their locals
`x` are two variables; in `def f; g { x }; class << self; def m; end; end; h { x }; end`
the counter is 2 again after the nested class, both blocks get the scope id 2, and the `x`
of the one and the `x` of the other are the same local variable `(x, 2)`. -/
theorem C38_scope_ids_repeat_after_nested_class :
    (∀ (self : NameInserter) (ctx : MutableContext) (klass : ClassDef),
      Spec.Outcome (NameInserter.preTransformClassDef self ctx klass)
        (fun r => r.2.1.scopeCounter = 1 ∧
          r.2.1.scopeStack = { scopeId := 0 } :: self.scopeStack)) ∧
    (∀ (self : NameInserter) (ctx : MutableContext) (klass : ClassDef)
        (r : Expression × NameInserter × GlobalState),
      NameInserter.postTransformClassDef self ctx klass = .ok r →
        r.2.1.scopeCounter = self.scopeCounter) ∧
    Examples.blockLocals (Examples.treeAfter
        (Namer.run ⟨GlobalState.initial, Symbols.root⟩ Examples.twoBlocksFile)) =
      [⟨⟨1, 12⟩, ⟨NameRef.utf8 4, 2⟩⟩, ⟨⟨1, 32⟩, ⟨NameRef.utf8 4, 3⟩⟩] ∧
    Examples.blockLocals (Examples.treeAfter
        (Namer.run ⟨GlobalState.initial, Symbols.root⟩ Examples.twoBlocksAroundClassFile)) =
      [⟨⟨1, 12⟩, ⟨NameRef.utf8 4, 2⟩⟩, ⟨⟨1, 32⟩, ⟨NameRef.utf8 4, 2⟩⟩] := by
  refine ⟨?_, postTransformClassDef_counter, by decide!, by decide!⟩
  intro self ctx klass
  refine Outcome_mono _ _ _ (preTransformClassDef_kept self ctx klass) (fun r hr => ?_)
  rw [hr]
  exact ⟨rfl, rfl⟩

theorem foldl_set_find (f : NameRef → LocalVariable) (hf : ∀ n, (f n)._name = n)
    (names : List NameRef) :
    ∀ (L : Locals) (n : NameRef),
      ((names.map f).foldl (fun l v => l.set v._name v) L).find n =
        if n ∈ names then f n else L.find n := by
  induction names with
  | nil => intro L n; simp
  | cons a rest ih =>
    intro L n
    simp only [List.map_cons, List.foldl_cons, List.mem_cons]
    rw [ih, hf, locals_find_set]
    by_cases h1 : n ∈ rest
    · simp [h1]
    · by_cases h2 : a = n
      · subst h2; simp [h1]
      · have h3 : ¬ n = a := fun e => h2 e.symm
        simp [h1, h2, h3]

theorem preTransformBlock_entry (self : NameInserter) (ctx : MutableContext) (blk : Block)
    (outer : LocalFrame) (rest : List LocalFrame) (parsedArgs : List ParsedArg)
    (hwf : Spec.WF ctx.state) (ho : ctx.owner < ctx.state.symbolsUsed)
    (hs : self.scopeStack = outer :: rest)
    (hloc : ctx.owner = Symbols.noSymbol ∨ ctx.owner = Symbols.root → blk.loc.exists = true)
    (hparse : NameInserter.parseArgs blk.args = .ok parsedArgs)
    (hshadow : Spec.shadowsLast false parsedArgs = true)
    (hfresh : ((Spec.blockOwner ctx blk).2.data (Spec.blockOwner ctx blk).1).members.find
      (Spec.blockName ctx blk) = 0) :
    ∃ nodes frame gs',
      NameInserter.preTransformBlock self ctx blk =
        .ok ({ blk with symbol := (Spec.blockEntered ctx blk).1, args := nodes },
          { scopeStack := frame :: outer :: rest,
            scopeCounter := (self.scopeCounter + 1) % 2 ^ 32,
            blockArgStack := self.blockArgStack },
          gs') ∧
      (gs'.data (Spec.blockEntered ctx blk).1).isBlockSymbol = true ∧
      frame.scopeId = self.scopeCounter ∧
      frame.args = outer.args ++
        parsedArgs.map (fun a => (⟨a.name, self.scopeCounter⟩ : LocalVariable)) ∧
      ∀ n, frame.locals.find n =
        if n ∈ parsedArgs.map (fun a => a.name) then ⟨n, self.scopeCounter⟩
        else outer.locals.find n := by
  obtain ⟨w3, x3, l3, n3, e3, hnew⟩ := blockEntered_spec ctx blk hwf ho
  obtain ⟨_, hblk⟩ := hnew hfresh
  obtain ⟨nodes, syms, gs', f1, f2, _, f4, f5, f6⟩ :=
    fillInArgsLoop_filled (Spec.blockEntered ctx blk).1 parsedArgs 0 false []
      { scopeStack := Spec.blockFrame self outer :: outer :: rest,
        scopeCounter := (self.scopeCounter + 1) % 2 ^ 32,
        blockArgStack := self.blockArgStack }
      (Spec.blockEntered ctx blk).2 (Spec.blockFrame self outer) (outer :: rest) rfl l3 hshadow
  have hlv : ∀ n, Spec.localFor (Spec.blockEntered ctx blk).2 (Spec.blockEntered ctx blk).1
      (Spec.blockFrame self outer) n = ⟨n, self.scopeCounter⟩ := by
    intro n
    simp only [Spec.localFor, hblk, if_true, Spec.blockFrame]
  have hargs : Spec.argLocals (Spec.blockEntered ctx blk).2 (Spec.blockEntered ctx blk).1
      (Spec.blockFrame self outer) parsedArgs =
      (parsedArgs.map (fun a => a.name)).map
        (fun n => (⟨n, self.scopeCounter⟩ : LocalVariable)) := by
    simp only [Spec.argLocals, List.map_map]
    exact List.map_congr_left (fun a _ => hlv a.name)
  refine ⟨nodes, Spec.frameWithArgs (Spec.blockFrame self outer)
    (Spec.argLocals (Spec.blockEntered ctx blk).2 (Spec.blockEntered ctx blk).1
      (Spec.blockFrame self outer) parsedArgs), gs', ?_, ?_, ?_, ?_, ?_⟩
  · have hc : (ctx.owner == Symbols.noSymbol || ctx.owner == Symbols.root) = true →
        blk.loc.exists = true := by
      intro h
      apply hloc
      simpa using h
    simp only [List.nil_append] at f1
    unfold NameInserter.preTransformBlock
    simp only [Spec.blockEntered, Spec.blockOwner, Spec.blockName, Spec.blockCounter,
      Spec.blockFrame, GlobalState.freshNameUnique] at f1 ⊢
    by_cases hc1 : (ctx.owner == Symbols.noSymbol || ctx.owner == Symbols.root) = true
    · have hl := hc hc1
      simp only [hc1, hl, ENFORCE, if_true, bind, Except.bind, pure, Except.pure, hs, back,
        NameInserter.enterScope, modifyBack, hparse, NameInserter.fillInArgs, Bool.not_true,
        Bool.false_eq_true, if_false] at f1 ⊢
      rw [f1]
    · by_cases h2 : (ctx.state.data ctx.owner).isClass = true
      · simp only [hc1, h2, if_true, bind, Except.bind, pure, Except.pure, hs, back,
          NameInserter.enterScope, modifyBack, hparse, NameInserter.fillInArgs,
          Bool.false_eq_true, if_false] at f1 ⊢
        rw [f1]
      · simp only [hc1, h2, if_true, bind, Except.bind, pure, Except.pure, hs, back,
          NameInserter.enterScope, modifyBack, hparse, NameInserter.fillInArgs,
          Bool.false_eq_true, if_false] at f1 ⊢
        rw [f1]
  · have hn := (f6 (Spec.blockEntered ctx blk).1 l3).1
    simp only [Symbol.isBlockSymbol] at hblk ⊢
    rw [hn]
    exact hblk
  · rfl
  · simp only [Spec.frameWithArgs, hargs, List.map_map]
    rfl
  · intro n
    simp only [Spec.frameWithArgs, hargs]
    rw [foldl_set_find (fun n => (⟨n, self.scopeCounter⟩ : LocalVariable)) (fun _ => rfl)]
    rfl

theorem localFor_eq_iff (gs : GlobalState) (owner : SymbolRef) (top : LocalFrame)
    (n : NameRef) (c : Nat) :
    Spec.localFor gs owner top n = ⟨n, c⟩ ↔
      (if (gs.data owner).isBlockSymbol then top.scopeId else 0) = c := by
  unfold Spec.localFor
  by_cases h : (gs.data owner).isBlockSymbol = true
  · simp [h]
  · simp only [h, if_false, Bool.false_eq_true]
    constructor
    · intro e; injection e
    · intro e; rw [e]

/-- C33: the scope of a block. Let the table be well formed, the owner allocated, `outer` the
top frame, the parameters of the block parse to `parsedArgs` with the shadow parameters
last, and the name of the block symbol be fresh. Then `preTransformBlock` returns, with a
new frame `frame` pushed on `outer`, and the symbol of the block is a block symbol.
(1) The scope id of `frame` is the scope counter `c` of before; its `args` are those of
`outer` followed by the parameters, and its `locals` are those of `outer` overridden by
the parameters, each bound to `(name, c)`.
(2) An identifier of the body whose name `frame` binds becomes the `Local` of that binding:
for a name that is no parameter this is the variable that `outer` binds, the same as
outside. (3) A name that the top frame of the body does not bind is given `(name, c)`.
(4) The walk of the whole block, when it returns, returns the scope stack as it was, so
that `outer` has exactly the `locals` and `args` of before, and it never reads an empty
stack. (5) A name that `outer` does not bind is therefore not bound after the block, and a
use of it is given the variable of `enterLocal` in `outer`; that variable is the one of
(3) exactly when the scope id of `outer` (0 when the owner is no block) equals `c`. -/
theorem C33_block_scope (self : NameInserter) (ctx : MutableContext) (blk : Block)
    (outer : LocalFrame) (rest : List LocalFrame) (parsedArgs : List ParsedArg)
    (hwf : Spec.WF ctx.state) (ho : ctx.owner < ctx.state.symbolsUsed)
    (hs : self.scopeStack = outer :: rest)
    (hloc : ctx.owner = Symbols.noSymbol ∨ ctx.owner = Symbols.root → blk.loc.exists = true)
    (hparse : NameInserter.parseArgs blk.args = .ok parsedArgs)
    (hshadow : Spec.shadowsLast false parsedArgs = true)
    (hfresh : ((Spec.blockOwner ctx blk).2.data (Spec.blockOwner ctx blk).1).members.find
      (Spec.blockName ctx blk) = 0) :
    (∃ nodes frame gs',
      NameInserter.preTransformBlock self ctx blk =
        .ok ({ blk with symbol := (Spec.blockEntered ctx blk).1, args := nodes },
          { scopeStack := frame :: outer :: rest,
            scopeCounter := (self.scopeCounter + 1) % 2 ^ 32,
            blockArgStack := self.blockArgStack },
          gs') ∧
      (gs'.data (Spec.blockEntered ctx blk).1).isBlockSymbol = true ∧
      frame.scopeId = self.scopeCounter ∧
      frame.args = outer.args ++
        parsedArgs.map (fun a => (⟨a.name, self.scopeCounter⟩ : LocalVariable)) ∧
      (∀ n, frame.locals.find n =
        if n ∈ parsedArgs.map (fun a => a.name) then ⟨n, self.scopeCounter⟩
        else outer.locals.find n) ∧
      (∀ (inner : NameInserter) (ctx1 : MutableContext) (loc : Loc) (n : NameRef),
        inner.scopeStack = frame :: outer :: rest → (frame.locals.find n).exists = true →
        NameInserter.postTransformUnresolvedIdent inner ctx1 ⟨loc, IdentKind.Local, n⟩ =
          .ok (.Local ⟨loc, frame.locals.find n⟩, inner, ctx1.state))) ∧
    (∀ (inner : NameInserter) (top : LocalFrame) (ctx1 : MutableContext) (loc : Loc)
        (n : NameRef),
      inner.scopeStack = top :: outer :: rest → top.scopeId = self.scopeCounter →
      (ctx1.state.data ctx1.owner).isBlockSymbol = true →
      (top.locals.find n).exists = false →
      ∃ inner1, NameInserter.postTransformUnresolvedIdent inner ctx1 ⟨loc, IdentKind.Local, n⟩ =
        .ok (.Local ⟨loc, ⟨n, self.scopeCounter⟩⟩, inner1, ctx1.state)) ∧
    (∀ fuel, Spec.Outcome (TreeMap.mapBlock (TreeMap.mapIt fuel) self ctx blk)
      (fun r => r.2.1.scopeStack = outer :: rest)) ∧
    (∀ (after : NameInserter) (ctx2 : MutableContext) (loc : Loc) (n : NameRef),
      after.scopeStack = outer :: rest → (outer.locals.find n).exists = false →
      ∃ after1, NameInserter.postTransformUnresolvedIdent after ctx2 ⟨loc, IdentKind.Local, n⟩ =
          .ok (.Local ⟨loc, Spec.localFor ctx2.state ctx2.owner outer n⟩, after1, ctx2.state) ∧
        (Spec.localFor ctx2.state ctx2.owner outer n = ⟨n, self.scopeCounter⟩ ↔
          (if (ctx2.state.data ctx2.owner).isBlockSymbol then outer.scopeId else 0) =
            self.scopeCounter)) := by
  refine ⟨?_, ?_, ?_, ?_⟩
  · obtain ⟨nodes, frame, gs', h1, h2, h3, h4, h5⟩ :=
      preTransformBlock_entry self ctx blk outer rest parsedArgs hwf ho hs hloc hparse hshadow
        hfresh
    refine ⟨nodes, frame, gs', h1, h2, h3, h4, h5, ?_⟩
    intro inner ctx1 loc n hin hb
    exact postTransformUnresolvedIdent_bound inner ctx1 loc n frame (outer :: rest) hin hb
  · intro inner top ctx1 loc n hin hid hblk hb
    have hu := postTransformUnresolvedIdent_unbound inner ctx1 loc n top (outer :: rest) hin hb
    have hl : Spec.localFor ctx1.state ctx1.owner top n = ⟨n, self.scopeCounter⟩ := by
      simp only [Spec.localFor, hblk, if_true, hid]
    rw [hl] at hu
    exact ⟨_, hu⟩
  · intro fuel
    have hne : self.scopeStack ≠ [] := by rw [hs]; exact List.cons_ne_nil _ _
    refine Outcome_mono _ _ _ (mapBlock_kept _ (mapIt_kept fuel) self ctx blk hne)
      (fun r hr => ?_)
    rw [hr.1, hs]
  · intro after ctx2 loc n hin hb
    exact ⟨_, postTransformUnresolvedIdent_unbound after ctx2 loc n outer rest hin hb,
      localFor_eq_iff _ _ _ _ _⟩

/-- Witness of C33: the block `{ |x| }` entered in the body of `class Object` over the
initial table, with the scope counter at 1: the pushed frame has the scope id 1 and binds
`x` to `(x, 1)`. -/
theorem C33_block_scope_witness :
    ∃ frame : LocalFrame, frame.scopeId = 1 ∧
      frame.locals.find (NameRef.utf8 4) = ⟨NameRef.utf8 4, 1⟩ ∧
      ∃ p, NameInserter.preTransformBlock Examples.atFileBody
          ⟨GlobalState.initial, Symbols.Object⟩ Examples.paramBlock = .ok p ∧
        p.2.1.scopeStack = [frame, { scopeId := 0 }, { scopeId := 0 }] :=
  match (C33_block_scope Examples.atFileBody ⟨GlobalState.initial, Symbols.Object⟩
      Examples.paramBlock { scopeId := 0 } [{ scopeId := 0 }]
      [{ name := NameRef.utf8 4, loc := ⟨1, 4⟩ }]
      WF_initial (by decide) rfl (fun h => absurd h (by decide)) rfl (by decide)
      (by decide!)).1 with
  | ⟨_, frame, _, h1, _, h3, _, h5, _⟩ =>
    ⟨frame, h3, (h5 (NameRef.utf8 4)).trans (by decide), _, h1, rfl⟩

/-- Evidence for C33. In `g { h { x }; x }` at the top level the `x` of the inner block is
`(x, 2)` and the `x` after it is another variable, `(x, 1)`. In
`g { class A; end; h { x }; x }` the counter is 1 again after the class, the inner block
gets the scope id 1 of the enclosing block, and the `x` first introduced inside `h { x }`
and the later `x` outside it are the same local variable `(x, 1)`. -/
theorem block_local_after_class_scenario :
    Examples.blockInBlockLocals (Examples.treeAfter
        (Namer.run ⟨GlobalState.initial, Symbols.root⟩ (Examples.blockInBlockFile []))) =
      [⟨⟨1, 32⟩, ⟨NameRef.utf8 4, 2⟩⟩, ⟨⟨1, 40⟩, ⟨NameRef.utf8 4, 1⟩⟩] ∧
    Examples.blockInBlockLocals (Examples.treeAfter
        (Namer.run ⟨GlobalState.initial, Symbols.root⟩
          (Examples.blockInBlockFile
            [.ClassDef (Examples.classDef 1 20 ClassDefKind.Class 10 [])]))) =
      [⟨⟨1, 32⟩, ⟨NameRef.utf8 4, 1⟩⟩, ⟨⟨1, 40⟩, ⟨NameRef.utf8 4, 1⟩⟩] := by
  refine ⟨?_, ?_⟩ <;> decide!

theorem moduleFunction_bare (self : NameInserter) (ctx : MutableContext) (t : LocalFrame)
    (S : List LocalFrame) (hs : self.scopeStack = t :: S) (loc : Loc) (recv : Expression)
    (block : Option Block) (hrecv : recv.isSelf = true) :
    NameInserter.postTransformSend self ctx ⟨loc, recv, NameRef.moduleFunction, [], block⟩ =
      .ok (.Send ⟨loc, recv, NameRef.moduleFunction, [], block⟩,
        { self with scopeStack := { t with moduleFunctionActive := true } :: S }, ctx.state) := by
  rw [postTransformSend_plain self ctx ⟨loc, recv, NameRef.moduleFunction, [], block⟩ rfl]
  simp only [hrecv, if_true, beq_self_eq_true, List.isEmpty_nil, hs, modifyBack, bind,
    Except.bind, pure, Except.pure]

theorem aliasModuleFunction_kept {α : Type} (p : Symbol → α)
    (hp : ∀ (s : Symbol) (m : Members), p { s with members := m } = p s)
    (hq : ∀ (s : Symbol) (m : Members) (t : SymbolRef),
      p (Symbol.setIsModule { s with members := m, superClass := t } false) = p s)
    (hr : ∀ (s : Symbol) (t : Option TypePtr), p { s with resultType := t } = p s)
    (gs : GlobalState) (o m r : SymbolRef) (hlt : r < gs.symbolsUsed) :
    p ((NameInserter.aliasModuleFunction ⟨gs, o⟩ m).data r) = p (gs.data r) := by
  unfold NameInserter.aliasModuleFunction NameInserter.aliasMethod
  dsimp only
  rw [update_proj p _ _ _ r (hr _ _)]
  unfold GlobalState.enterMethodSymbol
  rw [enterSymbol_proj p hp _ _ _ _ _ r
    (Nat.lt_of_lt_of_le hlt (singletonClass_used_le gs _))]
  exact singletonClass_proj p hp hq gs _ r hlt

theorem aliasModuleFunction_spec (gs : GlobalState) (o m : SymbolRef) (hwf : Spec.WF gs)
    (hm : m < gs.symbolsUsed) (ho : (gs.data m).owner < gs.symbolsUsed) :
    ((NameInserter.aliasModuleFunction ⟨gs, o⟩ m).data
        (gs.singletonClass (gs.data m).owner).1).members.find (gs.data m).name ≠ 0 ∧
    ((NameInserter.aliasModuleFunction ⟨gs, o⟩ m).data
      (((NameInserter.aliasModuleFunction ⟨gs, o⟩ m).data
        (gs.singletonClass (gs.data m).owner).1).members.find (gs.data m).name)).resultType =
      some (TypePtr.alias m) ∧
    (((gs.singletonClass (gs.data m).owner).2.data
        (gs.singletonClass (gs.data m).owner).1).members.find (gs.data m).name = 0 →
      ((NameInserter.aliasModuleFunction ⟨gs, o⟩ m).data
        (gs.singletonClass (gs.data m).owner).1).members.find (gs.data m).name =
          (gs.singletonClass (gs.data m).owner).2.symbolsUsed ∧
      ((NameInserter.aliasModuleFunction ⟨gs, o⟩ m).data
        (gs.singletonClass (gs.data m).owner).2.symbolsUsed).kind = .method ∧
      ((NameInserter.aliasModuleFunction ⟨gs, o⟩ m).data
        (gs.singletonClass (gs.data m).owner).2.symbolsUsed).owner =
          (gs.singletonClass (gs.data m).owner).1 ∧
      ((NameInserter.aliasModuleFunction ⟨gs, o⟩ m).data
        (gs.singletonClass (gs.data m).owner).2.symbolsUsed).name = (gs.data m).name) ∧
    (∀ r, r ≠ (gs.singletonClass (gs.data m).owner).1 →
      r ≠ ((NameInserter.aliasModuleFunction ⟨gs, o⟩ m).data
        (gs.singletonClass (gs.data m).owner).1).members.find (gs.data m).name →
      (NameInserter.aliasModuleFunction ⟨gs, o⟩ m).data r =
        (gs.singletonClass (gs.data m).owner).2.data r) := by
  have hn : ((gs.singletonClass (gs.data m).owner).2.data m).name = (gs.data m).name :=
    singletonClass_proj (fun s => s.name) (fun _ _ => rfl)
      (fun s mm t => setIsModule_name _ _) gs _ m hm
  obtain ⟨_, _, hlt, _⟩ := singletonClass_spec gs hwf (gs.data m).owner ho
  have h := aliasMethod_entered (gs.singletonClass (gs.data m).owner).2 o
    (gs.singletonClass (gs.data m).owner).1 (gs.data m).name m hlt
  have e : NameInserter.aliasModuleFunction ⟨gs, o⟩ m =
      NameInserter.aliasMethod ⟨(gs.singletonClass (gs.data m).owner).2, o⟩
        (gs.singletonClass (gs.data m).owner).1 (gs.data m).name m := by
    unfold NameInserter.aliasModuleFunction
    dsimp only
    rw [hn]
  rw [e]
  obtain ⟨_, h2, h3, _, h5, h6⟩ := h
  exact ⟨h2, h3, fun h0 => ⟨(h5 h0).1, (h5 h0).2.2.1, (h5 h0).2.2.2.1, (h5 h0).2.2.2.2⟩, h6⟩

/-- C27: `module_function` without arguments. With the frame `t` on top of the scope stack:
(1) a bare `self.module_function` returns the `Send` and the table as they are and sets
`moduleFunctionActive` on `t`, and on no other frame.
(2) The flag is never cleared while the frame lives: the walk of any subtree from a stack
whose top frame has the flag set never reads an empty stack and returns with the frames
below the top unchanged and the flag of the top frame still set.
(3) `postTransformMethodDef` looks at the frame `encl` below that of the method: when the
assertions of the handler hold, the table it returns is that of
`aliasModuleFunction(method)` if the flag of `encl` is set, and otherwise the table it had
(after the discovered block argument, if any, has been entered); so a method whose
post-transform runs before the call, or under another enclosing frame, is not aliased.
(4) On a well-formed table with an allocated method whose owner is allocated,
`aliasModuleFunction` leaves a member of the singleton class of the owner under the
method's own name, with result type `Alias(method)`: a new method symbol owned by the
singleton class when it had no member of that name; every symbol but the singleton class
and the alias is as the lookup of the singleton class leaves it, and
(5) every allocated symbol, the method among them, keeps its name, kind, owner and
arguments.
(6) The frames that `preTransformClassDef`, `preTransformMethodDef` and
`preTransformBlock` push start with the flag unset, so that the methods of a nested class
body are not aliased on account of `t`. -/
theorem C27_module_function_scope (self : NameInserter) (ctx : MutableContext)
    (t : LocalFrame) (S : List LocalFrame) (hs : self.scopeStack = t :: S) :
    (∀ (loc : Loc) (recv : Expression) (block : Option Block), recv.isSelf = true →
      NameInserter.postTransformSend self ctx ⟨loc, recv, NameRef.moduleFunction, [], block⟩ =
        .ok (.Send ⟨loc, recv, NameRef.moduleFunction, [], block⟩,
          { self with scopeStack := { t with moduleFunctionActive := true } :: S },
          ctx.state)) ∧
    (∀ (fuel : Nat) (self1 : NameInserter) (ctx1 : MutableContext) (e : Expression)
        (t1 : LocalFrame),
      self1.scopeStack = t1 :: S → t1.moduleFunctionActive = true →
      Spec.Outcome (TreeMap.mapIt fuel self1 ctx1 e)
        (fun r => ∃ t2, r.2.1.scopeStack = t2 :: S ∧ t2.moduleFunctionActive = true)) ∧
    (∀ (inner : NameInserter) (ctx1 : MutableContext) (method : MethodDef) (b : BlockArgs)
        (B : List BlockArgs) (top encl : LocalFrame) (frames : List LocalFrame),
      inner.blockArgStack = b :: B → inner.scopeStack = top :: encl :: frames →
      (b.discovered.exists = false → method.symbol < ctx1.state.symbolsUsed →
        method.args.length = (ctx1.state.data method.symbol).arguments.length →
        NameInserter.postTransformMethodDef inner ctx1 method =
          .ok (method, { inner with blockArgStack := B, scopeStack := encl :: frames },
            if encl.moduleFunctionActive then
              NameInserter.aliasModuleFunction ctx1 method.symbol
            else ctx1.state)) ∧
      (b.discovered = ⟨NameRef.blkArg, 0⟩ →
        method.symbol < (Spec.blockArgAppended ctx1.state method.symbol).symbolsUsed →
        method.args.length + 1 =
          ((Spec.blockArgAppended ctx1.state method.symbol).data
            method.symbol).arguments.length →
        NameInserter.postTransformMethodDef inner ctx1 method =
          .ok ({ method with
                  args := method.args ++
                    [Expression.Local ⟨b.discoveredLoc, ⟨NameRef.blkArg, 0⟩⟩] },
            { inner with blockArgStack := B, scopeStack := encl :: frames },
            if encl.moduleFunctionActive then
              NameInserter.aliasModuleFunction
                ⟨Spec.blockArgAppended ctx1.state method.symbol, ctx1.owner⟩ method.symbol
            else Spec.blockArgAppended ctx1.state method.symbol))) ∧
    (∀ (gs : GlobalState) (o m : SymbolRef), Spec.WF gs → m < gs.symbolsUsed →
      (gs.data m).owner < gs.symbolsUsed →
      ((NameInserter.aliasModuleFunction ⟨gs, o⟩ m).data
          (gs.singletonClass (gs.data m).owner).1).members.find (gs.data m).name ≠ 0 ∧
      ((NameInserter.aliasModuleFunction ⟨gs, o⟩ m).data
        (((NameInserter.aliasModuleFunction ⟨gs, o⟩ m).data
          (gs.singletonClass (gs.data m).owner).1).members.find
            (gs.data m).name)).resultType = some (TypePtr.alias m) ∧
      (((gs.singletonClass (gs.data m).owner).2.data
          (gs.singletonClass (gs.data m).owner).1).members.find (gs.data m).name = 0 →
        ((NameInserter.aliasModuleFunction ⟨gs, o⟩ m).data
          (gs.singletonClass (gs.data m).owner).1).members.find (gs.data m).name =
            (gs.singletonClass (gs.data m).owner).2.symbolsUsed ∧
        ((NameInserter.aliasModuleFunction ⟨gs, o⟩ m).data
          (gs.singletonClass (gs.data m).owner).2.symbolsUsed).kind = .method ∧
        ((NameInserter.aliasModuleFunction ⟨gs, o⟩ m).data
          (gs.singletonClass (gs.data m).owner).2.symbolsUsed).owner =
            (gs.singletonClass (gs.data m).owner).1 ∧
        ((NameInserter.aliasModuleFunction ⟨gs, o⟩ m).data
          (gs.singletonClass (gs.data m).owner).2.symbolsUsed).name = (gs.data m).name) ∧
      (∀ r, r ≠ (gs.singletonClass (gs.data m).owner).1 →
        r ≠ ((NameInserter.aliasModuleFunction ⟨gs, o⟩ m).data
          (gs.singletonClass (gs.data m).owner).1).members.find (gs.data m).name →
        (NameInserter.aliasModuleFunction ⟨gs, o⟩ m).data r =
          (gs.singletonClass (gs.data m).owner).2.data r)) ∧
    (∀ (gs : GlobalState) (o m r : SymbolRef), r < gs.symbolsUsed →
      ((NameInserter.aliasModuleFunction ⟨gs, o⟩ m).data r).name = (gs.data r).name ∧
      ((NameInserter.aliasModuleFunction ⟨gs, o⟩ m).data r).kind = (gs.data r).kind ∧
      ((NameInserter.aliasModuleFunction ⟨gs, o⟩ m).data r).owner = (gs.data r).owner ∧
      ((NameInserter.aliasModuleFunction ⟨gs, o⟩ m).data r).arguments =
        (gs.data r).arguments) ∧
    (∀ klass, Spec.Outcome (NameInserter.preTransformClassDef self ctx klass)
      (fun r => ∃ f, r.2.1.scopeStack = f :: t :: S ∧ f.moduleFunctionActive = false)) ∧
    (∀ method, Spec.Outcome (NameInserter.preTransformMethodDef self ctx method)
      (fun r => ∃ f, r.2.1.scopeStack = f :: t :: S ∧ f.moduleFunctionActive = false)) ∧
    (∀ blk, Spec.Outcome (NameInserter.preTransformBlock self ctx blk)
      (fun r => ∃ f, r.2.1.scopeStack = f :: t :: S ∧ f.moduleFunctionActive = false)) := by
  refine ⟨?_, ?_, ?_, ?_, ?_, ?_, ?_, ?_⟩
  · intro loc recv block hrecv
    exact moduleFunction_bare self ctx t S hs loc recv block hrecv
  · intro fuel self1 ctx1 e t1 h1 hflag
    have hne : self1.scopeStack ≠ [] := by rw [h1]; exact List.cons_ne_nil _ _
    refine Outcome_mono _ _ _ (mapIt_kept fuel self1 ctx1 e hne) (fun r hr => ?_)
    obtain ⟨t2, e2, k⟩ := Kept_top hr t1 S h1
    exact ⟨t2, e2, k.flag hflag⟩
  · intro inner ctx1 method b B top encl frames hb hst
    refine ⟨?_, ?_⟩
    · intro hd hm hlen
      exact postTransformMethodDef_plain inner ctx1 method b B top encl frames hb hd hst hm hlen
    · intro hd hm hlen
      exact postTransformMethodDef_discovered inner ctx1 method b B top encl frames hb hd hst hm
        hlen
  · intro gs o m hwf hm ho
    exact aliasModuleFunction_spec gs o m hwf hm ho
  · intro gs o m r hr
    refine ⟨?_, ?_, ?_, ?_⟩
    · exact aliasModuleFunction_kept (fun s => s.name) (fun _ _ => rfl)
        (fun _ _ _ => setIsModule_name _ _) (fun _ _ => rfl) gs o m r hr
    · exact aliasModuleFunction_kept (fun s => s.kind) (fun _ _ => rfl)
        (fun _ _ _ => setIsModule_kind _ _) (fun _ _ => rfl) gs o m r hr
    · exact aliasModuleFunction_kept (fun s => s.owner) (fun _ _ => rfl)
        (fun _ _ _ => setIsModule_owner _ _) (fun _ _ => rfl) gs o m r hr
    · exact aliasModuleFunction_kept (fun s => s.arguments) (fun _ _ => rfl)
        (fun s mm tt => by unfold Symbol.setIsModule; split <;> rfl) (fun _ _ => rfl) gs o m r hr
  · intro klass
    refine Outcome_mono _ _ _ (preTransformClassDef_kept self ctx klass) (fun r hr => ?_)
    rw [hr]
    exact ⟨{ scopeId := 0 }, by simp only [NameInserter.enterScope, hs], rfl⟩
  · intro method
    refine Outcome_mono _ _ _ (preTransformMethodDef_kept self ctx method) (fun r hr => ?_)
    obtain ⟨f, b, _, hf, hr⟩ := hr
    exact ⟨f, by rw [hr, hs], hf⟩
  · intro blk
    refine Outcome_mono _ _ _ (preTransformBlock_kept self ctx blk t S hs) (fun r hr => ?_)
    obtain ⟨f, _, hf, hr⟩ := hr
    exact ⟨f, by rw [hr], hf⟩

/-- Witness of C27: a bare `self.module_function` visited in the body of a file: the flag is
set on the top frame, the frame below stays as it is. -/
theorem C27_module_function_scope_witness :
    NameInserter.postTransformSend Examples.atFileBody ⟨GlobalState.initial, Symbols.Object⟩
        ⟨⟨1, 3⟩, .Self ⟨⟨1, 3⟩, Symbols.noSymbol⟩, NameRef.moduleFunction, [], none⟩ =
      .ok (.Send ⟨⟨1, 3⟩, .Self ⟨⟨1, 3⟩, Symbols.noSymbol⟩, NameRef.moduleFunction, [], none⟩,
        { Examples.atFileBody with
          scopeStack := [{ scopeId := 0, moduleFunctionActive := true }, { scopeId := 0 }] },
        GlobalState.initial) :=
  (C27_module_function_scope Examples.atFileBody ⟨GlobalState.initial, Symbols.Object⟩
    { scopeId := 0 } [{ scopeId := 0 }] rfl).1 ⟨1, 3⟩ (.Self ⟨⟨1, 3⟩, Symbols.noSymbol⟩) none rfl

/-- The file
`module M; def a; end; module_function; def b; end; class C; def c; end; end; def d; end; end`
named from the initial table: of the methods of `M`, `b` and `d`, defined after the call,
have an alias on the singleton class of `M`, and `a`, defined before it, has none; the
method `c` of the nested class has no alias on the singleton class of `C`. -/
theorem module_function_scenario :
    Examples.moduleM ≠ 0 ∧ Examples.classC ≠ 0 ∧
    Examples.moduleFunctionTable.findMember Examples.classC NameRef.singleton ≠ 0 ∧
    (Examples.moduleFunctionTable.data Examples.classC).members.find (NameRef.utf8 43) ≠ 0 ∧
    Examples.aliasedOnSingleton Examples.moduleFunctionTable Examples.moduleM
      [41, 42, 43, 44] = [42, 44] ∧
    Examples.aliasedOnSingleton Examples.moduleFunctionTable Examples.classC
      [41, 42, 43, 44] = [] := by
  refine ⟨?_, ?_, ?_, ?_, ?_, ?_⟩ <;> decide!

/-! ### Arguments entered by fillInArgs (C22, C17) -/

theorem argsEntered_spec (owner : SymbolRef) (parsedArgs : List ParsedArg) :
    ∀ (i : Nat) (inShadows : Bool) (args : List Expression) (self : NameInserter)
      (gs : GlobalState) (top : LocalFrame) (rest : List LocalFrame),
      self.scopeStack = top :: rest → owner < gs.symbolsUsed →
      Spec.shadowsLast inShadows parsedArgs = true →
      ∃ nodes syms gs' selfF,
        Spec.argsEntered owner parsedArgs i self gs = .ok (nodes, syms, gs') ∧
        NameInserter.fillInArgsLoop owner parsedArgs i inShadows args self gs =
          .ok (args ++ nodes, selfF, gs') ∧
        nodes.length = parsedArgs.length ∧
        syms.length = (parsedArgs.filter (fun a => !a.shadow)).length ∧
        ((inShadows = false → (gs.data owner).arguments.length = i) →
          (gs'.data owner).arguments = (gs.data owner).arguments ++ syms ∧
          nodes = parsedArgs.map (Spec.enteredNode (Spec.localFor gs owner top))) := by
  induction parsedArgs with
  | nil =>
    intro i inShadows args self gs top rest hs _ _
    refine ⟨[], [], gs, self, rfl, ?_, rfl, rfl, fun _ => ⟨by simp, rfl⟩⟩
    simp [NameInserter.fillInArgsLoop, pure, Except.pure]
  | cons a l ih =>
    intro i inShadows args self gs top rest hs ho hsh
    have hrec : Spec.argRecorded self a.name (Spec.localFor gs owner top a.name) =
        { self with scopeStack :=
            { top with
              locals := top.locals.set a.name (Spec.localFor gs owner top a.name),
              args := top.args ++ [Spec.localFor gs owner top a.name] } :: rest } := by
      simp only [Spec.argRecorded, hs]
    cases ha : a.shadow
    · cases inShadows
      · simp only [Spec.shadowsLast, ha, Bool.false_eq_true, if_false, Bool.not_false,
          Bool.true_and] at hsh
        obtain ⟨s, node, gs1, h1, h2, h3, h4, h5, h6, h7⟩ :=
          arg2Symbol_owner self gs owner i a top rest hs ho
        obtain ⟨s', node', gs1', h1', _, _, _, _, _, hstep⟩ :=
          fillInArgsLoop_plain owner a l i args self gs top rest hs ho ha
        rw [h1] at h1'
        injection h1' with h1'
        injection h1' with e1 e2
        injection e2 with e2 e3
        subst e1 e2 e3
        have hlist : Spec.argListed gs1 owner i s =
            (if i < (gs.data owner).arguments.length then gs1
             else gs1.update owner (fun o => { o with arguments := o.arguments ++ [s] })) := by
          simp only [Spec.argListed, h4]
        generalize hg2 : (if i < (gs.data owner).arguments.length then gs1
            else gs1.update owner (fun o => { o with arguments := o.arguments ++ [s] })) = gs2
          at hstep hlist
        have hu2 : gs2.symbolsUsed = gs1.symbolsUsed := by
          rw [← hg2]; split
          · rfl
          · rw [update_symbolsUsed]
        have hn2 : (gs2.data owner).name = (gs.data owner).name := by
          rw [← hg2]; split
          · exact (h5 owner ho).1
          · rw [data_update]; simp only [if_true]; exact (h5 owner ho).1
        have hlf := localFor_congr gs gs2 owner top
          { top with
            locals := top.locals.set a.name (Spec.localFor gs owner top a.name),
            args := top.args ++ [Spec.localFor gs owner top a.name] } hn2 rfl
        obtain ⟨nodes, syms, gs', selfF, k1, k2, l1, l2, k3⟩ := ih (i + 1) false (args ++ [node])
          { self with scopeStack :=
              { top with
                locals := top.locals.set a.name (Spec.localFor gs owner top a.name),
                args := top.args ++ [Spec.localFor gs owner top a.name] } :: rest }
          gs2 _ rest rfl (by rw [hu2]; exact Nat.lt_of_lt_of_le ho h2) hsh
        refine ⟨node :: nodes, s :: syms, gs', selfF, ?_, ?_, by simp [l1], by simp [ha, l2], ?_⟩
        · simp only [Spec.argsEntered, enterLocal_localFor self gs owner a.name top rest hs, ha,
            h1, hrec, hlist, k1, bind, Except.bind, pure, Except.pure, Bool.false_eq_true,
            if_false]
        · rw [hstep, k2]
          simp
        · intro harg
          have hlen := harg rfl
          have hi : ¬ i < (gs.data owner).arguments.length := by
            rw [hlen]; exact Nat.lt_irrefl _
          simp only [hi, if_false] at hg2
          have harg2 : (gs2.data owner).arguments = (gs.data owner).arguments ++ [s] := by
            rw [← hg2]; simp [data_update, h4]
          obtain ⟨q1, q2⟩ := k3 (by intro _; rw [harg2]; simp [hlen])
          refine ⟨by rw [q1, harg2]; simp, ?_⟩
          rw [q2, hlf, List.map_cons]
          congr 1
          rw [h7 hi]
          simp [Spec.enteredNode, ha]
      · simp [Spec.shadowsLast, ha] at hsh
    · simp only [Spec.shadowsLast, ha, if_true] at hsh
      have hlf := localFor_congr gs gs owner top
        { top with
          locals := top.locals.set a.name (Spec.localFor gs owner top a.name),
          args := top.args ++ [Spec.localFor gs owner top a.name] } rfl rfl
      obtain ⟨nodes, syms, gs', selfF, k1, k2, l1, l2, k3⟩ := ih (i + 1) true
        (args ++ [Expression.Local ⟨a.loc, Spec.localFor gs owner top a.name⟩])
        { self with scopeStack :=
            { top with
              locals := top.locals.set a.name (Spec.localFor gs owner top a.name),
              args := top.args ++ [Spec.localFor gs owner top a.name] } :: rest }
        gs _ rest rfl ho hsh
      refine ⟨Expression.Local ⟨a.loc, Spec.localFor gs owner top a.name⟩ :: nodes, syms, gs',
        selfF, ?_, ?_, by simp [l1], by simp [ha, l2], ?_⟩
      · simp only [Spec.argsEntered, enterLocal_localFor self gs owner a.name top rest hs, ha,
          hrec, k1, bind, Except.bind, pure, Except.pure, if_true]
      · rw [fillInArgsLoop_shadow owner a l i inShadows args self gs top rest hs ha, k2]
        simp
      · intro harg
        obtain ⟨q1, q2⟩ := k3 (by intro h; cases h)
        refine ⟨q1, ?_⟩
        rw [q2, hlf, List.map_cons]
        simp [Spec.enteredNode, ha]

/-- C22: `fillInArgs` on a list in which all shadow arguments come last, with a frame `top`
on the scope stack and an allocated owner. It returns one node per parsed argument, in
order, and these nodes, the symbols `syms` and the table are those of the calls that the
loop makes, each in the state that the calls before it have left (`Spec.argsEntered`): a
shadow argument yields a bare `Local` of the variable of `enterLocal` and no symbol, every
other argument at position `i` the node and the symbol that `arg2Symbol(i, arg)` returns.
There are as many symbols as non-shadow arguments. On an owner with no prior arguments the
owner ends with exactly the argument symbols `syms`, in order, and the nodes are
`OptionalArg(Local, default)` or `Local` for the non-shadow arguments and `Local` for the
shadow arguments (`Spec.enteredNode`). The top frame ends as `Spec.frameWithArgs`: every
argument, shadow or not, is bound in `locals` under its name and appended to `args`, in
order. -/
theorem C22_fillInArgs_spec (self : NameInserter) (ctx : MutableContext)
    (parsedArgs : List ParsedArg) (top : LocalFrame) (rest : List LocalFrame)
    (hs : self.scopeStack = top :: rest) (ho : ctx.owner < ctx.state.symbolsUsed)
    (hsh : Spec.shadowsLast false parsedArgs = true) :
    ∃ nodes syms gs',
      NameInserter.fillInArgs self ctx parsedArgs =
        .ok (nodes,
          { self with
            scopeStack :=
              Spec.frameWithArgs top (Spec.argLocals ctx.state ctx.owner top parsedArgs) :: rest },
          gs') ∧
      Spec.argsEntered ctx.owner parsedArgs 0 self ctx.state = .ok (nodes, syms, gs') ∧
      nodes.length = parsedArgs.length ∧
      syms.length = (parsedArgs.filter (fun a => !a.shadow)).length ∧
      ((ctx.state.data ctx.owner).arguments = [] →
        (gs'.data ctx.owner).arguments = syms ∧
        nodes = parsedArgs.map
          (Spec.enteredNode (Spec.localFor ctx.state ctx.owner top))) := by
  obtain ⟨nodes, _, gs', h1, _⟩ :=
    fillInArgsLoop_filled ctx.owner parsedArgs 0 false [] self ctx.state top rest hs ho hsh
  obtain ⟨nodes2, syms, gs2, selfF, k1, k2, l1, l2, k3⟩ :=
    argsEntered_spec ctx.owner parsedArgs 0 false [] self ctx.state top rest hs ho hsh
  rw [h1] at k2
  injection k2 with k2
  injection k2 with e1 e2
  injection e2 with e2 e3
  simp only [List.nil_append] at e1
  subst e1 e3
  refine ⟨nodes, syms, gs', ?_, k1, l1, l2, ?_⟩
  · unfold NameInserter.fillInArgs
    rw [h1]; simp
  · intro hnew
    obtain ⟨q1, q2⟩ := k3 (by intro _; rw [hnew]; rfl)
    exact ⟨by rw [q1, hnew]; rfl, q2⟩

/-- Witness of C22: the arguments `b; c` (`c` a shadow argument) filled in for `Object` of
the initial table, which has no arguments: two bare `Local` nodes, and the one symbol 7,
which `arg2Symbol` returns for `b`, as the arguments of `Object`. -/
theorem C22_fillInArgs_spec_witness :
    ∃ nodes gs',
      NameInserter.fillInArgs NameInserter.init ⟨GlobalState.initial, Symbols.Object⟩
          [Examples.plainParsedArg, Examples.shadowParsedArg] =
        .ok (nodes,
          { NameInserter.init with
            scopeStack :=
              Spec.frameWithArgs { scopeId := 0 }
                (Spec.argLocals GlobalState.initial Symbols.Object { scopeId := 0 }
                  [Examples.plainParsedArg, Examples.shadowParsedArg]) :: [] },
          gs') ∧
      Spec.argsEntered Symbols.Object [Examples.plainParsedArg, Examples.shadowParsedArg] 0
        NameInserter.init GlobalState.initial = .ok (nodes, [7], gs') ∧
      nodes.length = 2 ∧
      (gs'.data Symbols.Object).arguments = [7] ∧
      nodes = [Expression.Local ⟨⟨1, 4⟩, ⟨NameRef.utf8 3, 0⟩⟩,
               Expression.Local ⟨⟨1, 5⟩, ⟨NameRef.utf8 4, 0⟩⟩] :=
  match C22_fillInArgs_spec NameInserter.init ⟨GlobalState.initial, Symbols.Object⟩
      [Examples.plainParsedArg, Examples.shadowParsedArg] { scopeId := 0 } [] rfl (by decide)
      (by decide) with
  | ⟨nodes, syms, gs', h1, h2, h3, _, h5⟩ => by
    have e : (Spec.argsEntered Symbols.Object
        [Examples.plainParsedArg, Examples.shadowParsedArg] 0
        NameInserter.init GlobalState.initial).toOption.map (fun r => r.2.1) = some [7] := by
      decide!
    rw [h2] at e
    have hsyms : syms = [7] := Option.some.inj e
    subst hsyms
    obtain ⟨q1, q2⟩ := h5 (by decide)
    exact ⟨nodes, gs', h1, h2, h3, q1, q2.trans rfl⟩

/-- The calls of `arg2Symbol` evaluated on `def f(a, b = nil, k:, &blk); end`: the method is
entered as symbol 7, and the four calls return the symbols 8, 9, 10 and 11, which are the
arguments of the method after the run; they are named `(PositionalArg, arg, 1)`,
`(PositionalArg, arg, 2)`, `k` and `blkArg`. -/
theorem four_arguments_scenario :
    Examples.methodEntered.1 = 7 ∧
    (Spec.argsEntered 7 Examples.fourParsedArgs 0
        (NameInserter.pushBlockArg (NameInserter.enterScope Examples.atFileBody)
          Examples.fourParsedArgs)
        Examples.methodEntered.2).toOption.map (fun r => r.2.1) = some [8, 9, 10, 11] ∧
    (Examples.fourParamsTable.data 7).arguments = [8, 9, 10, 11] ∧
    [8, 9, 10, 11].map (fun s => (Examples.fourParamsTable.data s).name) =
      [NameRef.unique UniqueNameKind.PositionalArg NameRef.arg 1,
       NameRef.unique UniqueNameKind.PositionalArg NameRef.arg 2,
       NameRef.utf8 4, NameRef.blkArg] := by
  refine ⟨?_, ?_, ?_, ?_⟩ <;> decide!

end namer

/-! ### Command-line options (C36, C40) -/

namespace realmain.options

/-- C36: the values of `--typed`. The help text lists `ruby`, `true`, `strict`, `strong`
and `auto`. `text2StrictLevel` accepts exactly the keys `ignore`, `false`, `true`,
`strict`, `strong` and `autogenerated`, without logging, and for every other key it logs
the error and raises `EarlyReturnWithCode(1)`. So `auto` leaves the forced strictness
unset and `true`, `strict` and `strong` are mapped to a level, but the listed value `ruby`
is rejected: `--typed=ruby` logs "Unknown strictness level" and exits with code 1. -/
theorem C36_typed_values :
    Spec.listedValues typedHelp = ["ruby", "true", "strict", "strong", "auto"] ∧
    (∀ key, key ∈ Spec.strictKeys ↔ ∃ level, text2StrictLevel key = (.ok level, [])) ∧
    (∀ key, key ∉ Spec.strictKeys →
      text2StrictLevel key =
        (.error ⟨1⟩, [⟨true, "Unknown strictness level: `" ++ key ++ "`"⟩])) ∧
    (∀ opts, readTyped opts "auto" = (.ok opts, [])) ∧
    (∀ opts,
      readTyped opts "true" =
        (.ok { opts with forceMinStrict := .Typed, forceMaxStrict := .Typed }, []) ∧
      readTyped opts "strict" =
        (.ok { opts with forceMinStrict := .Strict, forceMaxStrict := .Strict }, []) ∧
      readTyped opts "strong" =
        (.ok { opts with forceMinStrict := .Strong, forceMaxStrict := .Strong }, [])) ∧
    (∀ opts,
      readTyped opts "ruby" =
        (.error ⟨1⟩, [⟨true, "Unknown strictness level: `ruby`"⟩])) := by
  refine ⟨by decide, ?_, ?_, ?_, ?_, ?_⟩
  · intro key
    constructor
    · intro h
      simp only [Spec.strictKeys, List.mem_cons, List.mem_singleton, List.not_mem_nil,
        or_false] at h
      rcases h with h | h | h | h | h | h <;> subst h <;> exact ⟨_, rfl⟩
    · rintro ⟨level, h⟩
      unfold text2StrictLevel at h
      simp only [Spec.strictKeys, List.mem_cons, List.mem_singleton, List.not_mem_nil,
        or_false]
      by_cases h1 : key = "ignore"
      · exact Or.inl h1
      by_cases h2 : key = "false"
      · exact Or.inr (Or.inl h2)
      by_cases h3 : key = "true"
      · exact Or.inr (Or.inr (Or.inl h3))
      by_cases h4 : key = "strict"
      · exact Or.inr (Or.inr (Or.inr (Or.inl h4)))
      by_cases h5 : key = "strong"
      · exact Or.inr (Or.inr (Or.inr (Or.inr (Or.inl h5))))
      by_cases h6 : key = "autogenerated"
      · exact Or.inr (Or.inr (Or.inr (Or.inr (Or.inr h6))))
      simp [h1, h2, h3, h4, h5, h6] at h
  · intro key h
    simp only [Spec.strictKeys, List.mem_cons, List.mem_singleton, List.not_mem_nil,
      or_false, not_or] at h
    obtain ⟨h1, h2, h3, h4, h5, h6⟩ := h
    simp [text2StrictLevel, h1, h2, h3, h4, h5, h6]
  · intro opts; rfl
  · intro opts; exact ⟨by rfl, by rfl, by rfl⟩
  · intro opts; rfl

theorem setTrue_get (p : Printers) (f g : PrinterFlag) :
    (p.setTrue f).get g = (decide (g = f) || p.get g) := by
  cases f <;> cases g <;> simp [Printers.setTrue, Printers.get]

theorem applyPrinter_spec (opt : String) (tbl : List PrintOptions) (opts : Options)
    (log : List LogLine) :
    (applyPrinter opt tbl opts log).1 = (tbl.find? (fun known => known.option == opt)).isSome ∧
    (applyPrinter opt tbl opts log).2.1 =
      (match tbl.find? (fun known => known.option == opt) with
        | some known => Spec.applyKnown known opts
        | none => opts) := by
  induction tbl with
  | nil => exact ⟨rfl, rfl⟩
  | cons k rest ih =>
    by_cases hk : (k.option == opt) = true
    · simp only [applyPrinter, hk, if_true, List.find?_cons_of_pos, Option.isSome_some,
        Spec.applyKnown]
      by_cases hc : k.supportsCaching = true
      · simp [hc]
      · by_cases he : opts.cacheDir = ""
        · simp [hc, he]
        · simp [hc, he]
    · have hk' : (k.option == opt) = false := by simpa using hk
      simp only [applyPrinter, hk', Bool.false_eq_true, if_false]
      rw [List.find?_cons_of_neg _ (by simp [hk'])]
      exact ih

theorem extractPrintersLoop_spec (printOpts : List String) :
    ∀ (opts : Options) (log : List LogLine),
      (extractPrintersLoop printOpts opts log).1 =
        printOpts.all (fun o => (Spec.lookup o).isSome) ∧
      (extractPrintersLoop printOpts opts log).2.1 =
        (Spec.processed printOpts).foldl Spec.applyRequested opts := by
  induction printOpts with
  | nil => intro opts log; exact ⟨rfl, rfl⟩
  | cons o rest ih =>
    intro opts log
    obtain ⟨h1, h2⟩ := applyPrinter_spec o print_options opts log
    have hl : print_options.find? (fun known => known.option == o) = Spec.lookup o := rfl
    rw [hl] at h1 h2
    cases hlook : Spec.lookup o with
    | none =>
      rw [hlook] at h1 h2
      simp only [extractPrintersLoop, h1, h2, Option.isSome_none, Bool.not_false, if_true,
        List.all_cons, Bool.false_and, Spec.processed, List.takeWhile, hlook, List.foldl_nil,
        and_self]
    | some k =>
      rw [hlook] at h1 h2
      simp only [extractPrintersLoop, h1, Option.isSome_some, Bool.not_true, Bool.false_eq_true,
        if_false, List.all_cons, Bool.true_and, Spec.processed, List.takeWhile, hlook,
        List.foldl_cons]
      obtain ⟨i1, i2⟩ := ih (applyPrinter o print_options opts log).2.1
        (applyPrinter o print_options opts log).2.2
      refine ⟨i1, ?_⟩
      rw [i2, h2]
      simp [Spec.processed, Spec.applyRequested, hlook]

theorem foldl_applyRequested (l : List String) :
    ∀ (opts : Options),
      (∀ f, ((l.foldl Spec.applyRequested opts).print.get f = true ↔
        opts.print.get f = true ∨
          ∃ o ∈ l, ∃ known, Spec.lookup o = some known ∧ known.flag = f)) ∧
      (l.foldl Spec.applyRequested opts).cacheDir =
        (if Spec.anyUncached l then "" else opts.cacheDir) ∧
      (l.foldl Spec.applyRequested opts).forceMinStrict = opts.forceMinStrict ∧
      (l.foldl Spec.applyRequested opts).forceMaxStrict = opts.forceMaxStrict := by
  induction l with
  | nil => intro opts; simp [Spec.anyUncached]
  | cons o rest ih =>
    intro opts
    obtain ⟨i1, i2, i3, i4⟩ := ih (Spec.applyRequested opts o)
    simp only [List.foldl_cons]
    cases hlook : Spec.lookup o with
    | none =>
      have ha : Spec.applyRequested opts o = opts := by simp [Spec.applyRequested, hlook]
      rw [ha] at i1 i2 i3 i4 ⊢
      refine ⟨?_, ?_, i3, i4⟩
      · intro f
        rw [i1 f]
        constructor
        · rintro (h | ⟨o', ho', k, hk⟩)
          · exact Or.inl h
          · exact Or.inr ⟨o', List.mem_cons_of_mem _ ho', k, hk⟩
        · rintro (h | ⟨o', ho', k, hk⟩)
          · exact Or.inl h
          · rcases List.mem_cons.mp ho' with e | e
            · subst e; rw [hlook] at hk; cases hk.1
            · exact Or.inr ⟨o', e, k, hk⟩
      · rw [i2]; simp [Spec.anyUncached, hlook]
    | some known =>
      have ha : Spec.applyRequested opts o = Spec.applyKnown known opts := by
        simp [Spec.applyRequested, hlook]
      rw [ha] at i1 i2 i3 i4 ⊢
      refine ⟨?_, ?_, i3, i4⟩
      · intro f
        rw [i1 f]
        simp only [Spec.applyKnown, setTrue_get, Bool.or_eq_true, decide_eq_true_eq]
        constructor
        · rintro ((h | h) | ⟨o', ho', k, hk⟩)
          · exact Or.inr ⟨o, List.mem_cons_self _ _, known, hlook, h.symm⟩
          · exact Or.inl h
          · exact Or.inr ⟨o', List.mem_cons_of_mem _ ho', k, hk⟩
        · rintro (h | ⟨o', ho', k, hk⟩)
          · exact Or.inl (Or.inr h)
          · rcases List.mem_cons.mp ho' with e | e
            · subst e
              rw [hlook] at hk
              obtain ⟨hk1, hk2⟩ := hk
              cases hk1
              exact Or.inl (Or.inl hk2.symm)
            · exact Or.inr ⟨o', e, k, hk⟩
      · rw [i2]
        by_cases hc : known.supportsCaching = true
        · simp [Spec.anyUncached, Spec.applyKnown, hlook, hc]
        · simp [Spec.anyUncached, Spec.applyKnown, hlook, hc]

/-- C40: the `--print` options. (1) `extractPrinters` processes the requested options in
order up to the first one that is not in the table (`Spec.processed`): it returns `false`
iff some requested option is not in the table, in which case the later options are not
looked at; the flags set afterwards are those set before and those of the processed
options, and `cacheDir` is cleared exactly when a processed option does not support
caching (an empty `cacheDir` stays empty). (2) The options `X` for which `X-raw` is an
option too are `ast`, `dsl-tree`, `symbol-table`, `symbol-table-full`, `name-tree` and
`resolve-tree`; for all but one of them `X-raw` sets the `Raw` variant of the flag of `X`,
but `symbol-table-full` sets `SymbolTableFullRaw` and `symbol-table-full-raw` sets
`SymbolTableFull`: the two entries of the table are swapped. -/
theorem C40_print_options :
    (∀ (printOpts : List String) (opts : Options),
      ((extractPrinters printOpts opts).1 = false ↔
        ∃ o ∈ printOpts, Spec.lookup o = none) ∧
      ((extractPrinters printOpts opts).1 = true → Spec.processed printOpts = printOpts) ∧
      (∀ f, (extractPrinters printOpts opts).2.1.print.get f = true ↔
        opts.print.get f = true ∨
          ∃ o ∈ Spec.processed printOpts, ∃ known, Spec.lookup o = some known ∧
            known.flag = f) ∧
      (extractPrinters printOpts opts).2.1.cacheDir =
        (if Spec.anyUncached (Spec.processed printOpts) then "" else opts.cacheDir)) ∧
    Spec.rawPairs =
      [("ast", .Desugared, .DesugaredRaw), ("dsl-tree", .DSLTree, .DSLTreeRaw),
       ("symbol-table", .SymbolTable, .SymbolTableRaw),
       ("symbol-table-full", .SymbolTableFullRaw, .SymbolTableFull),
       ("name-tree", .NameTree, .NameTreeRaw),
       ("resolve-tree", .ResolveTree, .ResolveTreeRaw)] ∧
    Spec.rawPairs.filter (fun p => !Spec.isRawVariant p.2.1 p.2.2) =
      [("symbol-table-full", .SymbolTableFullRaw, .SymbolTableFull)] := by
  refine ⟨?_, by decide, by decide⟩
  intro printOpts opts
  have hE : extractPrinters printOpts opts =
      extractPrintersLoop printOpts opts [] := by
    unfold extractPrinters
    cases printOpts with
    | nil => rfl
    | cons a t => simp
  obtain ⟨h1, h2⟩ := extractPrintersLoop_spec printOpts opts []
  obtain ⟨f1, f2, _, _⟩ := foldl_applyRequested (Spec.processed printOpts) opts
  rw [hE, h1, h2]
  refine ⟨?_, ?_, f1, f2⟩
  · constructor
    · intro h
      have : ¬ (printOpts.all (fun o => (Spec.lookup o).isSome) = true) := by simp [h]
      simp only [List.all_eq_true, not_forall] at this
      obtain ⟨o, ho, hn⟩ := this
      refine ⟨o, ho, ?_⟩
      cases hl : Spec.lookup o with
      | none => rfl
      | some k => rw [hl] at hn; simp at hn
    · rintro ⟨o, ho, hn⟩
      cases hall : printOpts.all (fun o => (Spec.lookup o).isSome) with
      | false => rfl
      | true =>
        have := List.all_eq_true.mp hall o ho
        rw [hn] at this
        simp at this
  · intro hall
    unfold Spec.processed
    rw [List.takeWhile_eq_self_iff]
    intro o ho
    exact List.all_eq_true.mp hall o ho

/-- The option `--print symbol-table-full` on default options: the flag that is set is
`SymbolTableFullRaw`, and `--print symbol-table-full-raw` sets `SymbolTableFull`. -/
theorem print_symbol_table_full_scenario :
    extractPrinters ["symbol-table-full"] {} =
      (true, { print := { SymbolTableFullRaw := true } }, []) ∧
    extractPrinters ["symbol-table-full-raw"] {} =
      (true, { print := { SymbolTableFull := true } }, []) ∧
    extractPrinters ["ast", "nope", "cfg"] { cacheDir := "dir" } =
      (false, { print := { Desugared := true }, cacheDir := "" },
        [⟨true, "--print=ast is incompatible with --cacheDir. Ignoring cache"⟩,
         ⟨true, "Unknown --print option: nope\nValid values: " ++
           ", ".intercalate (print_options.map (fun known => known.option))⟩]) := by
  decide!

end realmain.options

end sorbet
